import Mathlib

/-!
# kubewire: control-plane verification

A shallow embedding of the parts of `steved/kubewire` that decide how the
overlay network is configured (`pkg/proxy/config.go`, `pkg/config/config.go`),
how the tunnel listen port is chosen (`pkg/wg`), and how the target workload is
patched (`pkg/agent/kubernetes.go`), followed by theorems about them.

The Go standard library package `net/netip` is embedded first, since the
overlay configuration is computed with its values: an address is a 128-bit
number with a family tag, text is a list of characters.
-/

set_option linter.dupNamespace false

namespace Kubewire

/-! ## `net/netip` -/

namespace netip

/-- The family tag of an address (`Addr.z`): `z0` for the zero `Addr`, `z4` for
IPv4, `z6 zone` for IPv6 (`z6 ""` is Go's `z6noz`). -/
inductive Zone where
  | z0 : Zone
  | z4 : Zone
  | z6 (zone : String) : Zone
deriving DecidableEq, Repr

/-- An IP address (`netip.Addr`): `addr` is the 128-bit value `hi * 2^64 + lo`;
an IPv4 address `a.b.c.d` is stored as `0xffff_0000_0000 + a.b.c.d`. -/
structure Addr where
  addr : Nat
  z : Zone
deriving DecidableEq, Repr

/-- The zero value `Addr{}`. -/
def Addr.zero : Addr := ⟨0, Zone.z0⟩

instance : Inhabited Addr := ⟨Addr.zero⟩

def Addr.isZero (ip : Addr) : Bool := ip.z == Zone.z0

def Addr.IsValid (ip : Addr) : Bool := ip.z != Zone.z0

def Addr.Is4 (ip : Addr) : Bool := ip.z == Zone.z4

def Addr.Is6 (ip : Addr) : Bool := ip.z != Zone.z0 && ip.z != Zone.z4

/-- `Addr.Is4In6`: an IPv6 address whose top 96 bits are `::ffff:0:0/96`. -/
def Addr.Is4In6 (ip : Addr) : Bool := ip.Is6 && ip.addr / 2 ^ 32 == 0xffff

def Addr.BitLen (ip : Addr) : Nat :=
  match ip.z with
  | Zone.z0 => 0
  | Zone.z4 => 32
  | Zone.z6 _ => 128

def Addr.hasZone (ip : Addr) : Bool :=
  match ip.z with
  | Zone.z6 zone => zone != ""
  | _ => false

def Addr.withoutZone (ip : Addr) : Addr :=
  match ip.z with
  | Zone.z6 _ => { ip with z := Zone.z6 "" }
  | _ => ip

/-- `Addr.WithZone`: only an IPv6 address takes a zone. -/
def Addr.WithZone (ip : Addr) (zone : String) : Addr :=
  if ip.Is6 then { ip with z := Zone.z6 zone } else ip

/-- `AddrFrom4`: the four bytes of an IPv4 address, most significant first. -/
def AddrFrom4 (a b c d : Nat) : Addr :=
  ⟨0xffff00000000 + (a * 2 ^ 24 + b * 2 ^ 16 + c * 2 ^ 8 + d), Zone.z4⟩

/-- Big-endian value of a list of bytes. -/
def beValue (bytes : List Nat) : Nat := bytes.foldl (fun acc b => acc * 256 + b) 0

/-- `AddrFrom16`: the sixteen bytes of an IPv6 address. -/
def AddrFrom16 (bytes : List Nat) : Addr := ⟨beValue bytes, Zone.z6 ""⟩

/-- `IPv6Unspecified`: the address `::`. -/
def IPv6Unspecified : Addr := ⟨0, Zone.z6 ""⟩

/-- `Addr.v4 i`: the `i`th byte of an IPv4 address. -/
def Addr.v4 (ip : Addr) (i : Nat) : Nat := (ip.addr / 2 ^ ((3 - i) * 8)) % 256

/-- `Addr.v6u16 i`: the `i`th 16-bit group of an IPv6 address. -/
def Addr.v6u16 (ip : Addr) (i : Nat) : Nat := (ip.addr / 2 ^ ((7 - i) * 16)) % 65536

/-- `Addr.Next`: the address after `ip`, or the zero `Addr` when `ip` is the
last address of its family. -/
def Addr.Next (ip : Addr) : Addr :=
  let ip1 : Addr := { ip with addr := (ip.addr + 1) % 2 ^ 128 }
  if ip1.Is4 then
    if ip1.addr % 2 ^ 32 = 0 then Addr.zero else ip1
  else
    if ip1.addr = 0 then Addr.zero else ip1

/-- `mask6 n`: the 128-bit mask whose top `n` bits are set. -/
def mask6 (n : Nat) : Nat := 2 ^ 128 - 2 ^ (128 - n)

/-- A network prefix (`netip.Prefix`): an address and `bits + 1`, with
`bitsPlusOne = 0` for an invalid prefix. -/
structure Prefix where
  ip : Addr
  bitsPlusOne : Nat
deriving DecidableEq, Repr

/-- The zero value `Prefix{}`. -/
def Prefix.zero : Prefix := ⟨Addr.zero, 0⟩

instance : Inhabited Prefix := ⟨Prefix.zero⟩

def Prefix.IsValid (p : Prefix) : Bool := decide (p.bitsPlusOne > 0)

def Prefix.Addr (p : Prefix) : netip.Addr := p.ip

def Prefix.Bits (p : Prefix) : Int := (p.bitsPlusOne : Int) - 1

/-- `PrefixFrom`: the prefix is invalid when the address is the zero `Addr` or
`bits` is out of range; the zone is dropped. -/
def PrefixFrom (ip : Addr) (bits : Int) : Prefix :=
  { ip := ip.withoutZone
    bitsPlusOne :=
      if !ip.isZero && decide (0 ≤ bits) && decide (bits ≤ (ip.BitLen : Int)) then bits.toNat + 1
      else 0 }

/-- `Addr.Prefix b`: the prefix of length `b` that contains `ip`, its host bits
cleared; an error when `b` does not fit the family. -/
def Addr.Prefix (ip : Addr) (b : Int) : Option Prefix :=
  if b < 0 then none
  else
    match ip.z with
    | Zone.z0 => some Prefix.zero
    | Zone.z4 =>
      if b > 32 then none
      else some (PrefixFrom { ip with addr := ip.addr &&& mask6 (b.toNat + 96) } b)
    | Zone.z6 _ =>
      if b > 128 then none
      else some (PrefixFrom { ip with addr := ip.addr &&& mask6 b.toNat } b)

/-- `Prefix.Masked`: the prefix in network form, the host bits of its address
cleared; the zero prefix when `p` is invalid. -/
def Prefix.Masked (p : Prefix) : Prefix := (p.ip.Prefix p.Bits).getD Prefix.zero

/-- `Prefix.Contains`: an address of the other family, or with a zone, is never
contained. -/
def Prefix.Contains (p : Prefix) (ip : netip.Addr) : Bool :=
  if !p.IsValid || ip.hasZone then false
  else if p.ip.BitLen = 0 || ip.BitLen = 0 || p.ip.BitLen != ip.BitLen then false
  else if ip.Is4 then
    ((ip.addr % 2 ^ 64 ^^^ p.ip.addr % 2 ^ 64) >>> ((32 - p.Bits).toNat % 64)) % 2 ^ 32 == 0
  else
    (ip.addr ^^^ p.ip.addr) &&& mask6 p.Bits.toNat == 0

/-- `Prefix.Overlaps`: whether two prefixes share an address; neither needs to
be in masked form. -/
def Prefix.Overlaps (p o : Prefix) : Bool :=
  if !p.IsValid || !o.IsValid then false
  else if p = o then true
  else if p.ip.Is4 != o.ip.Is4 then false
  else
    let minBits : Int := if p.Bits < o.Bits then p.Bits else o.Bits
    if minBits = 0 then true
    else
      match p.ip.Prefix minBits, o.ip.Prefix minBits with
      | some p1, some o1 => p1.ip == o1.ip
      | _, _ => false

/-- The addresses `net/netip` produces: the value fits 128 bits, and an IPv4
address lies in `::ffff:0:0/96`. -/
def Addr.WF (ip : Addr) : Bool :=
  match ip.z with
  | Zone.z4 => decide (0xffff00000000 ≤ ip.addr) && decide (ip.addr < 0xffff00000000 + 2 ^ 32)
  | _ => decide (ip.addr < 2 ^ 128)

/-- The prefixes `net/netip` produces: the address has no zone, and a valid
prefix has a valid address and at most as many bits as its family has. -/
def Prefix.WF (p : Prefix) : Bool :=
  p.ip.WF && !p.ip.hasZone &&
    (p.bitsPlusOne == 0 || (p.ip.IsValid && decide (p.bitsPlusOne ≤ p.ip.BitLen + 1)))

/-! ### Text form of addresses and prefixes -/

/-- The table `digits = "0123456789abcdef"` of `net/netip`, indexed. -/
def digit (d : Nat) : Char :=
  if d < 10 then Char.ofNat ('0'.toNat + d) else Char.ofNat ('a'.toNat + (d - 10))

/-- `appendDecimal`: a byte in decimal, without leading zeros. -/
def appendDecimal (b : List Char) (x : Nat) : List Char :=
  let b1 := if x ≥ 100 then b ++ [digit (x / 100)] else b
  let b2 := if x ≥ 10 then b1 ++ [digit (x / 10 % 10)] else b1
  b2 ++ [digit (x % 10)]

/-- `appendHex`: a 16-bit group in hexadecimal, without leading zeros. -/
def appendHex (b : List Char) (x : Nat) : List Char :=
  let b1 := if x ≥ 0x1000 then b ++ [digit (x / 2 ^ 12)] else b
  let b2 := if x ≥ 0x100 then b1 ++ [digit (x / 2 ^ 8 % 16)] else b1
  let b3 := if x ≥ 0x10 then b2 ++ [digit (x / 2 ^ 4 % 16)] else b2
  b3 ++ [digit (x % 16)]

/-- `Addr.appendTo4`: dotted decimal. -/
def Addr.appendTo4 (ip : Addr) (ret : List Char) : List Char :=
  let r0 := appendDecimal ret (ip.v4 0)
  let r1 := appendDecimal (r0 ++ ['.']) (ip.v4 1)
  let r2 := appendDecimal (r1 ++ ['.']) (ip.v4 2)
  appendDecimal (r2 ++ ['.']) (ip.v4 3)

/-- The first loop of `Addr.appendTo6`: the first longest run of at least two
zero groups, as `(zeroStart, zeroEnd)`; `(255, 255)` when there is none. -/
def zeroRun (ip : Addr) : Nat × Nat :=
  (List.range 8).foldl
    (fun (se : Nat × Nat) i =>
      let j := i + ((List.range' i (8 - i)).takeWhile (fun k => ip.v6u16 k == 0)).length
      let l := j - i
      if l ≥ 2 ∧ l > se.2 - se.1 then (i, j) else se)
    (255, 255)

/-- The second loop of `Addr.appendTo6`, from group `i` on; `n` bounds the
number of iterations left (each one advances `i`). -/
def appendTo6Loop (ip : Addr) (zeroStart zeroEnd : Nat) : Nat → Nat → List Char → List Char
  | 0, _, ret => ret
  | n + 1, i, ret =>
    if i < 8 then
      if i = zeroStart then
        let ret1 := ret ++ [':', ':']
        if zeroEnd ≥ 8 then ret1
        else appendTo6Loop ip zeroStart zeroEnd n (zeroEnd + 1) (appendHex ret1 (ip.v6u16 zeroEnd))
      else
        let ret1 := if i > 0 then ret ++ [':'] else ret
        appendTo6Loop ip zeroStart zeroEnd n (i + 1) (appendHex ret1 (ip.v6u16 i))
    else ret

/-- `Addr.appendTo6`: colon-separated hexadecimal groups, the longest run of
zero groups written `::`, then `%zone` when there is a zone. -/
def Addr.appendTo6 (ip : Addr) (ret : List Char) : List Char :=
  let se := zeroRun ip
  let r := appendTo6Loop ip se.1 se.2 8 0 ret
  match ip.z with
  | Zone.z6 zone => if zone != "" then r ++ ['%'] ++ zone.toList else r
  | _ => r

/-- `Addr.Unmap`: an IPv4-mapped IPv6 address as the IPv4 address. -/
def Addr.Unmap (ip : Addr) : Addr := if ip.Is4In6 then { ip with z := Zone.z4 } else ip

/-- `Addr.appendTo4In6`: `::ffff:a.b.c.d`, then `%zone` when there is a zone. -/
def Addr.appendTo4In6 (ip : Addr) (ret : List Char) : List Char :=
  let r := ip.Unmap.appendTo4 (ret ++ "::ffff:".toList)
  match ip.z with
  | Zone.z6 zone => if zone != "" then r ++ ['%'] ++ zone.toList else r
  | _ => r

/-- `Addr.String`. -/
def Addr.String (ip : Addr) : String :=
  match ip.z with
  | Zone.z0 => "invalid IP"
  | Zone.z4 => String.mk (ip.appendTo4 [])
  | Zone.z6 _ => if ip.Is4In6 then String.mk (ip.appendTo4In6 []) else String.mk (ip.appendTo6 [])

/-- `itoa.Itoa` on a non-negative number: decimal digits. -/
def itoa (n : Nat) : List Char := Nat.toDigits 10 n

/-- `Prefix.String`: `address/bits`. -/
def Prefix.String (p : Prefix) : String :=
  if !p.IsValid then "invalid Prefix"
  else String.mk (p.ip.String.toList ++ ['/'] ++ itoa p.Bits.toNat)

/-- The loop of `parseIPv4Fields` over the text that is left: `prev` is the
character before the current one (`none` at index 0), `fields` the bytes
stored so far (`pos` is their number). -/
def parseIPv4FieldsLoop :
    List Char → Option Char → (val pos digLen : Nat) → List Nat → Option (List Nat)
  | [], _, val, pos, _, fields => if pos < 3 then none else some (fields ++ [val])
  | c :: rest, prev, val, pos, digLen, fields =>
    if '0'.toNat ≤ c.toNat ∧ c.toNat ≤ '9'.toNat then
      if digLen = 1 ∧ val = 0 then none
      else
        let val1 := val * 10 + (c.toNat - '0'.toNat)
        if val1 > 255 then none
        else parseIPv4FieldsLoop rest (some c) val1 pos (digLen + 1) fields
    else if c = '.' then
      if prev = none ∨ rest = [] ∨ prev = some '.' then none
      else if pos = 3 then none
      else parseIPv4FieldsLoop rest (some c) 0 (pos + 1) 0 (fields ++ [val])
    else none

/-- `parseIPv4Fields`: four decimal bytes separated by dots, none with a
leading zero. -/
def parseIPv4Fields (s : List Char) : Option (List Nat) :=
  parseIPv4FieldsLoop s none 0 0 0 []

/-- `parseIPv4`. -/
def parseIPv4 (s : List Char) : Option Addr :=
  match parseIPv4Fields s with
  | some [a, b, c, d] => some (AddrFrom4 a b c d)
  | _ => none

/-- The value of a hexadecimal digit, if `c` is one. -/
def hexVal (c : Char) : Option Nat :=
  if '0'.toNat ≤ c.toNat ∧ c.toNat ≤ '9'.toNat then some (c.toNat - '0'.toNat)
  else if 'a'.toNat ≤ c.toNat ∧ c.toNat ≤ 'f'.toNat then some (c.toNat - 'a'.toNat + 10)
  else if 'A'.toNat ≤ c.toNat ∧ c.toNat ≤ 'F'.toNat then some (c.toNat - 'A'.toNat + 10)
  else none

/-- The inner loop of `parseIPv6`: reads hexadecimal digits; returns the number
of digits read, their value and the text left, or fails at a fifth digit. -/
def hexGroup : List Char → (off acc : Nat) → Option (Nat × Nat × List Char)
  | [], off, acc => some (off, acc, [])
  | c :: rest, off, acc =>
    match hexVal c with
    | none => some (off, acc, c :: rest)
    | some v =>
      let acc1 := (acc * 16 + v) % 2 ^ 32
      if off > 3 then none
      else if acc1 > 0xffff then none
      else hexGroup rest (off + 1) acc1

/-- The state of the main loop of `parseIPv6` when it ends. -/
structure V6State where
  s : List Char
  i : Nat
  ellipsis : Option Nat
  ip : List Nat
deriving DecidableEq, Repr

/-- The main loop of `parseIPv6` (`for i < 16`): `ip` holds the `i` bytes written
so far; `n` bounds the iterations left (each one adds to `i`). -/
def parseIPv6Loop : Nat → List Char → Nat → Option Nat → List Nat → Option V6State
  | 0, s, i, ellipsis, ip => if i < 16 then none else some ⟨s, i, ellipsis, ip⟩
  | n + 1, s, i, ellipsis, ip =>
    if i < 16 then
      match hexGroup s 0 0 with
      | none => none
      | some (off, acc, s1) =>
        if off = 0 then none
        else
          match s1 with
          | [] => some ⟨[], i + 2, ellipsis, ip ++ [acc / 256, acc % 256]⟩
          | c :: s2 =>
            if c = '.' then
              if ellipsis = none ∧ i ≠ 12 then none
              else if i + 4 > 16 then none
              else
                match parseIPv4Fields s with
                | none => none
                | some fields => some ⟨[], i + 4, ellipsis, ip ++ fields⟩
            else if c ≠ ':' then none
            else
              match s2 with
              | [] => none
              | c2 :: s3 =>
                if c2 = ':' then
                  if ellipsis ≠ none then none
                  else if s3 = [] then
                    some ⟨[], i + 2, some (i + 2), ip ++ [acc / 256, acc % 256]⟩
                  else parseIPv6Loop n s3 (i + 2) (some (i + 2)) (ip ++ [acc / 256, acc % 256])
                else parseIPv6Loop n s2 (i + 2) ellipsis (ip ++ [acc / 256, acc % 256])
    else some ⟨s, i, ellipsis, ip⟩

/-- The end of `parseIPv6`, after the main loop: the text must be used up, and
an ellipsis is expanded to the missing zero bytes (at least two). -/
def finishIPv6 (st : V6State) (zone : String) : Option Addr :=
  if st.s ≠ [] then none
  else if st.i < 16 then
    match st.ellipsis with
    | none => none
    | some e =>
      some ((AddrFrom16 (st.ip.take e ++ List.replicate (16 - st.i) 0 ++ st.ip.drop e)).WithZone zone)
  else if st.ellipsis ≠ none then none
  else some ((AddrFrom16 st.ip).WithZone zone)

/-- `parseIPv6`: splits off the zone, takes a leading `::`, reads the groups,
and expands the ellipsis. -/
def parseIPv6 (input : List Char) : Option Addr :=
  let s := input.takeWhile (fun c => c ≠ '%')
  let hasZone := decide (s.length < input.length)
  let zone := String.mk (input.drop (s.length + 1))
  if hasZone ∧ zone = "" then none
  else
    let lead := decide (s.take 2 = [':', ':'])
    let s0 := if lead then s.drop 2 else s
    if lead ∧ s0 = [] then some (IPv6Unspecified.WithZone zone)
    else
      match parseIPv6Loop 8 s0 0 (if lead then some 0 else none) [] with
      | none => none
      | some st => finishIPv6 st zone

/-- The scan of `ParseAddr` for the first `.`, `:` or `%`. -/
def parseAddrScan (s : List Char) : List Char → Option Addr
  | [] => none
  | c :: rest =>
    if c = '.' then parseIPv4 s
    else if c = ':' then parseIPv6 s
    else if c = '%' then none
    else parseAddrScan s rest

/-- `ParseAddr`: `none` stands for an error. -/
def ParseAddr (s : String) : Option Addr := parseAddrScan s.toList s.toList

/-- `strconv.Atoi`: an optional sign and decimal digits; an error when there is
no digit, another character, or the value leaves the 64-bit range. -/
def Atoi (s : List Char) : Option Int :=
  let neg := decide (s.head? = some '-')
  let body := if s.head? = some '-' ∨ s.head? = some '+' then s.drop 1 else s
  if body = [] then none
  else if body.all (fun c => decide ('0'.toNat ≤ c.toNat ∧ c.toNat ≤ '9'.toNat)) then
    let n : Nat := body.foldl (fun acc c => acc * 10 + (c.toNat - '0'.toNat)) 0
    let v : Int := if neg then -(n : Int) else (n : Int)
    if v < -(2 ^ 63 : Int) ∨ v > (2 ^ 63 : Int) - 1 then none else some v
  else none

/-- Index of the last `/` of `s` (`LastIndexByteString`). -/
def lastSlash (s : List Char) : Option Nat :=
  match s.reverse.indexOf? '/' with
  | none => none
  | some k => some (s.length - 1 - k)

/-- `ParsePrefix`: `address/bits`; the bits have no sign and no leading zero
and fit the family; an IPv6 zone is refused. `none` stands for an error. -/
def ParsePrefix (s : String) : Option Prefix :=
  match lastSlash s.toList with
  | none => none
  | some i =>
    match ParseAddr (String.mk (s.toList.take i)) with
    | none => none
    | some ip =>
      if ip.Is6 ∧ ip.z ≠ Zone.z6 "" then none
      else
        let bitsStr := s.toList.drop (i + 1)
        if bitsStr.length > 1 ∧
            (bitsStr.head!.toNat < '1'.toNat ∨ bitsStr.head!.toNat > '9'.toNat) then none
        else
          match Atoi bitsStr with
          | none => none
          | some bits =>
            let maxBits : Int := if ip.Is6 then 128 else 32
            if bits < 0 ∨ bits > maxBits then none
            else some (PrefixFrom ip bits)

/-- `MustParsePrefix`, for prefixes written in the source; the zero prefix
stands for the run-time failure. -/
def MustParsePrefix (s : String) : Prefix := (ParsePrefix s).getD Prefix.zero

/-- `MustParseAddr`, likewise. -/
def MustParseAddr (s : String) : Addr := (ParseAddr s).getD Addr.zero

/-- An address and a port (`netip.AddrPort`). -/
structure AddrPort where
  ip : Addr
  port : Nat
deriving DecidableEq, Repr

/-- The zero value `AddrPort{}`. -/
def AddrPort.zero : AddrPort := ⟨Addr.zero, 0⟩

instance : Inhabited AddrPort := ⟨AddrPort.zero⟩

def AddrPort.IsValid (p : AddrPort) : Bool := p.ip.IsValid

/-- `AddrPortFrom`: the port is a `uint16`. -/
def AddrPortFrom (ip : Addr) (port : Nat) : AddrPort := ⟨ip, port % 2 ^ 16⟩

/-- `AddrPort.AppendTo`: nothing for the zero `Addr`, else `ip:port` with an
IPv6 address in square brackets. -/
def AddrPort.AppendTo (p : AddrPort) (b : List Char) : List Char :=
  match p.ip.z with
  | Zone.z0 => b
  | Zone.z4 => p.ip.appendTo4 b ++ [':'] ++ itoa p.port
  | Zone.z6 _ =>
    (if p.ip.Is4In6 then p.ip.appendTo4In6 (b ++ ['[']) else p.ip.appendTo6 (b ++ ['['])) ++ [']']
      ++ [':'] ++ itoa p.port

/-- `AddrPort.String`. -/
def AddrPort.String (p : AddrPort) : String :=
  match p.ip.z with
  | Zone.z0 => "invalid AddrPort"
  | _ => String.mk (p.AppendTo [])

/-- `strconv.ParseUint(s, 10, bitSize)`: decimal digits without a sign, the
value below `2 ^ bitSize`. -/
def ParseUint (s : List Char) (bitSize : Nat) : Option Nat :=
  if s = [] then none
  else if s.all (fun c => decide ('0'.toNat ≤ c.toNat ∧ c.toNat ≤ '9'.toNat)) then
    let n : Nat := s.foldl (fun acc c => acc * 10 + (c.toNat - '0'.toNat)) 0
    if n ≥ 2 ^ bitSize then none else some n
  else none

/-- Index of the last `:` of `s` (`LastIndexByteString`). -/
def lastColon (s : List Char) : Option Nat :=
  match s.reverse.indexOf? ':' with
  | none => none
  | some k => some (s.length - 1 - k)

/-- `splitAddrPort`: the text before and after the last `:`, and whether the
first was in square brackets. -/
def splitAddrPort (s : List Char) : Option (List Char × List Char × Bool) :=
  match lastColon s with
  | none => none
  | some i =>
    let ip := s.take i
    let port := s.drop (i + 1)
    if ip.length = 0 then none
    else if port.length = 0 then none
    else if ip.head? = some '[' then
      if ip.length < 2 ∨ ip.getLast? ≠ some ']' then none
      else some ((ip.drop 1).dropLast, port, true)
    else some (ip, port, false)

/-- `ParseAddrPort`: `none` stands for an error. -/
def ParseAddrPort (s : String) : Option AddrPort :=
  match splitAddrPort s.toList with
  | none => none
  | some (ip, port, v6) =>
    match ParseUint port 16 with
    | none => none
    | some port16 =>
      match ParseAddr (String.mk ip) with
      | none => none
      | some a =>
        if v6 ∧ a.Is4 then none
        else if ¬ v6 ∧ a.Is6 then none
        else some ⟨a, port16⟩

/-- The type `string` of Go, for the declarations in whose namespace `String`
is the method. -/
abbrev GoString : Type := String

/-- `Addr.MarshalText`: the empty text for the zero `Addr`, else the text of
`String`. -/
def Addr.MarshalText (ip : Addr) : GoString :=
  match ip.z with
  | Zone.z0 => ""
  | Zone.z4 => String.mk (ip.appendTo4 [])
  | Zone.z6 _ => if ip.Is4In6 then String.mk (ip.appendTo4In6 []) else String.mk (ip.appendTo6 [])

/-- `Addr.UnmarshalText`: the zero `Addr` for the empty text, else the result of
`ParseAddr`. -/
def Addr.UnmarshalText (text : GoString) : Option Addr :=
  if text.length = 0 then some Addr.zero else ParseAddr text

/-- `AddrPort.MarshalText`. -/
def AddrPort.MarshalText (p : AddrPort) : GoString := String.mk (p.AppendTo [])

/-- `AddrPort.UnmarshalText`. -/
def AddrPort.UnmarshalText (text : GoString) : Option AddrPort :=
  if text.length = 0 then some AddrPort.zero else ParseAddrPort text

/-- `Prefix.MarshalText` (through `Prefix.AppendTo`): the empty text for the
zero `Prefix`, `invalid Prefix` for another invalid one, else `address/bits`. -/
def Prefix.MarshalText (p : Prefix) : GoString :=
  if p = Prefix.zero then ""
  else if !p.IsValid then "invalid Prefix"
  else
    String.mk
      ((match p.ip.z with
        | Zone.z4 => p.ip.appendTo4 []
        | _ => if p.ip.Is4In6 then p.ip.appendTo4In6 [] else p.ip.appendTo6 [])
        ++ ['/'] ++ appendDecimal [] p.Bits.toNat)

/-- `Prefix.UnmarshalText`. -/
def Prefix.UnmarshalText (text : GoString) : Option Prefix :=
  if text.length = 0 then some Prefix.zero else ParsePrefix text

/-! ### Auxiliary definitions for the lemmas about text -/

/-- The dotted text of four bytes. -/
def dotted (a b c d : Nat) : List Char :=
  appendDecimal [] a ++ '.' :: (appendDecimal [] b ++ '.' :: (appendDecimal [] c ++ '.' ::
    appendDecimal [] d))

/-- The search for the run of zero groups, on the list of which groups are
zero. -/
def zeroRunB (b : List Bool) : Nat × Nat :=
  (List.range 8).foldl
    (fun (se : Nat × Nat) i =>
      let j := i + ((b.drop i).takeWhile id).length
      let l := j - i
      if l ≥ 2 ∧ l > se.2 - se.1 then (i, j) else se)
    (255, 255)

/-- The hexadecimal text of a group. -/
def hexText (x : Nat) : List Char := appendHex [] x

/-- Text on which the digit loop of `parseIPv6` stops at once: nothing, or a
character that is no hexadecimal digit. -/
def stopsHex (rest : List Char) : Prop := ∀ c r, rest = c :: r → hexVal c = none

/-- The text of a list of groups, separated by colons. -/
def groupsText : List Nat → List Char
  | [] => []
  | [g] => hexText g
  | g :: g1 :: gs => hexText g ++ ':' :: groupsText (g1 :: gs)

/-- The bytes of a list of groups. -/
def groupBytes : List Nat → List Nat
  | [] => []
  | g :: gs => g / 256 :: g % 256 :: groupBytes gs

/-- The eight groups of an address. -/
def Addr.groups (ip : Addr) : List Nat :=
  [ip.v6u16 0, ip.v6u16 1, ip.v6u16 2, ip.v6u16 3, ip.v6u16 4, ip.v6u16 5, ip.v6u16 6, ip.v6u16 7]

/-- What the main loop of `parseIPv6` keeps: `i` bytes are written, `i` is even
and at most 16, and the ellipsis lies within them. -/
def V6Inv (i : Nat) (ellipsis : Option Nat) (ip : List Nat) : Prop :=
  ip.length = i ∧ i ≤ 16 ∧ i % 2 = 0 ∧ (∀ b ∈ ip, b ≤ 255) ∧ (∀ e, ellipsis = some e → e ≤ i)

/-- What `ParsePrefix` asks of the text of the bits, checked on the text of a
number. -/
def bitsTextOk (b : Nat) : Bool :=
  !(itoa b).contains '/' &&
  !(decide ((itoa b).length > 1) &&
    (decide ((itoa b).head!.toNat < '1'.toNat) || decide ((itoa b).head!.toNat > '9'.toNat))) &&
  (Atoi (itoa b) == some (b : Int))

end netip

/-! ## Kubernetes API types

The fields of the `k8s.io/api` types that kubewire reads or writes. -/

/-- A Go `map[string]string` as an association list with distinct keys; the
`nil` map and the empty map are both `[]`. -/
abbrev GoMap := List (String × String)

/-- `m[k]`: the value stored under `k`, or `""` when there is none. -/
def GoMap.get (m : GoMap) (k : String) : String := (m.lookup k).getD ""

/-- `m[k] = v`. -/
def GoMap.set (m : GoMap) (k v : String) : GoMap :=
  if m.any (fun kv => kv.1 == k) then m.map (fun kv => if kv.1 == k then (k, v) else kv)
  else m ++ [(k, v)]

/-- `slices.IndexFunc` from index `i` on: the first index whose element
satisfies `f`, or `-1`. -/
def IndexFuncFrom {α : Type} (f : α → Bool) : List α → Int → Int
  | [], _ => -1
  | x :: xs, i => if f x then i else IndexFuncFrom f xs (i + 1)

/-- `slices.IndexFunc`. -/
def IndexFunc {α : Type} (s : List α) (f : α → Bool) : Int := IndexFuncFrom f s 0

namespace corev1

/-- `corev1.ContainerPort`. -/
structure ContainerPort where
  Name : String
  HostPort : Int
  ContainerPort : Int
  Protocol : String
  HostIP : String
deriving DecidableEq, Repr

/-- `corev1.Probe`; `InitialDelaySeconds` stands for its settings. -/
structure Probe where
  InitialDelaySeconds : Int
deriving DecidableEq, Repr

/-- `corev1.EnvVar`; `ValueFrom` holds `ValueFrom.FieldRef.FieldPath`. -/
structure EnvVar where
  Name : String
  Value : String
  ValueFrom : Option String
deriving DecidableEq, Repr

/-- `corev1.SecurityContext`; `CapabilitiesAdd` holds `Capabilities.Add`. -/
structure SecurityContext where
  CapabilitiesAdd : List String
  RunAsUser : Option Int
  RunAsGroup : Option Int
  RunAsNonRoot : Option Bool
  ReadOnlyRootFilesystem : Option Bool
deriving DecidableEq, Repr

/-- `corev1.VolumeMount`. -/
structure VolumeMount where
  Name : String
  ReadOnly : Bool
  MountPath : String
deriving DecidableEq, Repr

/-- `corev1.Container`; `Command` and `Args` stand for the fields kubewire
never names, which a composite literal leaves at their zero value. -/
structure Container where
  Name : String
  Image : String
  ImagePullPolicy : String
  Command : List String
  Args : List String
  Ports : List ContainerPort
  Env : List EnvVar
  SecurityContext : Option SecurityContext
  VolumeMounts : List VolumeMount
  LivenessProbe : Option Probe
  ReadinessProbe : Option Probe
  StartupProbe : Option Probe
deriving DecidableEq, Repr

/-- `corev1.SecretVolumeSource`. -/
structure SecretVolumeSource where
  SecretName : String
  Optional : Option Bool
deriving DecidableEq, Repr

/-- `corev1.Volume`; `HostPath` stands for the volume sources other than a
secret. -/
structure Volume where
  Name : String
  Secret : Option SecretVolumeSource
  HostPath : Option String
deriving DecidableEq, Repr

/-- `corev1.PodSpec`. -/
structure PodSpec where
  Containers : List Container
  Volumes : List Volume
  HostNetwork : Bool
deriving DecidableEq, Repr

/-- `corev1.PodTemplateSpec`. -/
structure PodTemplateSpec where
  Annotations : GoMap
  Labels : GoMap
  Spec : PodSpec
deriving DecidableEq, Repr

end corev1

namespace appsv1

/-- `appsv1.Deployment`; `MatchLabels` holds `Spec.Selector.MatchLabels`,
`Replicas` and `Template` the fields of `Spec`. -/
structure Deployment where
  Name : String
  Namespace : String
  Replicas : Option Int
  MatchLabels : GoMap
  Template : corev1.PodTemplateSpec
deriving DecidableEq, Repr

/-- `appsv1.StatefulSet`, likewise. -/
structure StatefulSet where
  Name : String
  Namespace : String
  Replicas : Option Int
  MatchLabels : GoMap
  Template : corev1.PodTemplateSpec
deriving DecidableEq, Repr

end appsv1

/-- A `runtime.Object`: a Deployment, a StatefulSet, or an object of another
kind, with its name when it has metadata. -/
inductive TargetObject where
  | deployment (d : appsv1.Deployment)
  | statefulSet (s : appsv1.StatefulSet)
  | other (name : Option String)
deriving DecidableEq, Repr

/-! ## `pkg/kuberneteshelpers`, `pkg/config` -/

namespace wgtypes

/-- A WireGuard key (`wgtypes.Key`, 32 bytes). -/
structure Key where
  bytes : List Nat
deriving DecidableEq, Repr

/-- The zero value `wgtypes.Key{}`. -/
def Key.zero : Key := ⟨List.replicate 32 0⟩

instance : Inhabited Key := ⟨Key.zero⟩

end wgtypes

namespace kuberneteshelpers

/-- `kuberneteshelpers.ClusterDetails`. -/
structure ClusterDetails where
  ServiceIP : netip.Addr
  PodCIDR : netip.Prefix
  ServiceCIDR : netip.Prefix
  NodeCIDR : netip.Prefix
deriving DecidableEq, Repr

/-- The zero value `ClusterDetails{}`. -/
def ClusterDetails.zero : ClusterDetails :=
  ⟨netip.Addr.zero, netip.Prefix.zero, netip.Prefix.zero, netip.Prefix.zero⟩

instance : Inhabited ClusterDetails := ⟨ClusterDetails.zero⟩

end kuberneteshelpers

/-- The errors the embedded functions return, one constructor for each
`fmt.Errorf` (or error passed on) of the source; a `cause` is the text of the
wrapped error. -/
inductive Error where
  /-- "unable to obtain Kubernetes cluster details: %w" -/
  | clusterDetails (cause : String)
  /-- "unable to parse overlay prefix %q: %w" -/
  | parseOverlay (overlayPrefix : String)
  /-- "unable to determine non-overlapping CIDR range for overlay network" -/
  | noOverlay
  /-- "unable to proxy connectable address for NAT traversal: %w" -/
  | natLookup (cause : String)
  /-- "unable to parse local IP: %w" -/
  | parseLocalIP (localIP : String)
  /-- The error of `wgtypes.GeneratePrivateKey`. -/
  | generateKey (cause : String)
  /-- The error of `netip.ParsePrefix` or `netip.ParseAddr` on `text`, returned by a `WireguardOption`. -/
  | parse (text : String)
  /-- "unable to determine target object name: %w" -/
  | objectName
  /-- "unable to find container to replace in target object %s/%s" -/
  | containerNotFound (ns name : String)
  /-- "unable to create config: %w" -/
  | createConfig (cause : String)
  /-- "failed to update target object %s/%s: %w" -/
  | updateFailed (ns name cause : String)
  /-- "target object is not a supported type: %t" -/
  | unsupportedType
  /-- "failed to find new pod for %s/%s: %w" -/
  | findPod (ns name cause : String)
  /-- "failed to create network policy for %s/%s: %w" -/
  | networkPolicy (ns name cause : String)
  /-- "failed to create load balancer service for %s/%s: %w" -/
  | loadBalancer (ns name cause : String)
  /-- A run-time panic of the Go code. -/
  | panic (what : String)
  /-- "unable to list pods for cluster details: %w" -/
  | listPods (cause : String)
  /-- "unable to obtain pod CIDR: %w" -/
  | podCIDR (cause : String)
  /-- "unable to find kube-dns service for service CIDR: %w" -/
  | dnsService (cause : String)
  /-- "unable to obtain service CIDR: %w" -/
  | serviceCIDR (cause : String)
  /-- "unable to list nodes for cluster details: %w" -/
  | listNodes (cause : String)
  /-- "no nodes found for cluster details: %w" -/
  | noNodes
  /-- "unable to obtain node CIDR: %w" -/
  | nodeCIDR (cause : String)
  /-- "unable to determine default device name: %w" -/
  | defaultDevice (cause : String)
  /-- "unable to create iptables rule: %w" -/
  | iptablesRule (cause : String)
  /-- "unable to initialize iptables client: %w" -/
  | iptablesInit (cause : String)
  /-- "unable to open config file %q: %w" and "unable to read config file %q: %w" -/
  | configFile (cause : String)
  /-- An error of a collaborator that the caller returns as it is (`return err`). -/
  | passed (cause : String)
deriving DecidableEq, Repr

namespace config

/-- `config.Key` wraps `wgtypes.Key`. -/
structure Key where
  Key : wgtypes.Key
deriving DecidableEq, Repr

instance : Inhabited Key := ⟨⟨wgtypes.Key.zero⟩⟩

/-- `config.Wireguard`. -/
structure Wireguard where
  DirectAccess : Bool
  LocalKey : Key
  AgentKey : Key
  LocalAddress : netip.AddrPort
  OverlayPrefix : netip.Prefix
  LocalOverlayAddress : netip.Addr
  AgentOverlayAddress : netip.Addr
  AllowedIPs : List netip.Prefix
deriving DecidableEq, Repr

/-- The zero value `Wireguard{}`. -/
def Wireguard.zero : Wireguard :=
  { DirectAccess := false
    LocalKey := default
    AgentKey := default
    LocalAddress := netip.AddrPort.zero
    OverlayPrefix := netip.Prefix.zero
    LocalOverlayAddress := netip.Addr.zero
    AgentOverlayAddress := netip.Addr.zero
    AllowedIPs := [] }

instance : Inhabited Wireguard := ⟨Wireguard.zero⟩

/-- `type WireguardOption func(*Wireguard) error`: the updated value and the
error, if any. -/
abbrev WireguardOption := Wireguard → Wireguard × Option Error

/-- The loop of `NewWireguardConfig`: stops at the first option that fails and
returns the value as that option left it. -/
def applyOptions : List WireguardOption → Wireguard → Wireguard × Option Error
  | [], wg => (wg, none)
  | option :: rest, wg =>
    match option wg with
    | (wg1, some err) => (wg1, some err)
    | (wg1, none) => applyOptions rest wg1

/-- `NewWireguardConfig`. -/
def NewWireguardConfig (options : List WireguardOption) : Wireguard × Option Error :=
  applyOptions options Wireguard.zero

/-- `WithGeneratedKeypairs`; `localKeypair` and `agentKeypair` are the results
of its two calls of `wgtypes.GeneratePrivateKey`. -/
def WithGeneratedKeypairs (localKeypair agentKeypair : Except String wgtypes.Key) :
    WireguardOption := fun wg =>
  match localKeypair with
  | Except.error cause => (wg, some (Error.generateKey cause))
  | Except.ok lk =>
    let wg1 := { wg with LocalKey := ⟨lk⟩ }
    match agentKeypair with
    | Except.error cause => (wg1, some (Error.generateKey cause))
    | Except.ok ak => ({ wg1 with AgentKey := ⟨ak⟩ }, none)

/-- `WithLocalAddress`. -/
def WithLocalAddress (address : netip.AddrPort) : WireguardOption := fun wg =>
  ({ wg with LocalAddress := address }, none)

/-- `WithDirectAccess`. -/
def WithDirectAccess (directAccess : Bool) : WireguardOption := fun wg =>
  ({ wg with DirectAccess := directAccess }, none)

/-- `WithOverlay`: each field is assigned the result of its parse, the zero
value when the parse fails, and the first failure is returned. -/
def WithOverlay (overlay localAddress agentAddress : String) : WireguardOption := fun wg =>
  match netip.ParsePrefix overlay with
  | none => ({ wg with OverlayPrefix := netip.Prefix.zero }, some (Error.parse overlay))
  | some p =>
    let wg1 := { wg with OverlayPrefix := p }
    match netip.ParseAddr localAddress with
    | none => ({ wg1 with LocalOverlayAddress := netip.Addr.zero }, some (Error.parse localAddress))
    | some l =>
      let wg2 := { wg1 with LocalOverlayAddress := l }
      match netip.ParseAddr agentAddress with
      | none => ({ wg2 with AgentOverlayAddress := netip.Addr.zero }, some (Error.parse agentAddress))
      | some a => ({ wg2 with AgentOverlayAddress := a }, none)

/-- The loop of `WithAllowedIPs`: appends each parsed prefix, stops at the first
that does not parse. -/
def appendAllowedIPs : List String → Wireguard → Wireguard × Option Error
  | [], wg => (wg, none)
  | allowedIP :: rest, wg =>
    match netip.ParsePrefix allowedIP with
    | none => (wg, some (Error.parse allowedIP))
    | some p => appendAllowedIPs rest { wg with AllowedIPs := wg.AllowedIPs ++ [p] }

/-- `WithAllowedIPs`. -/
def WithAllowedIPs (allowedIPs : List String) : WireguardOption := fun wg =>
  appendAllowedIPs allowedIPs wg

/-- `config.Config`. -/
structure Config where
  AgentImage : String
  TargetObject : TargetObject
  Namespace : String
  Container : String
  KeepResources : Bool
  Wireguard : Wireguard
  KubernetesClusterDetails : kuberneteshelpers.ClusterDetails
deriving DecidableEq, Repr

/-- `NewConfig`: the zero value (a `nil` target object is an object without
metadata). -/
def NewConfig : Config :=
  { AgentImage := ""
    TargetObject := TargetObject.other none
    Namespace := ""
    Container := ""
    KeepResources := false
    Wireguard := Wireguard.zero
    KubernetesClusterDetails := kuberneteshelpers.ClusterDetails.zero }

end config

/-! ## `encoding/base64`, `wgtypes`, `pkg/config/key.go` and the document of the config -/

namespace base64

/-- The alphabet of `base64.StdEncoding`. -/
def encodeStd : List Char :=
  "ABCDEFGHIJKLMNOPQRSTUVWXYZabcdefghijklmnopqrstuvwxyz0123456789+/".toList

/-- `enc.encode[v]` of `StdEncoding`. -/
def encode (v : Nat) : Char := encodeStd.getD v 'A'

/-- `enc.decodeMap[c]` of `StdEncoding`: `none` stands for `0xff`. -/
def decodeMap (c : Char) : Option Nat :=
  match encodeStd.indexOf? c with
  | none => none
  | some v => some v

/-- `StdEncoding.EncodeToString`: four characters for each three bytes, the
last group padded with `=`. -/
def EncodeToString : List Nat → List Char
  | b0 :: b1 :: b2 :: rest =>
    let val := b0 * 2 ^ 16 + b1 * 2 ^ 8 + b2
    encode (val / 2 ^ 18 % 64) :: encode (val / 2 ^ 12 % 64) :: encode (val / 2 ^ 6 % 64)
      :: encode (val % 64) :: EncodeToString rest
  | [b0, b1] =>
    let val := b0 * 2 ^ 16 + b1 * 2 ^ 8
    [encode (val / 2 ^ 18 % 64), encode (val / 2 ^ 12 % 64), encode (val / 2 ^ 6 % 64), '=']
  | [b0] =>
    let val := b0 * 2 ^ 16
    [encode (val / 2 ^ 18 % 64), encode (val / 2 ^ 12 % 64), '=', '=']
  | [] => []

/-- The quanta of `StdEncoding.Decode`, on text from which the newline
characters are removed: each four characters give three bytes; `=` may
only end the last quantum, as its last or its last two characters; `none`
stands for a `CorruptInputError`. -/
def decodeQuanta : List Char → Option (List Nat)
  | [] => some []
  | c0 :: c1 :: c2 :: c3 :: rest =>
    match decodeMap c0, decodeMap c1 with
    | some d0, some d1 =>
      if c2 = '=' then
        if c3 = '=' ∧ rest = [] then some [(d0 * 2 ^ 18 + d1 * 2 ^ 12) / 2 ^ 16 % 256]
        else none
      else
        match decodeMap c2 with
        | none => none
        | some d2 =>
          if c3 = '=' then
            if rest = [] then
              some [ (d0 * 2 ^ 18 + d1 * 2 ^ 12 + d2 * 2 ^ 6) / 2 ^ 16 % 256,
                     (d0 * 2 ^ 18 + d1 * 2 ^ 12 + d2 * 2 ^ 6) / 2 ^ 8 % 256 ]
            else none
          else
            match decodeMap c3 with
            | none => none
            | some d3 =>
              let val := d0 * 2 ^ 18 + d1 * 2 ^ 12 + d2 * 2 ^ 6 + d3
              match decodeQuanta rest with
              | none => none
              | some bytes => some (val / 2 ^ 16 % 256 :: val / 2 ^ 8 % 256 :: val % 256 :: bytes)
    | _, _ => none
  | _ => none

/-- `StdEncoding.DecodeString`: the characters `\r` and `\n` are skipped. -/
def DecodeString (s : List Char) : Option (List Nat) :=
  decodeQuanta (s.filter (fun c => c ≠ '\n' ∧ c ≠ '\r'))

end base64

namespace wgtypes

/-- `KeyLen`. -/
def KeyLen : Nat := 32

/-- A key as the type `[32]byte` holds it: 32 bytes. -/
def Key.WF (k : Key) : Bool := k.bytes.length == KeyLen && k.bytes.all (fun b => decide (b < 256))

/-- `Key.String`: the key in base64. -/
def Key.String (k : Key) : String := String.mk (base64.EncodeToString k.bytes)

/-- `NewKey`: an error unless there are `KeyLen` bytes. -/
def NewKey (b : List Nat) : Option Key := if b.length ≠ KeyLen then none else some ⟨b⟩

/-- `ParseKey`: `none` stands for an error. -/
def ParseKey (s : String) : Option Key :=
  match base64.DecodeString s.toList with
  | none => none
  | some b => NewKey b

end wgtypes

namespace config

/-- `Key.MarshalText`. -/
def Key.MarshalText (k : config.Key) : String := k.Key.String

/-- `Key.UnmarshalText`: the key assigned, `none` for an error. -/
def Key.UnmarshalText (text : String) : Option config.Key :=
  (wgtypes.ParseKey text).map (fun k => ⟨k⟩)

end config

namespace yaml

/-- A value of the document that `yaml.Marshal` writes for a `config.Wireguard`
and `yaml.Unmarshal` reads: a scalar, as the text of its value, or a sequence
of scalars. How the library writes the text of a document and reads it back
is not modelled. -/
inductive Node where
  | scalar (value : String)
  | sequence (items : List String)
deriving DecidableEq, Repr

/-- The document of a struct: a mapping from keys to values, in order. -/
abbrev Document := List (String × Node)

/-- The scalars that decode into a `bool` field: the values of the tag `bool`
and the words of YAML 1.1. -/
def decodeBool (value : String) : Option Bool :=
  if value ∈ ["true", "True", "TRUE", "y", "Y", "yes", "Yes", "YES", "on", "On", "ON"] then
    some true
  else if value ∈ ["false", "False", "FALSE", "n", "N", "no", "No", "NO", "off", "Off", "OFF"] then
    some false
  else none

end yaml

namespace config

/-- `yaml.Marshal` of a `Wireguard`, as `applyConfig` calls it: the fields in
declaration order under their lower-cased names, the bool as `true` or
`false`, each field with a `MarshalText` method as the text it returns, the
slice as the sequence of the texts of its elements. -/
def Wireguard.Marshal (w : Wireguard) : yaml.Document :=
  [ ("directaccess", yaml.Node.scalar (if w.DirectAccess then "true" else "false")),
    ("localkey", yaml.Node.scalar w.LocalKey.MarshalText),
    ("agentkey", yaml.Node.scalar w.AgentKey.MarshalText),
    ("localaddress", yaml.Node.scalar w.LocalAddress.MarshalText),
    ("overlayprefix", yaml.Node.scalar w.OverlayPrefix.MarshalText),
    ("localoverlayaddress", yaml.Node.scalar w.LocalOverlayAddress.MarshalText),
    ("agentoverlayaddress", yaml.Node.scalar w.AgentOverlayAddress.MarshalText),
    ("allowedips", yaml.Node.sequence (w.AllowedIPs.map (fun p => p.MarshalText))) ]

/-- The decoding of a sequence into `[]netip.Prefix`: each element through
`UnmarshalText`, `none` when one fails. -/
def unmarshalPrefixes : List String → Option (List netip.Prefix)
  | [] => some []
  | text :: rest =>
    match netip.Prefix.UnmarshalText text, unmarshalPrefixes rest with
    | some p, some ps => some (p :: ps)
    | _, _ => none

/-- The decoding of one entry of the mapping into the field of `w` whose
lower-cased name is the key: a scalar through `UnmarshalText` of the field
(`decodeBool` for the bool), the sequence element by element; an entry with
another key is skipped; `none` stands for an error. -/
def Wireguard.unmarshalField (w : Wireguard) (key : String) (node : yaml.Node) :
    Option Wireguard :=
  if key = "directaccess" then
    match node with
    | yaml.Node.scalar value => (yaml.decodeBool value).map (fun b => { w with DirectAccess := b })
    | yaml.Node.sequence _ => none
  else if key = "localkey" then
    match node with
    | yaml.Node.scalar value => (Key.UnmarshalText value).map (fun k => { w with LocalKey := k })
    | yaml.Node.sequence _ => none
  else if key = "agentkey" then
    match node with
    | yaml.Node.scalar value => (Key.UnmarshalText value).map (fun k => { w with AgentKey := k })
    | yaml.Node.sequence _ => none
  else if key = "localaddress" then
    match node with
    | yaml.Node.scalar value =>
      (netip.AddrPort.UnmarshalText value).map (fun a => { w with LocalAddress := a })
    | yaml.Node.sequence _ => none
  else if key = "overlayprefix" then
    match node with
    | yaml.Node.scalar value =>
      (netip.Prefix.UnmarshalText value).map (fun p => { w with OverlayPrefix := p })
    | yaml.Node.sequence _ => none
  else if key = "localoverlayaddress" then
    match node with
    | yaml.Node.scalar value =>
      (netip.Addr.UnmarshalText value).map (fun a => { w with LocalOverlayAddress := a })
    | yaml.Node.sequence _ => none
  else if key = "agentoverlayaddress" then
    match node with
    | yaml.Node.scalar value =>
      (netip.Addr.UnmarshalText value).map (fun a => { w with AgentOverlayAddress := a })
    | yaml.Node.sequence _ => none
  else if key = "allowedips" then
    match node with
    | yaml.Node.scalar _ => none
    | yaml.Node.sequence items => (unmarshalPrefixes items).map (fun l => { w with AllowedIPs := l })
  else some w

/-- The decoding of the entries of a mapping, in order, into `w`. -/
def Wireguard.unmarshalFields (w : Wireguard) : yaml.Document → Option Wireguard
  | [] => some w
  | (key, node) :: rest =>
    match w.unmarshalField key node with
    | none => none
    | some w1 => w1.unmarshalFields rest

/-- `yaml.Unmarshal(configContents, &cfg)` with `cfg := config.Wireguard{}`, as
the `agent` command calls it: `none` stands for an error. -/
def Wireguard.Unmarshal (document : yaml.Document) : Option Wireguard :=
  Wireguard.zero.unmarshalFields document

/-- The configs whose values are of the Go types (32 bytes in a key, 128 bits
in an address, 16 in a port) and in which the local address, the overlay
prefix, the two overlay addresses and each allowed prefix are either the zero
value or valid, as a flag or an option of `NewWireguardConfig` sets them. -/
def Wireguard.WF (w : Wireguard) : Bool :=
  w.LocalKey.Key.WF && w.AgentKey.Key.WF &&
  (w.LocalAddress == netip.AddrPort.zero ||
    (w.LocalAddress.ip.WF && w.LocalAddress.ip.IsValid && decide (w.LocalAddress.port < 2 ^ 16))) &&
  (w.OverlayPrefix == netip.Prefix.zero || (w.OverlayPrefix.WF && w.OverlayPrefix.IsValid)) &&
  (w.LocalOverlayAddress == netip.Addr.zero ||
    (w.LocalOverlayAddress.WF && w.LocalOverlayAddress.IsValid)) &&
  (w.AgentOverlayAddress == netip.Addr.zero ||
    (w.AgentOverlayAddress.WF && w.AgentOverlayAddress.IsValid)) &&
  w.AllowedIPs.all (fun p => p == netip.Prefix.zero || (p.WF && p.IsValid))

end config

/-! ## `pkg/proxy/config.go` -/

namespace proxy

open netip config

/-- `overlayCIDRs`: the candidate overlay prefixes, in order. -/
def overlayCIDRs : List Prefix :=
  [MustParsePrefix "10.1.0.0/28", MustParsePrefix "100.64.51.0/28"]

/-- What `ResolveWireguardConfig` obtains from outside: the function variables
`getClusterDetails` (applied to the client) and `findLocalAddressAndPort`, and
the two keys drawn by `wgtypes.GeneratePrivateKey`. -/
structure Env where
  getClusterDetails : kuberneteshelpers.ClusterDetails → String →
    Except String kuberneteshelpers.ClusterDetails
  findLocalAddressAndPort : Except String (String × Int)
  localKeypair : Except String wgtypes.Key
  agentKeypair : Except String wgtypes.Key

/-- The closure of `ResolveWireguardConfig` that selects the overlay: the
first candidate that overlaps none of the three cluster prefixes. -/
def selectOverlay (clusterDetails : kuberneteshelpers.ClusterDetails) :
    List Prefix → Except Error Prefix
  | [] => Except.error Error.noOverlay
  | cidr :: rest =>
    if cidr.Overlaps clusterDetails.PodCIDR || cidr.Overlaps clusterDetails.ServiceCIDR
        || cidr.Overlaps clusterDetails.NodeCIDR then
      selectOverlay clusterDetails rest
    else Except.ok cidr

/-- `ResolveWireguardConfig`: the config as the call leaves it, and the error
returned (`none` for `nil`). -/
def ResolveWireguardConfig (env : Env) (proxyConfig : Config) (overlayPrefix : String)
    (directAccess : Bool) : Config × Option Error :=
  match env.getClusterDetails proxyConfig.KubernetesClusterDetails proxyConfig.Namespace with
  | Except.error cause => (proxyConfig, some (Error.clusterDetails cause))
  | Except.ok clusterDetails =>
    let proxyConfig := { proxyConfig with KubernetesClusterDetails := clusterDetails }
    let overlayResult : Except Error Prefix :=
      if overlayPrefix ≠ "" then
        match ParsePrefix overlayPrefix with
        | none => Except.error (Error.parseOverlay overlayPrefix)
        | some overlay => Except.ok overlay
      else selectOverlay clusterDetails overlayCIDRs
    match overlayResult with
    | Except.error err => (proxyConfig, some err)
    | Except.ok overlay =>
      let proxyAddr := overlay.Addr
      let localOverlayAddress := proxyAddr.Next
      let agentOverlayAddress := localOverlayAddress.Next
      let options : List WireguardOption :=
        [ WithGeneratedKeypairs env.localKeypair env.agentKeypair,
          WithOverlay overlay.String localOverlayAddress.String agentOverlayAddress.String,
          WithAllowedIPs [clusterDetails.PodCIDR.String, clusterDetails.ServiceCIDR.String,
            clusterDetails.NodeCIDR.String, overlay.String] ]
      let finish (options : List WireguardOption) : Config × Option Error :=
        let r := NewWireguardConfig options
        ({ proxyConfig with Wireguard := r.1 }, r.2)
      if directAccess then
        match env.findLocalAddressAndPort with
        | Except.error cause => (proxyConfig, some (Error.natLookup cause))
        | Except.ok (localIP, localPort) =>
          match ParseAddr localIP with
          | none => (proxyConfig, some (Error.parseLocalIP localIP))
          | some localAddr =>
            let localAddress := AddrPortFrom localAddr (localPort % 2 ^ 16).toNat
            finish (options ++ [WithLocalAddress localAddress, WithDirectAccess directAccess])
      else if proxyConfig.Wireguard.LocalAddress.IsValid then
        finish (options ++ [WithLocalAddress proxyConfig.Wireguard.LocalAddress])
      else finish options

/-! ### The fixtures of `config_test.go` -/

/-- `validClusterDetails` of `TestResolveWireguardConfig`. -/
def validClusterDetails : kuberneteshelpers.ClusterDetails :=
  { ServiceIP := MustParseAddr "172.0.0.1"
    PodCIDR := MustParsePrefix "100.64.0.0/16"
    ServiceCIDR := MustParsePrefix "172.0.0.0/16"
    NodeCIDR := MustParsePrefix "10.0.0.0/16" }

/-- `overlappingClusterDetails` of `TestResolveWireguardConfig`. -/
def overlappingClusterDetails : kuberneteshelpers.ClusterDetails :=
  { ServiceIP := MustParseAddr "172.0.0.1"
    PodCIDR := MustParsePrefix "100.64.51.0/16"
    ServiceCIDR := MustParsePrefix "172.0.0.0/16"
    NodeCIDR := MustParsePrefix "10.1.0.0/16" }

/-- The environment of `TestResolveWireguardConfig`: `getClusterDetails` returns
the given details, `findLocalAddressAndPort` returns `1.2.3.4`, `9080`; two
fixed keys stand for the generated ones. -/
def testEnv (clusterDetails : kuberneteshelpers.ClusterDetails) : Env :=
  { getClusterDetails := fun _ _ => Except.ok clusterDetails
    findLocalAddressAndPort := Except.ok ("1.2.3.4", 9080)
    localKeypair := Except.ok ⟨List.replicate 32 1⟩
    agentKeypair := Except.ok ⟨List.replicate 32 2⟩ }

end proxy

/-! ## `pkg/wg` -/

namespace wg

/-- `DefaultWireguardPort`. -/
def DefaultWireguardPort : Int := 19070

/-- The listen port computed by `wireguardDevice.Start` in `device_linux.go`
from `w.config.ListenPort`. -/
def listenPortLinux (ListenPort : Int) : Int :=
  let listenPort := DefaultWireguardPort
  if ListenPort < 0 then 0
  else if ListenPort ≠ 0 then ListenPort
  else listenPort

/-- The listen port computed by `wireguardDevice.Start` in `device_darwin.go`
from `w.config.ListenPort`. -/
def listenPortDarwin (ListenPort : Int) : Int :=
  let listenPort := DefaultWireguardPort
  if ListenPort < 0 then 0
  else if ListenPort ≠ 0 then ListenPort
  else listenPort

end wg

/-! ## `pkg/agent/kubernetes.go` -/

namespace agent

open corev1

def DefaultContainerAnnotationName : String := "kubectl.kubernetes.io/default-container"

def WireguardRevisionAnnotationName : String := "wgko.io/revision"

def WireguardConfigVolumeName : String := "wireguard-config"

def ContainerName : String := "agent"

/-- `wgObjectName`: `fmt.Sprintf("wg-%s", name)`. -/
def wgObjectName (name : String) : String := "wg-" ++ name

/-- `containerIndexOrDefault`: the index of the container to replace, `-1` when
there is none. -/
def containerIndexOrDefault (containerName : String) (annotations : GoMap)
    (containers : List Container) : Int :=
  match containers with
  | [] => -1
  | first :: _ =>
    let containerName :=
      if containerName = "" then
        let name := annotations.get DefaultContainerAnnotationName
        if name.length > 0 then name else first.Name
      else containerName
    IndexFunc containers (fun container => container.Name == containerName)

/-- The name `containerIndexOrDefault` looks for, in the words of the
specification: the explicit name when there is one, else the value of the
default-container annotation when it is not empty, else the name of the first
container. -/
def resolvedContainerName (containerName : String) (annotations : GoMap)
    (containers : List Container) : String :=
  if containerName ≠ "" then containerName
  else if annotations.get DefaultContainerAnnotationName ≠ "" then
    annotations.get DefaultContainerAnnotationName
  else (containers.head?.map (fun c => c.Name)).getD ""

/-- `strconv.FormatInt(n, 10)`. -/
def FormatInt (n : Int) : String := toString n

/-- The first loop of `replaceContainerWithAgent`, from position `index` on:
every container loses its three probes, and the container ports of those
whose index is not `containerIndex` are appended to `excludePorts`. -/
def clearProbesLoop (containerIndex : Int) :
    List Container → Int → List String → List Container × List String
  | [], _, excludePorts => ([], excludePorts)
  | container :: rest, index, excludePorts =>
    let cleared : Container :=
      { container with LivenessProbe := none, ReadinessProbe := none, StartupProbe := none }
    let excludePorts1 :=
      if index ≠ containerIndex then
        excludePorts ++ container.Ports.map (fun port => FormatInt port.ContainerPort)
      else excludePorts
    let r := clearProbesLoop containerIndex rest (index + 1) excludePorts1
    (cleared :: r.1, r.2)

/-- The container literal that `replaceContainerWithAgent` stores. -/
def agentContainer (AgentImage : String) (replacedContainer : Container)
    (excludePorts : List String) : Container :=
  { Name := ContainerName
    Image := AgentImage
    ImagePullPolicy := "Always"
    Command := []
    Args := []
    Ports := replacedContainer.Ports
    Env :=
      [ { Name := "LOCAL_PORTS_EXCLUDE_PROXY"
          Value := String.intercalate "," excludePorts
          ValueFrom := none },
        { Name := "ISTIO_INTERCEPTION_MODE"
          Value := ""
          ValueFrom := some "metadata.annotations[\'sidecar.istio.io/interceptionMode\']" } ]
    SecurityContext := some
      { CapabilitiesAdd := ["NET_ADMIN"]
        RunAsUser := some 0
        RunAsGroup := some 0
        RunAsNonRoot := some false
        ReadOnlyRootFilesystem := some false }
    VolumeMounts := [{ Name := WireguardConfigVolumeName, ReadOnly := true, MountPath := "/app/config" }]
    LivenessProbe := none
    ReadinessProbe := none
    StartupProbe := none }

/-- `replaceContainerWithAgent`, with the `AgentImage` of the agent's config:
the pod spec as the call leaves it, or `none` when `containerIndex` is not an
index of the container list (the Go code panics). -/
def replaceContainerWithAgent (AgentImage : String) (podSpec : PodSpec) (configName : String)
    (containerIndex : Int) : Option PodSpec :=
  let r := clearProbesLoop containerIndex podSpec.Containers 0 []
  let containers := r.1
  let excludePorts := r.2
  if containerIndex < 0 then none
  else
    match containers[containerIndex.toNat]? with
    | none => none
    | some replacedContainer =>
      let containers1 :=
        containers.set containerIndex.toNat (agentContainer AgentImage replacedContainer excludePorts)
      let volume : Volume :=
        { Name := WireguardConfigVolumeName
          Secret := some { SecretName := configName, Optional := some false }
          HostPath := none }
      let volumeIndex := IndexFunc podSpec.Volumes (fun v => v.Name == WireguardConfigVolumeName)
      let volumes :=
        if volumeIndex = -1 then podSpec.Volumes ++ [volume]
        else podSpec.Volumes.set volumeIndex.toNat volume
      some { podSpec with Containers := containers1, Volumes := volumes }

/-- An error of the cluster API: not-found (`errors.IsNotFound`) or another. -/
inductive APIError where
  | notFound : APIError
  | other (cause : String) : APIError
deriving DecidableEq, Repr

/-- A request the agent sends to the cluster API. The secret of `applySecret`
carries the YAML of the Wireguard config under `wg.yml`; the service of
`applyService` is the load balancer with the fixed annotations and one UDP
port. -/
inductive Request where
  | applySecret (ns name : String) (wireguard : config.Wireguard)
  | updateDeployment (ns : String) (d : appsv1.Deployment)
  | updateStatefulSet (ns : String) (s : appsv1.StatefulSet)
  | applyService (ns name : String) (selector : GoMap) (port : Int)
  | applyNetworkPolicy (ns name : String) (selector : GoMap) (port : Int)
  | deleteService (ns name : String)
  | deleteNetworkPolicy (ns name : String)
  | deleteSecret (ns name : String)
deriving DecidableEq, Repr

/-- `corev1.LoadBalancerIngress`. -/
structure LoadBalancerIngress where
  Hostname : String
  IP : String
deriving DecidableEq, Repr

/-- What `Start` obtains from outside: the revision drawn by `newRevision`, the
answer of the cluster API to each request (`none` for success), the results
of the function variables `waitForPod` and `waitForLoadBalancerReady` (the
ingress entries of the service), and the address the DNS poll ends with
(`none` when the wait budget runs out first). -/
structure Cluster where
  newRevision : String
  respond : Request → Option APIError
  waitForPod : String → GoMap → String → Except String netip.AddrPort
  waitForLoadBalancerReady : String → String → Except String (List LoadBalancerIngress)
  lookupIP : String → Option netip.Addr

/-- The text of an API error. -/
def APIError.text : APIError → String
  | APIError.notFound => "not found"
  | APIError.other cause => cause

/-- `kubernetesAgent`: the config and the agent address; the client is the
`Cluster` passed to `Start`. -/
structure kubernetesAgent where
  config : config.Config
  agentAddress : netip.AddrPort
deriving DecidableEq, Repr

/-- `NewKubernetesAgent`. -/
def NewKubernetesAgent (config : config.Config) : kubernetesAgent :=
  { config := config, agentAddress := netip.AddrPort.zero }

/-- The outcome of a step of `Start`: the agent (with the target object as
mutated so far), the requests sent so far in order, and the error if the step
failed. -/
structure Outcome where
  agent : kubernetesAgent
  requests : List Request
  err : Option Error
deriving DecidableEq, Repr

/-- `applyNetworkPolicy`: one request; its error is passed on. -/
def applyNetworkPolicy (cluster : Cluster) (ns name : String) (selector : GoMap) (port : Int) :
    Request × Option String :=
  let req := Request.applyNetworkPolicy ns name selector port
  (req, (cluster.respond req).map APIError.text)

/-- `applyLoadbalancer`: applies the service, waits for an ingress entry and
turns its hostname or IP into the agent address on the default port. An empty
ingress list is the index panic of `Ingress[0]`. -/
def applyLoadbalancer (cluster : Cluster) (ns name : String) (selector : GoMap) :
    Request × Except String netip.AddrPort :=
  let req := Request.applyService ns name selector wg.DefaultWireguardPort
  match cluster.respond req with
  | some e => (req, Except.error ("unable to apply service: " ++ e.text))
  | none =>
    match cluster.waitForLoadBalancerReady ns name with
    | Except.error e => (req, Except.error ("timeout waiting for load balancer service: " ++ e))
    | Except.ok [] => (req, Except.error "panic: index out of range")
    | Except.ok (ing :: _) =>
      if ing.Hostname ≠ "" then
        match cluster.lookupIP ing.Hostname with
        | none => (req, Except.error "unable to lookup IP for load balancer hostname")
        | some ip => (req, Except.ok (netip.AddrPortFrom ip wg.DefaultWireguardPort.toNat))
      else if ing.IP ≠ "" then
        match netip.ParseAddr ing.IP with
        | none => (req, Except.error "unable to parse IP for load balancer IP")
        | some ip => (req, Except.ok (netip.AddrPortFrom ip wg.DefaultWireguardPort.toNat))
      else (req, Except.error "unable to find load balancer address for service")

/-- The part of `Start` after the type switch: the reachability mode. -/
def startReachability (cluster : Cluster) (a : kubernetesAgent) (requests : List Request)
    (objectName relatedObjectName : String) (matchLabels : GoMap) (revision : String) : Outcome :=
  if a.config.Wireguard.DirectAccess then
    match cluster.waitForPod a.config.Namespace matchLabels revision with
    | Except.error e => ⟨a, requests, some (Error.findPod a.config.Namespace objectName e)⟩
    | Except.ok address =>
      match applyNetworkPolicy cluster a.config.Namespace relatedObjectName matchLabels address.port with
      | (req, some e) =>
        ⟨a, requests ++ [req], some (Error.networkPolicy a.config.Namespace objectName e)⟩
      | (req, none) => ⟨{ a with agentAddress := address }, requests ++ [req], none⟩
  else if !a.config.Wireguard.LocalAddress.IsValid then
    match applyLoadbalancer cluster a.config.Namespace relatedObjectName matchLabels with
    | (req, Except.error e) =>
      ⟨a, requests ++ [req], some (Error.loadBalancer a.config.Namespace objectName e)⟩
    | (req, Except.ok address) =>
      match applyNetworkPolicy cluster a.config.Namespace relatedObjectName matchLabels
          wg.DefaultWireguardPort with
      | (req1, some e) =>
        ⟨a, requests ++ [req, req1], some (Error.networkPolicy a.config.Namespace objectName e)⟩
      | (req1, none) => ⟨{ a with agentAddress := address }, requests ++ [req, req1], none⟩
  else ⟨a, requests, none⟩

/-- The body the two cases of the type switch of `Start` share: `template` is
`Spec.Template` of the target, `store` puts the patched template and the
replica count `1` back into the target, `update` is the update request for
the patched target. -/
def startTemplate (cluster : Cluster) (a : kubernetesAgent) (objectName objectNamespace : String)
    (matchLabels : GoMap) (template : PodTemplateSpec)
    (store : PodTemplateSpec → TargetObject) (update : PodTemplateSpec → Request) : Outcome :=
  let revision := cluster.newRevision
  let relatedObjectName := wgObjectName objectName
  let template1 : PodTemplateSpec :=
    { template with
      Annotations := template.Annotations.set WireguardRevisionAnnotationName revision }
  let a1 : kubernetesAgent := { a with config := { a.config with TargetObject := store template1 } }
  let replaceContainerIndex :=
    containerIndexOrDefault a.config.Container template1.Annotations template1.Spec.Containers
  if replaceContainerIndex = -1 then
    ⟨a1, [], some (Error.containerNotFound objectNamespace objectName)⟩
  else
    let req := Request.applySecret a.config.Namespace relatedObjectName a.config.Wireguard
    match cluster.respond req with
    | some e => ⟨a1, [req], some (Error.createConfig e.text)⟩
    | none =>
      match replaceContainerWithAgent a.config.AgentImage template1.Spec relatedObjectName
          replaceContainerIndex with
      | none => ⟨a1, [req], some (Error.panic "index out of range")⟩
      | some spec =>
        let template2 : PodTemplateSpec := { template1 with Spec := spec }
        let a2 : kubernetesAgent :=
          { a with config := { a.config with TargetObject := store template2 } }
        let req1 := update template2
        match cluster.respond req1 with
        | some e => ⟨a2, [req, req1], some (Error.updateFailed objectNamespace objectName e.text)⟩
        | none =>
          startReachability cluster a2 [req, req1] objectName relatedObjectName matchLabels revision

/-- `kubernetesAgent.Start`: the agent and target object as the call leaves
them, the requests sent to the cluster API, and the error returned (`none`
for `nil`, in which case the stop function of `stop` is returned). -/
def kubernetesAgent.Start (a : kubernetesAgent) (cluster : Cluster) : Outcome :=
  match a.config.TargetObject with
  | TargetObject.other none => ⟨a, [], some Error.objectName⟩
  | TargetObject.other (some _) => ⟨a, [], some Error.unsupportedType⟩
  | TargetObject.deployment d =>
    startTemplate cluster a d.Name d.Namespace d.MatchLabels d.Template
      (fun t => TargetObject.deployment { d with Template := t, Replicas := some 1 })
      (fun t => Request.updateDeployment d.Namespace { d with Template := t, Replicas := some 1 })
  | TargetObject.statefulSet s =>
    startTemplate cluster a s.Name s.Namespace s.MatchLabels s.Template
      (fun t => TargetObject.statefulSet { s with Template := t, Replicas := some 1 })
      (fun t => Request.updateStatefulSet s.Namespace { s with Template := t, Replicas := some 1 })

/-- The error one deletion of the stop function logs: none when the request
succeeds or fails with an error that `errors.IsNotFound` accepts. -/
def deleteError (response : Option APIError) (what : String) : List String :=
  match response with
  | none => []
  | some APIError.notFound => []
  | some (APIError.other cause) => [what ++ ": " ++ cause]

/-- The stop function `Start` returns, run on the agent and the cluster as they
are then: the requests it sends, in order, and the errors it logs. A request
that fails is logged unless the failure is not-found, and the next one is
sent either way. -/
def stop (cluster : Cluster) (a : kubernetesAgent) (relatedObjectName : String) :
    List Request × List String :=
  if a.config.KeepResources then ([], [])
  else
    let req1 := Request.deleteService a.config.Namespace relatedObjectName
    let log1 := deleteError (cluster.respond req1) "unable to delete service"
    let req2 := Request.deleteNetworkPolicy a.config.Namespace relatedObjectName
    let log2 := deleteError (cluster.respond req2) "unable to delete netpol"
    let req3 := Request.deleteSecret a.config.Namespace relatedObjectName
    let log3 := deleteError (cluster.respond req3) "unable to delete secret"
    ([req1, req2, req3], log1 ++ log2 ++ log3)

/-- `accessor.Name` of the target object. -/
def objectName : TargetObject → Option String
  | TargetObject.deployment d => some d.Name
  | TargetObject.statefulSet s => some s.Name
  | TargetObject.other name => name

/-- The `runnable.StopFunc` that `Start` returns: `none` for the `nil` returned
with an error, else the closure over the agent pointer and
`relatedObjectName`, to be run on the cluster and the agent as they are when
it is invoked. -/
def kubernetesAgent.StartStop (a : kubernetesAgent) (cluster : Cluster) :
    Option (Cluster → kubernetesAgent → List Request × List String) :=
  match (a.Start cluster).err, objectName a.config.TargetObject with
  | none, some name => some (fun cluster1 a1 => stop cluster1 a1 (wgObjectName name))
  | _, _ => none

/-- The composite literal `corev1.Container{Name: name}` of the tests. -/
def containerNamed (name : String) : Container :=
  { Name := name
    Image := ""
    ImagePullPolicy := ""
    Command := []
    Args := []
    Ports := []
    Env := []
    SecurityContext := none
    VolumeMounts := []
    LivenessProbe := none
    ReadinessProbe := none
    StartupProbe := none }

/-- A pod spec whose first container is already named `agent` (a monitoring
sidecar, say) and whose second container is the one to replace. -/
def sidecarPodSpec : PodSpec :=
  { Containers := [containerNamed "agent", containerNamed "app"], Volumes := [], HostNetwork := false }

/-- The containers of the test "deployment with multiple containers". -/
def multiContainerPodSpec : PodSpec :=
  { Containers :=
      [ { containerNamed "istio" with
          Ports := [{ Name := "istio-proxy", HostPort := 0, ContainerPort := 15001, Protocol := "", HostIP := "" }] },
        { containerNamed "test-container" with Image := "test-image" },
        { containerNamed "other-container" with
          LivenessProbe := some ⟨10⟩
          ReadinessProbe := some ⟨11⟩
          StartupProbe := some ⟨12⟩
          Ports := [{ Name := "other", HostPort := 0, ContainerPort := 12345, Protocol := "", HostIP := "" }] } ]
    Volumes := []
    HostNetwork := false }

/-- The `matchLabels` that the type switch of `Start` reads from the target
object: `Spec.Selector.MatchLabels`. -/
def matchLabels : TargetObject → GoMap
  | TargetObject.deployment d => d.MatchLabels
  | TargetObject.statefulSet s => s.MatchLabels
  | TargetObject.other _ => []

end agent

/-! ## `pkg/runnable`, `pkg/wg/device.go`, `pkg/routing/routing.go` -/

namespace runnable

/-- A `runnable.StopFunc` that `Run` registers, named by the `Start` that
returned it. -/
inductive StopFunc where
  | wgStop
  | routerStop
  | agentStop
deriving DecidableEq, Repr

end runnable

namespace wg

def defaultDeviceName : String := "wg0"

/-- `wg.WireguardDevicePeer`. -/
structure WireguardDevicePeer where
  Endpoint : netip.AddrPort
  PublicKey : wgtypes.Key
  AllowedIPs : List netip.Prefix
deriving DecidableEq, Repr

/-- `wg.WireguardDeviceConfig`. -/
structure WireguardDeviceConfig where
  Peer : WireguardDevicePeer
  PrivateKey : wgtypes.Key
  ListenPort : Int
  Address : netip.Addr
deriving DecidableEq, Repr

/-- `PersistentKeepaliveInterval`, in seconds (`25 * time.Second`). -/
def PersistentKeepaliveInterval : Nat := 25

/-- `net.IPNet`: the bytes of the address and of the mask. -/
structure IPNet where
  IP : List Nat
  Mask : List Nat
deriving DecidableEq, Repr

/-- `net.UDPAddr`. -/
structure UDPAddr where
  IP : List Nat
  Port : Nat
  Zone : String
deriving DecidableEq, Repr

/-- `Addr.AsSlice`: no bytes for the zero `Addr`, four for IPv4, sixteen for
IPv6, most significant first. -/
def AsSlice (ip : netip.Addr) : List Nat :=
  match ip.z with
  | netip.Zone.z0 => []
  | netip.Zone.z4 => (List.range 4).map (fun i => ip.v4 i)
  | netip.Zone.z6 _ => (List.range 16).map (fun i => (ip.addr / 2 ^ ((15 - i) * 8)) % 256)

/-- `net.CIDRMask(ones, bits)`: `ones` set bits followed by clear bits, `bits`
in all; no bytes when `bits` is neither 32 nor 128 or `ones` does not fit. -/
def CIDRMask (ones bits : Int) : List Nat :=
  if bits ≠ 32 ∧ bits ≠ 128 then []
  else if ones < 0 ∨ ones > bits then []
  else
    (List.range (bits.toNat / 8)).map (fun i =>
      if ones.toNat ≥ 8 * (i + 1) then 0xff
      else if ones.toNat ≤ 8 * i then 0
      else 0xff - 0xff / 2 ^ (ones.toNat - 8 * i))

/-- `net.UDPAddrFromAddrPort`. -/
def UDPAddrFromAddrPort (addr : netip.AddrPort) : UDPAddr :=
  { IP := AsSlice addr.ip
    Port := addr.port
    Zone := match addr.ip.z with
      | netip.Zone.z6 zone => zone
      | _ => "" }

/-- The fields of `wgtypes.PeerConfig` that `Start` of `device_linux.go` sets;
the interval is in seconds, `none` is the `nil` pointer. -/
structure PeerConfig where
  PublicKey : wgtypes.Key
  PersistentKeepaliveInterval : Option Nat
  AllowedIPs : List IPNet
  Endpoint : Option UDPAddr
deriving DecidableEq, Repr

/-- The fields of the second `wgtypes.Config` that `Start` of `device_linux.go`
passes to `ConfigureDevice`. -/
structure PeersConfig where
  ReplacePeers : Bool
  Peers : List PeerConfig
deriving DecidableEq, Repr

/-- The peer part of `Start` in `device_linux.go`: the `wgtypes.Config` of the
second call of `ConfigureDevice`. -/
def peersConfigLinux (config : WireguardDeviceConfig) : PeersConfig :=
  let allowedIPs : List IPNet :=
    config.Peer.AllowedIPs.map (fun ip =>
      { IP := AsSlice ip.Addr, Mask := CIDRMask ip.Bits (ip.Addr.BitLen : Int) })
  let endpoint : Option UDPAddr :=
    if config.Peer.Endpoint.IsValid then some (UDPAddrFromAddrPort config.Peer.Endpoint) else none
  let peer : PeerConfig :=
    { PublicKey := config.Peer.PublicKey
      PersistentKeepaliveInterval := some PersistentKeepaliveInterval
      AllowedIPs := allowedIPs
      Endpoint := endpoint }
  { ReplacePeers := true, Peers := [peer] }

/-- `hex.EncodeToString`: two lower-case hexadecimal digits for each byte. -/
def hexEncodeToString (bytes : List Nat) : String :=
  String.mk (bytes.flatMap (fun v => [netip.digit (v / 16 % 16), netip.digit (v % 16)]))

/-- The peer part of `Start` in `device_darwin.go`: the lines written to
`replacePeerConfig`, each without its final newline, as key and value. -/
def replacePeerLines (config : WireguardDeviceConfig) : List (String × String) :=
  [("replace_peers", "true"), ("public_key", hexEncodeToString config.Peer.PublicKey.bytes)]
    ++ (if config.Peer.Endpoint.IsValid then
          [ ("endpoint", config.Peer.Endpoint.String),
            ("persistent_keepalive_interval", toString PersistentKeepaliveInterval) ]
        else [])
    ++ config.Peer.AllowedIPs.map (fun ip => ("allowed_ip", ip.String))

/-- The text of `replacePeerConfig` that `Start` in `device_darwin.go` passes to
`IpcSet`. -/
def replacePeerConfig (config : WireguardDeviceConfig) : String :=
  String.join ((replacePeerLines config).map (fun kv => kv.1 ++ "=" ++ kv.2 ++ "\n"))

end wg

namespace routing

/-- The `routing` struct. -/
structure routing where
  deviceName : String
  routes : List netip.Prefix
  dnsServer : netip.Addr
deriving DecidableEq, Repr

/-- `NewRouting`. -/
def NewRouting (deviceName : String) (dnsServer : netip.Addr) (routes : List netip.Prefix) :
    routing :=
  { deviceName := deviceName, dnsServer := dnsServer, routes := routes }

end routing

/-! ## `pkg/proxy/proxy.go` -/

namespace proxy

open runnable

/-- What `Run` obtains from outside: the public key of a private key
(`Key.PublicKey`), the result of `wireguardDevice.Start` (the device name it
ends with, or the text of its error), the error of `routing.Start` if any,
and the cluster the Kubernetes agent talks to. -/
structure RunEnv where
  publicKey : wgtypes.Key → wgtypes.Key
  deviceStart : wg.WireguardDeviceConfig → Except String String
  routerStart : routing.routing → Option String
  cluster : agent.Cluster

/-- The state `Run` and its setup steps work on: the config behind the `cfg`
pointer, the package variable `stopFuncs`, and the device and routing that
were started. -/
structure RunState where
  cfg : config.Config
  stopFuncs : List StopFunc
  devices : List wg.WireguardDeviceConfig
  routers : List routing.routing
deriving DecidableEq, Repr

/-- `wireguardDeviceSetup`. -/
def wireguardDeviceSetup (env : RunEnv) (st : RunState) (agentAddress : netip.AddrPort) :
    RunState × Option Error :=
  let cfg := st.cfg
  let listenPort : Int :=
    if cfg.Wireguard.LocalAddress.IsValid then (cfg.Wireguard.LocalAddress.port : Int) else 0
  let deviceConfig : wg.WireguardDeviceConfig :=
    { Peer :=
        { Endpoint := agentAddress
          PublicKey := env.publicKey cfg.Wireguard.AgentKey.Key
          AllowedIPs := cfg.Wireguard.AllowedIPs }
      PrivateKey := cfg.Wireguard.LocalKey.Key
      ListenPort := listenPort
      Address := cfg.Wireguard.LocalOverlayAddress }
  match env.deviceStart deviceConfig with
  | Except.error cause => (st, some (Error.passed cause))
  | Except.ok deviceName =>
    let st1 : RunState :=
      { st with stopFuncs := st.stopFuncs ++ [StopFunc.wgStop], devices := st.devices ++ [deviceConfig] }
    let router := routing.NewRouting deviceName cfg.KubernetesClusterDetails.ServiceIP
      [ cfg.KubernetesClusterDetails.PodCIDR, cfg.KubernetesClusterDetails.ServiceCIDR,
        cfg.KubernetesClusterDetails.NodeCIDR,
        netip.PrefixFrom cfg.Wireguard.AgentOverlayAddress 32 ]
    match env.routerStart router with
    | some cause => (st1, some (Error.passed cause))
    | none =>
      ({ st1 with stopFuncs := st1.stopFuncs ++ [StopFunc.routerStop], routers := st1.routers ++ [router] },
        none)

/-- `kubernetesSetup`: the agent's `Start` works on the config behind `cfg`. -/
def kubernetesSetup (env : RunEnv) (st : RunState) : RunState × netip.AddrPort × Option Error :=
  let kubernetesAgent := agent.NewKubernetesAgent st.cfg
  let out := kubernetesAgent.Start env.cluster
  let st1 : RunState := { st with cfg := out.agent.config }
  match out.err with
  | some err => (st1, netip.AddrPort.zero, some err)
  | none =>
    ({ st1 with stopFuncs := st1.stopFuncs ++ [StopFunc.agentStop] }, out.agent.agentAddress, none)

/-- The deferred function of `Run`: the `range` loop over `stopFuncs` calls each
stop function; the result is the calls in the order they are made. -/
def runStopFuncs (stopFuncs : List StopFunc) : List StopFunc :=
  stopFuncs.foldl (fun called stop => called ++ [stop]) []

/-- The result of `Run`: the state it leaves, the stop functions its deferred
function called, in order, and the error returned. -/
structure RunResult where
  state : RunState
  stopped : List StopFunc
  err : Option Error
deriving DecidableEq, Repr

/-- The body of `Run` before the deferred function runs; on success it has
waited for the signal. -/
def runBody (env : RunEnv) (st : RunState) : RunState × Option Error :=
  if st.cfg.Wireguard.LocalAddress.IsValid then
    match wireguardDeviceSetup env st netip.AddrPort.zero with
    | (st1, some err) => (st1, some err)
    | (st1, none) =>
      match kubernetesSetup env st1 with
      | (st2, _, some err) => (st2, some err)
      | (st2, _, none) => (st2, none)
  else
    match kubernetesSetup env st with
    | (st1, _, some err) => (st1, some err)
    | (st1, agentAddress, none) =>
      match wireguardDeviceSetup env st1 agentAddress with
      | (st2, some err) => (st2, some err)
      | (st2, none) => (st2, none)

/-- `Run`, started with `cfg` and with the package variable `stopFuncs` as it
is then. -/
def Run (env : RunEnv) (cfg : config.Config) (stopFuncs : List StopFunc) : RunResult :=
  let r := runBody env { cfg := cfg, stopFuncs := stopFuncs, devices := [], routers := [] }
  { state := r.1, stopped := runStopFuncs r.1.stopFuncs, err := r.2 }

/-- The `wg.WireguardDeviceConfig` literal of `wireguardDeviceSetup`, for the
config behind `cfg` and the agent address passed. -/
def workstationDevice (env : RunEnv) (cfg : config.Config) (agentAddress : netip.AddrPort) :
    wg.WireguardDeviceConfig :=
  { Peer :=
      { Endpoint := agentAddress
        PublicKey := env.publicKey cfg.Wireguard.AgentKey.Key
        AllowedIPs := cfg.Wireguard.AllowedIPs }
    PrivateKey := cfg.Wireguard.LocalKey.Key
    ListenPort :=
      if cfg.Wireguard.LocalAddress.IsValid then (cfg.Wireguard.LocalAddress.port : Int) else 0
    Address := cfg.Wireguard.LocalOverlayAddress }

/-- The routes `wireguardDeviceSetup` passes to `routing.NewRouting`. -/
def workstationRoutes (cfg : config.Config) : List netip.Prefix :=
  [ cfg.KubernetesClusterDetails.PodCIDR, cfg.KubernetesClusterDetails.ServiceCIDR,
    cfg.KubernetesClusterDetails.NodeCIDR,
    netip.PrefixFrom cfg.Wireguard.AgentOverlayAddress 32 ]

end proxy

/-! ## `pkg/agent/agent.go` -/

namespace agent

open runnable

/-- The `iptablesManager` interface over a state `σ` of the rule tables, each
method returning the state it leaves and the text of its error, if any.
`ChainExists`, which `updateIPTablesRules` never calls, is left out. -/
structure iptablesManager (σ : Type) where
  AppendUnique : σ → String → String → List String → σ × Option String
  InsertUnique : σ → String → String → Int → List String → σ × Option String

/-- `updateIPTablesRules`; `defaultInterface` is the result of the function
variable of that name, `tables` the state of the rule tables before the
call. -/
def updateIPTablesRules {σ : Type} (cfg : config.Wireguard) (ipt : iptablesManager σ) (tables : σ)
    (wireguardDeviceName : String) (istioEnabled : Bool) (proxyExcludedPorts : List String)
    (defaultInterface : Except String (String × netip.Addr)) : σ × Option Error :=
  match defaultInterface with
  | Except.error cause => (tables, some (Error.defaultDevice cause))
  | Except.ok (deviceName, deviceAddr) =>
    match ipt.AppendUnique tables "nat" "POSTROUTING"
        ["-p", "udp", "-o", deviceName, "-j", "MASQUERADE"] with
    | (tables1, some cause) => (tables1, some (Error.iptablesRule cause))
    | (tables1, none) =>
      let defaultIfaceRulespec := ["-p", "tcp", "-i", deviceName]
      let defaultIfaceRulespec :=
        if proxyExcludedPorts.length > 0 then
          defaultIfaceRulespec ++
            ["-m", "multiport", "!", "--dports", String.intercalate "," proxyExcludedPorts]
        else defaultIfaceRulespec
      let defaultIfaceRulespec :=
        defaultIfaceRulespec ++ ["-j", "DNAT", "--to-destination", cfg.LocalOverlayAddress.String]
      match ipt.AppendUnique tables1 "nat" "PREROUTING" defaultIfaceRulespec with
      | (tables2, some cause) => (tables2, some (Error.iptablesRule cause))
      | (tables2, none) =>
        if istioEnabled then
          match ipt.InsertUnique tables2 "nat" "PREROUTING" 1
              ["-p", "tcp", "-i", wireguardDeviceName, "-j", "DNAT", "--to-destination",
                "127.0.0.6:15001"] with
          | (tables3, some cause) => (tables3, some (Error.iptablesRule cause))
          | (tables3, none) => (tables3, none)
        else
          match ipt.AppendUnique tables2 "nat" "PREROUTING"
              ["-p", "tcp", "-i", wireguardDeviceName, "--destination", deviceAddr.String, "-j",
                "DNAT", "--to-destination", cfg.LocalOverlayAddress.String] with
          | (tables3, some cause) => (tables3, some (Error.iptablesRule cause))
          | (tables3, none) =>
            match ipt.AppendUnique tables3 "nat" "POSTROUTING"
                ["-p", "tcp", "-o", deviceName, "-j", "MASQUERADE"] with
            | (tables4, some cause) => (tables4, some (Error.iptablesRule cause))
            | (tables4, none) => (tables4, none)

/-- A call of a method of `iptablesManager`. -/
inductive Call where
  | AppendUnique (table chain : String) (rulespec : List String)
  | InsertUnique (table chain : String) (pos : Int) (rulespec : List String)
deriving DecidableEq, Repr

/-- The manager that records the calls made to it, in order, and never fails. -/
def recorder : iptablesManager (List Call) :=
  { AppendUnique := fun calls table chain rulespec =>
      (calls ++ [Call.AppendUnique table chain rulespec], none)
    InsertUnique := fun calls table chain pos rulespec =>
      (calls ++ [Call.InsertUnique table chain pos rulespec], none) }

/-- Rule tables: the rules of each chain of each table, in order. -/
abbrev Tables := String → String → List (List String)

/-- The table in which no chain has a rule. -/
def Tables.empty : Tables := fun _ _ => []

/-- The rule tables with the rules of one chain replaced. -/
def Tables.setChain (t : Tables) (table chain : String) (rules : List (List String)) : Tables :=
  fun table1 chain1 => if table1 = table ∧ chain1 = chain then rules else t table1 chain1

/-- A chain after `AppendUnique`: unchanged when it holds the rule, else with the
rule at its end. -/
def Tables.appendUnique (t : Tables) (table chain : String) (rulespec : List String) : Tables :=
  if rulespec ∈ t table chain then t
  else t.setChain table chain (t table chain ++ [rulespec])

/-- A chain after `InsertUnique` at a position `pos` of the chain, counted from
1: unchanged when it holds the rule, else with the rule at that position. -/
def Tables.insertUnique (t : Tables) (table chain : String) (pos : Nat) (rulespec : List String) :
    Tables :=
  if rulespec ∈ t table chain then t
  else
    t.setChain table chain
      ((t table chain).take (pos - 1) ++ rulespec :: (t table chain).drop (pos - 1))

/-- The rule tables as the `iptables` client drives them: `AppendUnique` and
`InsertUnique` do nothing when the chain already holds the rule; otherwise
`AppendUnique` adds it at the end and `InsertUnique` puts it at position
`pos`, counted from 1, which is an error when `pos` is less than 1 or more
than the length of the chain plus 1. -/
def iptables : iptablesManager Tables :=
  { AppendUnique := fun t table chain rulespec => (t.appendUnique table chain rulespec, none)
    InsertUnique := fun t table chain pos rulespec =>
      if rulespec ∉ t table chain ∧ (pos < 1 ∨ pos > (t table chain).length + 1) then
        (t, some "Index of insertion too big")
      else (t.insertUnique table chain pos.toNat rulespec, none) }

/-- The rules of `fakeIptables` in `agent_test.go`: a map from table to a map
from chain to rules, each rule the words of its rulespec joined by blanks;
`none` is a table the outer map has no entry for. -/
abbrev FakeRules := String → Option (String → List String)

/-- `fakeIptables` of `agent_test.go`: `AppendUnique` appends whether or not the
rule is there; `InsertUnique` is `slices.Insert` at index `pos`, which panics
when `pos` is not an index, and the assignment panics when the table has no
entry. -/
def fakeIptables : iptablesManager FakeRules :=
  { AppendUnique := fun rules table chain rulespec =>
      let t : String → List String := (rules table).getD (fun _ => [])
      let t1 : String → List String := fun chain1 =>
        if chain1 = chain then t chain ++ [String.intercalate " " rulespec] else t chain1
      (fun table1 => if table1 = table then some t1 else rules table1, none)
    InsertUnique := fun rules table chain pos rulespec =>
      let old : List String := ((rules table).map (fun t => t chain)).getD []
      if pos < 0 ∨ pos > old.length then (rules, some "panic: index out of range")
      else
        match rules table with
        | none => (rules, some "panic: assignment to entry in nil map")
        | some t =>
          let t1 : String → List String := fun chain1 =>
            if chain1 = chain then
              old.take pos.toNat ++ String.intercalate " " rulespec :: old.drop pos.toNat
            else t chain1
          (fun table1 => if table1 = table then some t1 else rules table1, none) }

/-- What `Run` obtains from outside: the NAT lookup, the error of `os.WriteFile`
on a path and contents, the public key of a private key, the result of
`wireguardDevice.Start` (the device name it ends with), the errors of
`routing.Start` and `iptables.New` if any, and the result of the function
variable `defaultInterface`. -/
structure RunEnv where
  findLocalAddressAndPort : Except String (String × Int)
  writeFile : String → String → Option String
  publicKey : wgtypes.Key → wgtypes.Key
  deviceStart : wg.WireguardDeviceConfig → Except String String
  routerStart : routing.routing → Option String
  iptablesNew : Option String
  defaultInterface : Except String (String × netip.Addr)

def ContainerAddressPath : String := "/app/address"

/-- The result of `Run`: the rule tables it leaves, the calls of
`updateIPTablesRules` it made (device name, `istioEnabled`,
`proxyExcludedPorts`), the device configs and routings it started, the files
it wrote, the deferred stop functions it called, in order, and the error
returned. -/
structure RunResult (σ : Type) where
  tables : σ
  ruleCalls : List (String × Bool × List String)
  devices : List wg.WireguardDeviceConfig
  routers : List routing.routing
  files : List (String × String)
  stopped : List StopFunc
  err : Option Error

/-- `Run` of `agent.go`, with the rule tables driven through `ipt`; on success
it has waited for the signal. -/
def Run {σ : Type} (env : RunEnv) (ipt : iptablesManager σ) (tables : σ) (cfg : config.Wireguard)
    (istioEnabled : Bool) (proxyExcludedPorts : List String) : RunResult σ :=
  let nat : Except Error (Int × List (String × String)) :=
    if cfg.DirectAccess then
      match env.findLocalAddressAndPort with
      | Except.error cause => Except.error (Error.natLookup cause)
      | Except.ok (localHost, localPort) =>
        let localAddress := localHost ++ ":" ++ FormatInt localPort
        match env.writeFile ContainerAddressPath localAddress with
        | some cause => Except.error (Error.passed cause)
        | none => Except.ok (localPort, [(ContainerAddressPath, localAddress)])
    else if cfg.LocalAddress.IsValid then Except.ok (-1, [])
    else Except.ok (0, [])
  match nat with
  | Except.error err => ⟨tables, [], [], [], [], [], some err⟩
  | Except.ok (listenPort, files) =>
    let deviceConfig : wg.WireguardDeviceConfig :=
      { Peer :=
          { Endpoint := cfg.LocalAddress
            PublicKey := env.publicKey cfg.LocalKey.Key
            AllowedIPs := cfg.AllowedIPs }
        PrivateKey := cfg.AgentKey.Key
        ListenPort := listenPort
        Address := cfg.AgentOverlayAddress }
    match env.deviceStart deviceConfig with
    | Except.error cause => ⟨tables, [], [], [], files, [], some (Error.passed cause)⟩
    | Except.ok deviceName =>
      let router := routing.NewRouting deviceName netip.Addr.zero
        [netip.PrefixFrom cfg.LocalOverlayAddress 32]
      match env.routerStart router with
      | some cause =>
        ⟨tables, [], [deviceConfig], [], files, [StopFunc.wgStop], some (Error.passed cause)⟩
      | none =>
        match env.iptablesNew with
        | some cause =>
          ⟨tables, [], [deviceConfig], [router], files, [StopFunc.routerStop, StopFunc.wgStop],
            some (Error.iptablesInit cause)⟩
        | none =>
          let r := updateIPTablesRules cfg ipt tables deviceName istioEnabled proxyExcludedPorts
            env.defaultInterface
          ⟨r.1, [(deviceName, istioEnabled, proxyExcludedPorts)], [deviceConfig], [router], files,
            [StopFunc.routerStop, StopFunc.wgStop], r.2⟩

end agent

/-! ## `cmd/agent.go` -/

namespace cmd

/-- The pieces of a text between the occurrences of `sep`. -/
def splitChars (sep : Char) : List Char → List (List Char)
  | [] => [[]]
  | c :: cs =>
    if c = sep then [] :: splitChars sep cs
    else
      match splitChars sep cs with
      | [] => [[c]]
      | piece :: pieces => (c :: piece) :: pieces

/-- `strings.Split(s, sep)` for a separator of one character. -/
def Split (s : String) (sep : Char) : List String :=
  (splitChars sep s.toList).map String.mk

/-- The arguments the `agent` command passes to `agent.Run` after the config:
`istioEnabled` and `proxyExcludedPorts`, from the values of the environment
variables `LOCAL_PORTS_EXCLUDE_PROXY` and `ISTIO_INTERCEPTION_MODE`. -/
def agentArguments (localPortsExcludeProxy istioInterceptMode : String) : Bool × List String :=
  let proxyExcludedPorts : List String :=
    if localPortsExcludeProxy ≠ "" then Split localPortsExcludeProxy ',' else []
  let istioEnabled : Bool := istioInterceptMode ≠ ""
  let proxyExcludedPorts :=
    if istioEnabled then proxyExcludedPorts ++ ["15020", "15021"] else proxyExcludedPorts
  (istioEnabled, proxyExcludedPorts)

/-- `RunE` of the `agent` command: `configFile` is the config that reading and
unmarshalling the file gives, or the text of the error; `getenv` is
`os.Getenv`. -/
def agentCommand {σ : Type} (env : agent.RunEnv) (ipt : agent.iptablesManager σ) (tables : σ)
    (configFile : Except String config.Wireguard) (getenv : String → String) :
    agent.RunResult σ :=
  match configFile with
  | Except.error cause => ⟨tables, [], [], [], [], [], some (Error.configFile cause)⟩
  | Except.ok cfg =>
    let args := agentArguments (getenv "LOCAL_PORTS_EXCLUDE_PROXY") (getenv "ISTIO_INTERCEPTION_MODE")
    agent.Run env ipt tables cfg args.1 args.2

end cmd

/-! ## `pkg/agent/kubernetes.go`: the address poll of `waitForPod` -/

namespace agent

/-- What one run of the condition function of the address poll of `waitForPod`
ends with: `done` with the address assigned to `address` (the closure
returns `true, nil`), `retry` (it returns `false, nil`), or a run-time
panic. -/
inductive PollOutcome where
  | done (address : netip.AddrPort)
  | retry
  | panic (what : String)
deriving DecidableEq, Repr

/-- The condition function that `waitForPod` passes to
`wait.PollUntilContextCancel`: `fileContents` is what
`kuberneteshelpers.FileContents` returns, the contents or the text of the
error. With an empty first line `err` is `nil` and `err.Error()`, an argument
of the log call, is evaluated. -/
def pollAddress (fileContents : Except String String) : PollOutcome :=
  match fileContents with
  | Except.error _ => PollOutcome.retry
  | Except.ok contents =>
    let podAddress := (cmd.Split contents '\n').headD ""
    if podAddress = "" then PollOutcome.panic "nil pointer dereference"
    else
      match netip.ParseAddrPort podAddress with
      | none => PollOutcome.retry
      | some address => PollOutcome.done address

end agent

/-! ## `pkg/kuberneteshelpers/cluster.go` -/

namespace kuberneteshelpers

/-- The fields of a `corev1.Pod` that `Resolve` reads. -/
structure Pod where
  HostNetwork : Bool
  PodIP : String
deriving DecidableEq, Repr

/-- `corev1.NodeAddress`; `AddressType` is its field `Type`. -/
structure NodeAddress where
  AddressType : String
  Address : String
deriving DecidableEq, Repr

/-- The fields of a `corev1.Node` that `Resolve` reads. -/
structure Node where
  Addresses : List NodeAddress
deriving DecidableEq, Repr

/-- `corev1.NodeInternalIP`. -/
def NodeInternalIP : String := "InternalIP"

/-- The answers of the cluster API to the three requests of `Resolve`: the pods
of a namespace, the cluster address of a service of a namespace, and the
nodes; an error is its text. -/
structure Client where
  listPods : String → Except String (List Pod)
  getServiceClusterIP : String → String → Except String String
  listNodes : Except String (List Node)

/-- The closure of `Resolve` that finds the pod address: the address of the
first pod that is not on the host network, has a pod address, and whose
address `netip.ParseAddr` accepts. -/
def findPodAddr : List Pod → Except String netip.Addr
  | [] => Except.error "unable to find any pods"
  | p :: rest =>
    if p.HostNetwork || p.PodIP == "" then findPodAddr rest
    else
      match netip.ParseAddr p.PodIP with
      | none => findPodAddr rest
      | some addr => Except.ok addr

/-- The inner loop of the closure of `Resolve` that finds the node prefix, over
the addresses of one node: `none` when the loop ends without a `return`. -/
def findNodeAddress : List NodeAddress → Option (Option netip.Prefix)
  | [] => none
  | address :: rest =>
    if address.AddressType == NodeInternalIP then
      match netip.ParseAddr address.Address with
      | none => findNodeAddress rest
      | some nodeAddr => some (nodeAddr.Prefix 16)
    else findNodeAddress rest

/-- The closure of `Resolve` that finds the node prefix; the inner `none` is
the error of `Prefix(16)`. -/
def findNodeCIDR : List Node → Except String (Option netip.Prefix)
  | [] => Except.error "no valid InternalIP node addresses found"
  | node :: rest =>
    match findNodeAddress node.Addresses with
    | some r => Except.ok r
    | none => findNodeCIDR rest

/-- `ClusterDetails.Resolve`: the details returned, the zero value with an
error, and the error (`none` for `nil`). -/
def ClusterDetails.Resolve (c : ClusterDetails) (client : Client) (ns : String) :
    ClusterDetails × Option Error :=
  match client.listPods ns with
  | Except.error cause => (ClusterDetails.zero, some (Error.listPods cause))
  | Except.ok pods =>
    let podResult : Except Error netip.Prefix :=
      if !c.PodCIDR.IsValid then
        match findPodAddr pods with
        | Except.error cause => Except.error (Error.podCIDR cause)
        | Except.ok podAddr =>
          match podAddr.Prefix 16 with
          | none => Except.error (Error.podCIDR "prefix length out of range")
          | some p => Except.ok p
      else Except.ok c.PodCIDR
    match podResult with
    | Except.error err => (ClusterDetails.zero, some err)
    | Except.ok podCIDR =>
      match client.getServiceClusterIP "kube-system" "kube-dns" with
      | Except.error cause => (ClusterDetails.zero, some (Error.dnsService cause))
      | Except.ok clusterIP =>
        match netip.ParseAddr clusterIP with
        | none => (ClusterDetails.zero, some (Error.serviceCIDR clusterIP))
        | some serviceAddr =>
          let serviceResult : Except Error netip.Prefix :=
            if !c.ServiceCIDR.IsValid then
              match serviceAddr.Prefix 16 with
              | none => Except.error (Error.serviceCIDR "prefix length out of range")
              | some p => Except.ok p
            else Except.ok c.ServiceCIDR
          match serviceResult with
          | Except.error err => (ClusterDetails.zero, some err)
          | Except.ok serviceCIDR =>
            let nodeResult : Except Error netip.Prefix :=
              if !c.NodeCIDR.IsValid then
                match client.listNodes with
                | Except.error cause => Except.error (Error.listNodes cause)
                | Except.ok nodes =>
                  if nodes.length < 1 then Except.error Error.noNodes
                  else
                    match findNodeCIDR nodes with
                    | Except.error cause => Except.error (Error.nodeCIDR cause)
                    | Except.ok none => Except.error (Error.nodeCIDR "prefix length out of range")
                    | Except.ok (some p) => Except.ok p
              else Except.ok c.NodeCIDR
            match nodeResult with
            | Except.error err => (ClusterDetails.zero, some err)
            | Except.ok nodeCIDR =>
              ({ ServiceIP := serviceAddr
                 ServiceCIDR := serviceCIDR
                 PodCIDR := podCIDR
                 NodeCIDR := nodeCIDR }, none)

/-- The cluster of `TestGetClusterDetails` with the given pods: the service
`kube-dns` at `172.0.0.1` and the node `node-1`. -/
def testClient (pods : List Pod) : Client :=
  { listPods := fun _ => Except.ok pods
    getServiceClusterIP := fun ns name =>
      if ns = "kube-system" ∧ name = "kube-dns" then Except.ok "172.0.0.1"
      else Except.error "not found"
    listNodes := Except.ok
      [{ Addresses := [⟨"ExternalIP", "34.123.34.12"⟩, ⟨"InternalIP", "10.0.0.1"⟩] }] }

/-- The fake clientset of `TestGetClusterDetails` over the objects of a test:
the pods of the namespace, the cluster address of the service `kube-dns` of
`kube-system` when the service is among the objects, and the nodes. -/
def fakeClient (pods : List Pod) (kubeDNS : Option String) (nodes : List Node) : Client :=
  { listPods := fun _ => Except.ok pods
    getServiceClusterIP := fun ns name =>
      if ns = "kube-system" ∧ name = "kube-dns" then
        match kubeDNS with
        | some clusterIP => Except.ok clusterIP
        | none => Except.error "not found"
      else Except.error "not found"
    listNodes := Except.ok nodes }

/-- The pod `validPod` of `TestGetClusterDetails`. -/
def validPod : Pod := ⟨false, "100.64.0.1"⟩

/-- The node `validNode` of `TestGetClusterDetails`. -/
def validNode : Node :=
  { Addresses := [⟨"ExternalIP", "34.123.34.12"⟩, ⟨"InternalIP", "10.0.0.1"⟩] }

/-- The input of the test "prefilled CIDRs". -/
def prefilledDetails : ClusterDetails :=
  { ServiceIP := netip.Addr.zero
    PodCIDR := netip.MustParsePrefix "100.64.0.0/24"
    ServiceCIDR := netip.MustParsePrefix "172.0.0.0/12"
    NodeCIDR := netip.MustParsePrefix "10.0.0.0/12" }

end kuberneteshelpers

/-! ## Fixtures of the tests -/

namespace agent

open corev1

/-- The collaborators as `testAgent` of `kubernetes_test.go` sets them: the
revision `1-2-3-4`, a cluster API that accepts every request, the pod wait
that returns `4.5.6.7:19017`, and the load balancer wait that returns the
hostname `example.com`, here resolved to `93.184.216.34`. -/
def testCluster : Cluster :=
  { newRevision := "1-2-3-4"
    respond := fun _ => none
    waitForPod := fun _ _ _ => Except.ok (netip.AddrPortFrom (netip.MustParseAddr "4.5.6.7") 19017)
    waitForLoadBalancerReady := fun _ _ => Except.ok [{ Hostname := "example.com", IP := "" }]
    lookupIP := fun _ => some (netip.MustParseAddr "93.184.216.34") }

/-- The Deployment of the test "deployment with multiple containers". -/
def testDeployment : appsv1.Deployment :=
  { Name := "test-object"
    Namespace := "test-namespace"
    Replicas := some 3
    MatchLabels := [("app.kubernetes.io/name", "test-object")]
    Template :=
      { Annotations := [(DefaultContainerAnnotationName, "test-container")]
        Labels := []
        Spec := multiContainerPodSpec } }

/-- The config as `testAgent` fills it in for a target object. -/
def testConfig (obj : TargetObject) : config.Config :=
  { config.NewConfig with
    TargetObject := obj
    Namespace := "test-namespace"
    AgentImage := "agent-image" }

/-- The pod spec of the test "deployment with existing volume". -/
def existingVolumePodSpec : PodSpec :=
  { Containers := [{ containerNamed "test-container" with Image := "test-image" }]
    Volumes :=
      [{ Name := WireguardConfigVolumeName
         Secret := some { SecretName := "different-secret-name", Optional := some true }
         HostPath := none }]
    HostNetwork := false }

/-- The config of `Test_updateIPTablesRules`. -/
def testWireguard : config.Wireguard :=
  { config.Wireguard.zero with LocalOverlayAddress := netip.MustParseAddr "10.1.0.1" }

/-- The `defaultInterface` of `Test_updateIPTablesRules`. -/
def testDefaultInterface : Except String (String × netip.Addr) :=
  Except.ok ("eth0", netip.AddrFrom4 100 34 56 10)

/-- An environment of `Run` in which every step succeeds, with the
`defaultInterface` of `Test_updateIPTablesRules`. -/
def testRunEnv : RunEnv :=
  { findLocalAddressAndPort := Except.ok ("1.2.3.4", 9080)
    writeFile := fun _ _ => none
    publicKey := fun k => k
    deviceStart := fun _ => Except.ok "wg0"
    routerStart := fun _ => none
    iptablesNew := none
    defaultInterface := testDefaultInterface }

/-- The config of the test "deployment with direct". -/
def directConfig : config.Config :=
  { testConfig (TargetObject.deployment testDeployment) with
    Wireguard := { config.Wireguard.zero with DirectAccess := true } }

/-- The config of the test "deployment with local address". -/
def localAddressConfig : config.Config :=
  { testConfig (TargetObject.deployment testDeployment) with
    Wireguard :=
      { config.Wireguard.zero with
        LocalAddress := netip.AddrPortFrom (netip.MustParseAddr "7.6.5.4") 33010 } }

end agent

namespace proxy

/-- An environment of `Run` in which the device and the routing start, with the
cluster of `testAgent`. -/
def testRunEnv : RunEnv :=
  { publicKey := fun k => k
    deviceStart := fun _ => Except.ok "wg0"
    routerStart := fun _ => none
    cluster := agent.testCluster }

/-- The config `ResolveWireguardConfig` leaves for the Deployment of the agent
tests in the environment of `TestResolveWireguardConfig`, called with
`directAccess = true`. -/
def directProxyConfig : config.Config :=
  (ResolveWireguardConfig (testEnv validClusterDetails)
    (agent.testConfig (TargetObject.deployment agent.testDeployment)) "" true).1

/-- The config of `directProxyConfig` with `netip.AddrPortFrom(netip.Addr{}, 5)`
as its local address: the zero address with a port. -/
def portOnlyConfig : config.Wireguard :=
  { directProxyConfig.Wireguard with LocalAddress := ⟨netip.Addr.zero, 5⟩ }

/-- The config of `directProxyConfig` without a local address. -/
def noAddressConfig : config.Wireguard :=
  { directProxyConfig.Wireguard with LocalAddress := netip.AddrPort.zero }

end proxy

/-! ## Lemmas: containment and overlap of prefixes -/

namespace netip

/-- Masking with `mask6` clears the low bits: for a 128-bit value the result
is the value rounded down to a multiple of `2 ^ (128 - n)`. -/
theorem and_mask6 (v n : Nat) (hv : v < 2 ^ 128) (hn : n ≤ 128) :
    v &&& mask6 n = v / 2 ^ (128 - n) * 2 ^ (128 - n) := by
  apply Nat.eq_of_testBit_eq
  intro j
  have hm : mask6 n = (2 ^ n - 1) <<< (128 - n) := by
    unfold mask6
    rw [Nat.shiftLeft_eq, Nat.sub_mul, one_mul, ← pow_add]
    congr 2
    omega
  rw [Nat.testBit_and, hm, Nat.testBit_shiftLeft, Nat.testBit_two_pow_sub_one,
    ← Nat.shiftLeft_eq, ← Nat.shiftRight_eq_div_pow, Nat.testBit_shiftLeft, Nat.testBit_shiftRight]
  by_cases hj : 128 - n ≤ j
  · have e : 128 - n + (j - (128 - n)) = j := by omega
    simp only [ge_iff_le, hj, decide_True, Bool.true_and, e]
    by_cases hj2 : j - (128 - n) < n
    · simp [hj2]
    · have : 128 ≤ j := by omega
      have hvj : v.testBit j = false :=
        Nat.testBit_lt_two_pow (lt_of_lt_of_le hv (Nat.pow_le_pow_right (by norm_num) this))
      simp [hj2, hvj]
  · simp [hj]

/-- Two values have the same quotient by `2 ^ k` exactly when the xor of them
vanishes after a shift by `k`. -/
theorem xor_shift_eq_zero (x y k : Nat) : (x ^^^ y) >>> k = 0 ↔ x / 2 ^ k = y / 2 ^ k := by
  have h : (x ^^^ y) >>> k = (x >>> k) ^^^ (y >>> k) := by
    apply Nat.eq_of_testBit_eq; intro j; simp
  rw [h, Nat.xor_eq_zero, Nat.shiftRight_eq_div_pow, Nat.shiftRight_eq_div_pow]

/-- Agreement on the quotient by `2 ^ k` is kept by any larger exponent. -/
theorem div_pow_mono (x y k l : Nat) (hkl : k ≤ l) (h : x / 2 ^ k = y / 2 ^ k) :
    x / 2 ^ l = y / 2 ^ l := by
  obtain ⟨d, rfl⟩ := Nat.exists_eq_add_of_le hkl
  rw [pow_add, ← Nat.div_div_eq_div_mul, ← Nat.div_div_eq_div_mul, h]

/-- The xor of two IPv4 addresses, as stored, fits 32 bits. -/
theorem xor_v4_lt (a p : Nat) (ha1 : 0xffff00000000 ≤ a) (ha2 : a < 0xffff00000000 + 2 ^ 32)
    (hp1 : 0xffff00000000 ≤ p) (hp2 : p < 0xffff00000000 + 2 ^ 32) : a ^^^ p < 2 ^ 32 := by
  obtain ⟨x, rfl⟩ := Nat.exists_eq_add_of_le ha1
  obtain ⟨y, rfl⟩ := Nat.exists_eq_add_of_le hp1
  have hx : x < 2 ^ 32 := by omega
  have hy : y < 2 ^ 32 := by omega
  have e : ∀ z, z < 2 ^ 32 → 0xffff00000000 + z = 2 ^ 32 * 0xffff + z := by intro z _; norm_num
  rw [e x hx, e y hy]
  apply Nat.lt_pow_two_of_testBit
  intro i hi
  rw [Nat.testBit_xor, Nat.testBit_mul_pow_two_add _ hx, Nat.testBit_mul_pow_two_add _ hy]
  have : ¬ i < 32 := by omega
  simp [this]

theorem bits_toNat (p : Prefix) : p.Bits.toNat = p.bitsPlusOne - 1 := by
  unfold Prefix.Bits; omega

/-- `Prefix.Contains` on well-formed values: the address has the family of the
prefix, no zone, and the same network bits. -/
theorem contains_iff (p : Prefix) (a : Addr) (hp : p.WF = true) (ha : a.WF = true) :
    p.Contains a = true ↔
      p.IsValid = true ∧ a.hasZone = false ∧ a.BitLen = p.ip.BitLen ∧
      a.addr / 2 ^ (p.ip.BitLen - p.Bits.toNat) = p.ip.addr / 2 ^ (p.ip.BitLen - p.Bits.toNat) := by
  obtain ⟨⟨pa, pz⟩, pb⟩ := p
  obtain ⟨aa, az⟩ := a
  simp only [Prefix.Contains, Prefix.IsValid, Addr.hasZone, Addr.BitLen, Addr.Is4, bits_toNat]
  by_cases hv : pb > 0
  swap
  · simp [hv]
  have hb : pb ≠ 0 := by omega
  cases pz with
  | z0 => simp [Prefix.WF, Addr.IsValid, hb] at hp
  | z4 =>
    cases az with
    | z0 => simp [hv]
    | z6 zone => simp [hv]
    | z4 =>
      simp only [Prefix.WF, Addr.WF, Addr.hasZone, Addr.IsValid, Addr.BitLen, Bool.and_eq_true,
        Bool.or_eq_true, decide_eq_true_eq, beq_iff_eq, bne_iff_ne, Bool.not_eq_true', hb, false_or,
        ne_eq, not_false_eq_true, true_and, reduceCtorEq, and_true] at hp ha
      obtain ⟨⟨hp1, hp2⟩, hp3⟩ := hp
      obtain ⟨ha1, ha2⟩ := ha
      have hx := xor_v4_lt aa pa ha1 ha2 hp1 hp2
      have e1 : aa % 2 ^ 64 = aa := Nat.mod_eq_of_lt (by omega)
      have e2 : pa % 2 ^ 64 = pa := Nat.mod_eq_of_lt (by omega)
      have e3 : ((32 : Int) - Prefix.Bits ⟨⟨pa, Zone.z4⟩, pb⟩).toNat % 64 = 32 - (pb - 1) := by
        unfold Prefix.Bits; simp only; omega
      have e4 : ((aa ^^^ pa) >>> (32 - (pb - 1))) % 2 ^ 32 = (aa ^^^ pa) >>> (32 - (pb - 1)) := by
        apply Nat.mod_eq_of_lt
        rw [Nat.shiftRight_eq_div_pow]
        exact lt_of_le_of_lt (Nat.div_le_self _ _) hx
      simp only [hv, decide_True, Bool.not_true, Bool.false_or, e1, e2, e3, e4, beq_self_eq_true,
        beq_iff_eq]
      have e5 : (decide (32 = 0) || decide (32 = 0) || (32 != 32)) = false := by decide
      simp only [e5, Bool.false_eq_true, if_false, if_true, beq_iff_eq, true_and]
      exact xor_shift_eq_zero _ _ _
  | z6 pzone =>
    cases az with
    | z0 => simp [hv]
    | z4 => simp [hv]
    | z6 zone =>
      simp only [Prefix.WF, Addr.WF, Addr.hasZone, Addr.IsValid, Addr.BitLen, Bool.and_eq_true,
        Bool.or_eq_true, decide_eq_true_eq, beq_iff_eq, bne_iff_ne, Bool.not_eq_true', hb, false_or,
        ne_eq, not_false_eq_true, true_and, reduceCtorEq, and_true] at hp ha
      obtain ⟨⟨hp1, hp2⟩, hp3⟩ := hp
      have hx : aa ^^^ pa < 2 ^ 128 := Nat.xor_lt_two_pow ha hp1
      have e : (aa ^^^ pa) &&& mask6 (pb - 1) = 0 ↔ aa / 2 ^ (128 - (pb - 1)) = pa / 2 ^ (128 - (pb - 1)) := by
        rw [and_mask6 _ _ hx (by omega), ← xor_shift_eq_zero, Nat.shiftRight_eq_div_pow]
        constructor
        · intro h
          rcases Nat.mul_eq_zero.mp h with h | h
          · exact h
          · exact absurd h (by positivity)
        · intro h; rw [h]; simp
      by_cases hz : zone = ""
      · simp [hv, hz, e]
      · simp [hv, hz]

/-- Rounding down to a multiple of `2 ^ k` compares as the quotient does. -/
theorem div_mul_pow_inj (x y k : Nat) : x / 2 ^ k * 2 ^ k = y / 2 ^ k * 2 ^ k ↔ x / 2 ^ k = y / 2 ^ k := by
  constructor
  · intro h; exact Nat.eq_of_mul_eq_mul_right (by positivity) h
  · intro h; rw [h]

/-- `Prefix.Overlaps` on well-formed values: both prefixes are valid, of one
family, and agree on the network bits of the shorter one. -/
theorem overlaps_iff (p o : Prefix) (hp : p.WF = true) (ho : o.WF = true) :
    p.Overlaps o = true ↔
      p.IsValid = true ∧ o.IsValid = true ∧ p.ip.BitLen = o.ip.BitLen ∧
      p.ip.addr / 2 ^ (p.ip.BitLen - min p.Bits.toNat o.Bits.toNat)
        = o.ip.addr / 2 ^ (p.ip.BitLen - min p.Bits.toNat o.Bits.toNat) := by
  by_cases hpo : p = o
  · subst hpo
    by_cases hv : p.IsValid = true
    · simp [Prefix.Overlaps, hv]
    · simp [Prefix.Overlaps, hv]
  obtain ⟨⟨pa, pz⟩, pb⟩ := p
  obtain ⟨⟨oa, oz⟩, ob⟩ := o
  simp only [Prefix.Overlaps, Prefix.IsValid, Addr.BitLen, Addr.Is4, bits_toNat, hpo, if_false]
  by_cases hv : pb > 0
  swap
  · simp [hv]
  by_cases hw : ob > 0
  swap
  · simp [hw]
  have hb : pb ≠ 0 := by omega
  have hc : ob ≠ 0 := by omega
  have hmin : (if Prefix.Bits ⟨⟨pa, pz⟩, pb⟩ < Prefix.Bits ⟨⟨oa, oz⟩, ob⟩ then Prefix.Bits ⟨⟨pa, pz⟩, pb⟩
      else Prefix.Bits ⟨⟨oa, oz⟩, ob⟩) = ((min (pb - 1) (ob - 1) : Nat) : Int) := by
    unfold Prefix.Bits; simp only; split <;> omega
  simp only [hv, hw, decide_True, Bool.not_true, Bool.or_self, Bool.false_eq_true, if_false, hmin,
    true_and]
  generalize hm : min (pb - 1) (ob - 1) = m
  cases pz with
  | z0 => simp [Prefix.WF, Addr.IsValid, hb] at hp
  | z4 =>
    cases oz with
    | z0 => simp [Prefix.WF, Addr.IsValid, hc] at ho
    | z6 zone => simp
    | z4 =>
      simp only [Prefix.WF, Addr.WF, Addr.hasZone, Addr.IsValid, Addr.BitLen, Bool.and_eq_true,
        Bool.or_eq_true, decide_eq_true_eq, beq_iff_eq, bne_iff_ne, Bool.not_eq_true', hb, hc, false_or,
        ne_eq, not_false_eq_true, true_and, reduceCtorEq, and_true] at hp ho
      obtain ⟨⟨hp1, hp2⟩, hp3⟩ := hp
      obtain ⟨⟨ho1, ho2⟩, ho3⟩ := ho
      have hm32 : m ≤ 32 := by omega
      by_cases hm0 : m = 0
      · subst hm0
        have e1 : pa / 2 ^ 32 = 0xffff := by omega
        have e2 : oa / 2 ^ 32 = 0xffff := by omega
        simp only [Nat.cast_zero, bne_self_eq_false, Bool.false_eq_true, if_false, if_true, Nat.sub_zero,
          e1, e2]
        simp
      · have hmi : ¬ ((m : Int) = 0) := by omega
        have hlt : ¬ ((m : Int) < 0) := by omega
        have hgt : ¬ ((m : Int) > 32) := by omega
        simp only [bne_self_eq_false, Bool.false_eq_true, if_false, hmi, Addr.Prefix, hlt, hgt,
          PrefixFrom, Addr.withoutZone, Int.toNat_ofNat, beq_iff_eq, Addr.mk.injEq, and_true, true_and]
        rw [and_mask6 _ _ (by omega) (by omega), and_mask6 _ _ (by omega) (by omega)]
        have e : 128 - (m + 96) = 32 - m := by omega
        rw [e, div_mul_pow_inj]
  | z6 pzone =>
    cases oz with
    | z0 => simp [Prefix.WF, Addr.IsValid, hc] at ho
    | z4 => simp
    | z6 ozone =>
      simp only [Prefix.WF, Addr.WF, Addr.hasZone, Addr.IsValid, Addr.BitLen, Bool.and_eq_true,
        Bool.or_eq_true, decide_eq_true_eq, beq_iff_eq, bne_iff_ne, Bool.not_eq_true', hb, hc, false_or,
        ne_eq, not_false_eq_true, true_and, reduceCtorEq, and_true] at hp ho
      obtain ⟨⟨hp1, hp2⟩, hp3⟩ := hp
      obtain ⟨⟨ho1, ho2⟩, ho3⟩ := ho
      have hm128 : m ≤ 128 := by omega
      by_cases hm0 : m = 0
      · subst hm0
        have e1 : pa / 2 ^ 128 = 0 := Nat.div_eq_of_lt hp1
        have e2 : oa / 2 ^ 128 = 0 := Nat.div_eq_of_lt ho1
        simp only [Nat.cast_zero, bne_self_eq_false, Bool.false_eq_true, if_false, if_true, Nat.sub_zero,
          e1, e2]
        simp
      · have hmi : ¬ ((m : Int) = 0) := by omega
        have hlt : ¬ ((m : Int) < 0) := by omega
        have hgt : ¬ ((m : Int) > 128) := by omega
        simp only [bne_self_eq_false, Bool.false_eq_true, if_false, hmi, Addr.Prefix, hlt, hgt,
          PrefixFrom, Addr.withoutZone, Int.toNat_ofNat, beq_iff_eq, Addr.mk.injEq, and_true, true_and]
        rw [and_mask6 _ _ hp1 hm128, and_mask6 _ _ ho1 hm128]
        have ez : ((Zone.z6 pzone == Zone.z4) != (Zone.z6 ozone == Zone.z4)) = false := by simp
        simp only [ez, Bool.false_eq_true, if_false, beq_iff_eq, Addr.mk.injEq, and_true]
        exact div_mul_pow_inj _ _ _

theorem wf_ip (p : Prefix) (hp : p.WF = true) : p.ip.WF = true ∧ p.ip.hasZone = false := by
  simp only [Prefix.WF, Bool.and_eq_true, Bool.not_eq_true'] at hp
  exact ⟨hp.1.1, hp.1.2⟩

theorem wf_bits (p : Prefix) (hp : p.WF = true) (hv : p.IsValid = true) :
    p.Bits.toNat ≤ p.ip.BitLen := by
  rw [bits_toNat]
  simp only [Prefix.WF, Prefix.IsValid, Bool.and_eq_true, Bool.or_eq_true, beq_iff_eq,
    decide_eq_true_eq] at hp hv
  rcases hp.2 with h | h
  · omega
  · omega

/-- Two well-formed prefixes overlap, as `Prefix.Overlaps` computes it, exactly
when some address is contained in both. -/
theorem overlaps_iff_shared (p o : Prefix) (hp : p.WF = true) (ho : o.WF = true) :
    p.Overlaps o = true ↔ ∃ a : Addr, a.WF = true ∧ p.Contains a = true ∧ o.Contains a = true := by
  rw [overlaps_iff p o hp ho]
  constructor
  · rintro ⟨hv, hw, hL, hq⟩
    by_cases hle : p.Bits.toNat ≤ o.Bits.toNat
    · refine ⟨o.ip, (wf_ip o ho).1, ?_, ?_⟩
      · rw [contains_iff p _ hp (wf_ip o ho).1]
        rw [Nat.min_eq_left hle] at hq
        exact ⟨hv, (wf_ip o ho).2, hL.symm, hq.symm⟩
      · rw [contains_iff o _ ho (wf_ip o ho).1]
        exact ⟨hw, (wf_ip o ho).2, rfl, rfl⟩
    · refine ⟨p.ip, (wf_ip p hp).1, ?_, ?_⟩
      · rw [contains_iff p _ hp (wf_ip p hp).1]
        exact ⟨hv, (wf_ip p hp).2, rfl, rfl⟩
      · rw [contains_iff o _ ho (wf_ip p hp).1]
        rw [Nat.min_eq_right (by omega), hL] at hq
        exact ⟨hw, (wf_ip p hp).2, hL, hq⟩
  · rintro ⟨a, ha, hpa, hoa⟩
    rw [contains_iff p a hp ha] at hpa
    rw [contains_iff o a ho ha] at hoa
    obtain ⟨hv, -, hL1, hq1⟩ := hpa
    obtain ⟨hw, -, hL2, hq2⟩ := hoa
    refine ⟨hv, hw, by rw [← hL1, hL2], ?_⟩
    have h1 := div_pow_mono _ _ _ (p.ip.BitLen - min p.Bits.toNat o.Bits.toNat) (by omega) hq1
    have h2 := div_pow_mono _ _ _ (p.ip.BitLen - min p.Bits.toNat o.Bits.toNat)
      (by rw [← hL2, hL1]; omega) hq2
    rw [← h1, ← h2]

end netip

/-! ## Lemmas: the text of addresses and prefixes -/

namespace netip

theorem digit_toNat_dec (d : Nat) (h : d < 10) : (digit d).toNat = 48 + d := by
  interval_cases d <;> rfl

theorem digit_toNat_hex (d : Nat) (h1 : 10 ≤ d) (h2 : d < 16) : (digit d).toNat = 87 + d := by
  interval_cases d <;> rfl

theorem char_ne_of_toNat_ne (c d : Char) (h : c.toNat ≠ d.toNat) : c ≠ d := by
  intro e; exact h (by rw [e])

theorem digit_ne_dot (d : Nat) (h : d < 10) : digit d ≠ '.' :=
  char_ne_of_toNat_ne _ _ (by rw [digit_toNat_dec d h]; have : '.'.toNat = 46 := rfl; omega)

/-- `appendDecimal` appends to what is there. -/
theorem appendDecimal_eq (b : List Char) (x : Nat) : appendDecimal b x = b ++ appendDecimal [] x := by
  unfold appendDecimal
  by_cases h1 : x ≥ 100 <;> by_cases h2 : x ≥ 10 <;> simp [h1, h2]

/-- One step of the loop of `parseIPv4Fields` on a decimal digit. -/
theorem loop_step_digit (d : Nat) (hd : d < 10) (rest : List Char) (prev : Option Char)
    (val pos digLen : Nat) (fields : List Nat) (h0 : ¬ (digLen = 1 ∧ val = 0))
    (hv : val * 10 + d ≤ 255) :
    parseIPv4FieldsLoop (digit d :: rest) prev val pos digLen fields
      = parseIPv4FieldsLoop rest (some (digit d)) (val * 10 + d) pos (digLen + 1) fields := by
  have e0 : '0'.toNat = 48 := rfl
  have e9 : '9'.toNat = 57 := rfl
  have c1 : '0'.toNat ≤ (digit d).toNat ∧ (digit d).toNat ≤ '9'.toNat := by
    rw [digit_toNat_dec d hd, e0, e9]; omega
  have c2 : val * 10 + ((digit d).toNat - '0'.toNat) = val * 10 + d := by
    rw [digit_toNat_dec d hd, e0]; omega
  have c3 : ¬ (val * 10 + d > 255) := by omega
  simp only [parseIPv4FieldsLoop, c1, and_self, if_true, h0, if_false, c2, c3]

/-- One step of the loop of `parseIPv4Fields` on a dot that follows a digit. -/
theorem loop_step_dot (d : Nat) (hd : d < 10) (rest : List Char) (hrest : rest ≠ [])
    (val pos digLen : Nat) (hpos : pos < 3) (fields : List Nat) :
    parseIPv4FieldsLoop ('.' :: rest) (some (digit d)) val pos digLen fields
      = parseIPv4FieldsLoop rest (some '.') 0 (pos + 1) 0 (fields ++ [val]) := by
  have c1 : ¬ ('0'.toNat ≤ '.'.toNat ∧ '.'.toNat ≤ '9'.toNat) := by decide
  have c2 : ¬ (some (digit d) = none ∨ rest = [] ∨ some (digit d) = some '.') := by
    simp [hrest, digit_ne_dot d hd]
  have c3 : ¬ pos = 3 := by omega
  simp only [parseIPv4FieldsLoop, c1, if_false, if_true, c2, c3]

/-- The text of a byte is one to three decimal digits, the last being that of
`x % 10`. -/
theorem appendDecimal_cases (x : Nat) (hx : x ≤ 255) :
    (x < 10 ∧ appendDecimal [] x = [digit x]) ∨
    (10 ≤ x ∧ x < 100 ∧ appendDecimal [] x = [digit (x / 10), digit (x % 10)]) ∨
    (100 ≤ x ∧ appendDecimal [] x = [digit (x / 100), digit (x / 10 % 10), digit (x % 10)]) := by
  unfold appendDecimal
  by_cases h1 : x ≥ 100
  · right; right
    have h2 : x ≥ 10 := by omega
    simp [h1, h2]
  · by_cases h2 : x ≥ 10
    · right; left
      have e : x / 10 % 10 = x / 10 := by omega
      simp [h1, h2, e]; omega
    · left
      have e : x % 10 = x := by omega
      simp [h1, h2, e]; omega

/-- The decimal text of a byte followed by a dot: the loop of `parseIPv4Fields`
stores the byte and goes on after the dot. -/
theorem loop_dec_dot (x : Nat) (hx : x ≤ 255) (rest : List Char) (hrest : rest ≠ [])
    (prev : Option Char) (pos : Nat) (hpos : pos < 3) (fields : List Nat) :
    parseIPv4FieldsLoop (appendDecimal [] x ++ '.' :: rest) prev 0 pos 0 fields
      = parseIPv4FieldsLoop rest (some '.') 0 (pos + 1) 0 (fields ++ [x]) := by
  rcases appendDecimal_cases x hx with ⟨h, e⟩ | ⟨h1, h2, e⟩ | ⟨h, e⟩
  · rw [e, List.singleton_append, loop_step_digit x h _ _ _ _ _ _ (by omega) (by omega),
      loop_step_dot x h _ hrest _ _ _ hpos]
    simp
  · rw [e]
    simp only [List.cons_append, List.nil_append]
    rw [loop_step_digit _ (by omega) _ _ _ _ _ _ (by omega) (by omega),
      loop_step_digit _ (by omega) _ _ _ _ _ _ (by omega) (by omega),
      loop_step_dot _ (by omega) _ hrest _ _ _ hpos]
    congr 2; simp; omega
  · rw [e]
    simp only [List.cons_append, List.nil_append]
    rw [loop_step_digit _ (by omega) _ _ _ _ _ _ (by omega) (by omega),
      loop_step_digit _ (by omega) _ _ _ _ _ _ (by omega) (by omega),
      loop_step_digit _ (by omega) _ _ _ _ _ _ (by omega) (by omega),
      loop_step_dot _ (by omega) _ hrest _ _ _ hpos]
    congr 2; simp; omega

/-- The decimal text of the last byte: the loop of `parseIPv4Fields` ends with
the four bytes. -/
theorem loop_dec_end (x : Nat) (hx : x ≤ 255) (prev : Option Char) (fields : List Nat) :
    parseIPv4FieldsLoop (appendDecimal [] x) prev 0 3 0 fields = some (fields ++ [x]) := by
  rcases appendDecimal_cases x hx with ⟨h, e⟩ | ⟨h1, h2, e⟩ | ⟨h, e⟩
  · rw [e, loop_step_digit x h _ _ _ _ _ _ (by omega) (by omega)]
    simp [parseIPv4FieldsLoop]
  · rw [e, loop_step_digit _ (by omega) _ _ _ _ _ _ (by omega) (by omega),
      loop_step_digit _ (by omega) _ _ _ _ _ _ (by omega) (by omega)]
    simp [parseIPv4FieldsLoop]; omega
  · rw [e, loop_step_digit _ (by omega) _ _ _ _ _ _ (by omega) (by omega),
      loop_step_digit _ (by omega) _ _ _ _ _ _ (by omega) (by omega),
      loop_step_digit _ (by omega) _ _ _ _ _ _ (by omega) (by omega)]
    simp [parseIPv4FieldsLoop]; omega

theorem appendDecimal_ne_nil (x : Nat) : appendDecimal [] x ≠ [] := by
  unfold appendDecimal; simp

theorem appendTo4_eq (ip : Addr) (ret : List Char) :
    ip.appendTo4 ret = ret ++ dotted (ip.v4 0) (ip.v4 1) (ip.v4 2) (ip.v4 3) := by
  unfold Addr.appendTo4 dotted
  simp only
  rw [appendDecimal_eq (_ ++ ['.']) (ip.v4 3), appendDecimal_eq (_ ++ ['.']) (ip.v4 2),
    appendDecimal_eq (_ ++ ['.']) (ip.v4 1), appendDecimal_eq ret (ip.v4 0)]
  simp

/-- Parsing the dotted text of four bytes gives the four bytes. -/
theorem parseIPv4Fields_dotted (a b c d : Nat) (ha : a ≤ 255) (hb : b ≤ 255) (hc : c ≤ 255)
    (hd : d ≤ 255) : parseIPv4Fields (dotted a b c d) = some [a, b, c, d] := by
  unfold parseIPv4Fields dotted
  rw [loop_dec_dot a ha _ (by simp) _ _ (by omega), loop_dec_dot b hb _ (by simp) _ _ (by omega),
    loop_dec_dot c hc _ (by simp [appendDecimal_ne_nil]) _ _ (by omega), loop_dec_end d hd]
  rfl

theorem digit_not_sep (d : Nat) (h : d < 10) : digit d ≠ '.' ∧ digit d ≠ ':' ∧ digit d ≠ '%' := by
  have e := digit_toNat_dec d h
  refine ⟨digit_ne_dot d h, char_ne_of_toNat_ne _ _ ?_, char_ne_of_toNat_ne _ _ ?_⟩
  · rw [e]; have : ':'.toNat = 58 := rfl; omega
  · rw [e]; have : '%'.toNat = 37 := rfl; omega

theorem scan_step_digit (s rest : List Char) (d : Nat) (h : d < 10) :
    parseAddrScan s (digit d :: rest) = parseAddrScan s rest := by
  obtain ⟨h1, h2, h3⟩ := digit_not_sep d h
  simp only [parseAddrScan, h1, h2, h3, if_false]

/-- The scan of `ParseAddr` on text that starts with a byte and a dot takes the
text for an IPv4 address. -/
theorem scan_dec_dot (s rest : List Char) (x : Nat) (hx : x ≤ 255) :
    parseAddrScan s (appendDecimal [] x ++ '.' :: rest) = parseIPv4 s := by
  rcases appendDecimal_cases x hx with ⟨h, e⟩ | ⟨h1, h2, e⟩ | ⟨h, e⟩
  · rw [e]
    simp only [List.cons_append, List.nil_append]
    rw [scan_step_digit _ _ _ h]
    simp [parseAddrScan]
  · rw [e]
    simp only [List.cons_append, List.nil_append]
    rw [scan_step_digit _ _ _ (by omega), scan_step_digit _ _ _ (by omega)]
    simp [parseAddrScan]
  · rw [e]
    simp only [List.cons_append, List.nil_append]
    rw [scan_step_digit _ _ _ (by omega), scan_step_digit _ _ _ (by omega),
      scan_step_digit _ _ _ (by omega)]
    simp [parseAddrScan]

theorem v4_le (ip : Addr) (i : Nat) : ip.v4 i ≤ 255 := by
  unfold Addr.v4; omega

/-- An IPv4 address is the parse of its text. -/
theorem parseAddr_string_v4 (ip : Addr) (hz : ip.z = Zone.z4) (hwf : ip.WF = true) :
    ParseAddr ip.String = some ip := by
  obtain ⟨addr, z⟩ := ip
  simp only at hz
  subst hz
  simp only [Addr.WF, Bool.and_eq_true, decide_eq_true_eq] at hwf
  simp only [ParseAddr, Addr.String, appendTo4_eq, List.nil_append]
  show parseAddrScan (dotted _ _ _ _) (dotted _ _ _ _) = _
  conv_lhs => arg 2; unfold dotted
  rw [scan_dec_dot _ _ _ (v4_le _ _)]
  unfold parseIPv4
  rw [parseIPv4Fields_dotted _ _ _ _ (v4_le _ _) (v4_le _ _) (v4_le _ _) (v4_le _ _)]
  simp only [AddrFrom4, Addr.v4, Option.some.injEq, Addr.mk.injEq, and_true]
  omega

/-- What the loop of `parseIPv4Fields` returns is four bytes. -/
theorem parseIPv4FieldsLoop_inv (s : List Char) (prev : Option Char) (val pos digLen : Nat)
    (fields fs : List Nat) (hval : val ≤ 255) (hlen : fields.length = pos) (hpos : pos ≤ 3)
    (hf : ∀ f ∈ fields, f ≤ 255)
    (h : parseIPv4FieldsLoop s prev val pos digLen fields = some fs) :
    fs.length = 4 ∧ ∀ f ∈ fs, f ≤ 255 := by
  induction s generalizing prev val pos digLen fields with
  | nil =>
    simp only [parseIPv4FieldsLoop] at h
    split at h
    · simp at h
    · simp only [Option.some.injEq] at h
      subst h
      refine ⟨by simp; omega, ?_⟩
      intro f hfm
      rcases List.mem_append.mp hfm with h1 | h1
      · exact hf f h1
      · simp at h1; omega
  | cons c rest ih =>
    simp only [parseIPv4FieldsLoop] at h
    split at h
    · split at h
      · simp at h
      · split at h
        · simp at h
        · rename_i hle
          exact ih _ _ _ _ _ (by omega) hlen hpos hf h
    · split at h
      · split at h
        · simp at h
        · split at h
          · simp at h
          · refine ih _ _ _ _ _ (by omega) (by simp [hlen]) (by omega) ?_ h
            intro f hfm
            rcases List.mem_append.mp hfm with h1 | h1
            · exact hf f h1
            · simp at h1; omega
      · simp at h

theorem parseIPv4Fields_inv (s : List Char) (fs : List Nat) (h : parseIPv4Fields s = some fs) :
    fs.length = 4 ∧ ∀ f ∈ fs, f ≤ 255 :=
  parseIPv4FieldsLoop_inv s none 0 0 0 [] fs (by omega) rfl (by omega) (by simp) h

/-- `parseIPv4` returns a well-formed IPv4 address. -/
theorem parseIPv4_wf (s : List Char) (ip : Addr) (h : parseIPv4 s = some ip) :
    ip.WF = true ∧ ip.z = Zone.z4 := by
  unfold parseIPv4 at h
  cases hf : parseIPv4Fields s with
  | none => simp [hf] at h
  | some fs =>
    obtain ⟨hl, hb⟩ := parseIPv4Fields_inv s fs hf
    rw [hf] at h
    match fs, hl, hb, h with
    | [a, b, c, d], _, hb, h =>
      simp only [Option.some.injEq] at h
      subst h
      have ha := hb a (by simp)
      have hb1 := hb b (by simp)
      have hc := hb c (by simp)
      have hd := hb d (by simp)
      simp only [AddrFrom4, Addr.WF, Bool.and_eq_true, decide_eq_true_eq, and_true]
      omega

theorem length_takeWhile_map (p : Nat → Bool) (l : List Nat) :
    (l.takeWhile p).length = ((l.map p).takeWhile id).length := by
  induction l with
  | nil => rfl
  | cons x xs ih =>
    simp only [List.takeWhile_cons, List.map_cons, id]
    cases p x
    · rfl
    · simp [ih]

theorem range'_eq_drop (i : Nat) (hi : i < 8) : List.range' i (8 - i) = (List.range 8).drop i := by
  interval_cases i <;> rfl

theorem zeroRun_eq (ip : Addr) :
    zeroRun ip = zeroRunB ((List.range 8).map (fun k => ip.v6u16 k == 0)) := by
  unfold zeroRun zeroRunB
  apply List.foldl_ext
  intro se i hi
  have hi8 : i < 8 := List.mem_range.mp hi
  simp only [range'_eq_drop i hi8, length_takeWhile_map, List.map_drop]

/-- What the search returns on any eight groups: nothing (`255, 255`), or the
bounds of a run of at least two zero groups. -/
theorem zeroRunB_spec (b0 b1 b2 b3 b4 b5 b6 b7 : Bool) :
    zeroRunB [b0, b1, b2, b3, b4, b5, b6, b7] = (255, 255) ∨
    ((zeroRunB [b0, b1, b2, b3, b4, b5, b6, b7]).1 + 2 ≤ (zeroRunB [b0, b1, b2, b3, b4, b5, b6, b7]).2 ∧
      (zeroRunB [b0, b1, b2, b3, b4, b5, b6, b7]).2 ≤ 8 ∧
      ((List.range 8).all (fun k =>
        !(decide ((zeroRunB [b0, b1, b2, b3, b4, b5, b6, b7]).1 ≤ k) &&
          decide (k < (zeroRunB [b0, b1, b2, b3, b4, b5, b6, b7]).2)) ||
          [b0, b1, b2, b3, b4, b5, b6, b7].getD k false)) = true) := by
  revert b0 b1 b2 b3 b4 b5 b6 b7
  decide

theorem hexVal_digit (d : Nat) (h : d < 16) : hexVal (digit d) = some d := by
  interval_cases d <;> rfl

theorem digit_ne_colon (d : Nat) (h : d < 16) : digit d ≠ ':' := by
  interval_cases d <;> decide

theorem digit_ne_dot16 (d : Nat) (h : d < 16) : digit d ≠ '.' := by
  interval_cases d <;> decide

theorem digit_ne_percent (d : Nat) (h : d < 16) : digit d ≠ '%' := by
  interval_cases d <;> decide

theorem appendHex_eq (b : List Char) (x : Nat) : appendHex b x = b ++ hexText x := by
  unfold hexText appendHex
  by_cases h1 : x ≥ 0x1000 <;> by_cases h2 : x ≥ 0x100 <;> by_cases h3 : x ≥ 0x10 <;>
    simp [h1, h2, h3]

/-- The text of a group is one to four hexadecimal digits. -/
theorem hexText_cases (x : Nat) (hx : x < 65536) :
    (x < 16 ∧ hexText x = [digit x]) ∨
    (16 ≤ x ∧ x < 256 ∧ hexText x = [digit (x / 16), digit (x % 16)]) ∨
    (256 ≤ x ∧ x < 4096 ∧ hexText x = [digit (x / 256), digit (x / 16 % 16), digit (x % 16)]) ∨
    (4096 ≤ x ∧ hexText x
      = [digit (x / 4096), digit (x / 256 % 16), digit (x / 16 % 16), digit (x % 16)]) := by
  unfold hexText appendHex
  by_cases h1 : x ≥ 0x1000
  · right; right; right
    have h2 : x ≥ 0x100 := by omega
    have h3 : x ≥ 0x10 := by omega
    simp [h1, h2, h3]
  · by_cases h2 : x ≥ 0x100
    · right; right; left
      have h3 : x ≥ 0x10 := by omega
      have e : x / 256 % 16 = x / 256 := by omega
      simp [h1, h2, h3, e]; omega
    · by_cases h3 : x ≥ 0x10
      · right; left
        have e : x / 16 % 16 = x / 16 := by omega
        simp [h1, h2, h3, e]; omega
      · left
        have e : x % 16 = x := by omega
        simp [h1, h2, h3, e]; omega

theorem hexGroup_stop (rest : List Char) (h : stopsHex rest) (off acc : Nat) :
    hexGroup rest off acc = some (off, acc, rest) := by
  cases rest with
  | nil => rfl
  | cons c r => simp only [hexGroup, h c r rfl]

theorem hexGroup_step (d : Nat) (hd : d < 16) (rest : List Char) (off acc : Nat) (hoff : off ≤ 3)
    (hacc : acc * 16 + d ≤ 0xffff) :
    hexGroup (digit d :: rest) off acc = hexGroup rest (off + 1) (acc * 16 + d) := by
  have e : (acc * 16 + d) % 2 ^ 32 = acc * 16 + d := Nat.mod_eq_of_lt (by omega)
  have c1 : ¬ off > 3 := by omega
  have c2 : ¬ acc * 16 + d > 0xffff := by omega
  simp only [hexGroup, hexVal_digit d hd, e, c1, c2, if_false]

/-- The digit loop of `parseIPv6` on the text of a group reads the group. -/
theorem hexGroup_hexText (x : Nat) (hx : x < 65536) (rest : List Char) (h : stopsHex rest) :
    ∃ off, 0 < off ∧ hexGroup (hexText x ++ rest) 0 0 = some (off, x, rest) := by
  rcases hexText_cases x hx with ⟨h1, e⟩ | ⟨h1, h2, e⟩ | ⟨h1, h2, e⟩ | ⟨h1, e⟩
  · refine ⟨1, by omega, ?_⟩
    rw [e]
    simp only [List.cons_append, List.nil_append]
    rw [hexGroup_step _ (by omega) _ _ _ (by omega) (by omega), hexGroup_stop _ h]
    simp
  · refine ⟨2, by omega, ?_⟩
    rw [e]
    simp only [List.cons_append, List.nil_append]
    rw [hexGroup_step _ (by omega) _ _ _ (by omega) (by omega),
      hexGroup_step _ (by omega) _ _ _ (by omega) (by omega), hexGroup_stop _ h]
    simp; omega
  · refine ⟨3, by omega, ?_⟩
    rw [e]
    simp only [List.cons_append, List.nil_append]
    rw [hexGroup_step _ (by omega) _ _ _ (by omega) (by omega),
      hexGroup_step _ (by omega) _ _ _ (by omega) (by omega),
      hexGroup_step _ (by omega) _ _ _ (by omega) (by omega), hexGroup_stop _ h]
    simp; omega
  · refine ⟨4, by omega, ?_⟩
    rw [e]
    simp only [List.cons_append, List.nil_append]
    rw [hexGroup_step _ (by omega) _ _ _ (by omega) (by omega),
      hexGroup_step _ (by omega) _ _ _ (by omega) (by omega),
      hexGroup_step _ (by omega) _ _ _ (by omega) (by omega),
      hexGroup_step _ (by omega) _ _ _ (by omega) (by omega), hexGroup_stop _ h]
    simp; omega

/-- The text of a group starts with a hexadecimal digit. -/
theorem hexText_head (x : Nat) (hx : x < 65536) : ∃ d t, d < 16 ∧ hexText x = digit d :: t := by
  rcases hexText_cases x hx with ⟨h1, e⟩ | ⟨h1, h2, e⟩ | ⟨h1, h2, e⟩ | ⟨h1, e⟩
  · exact ⟨_, _, by omega, e⟩
  · exact ⟨_, _, by omega, e⟩
  · exact ⟨_, _, by omega, e⟩
  · exact ⟨_, _, by omega, e⟩

theorem stopsHex_nil : stopsHex [] := by
  intro c r h; cases h

theorem stopsHex_colon (t : List Char) : stopsHex (':' :: t) := by
  intro c r h
  simp only [List.cons.injEq] at h
  rw [← h.1]; rfl

theorem stopsHex_dot (t : List Char) : stopsHex ('.' :: t) := by
  intro c r h
  simp only [List.cons.injEq] at h
  rw [← h.1]; rfl

/-- The last group of the text. -/
theorem loop_step_end (n i : Nat) (ell : Option Nat) (ip : List Nat) (g : Nat) (hg : g < 65536)
    (hi : i < 16) :
    parseIPv6Loop (n + 1) (hexText g) i ell ip
      = some ⟨[], i + 2, ell, ip ++ [g / 256, g % 256]⟩ := by
  obtain ⟨off, hoff, h⟩ := hexGroup_hexText g hg [] stopsHex_nil
  rw [List.append_nil] at h
  have : ¬ off = 0 := by omega
  simp only [parseIPv6Loop, hi, if_true, h, this, if_false]

/-- A group followed by a colon and another group. -/
theorem loop_step_colon (n i : Nat) (ell : Option Nat) (ip : List Nat) (g : Nat) (hg : g < 65536)
    (hi : i < 16) (d : Nat) (hd : d < 16) (t : List Char) :
    parseIPv6Loop (n + 1) (hexText g ++ ':' :: digit d :: t) i ell ip
      = parseIPv6Loop n (digit d :: t) (i + 2) ell (ip ++ [g / 256, g % 256]) := by
  obtain ⟨off, hoff, h⟩ := hexGroup_hexText g hg (':' :: digit d :: t) (stopsHex_colon _)
  have h0 : ¬ off = 0 := by omega
  have h1 : ¬ (':' = '.') := by decide
  have h2 : ¬ (':' ≠ ':') := by decide
  simp only [parseIPv6Loop, hi, if_true, h, h0, if_false, h1, h2, digit_ne_colon d hd]

/-- A group followed by `::` at the end of the text. -/
theorem loop_step_ell_end (n i : Nat) (ip : List Nat) (g : Nat) (hg : g < 65536) (hi : i < 16) :
    parseIPv6Loop (n + 1) (hexText g ++ [':', ':']) i none ip
      = some ⟨[], i + 2, some (i + 2), ip ++ [g / 256, g % 256]⟩ := by
  obtain ⟨off, hoff, h⟩ := hexGroup_hexText g hg [':', ':'] (stopsHex_colon _)
  have h0 : ¬ off = 0 := by omega
  have h1 : ¬ (':' = '.') := by decide
  have h2 : ¬ (':' ≠ ':') := by decide
  simp only [parseIPv6Loop, hi, if_true, h, h0, if_false, h1, h2, ne_eq, not_true_eq_false]

/-- A group followed by `::` and more text. -/
theorem loop_step_ell (n i : Nat) (ip : List Nat) (g : Nat) (hg : g < 65536) (hi : i < 16)
    (t : List Char) (ht : t ≠ []) :
    parseIPv6Loop (n + 1) (hexText g ++ ':' :: ':' :: t) i none ip
      = parseIPv6Loop n t (i + 2) (some (i + 2)) (ip ++ [g / 256, g % 256]) := by
  obtain ⟨off, hoff, h⟩ := hexGroup_hexText g hg (':' :: ':' :: t) (stopsHex_colon _)
  have h0 : ¬ off = 0 := by omega
  have h1 : ¬ (':' = '.') := by decide
  have h2 : ¬ (':' ≠ ':') := by decide
  simp only [parseIPv6Loop, hi, if_true, h, h0, if_false, h1, h2, ne_eq, not_true_eq_false, ht]

theorem groupsText_head (g : Nat) (gs : List Nat) (hg : g < 65536) :
    ∃ d t, d < 16 ∧ groupsText (g :: gs) = digit d :: t := by
  obtain ⟨d, t, hd, e⟩ := hexText_head g hg
  cases gs with
  | nil => exact ⟨d, t, hd, e⟩
  | cons g1 gs => exact ⟨d, t ++ ':' :: groupsText (g1 :: gs), hd, by simp [groupsText, e]⟩

/-- The main loop of `parseIPv6` on the text of groups reads the groups. -/
theorem loop_groupsText (gs : List Nat) (hne : gs ≠ []) (hg : ∀ g ∈ gs, g < 65536)
    (n i : Nat) (ell : Option Nat) (ip : List Nat) (hn : gs.length ≤ n)
    (hi : i + 2 * gs.length ≤ 16) :
    parseIPv6Loop n (groupsText gs) i ell ip
      = some ⟨[], i + 2 * gs.length, ell, ip ++ groupBytes gs⟩ := by
  induction gs generalizing n i ip with
  | nil => exact absurd rfl hne
  | cons g gs ih =>
    obtain ⟨m, rfl⟩ : ∃ m, n = m + 1 := ⟨n - 1, by simp at hn; omega⟩
    have hg0 := hg g (by simp)
    simp only [List.length_cons] at hn hi
    cases gs with
    | nil =>
      simp only [groupsText, List.length_nil] at hi ⊢
      rw [loop_step_end _ _ _ _ _ hg0 (by omega)]
      simp [groupBytes]
    | cons g1 gs =>
      obtain ⟨d, t, hd, e⟩ := groupsText_head g1 gs (hg g1 (by simp))
      simp only [groupsText] at e ⊢
      rw [e, loop_step_colon _ _ _ _ _ hg0 (by simp at hi; omega) d hd, ← e]
      rw [ih (by simp) (fun x hx => hg x (List.mem_cons_of_mem _ hx)) m (i + 2) _
        (by simpa using hn) (by simp at hi ⊢; omega)]
      simp only [groupBytes, List.length_cons, V6State.mk.injEq, true_and, Option.some.injEq,
        List.append_assoc, List.cons_append, List.nil_append, and_true]
      omega

/-- The main loop of `parseIPv6` on groups, `::`, and more groups. -/
theorem loop_groupsText_ell (pre post : List Nat) (hne : pre ≠ [])
    (hpre : ∀ g ∈ pre, g < 65536) (hpost : ∀ g ∈ post, g < 65536)
    (n i : Nat) (ip : List Nat) (hn : pre.length + post.length ≤ n)
    (hi : i + 2 * (pre.length + post.length) ≤ 16) :
    parseIPv6Loop n (groupsText pre ++ ':' :: ':' :: groupsText post) i none ip
      = some ⟨[], i + 2 * (pre.length + post.length), some (i + 2 * pre.length),
          ip ++ groupBytes pre ++ groupBytes post⟩ := by
  induction pre generalizing n i ip with
  | nil => exact absurd rfl hne
  | cons g gs ih =>
    obtain ⟨m, rfl⟩ : ∃ m, n = m + 1 := ⟨n - 1, by simp at hn; omega⟩
    have hg0 := hpre g (by simp)
    simp only [List.length_cons] at hn hi
    cases gs with
    | nil =>
      simp only [groupsText, List.length_nil] at hn hi ⊢
      cases post with
      | nil =>
        simp only [groupsText]
        rw [loop_step_ell_end _ _ _ _ hg0 (by omega)]
        simp [groupBytes]
      | cons p ps =>
        obtain ⟨d, t, hd, e⟩ := groupsText_head p ps (hpost p (by simp))
        rw [loop_step_ell _ _ _ _ hg0 (by omega) _ (by rw [e]; simp)]
        rw [loop_groupsText _ (by simp) hpost m _ _ _ (by simp at hn ⊢; omega)
          (by simp at hi ⊢; omega)]
        simp only [groupBytes, List.length_cons, V6State.mk.injEq, true_and, Option.some.injEq,
          List.append_assoc, List.cons_append, List.nil_append, and_true, List.length_nil]
        omega
    | cons g1 gs =>
      obtain ⟨d, t, hd, e⟩ := groupsText_head g1 gs (hpre g1 (by simp))
      simp only [groupsText] at e ⊢
      rw [List.append_assoc (hexText g)]
      simp only [List.cons_append]
      rw [e]
      simp only [List.cons_append]
      rw [loop_step_colon _ _ _ _ _ hg0 (by simp at hi; omega) d hd]
      have := ih (by simp) (fun x hx => hpre x (List.mem_cons_of_mem _ hx)) m (i + 2)
        (ip ++ [g / 256, g % 256]) (by simp at hn ⊢; omega) (by simp at hi ⊢; omega)
      simp only [groupsText, e, List.cons_append] at this
      rw [this]
      simp only [groupBytes, List.length_cons, V6State.mk.injEq, true_and, Option.some.injEq,
        List.append_assoc, List.cons_append, List.nil_append, and_true]
      omega

theorem hexText_chars (x : Nat) (hx : x < 65536) (c : Char) (hc : c ∈ hexText x) :
    ∃ d, d < 16 ∧ c = digit d := by
  rcases hexText_cases x hx with ⟨h1, e⟩ | ⟨h1, h2, e⟩ | ⟨h1, h2, e⟩ | ⟨h1, e⟩ <;>
    rw [e] at hc <;> simp only [List.mem_cons, List.mem_singleton, List.not_mem_nil, or_false] at hc
  · exact ⟨_, by omega, hc⟩
  · rcases hc with h | h <;> exact ⟨_, by omega, h⟩
  · rcases hc with h | h | h <;> exact ⟨_, by omega, h⟩
  · rcases hc with h | h | h | h <;> exact ⟨_, by omega, h⟩

theorem groupsText_chars (gs : List Nat) (hg : ∀ g ∈ gs, g < 65536) (c : Char)
    (hc : c ∈ groupsText gs) : c = ':' ∨ ∃ d, d < 16 ∧ c = digit d := by
  induction gs with
  | nil => simp [groupsText] at hc
  | cons g gs ih =>
    cases gs with
    | nil => exact Or.inr (hexText_chars g (hg g (by simp)) c hc)
    | cons g1 gs =>
      simp only [groupsText, List.mem_append, List.mem_cons] at hc
      rcases hc with h | h | h
      · exact Or.inr (hexText_chars g (hg g (by simp)) c h)
      · exact Or.inl h
      · exact ih (fun x hx => hg x (List.mem_cons_of_mem _ hx)) h

/-- Text without `%` has no zone part. -/
theorem takeWhile_no_percent (s : List Char) (h : ∀ c ∈ s, c ≠ '%') :
    s.takeWhile (fun c => decide (c ≠ '%')) = s := by
  rw [List.takeWhile_eq_self_iff]
  intro c hc
  simpa using h c hc

theorem hexcolon_no_percent (s : List Char)
    (h : ∀ c ∈ s, c = ':' ∨ ∃ d, d < 16 ∧ c = digit d) : ∀ c ∈ s, c ≠ '%' := by
  intro c hc
  rcases h c hc with rfl | ⟨d, hd, rfl⟩
  · decide
  · exact digit_ne_percent d hd

/-- `parseIPv6` after the zone is split off, on text without a zone. -/
theorem parseIPv6_no_zone (s : List Char) (h : ∀ c ∈ s, c ≠ '%') :
    parseIPv6 s =
      (let lead := decide (s.take 2 = [':', ':'])
       let s0 := if lead then s.drop 2 else s
       if lead ∧ s0 = [] then some (IPv6Unspecified.WithZone "")
       else
         match parseIPv6Loop 8 s0 0 (if lead then some 0 else none) [] with
         | none => none
         | some st => finishIPv6 st "") := by
  unfold parseIPv6
  simp only [takeWhile_no_percent s h, lt_self_iff_false, decide_False, Bool.false_eq_true,
    false_and, if_false]
  have : String.mk (List.drop (s.length + 1) s) = "" := by
    rw [List.drop_of_length_le (by omega)]
  simp only [this]

theorem withZone_empty (l : List Nat) : (AddrFrom16 l).WithZone "" = AddrFrom16 l := by
  simp [AddrFrom16, Addr.WithZone, Addr.Is6]

/-- Parsing the text of eight groups gives their bytes. -/
theorem parseIPv6_full (gs : List Nat) (hlen : gs.length = 8) (hg : ∀ g ∈ gs, g < 65536) :
    parseIPv6 (groupsText gs) = some (AddrFrom16 (groupBytes gs)) := by
  rw [parseIPv6_no_zone _ (hexcolon_no_percent _ (groupsText_chars gs hg))]
  match gs, hlen, hg with
  | g :: gs, hlen, hg =>
    obtain ⟨d, t, hd, e⟩ := groupsText_head g gs (hg g (by simp))
    have hlead : ¬ ((groupsText (g :: gs)).take 2 = [':', ':']) := by
      rw [e]
      intro h
      cases t with
      | nil => simp at h
      | cons c t =>
        simp only [List.take_succ_cons, List.cons.injEq] at h
        exact digit_ne_colon d hd h.1
    simp only [hlead, decide_False, Bool.false_eq_true, false_and, if_false]
    rw [loop_groupsText _ (by simp) hg 8 0 none [] (by omega) (by omega)]
    simp [finishIPv6, hlen, withZone_empty]

theorem beValue_zeros : beValue (List.replicate 16 0) = 0 := by decide

/-- Parsing groups, `::`, and more groups gives their bytes with zero bytes in
between. -/
theorem parseIPv6_ell (pre post : List Nat) (hlen : pre.length + post.length ≤ 6)
    (hpre : ∀ g ∈ pre, g < 65536) (hpost : ∀ g ∈ post, g < 65536) :
    parseIPv6 (groupsText pre ++ ':' :: ':' :: groupsText post)
      = some (AddrFrom16 (groupBytes pre ++
          List.replicate (16 - 2 * (pre.length + post.length)) 0 ++ groupBytes post)) := by
  have hchars : ∀ c ∈ groupsText pre ++ ':' :: ':' :: groupsText post,
      c = ':' ∨ ∃ d, d < 16 ∧ c = digit d := by
    intro c hc
    simp only [List.mem_append, List.mem_cons] at hc
    rcases hc with h | h | h | h
    · exact groupsText_chars pre hpre c h
    · exact Or.inl h
    · exact Or.inl h
    · exact groupsText_chars post hpost c h
  rw [parseIPv6_no_zone _ (hexcolon_no_percent _ hchars)]
  cases pre with
  | nil =>
    simp only [groupsText, List.nil_append, List.take_succ_cons, List.take_zero, decide_True,
      List.drop_succ_cons, List.drop_zero, if_true, true_and, List.length_nil, Nat.zero_add,
      groupBytes]
    cases post with
    | nil =>
      simp only [groupsText, if_true, IPv6Unspecified, Addr.WithZone, Addr.Is6, AddrFrom16]
      simp only [ite_self, groupBytes, List.append_nil, Option.some.injEq, Addr.mk.injEq, and_true]
      exact beValue_zeros.symm
    | cons p ps =>
      obtain ⟨d, t, hd, e⟩ := groupsText_head p ps (hpost p (by simp))
      have hne : groupsText (p :: ps) ≠ [] := by rw [e]; simp
      simp only [hne, if_false]
      rw [loop_groupsText _ (by simp) hpost 8 0 _ [] (by simp at hlen ⊢; omega)
        (by simp at hlen ⊢; omega)]
      have h16 : 2 * (p :: ps).length < 16 := by simp at hlen ⊢; omega
      simp only [finishIPv6, ne_eq, not_true_eq_false, if_false, h16, if_true, List.take_zero,
        List.drop_zero, List.nil_append, withZone_empty, Nat.zero_add]
  | cons g gs =>
    obtain ⟨d, t, hd, e⟩ := groupsText_head g gs (hpre g (by simp))
    have hlead : ¬ ((groupsText (g :: gs) ++ ':' :: ':' :: groupsText post).take 2 = [':', ':']) := by
      rw [e]
      intro h
      simp only [List.cons_append] at h
      cases ht : t ++ ':' :: ':' :: groupsText post with
      | nil => simp at ht
      | cons c t1 =>
        rw [ht] at h
        simp only [List.take_succ_cons, List.cons.injEq] at h
        exact digit_ne_colon d hd h.1
    simp only [hlead, decide_False, Bool.false_eq_true, false_and, if_false]
    rw [loop_groupsText_ell _ _ (by simp) hpre hpost 8 0 [] (by omega) (by omega)]
    have h16 : 2 * ((g :: gs).length + post.length) < 16 := by omega
    have hbl : ∀ l : List Nat, (groupBytes l).length = 2 * l.length := by
      intro l
      induction l with
      | nil => rfl
      | cons x xs ih => simp [groupBytes, ih]; omega
    simp only [finishIPv6, ne_eq, not_true_eq_false, if_false, h16, if_true, List.nil_append,
      withZone_empty, Nat.zero_add]
    rw [List.take_append_of_le_length (by rw [hbl]), List.drop_append_of_le_length (by rw [hbl]),
      List.take_of_length_le (by rw [hbl]), List.drop_of_length_le (by rw [hbl]), List.nil_append]

/-- The result of the search for zero groups on an address: nothing, or the
bounds of a run of at least two groups that are zero. -/
theorem zeroRun_spec (ip : Addr) :
    zeroRun ip = (255, 255) ∨
    ((zeroRun ip).1 + 2 ≤ (zeroRun ip).2 ∧ (zeroRun ip).2 ≤ 8 ∧
      ∀ k, (zeroRun ip).1 ≤ k → k < (zeroRun ip).2 → ip.v6u16 k = 0) := by
  rw [zeroRun_eq]
  have e : (List.range 8).map (fun k => ip.v6u16 k == 0)
      = [ip.v6u16 0 == 0, ip.v6u16 1 == 0, ip.v6u16 2 == 0, ip.v6u16 3 == 0, ip.v6u16 4 == 0,
          ip.v6u16 5 == 0, ip.v6u16 6 == 0, ip.v6u16 7 == 0] := rfl
  rw [e]
  rcases zeroRunB_spec (ip.v6u16 0 == 0) (ip.v6u16 1 == 0) (ip.v6u16 2 == 0) (ip.v6u16 3 == 0)
      (ip.v6u16 4 == 0) (ip.v6u16 5 == 0) (ip.v6u16 6 == 0) (ip.v6u16 7 == 0) with h | ⟨h1, h2, h3⟩
  · exact Or.inl h
  · right
    refine ⟨h1, h2, ?_⟩
    intro k hk1 hk2
    have hk8 : k < 8 := by omega
    have := List.all_eq_true.mp h3 k (List.mem_range.mpr hk8)
    simp only [hk1, hk2, decide_True, Bool.and_self, Bool.not_true, Bool.false_or] at this
    interval_cases k <;> simpa using this

/-- The second loop of `Addr.appendTo6` with no run of zero groups writes the
eight groups. -/
theorem appendTo6Loop_none (ip : Addr) :
    appendTo6Loop ip 255 255 8 0 [] = groupsText ip.groups := by
  simp [appendTo6Loop, appendHex_eq, groupsText, Addr.groups]

/-- The second loop of `Addr.appendTo6` with a run of zero groups writes the
groups before it, `::`, and the groups after it. -/
theorem appendTo6Loop_run (ip : Addr) (zs ze : Nat) (h1 : zs + 2 ≤ ze) (h2 : ze ≤ 8) :
    appendTo6Loop ip zs ze 8 0 []
      = groupsText (ip.groups.take zs) ++ ':' :: ':' :: groupsText (ip.groups.drop ze) := by
  have hzs : zs ≤ 6 := by omega
  interval_cases zs <;> interval_cases ze <;>
    simp [appendTo6Loop, appendHex_eq, groupsText, Addr.groups]

theorem beValue_append_pair (l : List Nat) (g : Nat) :
    beValue (l ++ [g / 256, g % 256]) = beValue l * 65536 + g := by
  simp only [beValue, List.foldl_append, List.foldl_cons, List.foldl_nil]
  omega

theorem div_pow_succ (x k : Nat) : x / 2 ^ (16 * (k + 1)) = x / 2 ^ (16 * k) / 65536 := by
  rw [Nat.div_div_eq_div_mul, show 16 * (k + 1) = 16 * k + 16 by ring, pow_add]
  norm_num

/-- The bytes of the eight groups of a 128-bit value spell the value. -/
theorem beValue_groups (ip : Addr) (h : ip.addr < 2 ^ 128) :
    beValue (groupBytes ip.groups) = ip.addr := by
  have e : groupBytes ip.groups = ((((((([] ++ [ip.v6u16 0 / 256, ip.v6u16 0 % 256])
      ++ [ip.v6u16 1 / 256, ip.v6u16 1 % 256]) ++ [ip.v6u16 2 / 256, ip.v6u16 2 % 256])
      ++ [ip.v6u16 3 / 256, ip.v6u16 3 % 256]) ++ [ip.v6u16 4 / 256, ip.v6u16 4 % 256])
      ++ [ip.v6u16 5 / 256, ip.v6u16 5 % 256]) ++ [ip.v6u16 6 / 256, ip.v6u16 6 % 256])
      ++ [ip.v6u16 7 / 256, ip.v6u16 7 % 256] := rfl
  rw [e]
  simp only [beValue_append_pair]
  have hb : beValue [] = 0 := rfl
  rw [hb]
  have q0 : ip.addr / 2 ^ (16 * 0) = ip.addr := by simp
  have q1 := div_pow_succ ip.addr 0
  have q2 := div_pow_succ ip.addr 1
  have q3 := div_pow_succ ip.addr 2
  have q4 := div_pow_succ ip.addr 3
  have q5 := div_pow_succ ip.addr 4
  have q6 := div_pow_succ ip.addr 5
  have q7 := div_pow_succ ip.addr 6
  have q8 := div_pow_succ ip.addr 7
  have h8 : ip.addr / 2 ^ (16 * (7 + 1)) = 0 := Nat.div_eq_of_lt (by simpa using h)
  simp only [Addr.v6u16, Nat.sub_zero, Nat.reduceSub, Nat.reduceAdd] at *
  simp only [show 7 * 16 = 16 * 7 by rfl, show 6 * 16 = 16 * 6 by rfl, show 5 * 16 = 16 * 5 by rfl,
    show 4 * 16 = 16 * 4 by rfl, show 3 * 16 = 16 * 3 by rfl, show 2 * 16 = 16 * 2 by rfl,
    show 1 * 16 = 16 * 1 by rfl, show 0 * 16 = 16 * 0 by rfl]
  generalize ip.addr / 2 ^ (16 * 1) = a1 at *
  generalize ip.addr / 2 ^ (16 * 2) = a2 at *
  generalize ip.addr / 2 ^ (16 * 3) = a3 at *
  generalize ip.addr / 2 ^ (16 * 4) = a4 at *
  generalize ip.addr / 2 ^ (16 * 5) = a5 at *
  generalize ip.addr / 2 ^ (16 * 6) = a6 at *
  generalize ip.addr / 2 ^ (16 * 7) = a7 at *
  generalize ip.addr / 2 ^ (16 * 8) = a8 at *
  generalize ip.addr / 2 ^ (16 * 0) = a0 at *
  subst q0
  omega

/-- Zero groups have zero bytes: the bytes around a run of zero groups, with
zero bytes in between, are the bytes of all eight groups. -/
theorem groupBytes_fill (ip : Addr) (zs ze : Nat) (h1 : zs + 2 ≤ ze) (h2 : ze ≤ 8)
    (h : ∀ k, zs ≤ k → k < ze → ip.v6u16 k = 0) :
    groupBytes (ip.groups.take zs) ++
        List.replicate (16 - 2 * ((ip.groups.take zs).length + (ip.groups.drop ze).length)) 0 ++
        groupBytes (ip.groups.drop ze)
      = groupBytes ip.groups := by
  have z0 := h 0
  have z1 := h 1
  have z2 := h 2
  have z3 := h 3
  have z4 := h 4
  have z5 := h 5
  have z6 := h 6
  have z7 := h 7
  have hzs : zs ≤ 6 := by omega
  interval_cases zs <;> interval_cases ze <;>
    simp only [Nat.le_refl, Nat.zero_le, Nat.lt_irrefl, Nat.reduceLeDiff, Nat.reduceLT,
      forall_true_left, forall_false, false_implies, true_implies, imp_self] at z0 z1 z2 z3 z4 z5 z6 z7 <;>
    simp [Addr.groups, groupBytes, List.replicate, *]

theorem scan_step_hex (s rest : List Char) (d : Nat) (h : d < 16) :
    parseAddrScan s (digit d :: rest) = parseAddrScan s rest := by
  simp only [parseAddrScan, digit_ne_dot16 d h, digit_ne_colon d h, digit_ne_percent d h, if_false]

/-- The scan of `ParseAddr` on text of hexadecimal digits and colons with a
colon in it takes the text for an IPv6 address. -/
theorem scan_v6 (s t : List Char) (h : ∀ c ∈ t, c = ':' ∨ ∃ d, d < 16 ∧ c = digit d)
    (hc : ':' ∈ t) : parseAddrScan s t = parseIPv6 s := by
  induction t with
  | nil => simp at hc
  | cons c t ih =>
    rcases h c (by simp) with rfl | ⟨d, hd, rfl⟩
    · simp [parseAddrScan]
    · rw [scan_step_hex _ _ _ hd]
      refine ih (fun x hx => h x (List.mem_cons_of_mem _ hx)) ?_
      rcases List.mem_cons.mp hc with h1 | h1
      · exact absurd h1.symm (digit_ne_colon d hd)
      · exact h1

theorem groups_lt (ip : Addr) : ∀ g ∈ ip.groups, g < 65536 := by
  intro g hg
  simp only [Addr.groups, List.mem_cons, List.mem_singleton, List.not_mem_nil, or_false] at hg
  rcases hg with h | h | h | h | h | h | h | h <;> rw [h] <;> unfold Addr.v6u16 <;> omega

/-- An IPv6 address without zone that is written in hexadecimal groups is the
parse of its text. -/
theorem parseAddr_string_v6 (ip : Addr) (hz : ip.z = Zone.z6 "") (hwf : ip.addr < 2 ^ 128)
    (h46 : ip.Is4In6 = false) : ParseAddr ip.String = some ip := by
  have hgs := groups_lt ip
  have hstr : ip.String = String.mk (ip.appendTo6 []) := by
    simp only [Addr.String, hz, h46, Bool.false_eq_true, if_false]
  have h6 : ip.appendTo6 [] = appendTo6Loop ip (zeroRun ip).1 (zeroRun ip).2 8 0 [] := by
    simp [Addr.appendTo6, hz]
  have hip : AddrFrom16 (groupBytes ip.groups) = ip := by
    obtain ⟨addr, z⟩ := ip
    simp only at hz
    subst hz
    simp only [AddrFrom16, Addr.mk.injEq, and_true]
    exact beValue_groups _ hwf
  rw [hstr, h6]
  unfold ParseAddr
  show parseAddrScan (appendTo6Loop ip _ _ 8 0 []) (appendTo6Loop ip _ _ 8 0 []) = _
  rcases zeroRun_spec ip with h | ⟨h1, h2, h3⟩
  · rw [h, appendTo6Loop_none]
    rw [scan_v6 _ _ (groupsText_chars _ hgs) (by simp [Addr.groups, groupsText])]
    rw [parseIPv6_full ip.groups rfl hgs, hip]
  · rw [appendTo6Loop_run ip _ _ h1 h2]
    have hpre : ∀ g ∈ ip.groups.take (zeroRun ip).1, g < 65536 :=
      fun g hg => hgs g (List.mem_of_mem_take hg)
    have hpost : ∀ g ∈ ip.groups.drop (zeroRun ip).2, g < 65536 :=
      fun g hg => hgs g (List.mem_of_mem_drop hg)
    rw [scan_v6]
    · rw [parseIPv6_ell _ _ (by simp [Addr.groups]; omega) hpre hpost,
        groupBytes_fill ip _ _ h1 h2 h3, hip]
    · intro c hc
      simp only [List.mem_append, List.mem_cons] at hc
      rcases hc with h | h | h | h
      · exact groupsText_chars _ hpre c h
      · exact Or.inl h
      · exact Or.inl h
      · exact groupsText_chars _ hpost c h
    · simp

theorem hexText_ffff : hexText 0xffff = ['f', 'f', 'f', 'f'] := by decide

/-- The digit loop of `parseIPv6` on the decimal text of a byte followed by a
dot stops at the dot, having read at least one digit. -/
theorem hexGroup_dec_dot (x : Nat) (hx : x ≤ 255) (rest : List Char) :
    ∃ off acc, 0 < off ∧
      hexGroup (appendDecimal [] x ++ '.' :: rest) 0 0 = some (off, acc, '.' :: rest) := by
  rcases appendDecimal_cases x hx with ⟨h, e⟩ | ⟨h1, h2, e⟩ | ⟨h, e⟩
  · rw [e]
    simp only [List.cons_append, List.nil_append]
    rw [hexGroup_step _ (by omega) _ _ _ (by omega) (by omega), hexGroup_stop _ (stopsHex_dot _)]
    exact ⟨_, _, by omega, rfl⟩
  · rw [e]
    simp only [List.cons_append, List.nil_append]
    rw [hexGroup_step _ (by omega) _ _ _ (by omega) (by omega),
      hexGroup_step _ (by omega) _ _ _ (by omega) (by omega), hexGroup_stop _ (stopsHex_dot _)]
    exact ⟨_, _, by omega, rfl⟩
  · rw [e]
    simp only [List.cons_append, List.nil_append]
    rw [hexGroup_step _ (by omega) _ _ _ (by omega) (by omega),
      hexGroup_step _ (by omega) _ _ _ (by omega) (by omega),
      hexGroup_step _ (by omega) _ _ _ (by omega) (by omega), hexGroup_stop _ (stopsHex_dot _)]
    exact ⟨_, _, by omega, rfl⟩

theorem appendDecimal_head (x : Nat) (hx : x ≤ 255) :
    ∃ d t, d < 10 ∧ appendDecimal [] x = digit d :: t := by
  rcases appendDecimal_cases x hx with ⟨h, e⟩ | ⟨h1, h2, e⟩ | ⟨h, e⟩
  · exact ⟨_, _, h, e⟩
  · exact ⟨_, _, by omega, e⟩
  · exact ⟨_, _, by omega, e⟩

theorem appendDecimal_chars (x : Nat) (hx : x ≤ 255) (c : Char) (hc : c ∈ appendDecimal [] x) :
    ∃ d, d < 10 ∧ c = digit d := by
  rcases appendDecimal_cases x hx with ⟨h, e⟩ | ⟨h1, h2, e⟩ | ⟨h, e⟩ <;>
    rw [e] at hc <;> simp only [List.mem_cons, List.mem_singleton, List.not_mem_nil, or_false] at hc
  · exact ⟨_, h, hc⟩
  · rcases hc with h | h <;> exact ⟨_, by omega, h⟩
  · rcases hc with h | h | h <;> exact ⟨_, by omega, h⟩

theorem dotted_chars (a b c d : Nat) (ha : a ≤ 255) (hb : b ≤ 255) (hc : c ≤ 255) (hd : d ≤ 255)
    (x : Char) (hx : x ∈ dotted a b c d) : x = '.' ∨ ∃ k, k < 10 ∧ x = digit k := by
  simp only [dotted, List.mem_append, List.mem_cons] at hx
  rcases hx with h | h | h | h | h | h | h
  · exact Or.inr (appendDecimal_chars a ha x h)
  · exact Or.inl h
  · exact Or.inr (appendDecimal_chars b hb x h)
  · exact Or.inl h
  · exact Or.inr (appendDecimal_chars c hc x h)
  · exact Or.inl h
  · exact Or.inr (appendDecimal_chars d hd x h)

/-- A step of the main loop of `parseIPv6` on trailing dotted bytes. -/
theorem loop_step_v4 (n i : Nat) (ell : Option Nat) (ip : List Nat) (s rest : List Char)
    (off acc : Nat) (fields : List Nat) (hi : i < 16)
    (hg : hexGroup s 0 0 = some (off, acc, '.' :: rest)) (hoff : 0 < off)
    (hell : ¬ (ell = none ∧ i ≠ 12)) (hroom : i + 4 ≤ 16)
    (hf : parseIPv4Fields s = some fields) :
    parseIPv6Loop (n + 1) s i ell ip = some ⟨[], i + 4, ell, ip ++ fields⟩ := by
  have h0 : ¬ off = 0 := by omega
  have h1 : ¬ i + 4 > 16 := by omega
  simp only [parseIPv6Loop, hi, if_true, hg, h0, if_false, hell, h1, hf]

/-- Parsing `::ffff:` followed by four dotted bytes gives the IPv4-mapped
address of the bytes. -/
theorem parseIPv6_4in6 (a b c d : Nat) (ha : a ≤ 255) (hb : b ≤ 255) (hc : c ≤ 255)
    (hd : d ≤ 255) :
    parseIPv6 ("::ffff:".toList ++ dotted a b c d)
      = some ⟨0xffff00000000 + (a * 2 ^ 24 + b * 2 ^ 16 + c * 2 ^ 8 + d), Zone.z6 ""⟩ := by
  have hnp : ∀ x ∈ "::ffff:".toList ++ dotted a b c d, x ≠ '%' := by
    intro x hx
    rcases List.mem_append.mp hx with h | h
    · have : ∀ y ∈ "::ffff:".toList, y ≠ '%' := by decide
      exact this x h
    · rcases dotted_chars a b c d ha hb hc hd x h with rfl | ⟨k, hk, rfl⟩
      · decide
      · exact (digit_not_sep k hk).2.2
  rw [parseIPv6_no_zone _ hnp]
  have e1 : "::ffff:".toList ++ dotted a b c d
      = ':' :: ':' :: (hexText 0xffff ++ ':' :: dotted a b c d) := by
    rw [hexText_ffff]; rfl
  obtain ⟨k, t, hk, ek⟩ := appendDecimal_head a ha
  have e2 : dotted a b c d = digit k :: (t ++ '.' :: (appendDecimal [] b ++ '.' ::
      (appendDecimal [] c ++ '.' :: appendDecimal [] d))) := by
    unfold dotted; rw [ek]; rfl
  rw [e1]
  simp only [List.take_succ_cons, List.take_zero, decide_True, List.drop_succ_cons, List.drop_zero,
    if_true, true_and]
  have hne : ¬ (hexText 0xffff ++ ':' :: dotted a b c d = []) := by rw [hexText_ffff]; simp
  simp only [hne, if_false]
  rw [e2, loop_step_colon 7 0 _ _ 0xffff (by omega) (by omega) k (by omega), ← e2]
  obtain ⟨off, acc, hoff, hg⟩ := hexGroup_dec_dot a ha (appendDecimal [] b ++ '.' ::
      (appendDecimal [] c ++ '.' :: appendDecimal [] d))
  have hd2 : parseIPv6Loop (6 + 1) (dotted a b c d) (0 + 2) (some 0)
      ([] ++ [0xffff / 256, 0xffff % 256])
      = some ⟨[], 0 + 2 + 4, some 0, [] ++ [0xffff / 256, 0xffff % 256] ++ [a, b, c, d]⟩ :=
    loop_step_v4 6 (0 + 2) (some 0) _ (dotted a b c d) _ off acc [a, b, c, d] (by omega) hg hoff
      (by simp) (by omega) (parseIPv4Fields_dotted a b c d ha hb hc hd)
  rw [hd2]
  simp only [finishIPv6, ne_eq, not_true_eq_false, if_false, Nat.reduceLT, if_true, List.take_zero,
    List.drop_zero, List.nil_append, withZone_empty, Nat.zero_add, Nat.reduceAdd, Nat.reduceSub,
    Nat.reduceDiv, Nat.reduceMod]
  simp only [AddrFrom16, Option.some.injEq, Addr.mk.injEq, and_true, beValue, List.replicate,
    List.cons_append, List.nil_append, List.foldl_cons, List.foldl_nil]
  omega

/-- An address without zone is the parse of its text. -/
theorem parseAddr_string (ip : Addr) (hwf : ip.WF = true) (hv : ip.IsValid = true)
    (hz : ip.hasZone = false) : ParseAddr ip.String = some ip := by
  rcases hzz : ip.z with _ | _ | zone
  · simp [Addr.IsValid, hzz] at hv
  · exact parseAddr_string_v4 ip hzz hwf
  · have hzone : zone = "" := by simpa [Addr.hasZone, hzz] using hz
    subst hzone
    have hlt : ip.addr < 2 ^ 128 := by simpa [Addr.WF, hzz] using hwf
    by_cases h46 : ip.Is4In6 = true
    · obtain ⟨addr, z⟩ := ip
      simp only at hzz hlt
      subst hzz
      have hq : addr / 2 ^ 32 = 0xffff := by simpa [Addr.Is4In6, Addr.Is6] using h46
      have hstr : (Addr.mk addr (Zone.z6 "")).String
          = String.mk ("::ffff:".toList ++ dotted (Addr.v4 ⟨addr, Zone.z4⟩ 0)
              (Addr.v4 ⟨addr, Zone.z4⟩ 1) (Addr.v4 ⟨addr, Zone.z4⟩ 2) (Addr.v4 ⟨addr, Zone.z4⟩ 3)) := by
        simp only [Addr.String, h46, if_true, Addr.appendTo4In6, Addr.Unmap, appendTo4_eq,
          List.nil_append]
        rfl
      rw [hstr]
      unfold ParseAddr
      show parseAddrScan ("::ffff:".toList ++ _) (':' :: _) = _
      simp only [parseAddrScan, if_true, reduceCtorEq]
      have hc : ¬ (':' = '.') := by decide
      simp only [hc, if_false]
      rw [parseIPv6_4in6 _ _ _ _ (v4_le _ _) (v4_le _ _) (v4_le _ _) (v4_le _ _)]
      simp only [Addr.v4, Option.some.injEq, Addr.mk.injEq, and_true]
      omega
    · exact parseAddr_string_v6 ip hzz hlt (by simpa using h46)

theorem parseAddr_invalid : ParseAddr "invalid IP" = none := by decide

theorem parsePrefix_invalid : ParsePrefix "invalid Prefix" = none := by decide

theorem hexGroup_inv (s : List Char) (off acc off1 acc1 : Nat) (s1 : List Char)
    (hacc : acc ≤ 0xffff) (h : hexGroup s off acc = some (off1, acc1, s1)) : acc1 ≤ 0xffff := by
  induction s generalizing off acc with
  | nil =>
    simp only [hexGroup, Option.some.injEq, Prod.mk.injEq] at h
    omega
  | cons c rest ih =>
    simp only [hexGroup] at h
    split at h
    · simp only [Option.some.injEq, Prod.mk.injEq] at h
      omega
    · split at h
      · simp at h
      · split at h
        · simp at h
        · rename_i hle
          exact ih _ _ (by omega) h

theorem v6inv_push (i : Nat) (ell : Option Nat) (ip : List Nat) (acc : Nat) (hi : i < 16)
    (hacc : acc ≤ 0xffff) (h : V6Inv i ell ip) :
    V6Inv (i + 2) ell (ip ++ [acc / 256, acc % 256]) := by
  obtain ⟨h1, h2, h3, h4, h5⟩ := h
  refine ⟨by simp [h1], by omega, by omega, ?_, ?_⟩
  · intro b hb
    rcases List.mem_append.mp hb with hb | hb
    · exact h4 b hb
    · simp only [List.mem_cons, List.mem_singleton, List.not_mem_nil, or_false] at hb
      rcases hb with rfl | rfl <;> omega
  · intro e he
    have := h5 e he
    omega

theorem v6inv_push_ell (i : Nat) (ip : List Nat) (acc : Nat) (hi : i < 16)
    (hacc : acc ≤ 0xffff) (h : V6Inv i none ip) :
    V6Inv (i + 2) (some (i + 2)) (ip ++ [acc / 256, acc % 256]) := by
  obtain ⟨h1, h2, h3, h4, h5⟩ := v6inv_push i none ip acc hi hacc h
  refine ⟨h1, h2, h3, h4, ?_⟩
  intro e he
  simp only [Option.some.injEq] at he
  omega

/-- The main loop of `parseIPv6` keeps its invariant. -/
theorem parseIPv6Loop_inv (n : Nat) (s : List Char) (i : Nat) (ell : Option Nat) (ip : List Nat)
    (st : V6State) (hinv : V6Inv i ell ip) (h : parseIPv6Loop n s i ell ip = some st) :
    V6Inv st.i st.ellipsis st.ip := by
  induction n generalizing s i ell ip with
  | zero =>
    simp only [parseIPv6Loop] at h
    split at h
    · simp at h
    · simp only [Option.some.injEq] at h
      subst h
      exact hinv
  | succ n ih =>
    simp only [parseIPv6Loop] at h
    split at h
    swap
    · simp only [Option.some.injEq] at h
      subst h
      exact hinv
    rename_i hi
    cases hg : hexGroup s 0 0 with
    | none => simp [hg] at h
    | some r =>
      obtain ⟨off, acc, s1⟩ := r
      have hacc := hexGroup_inv s 0 0 off acc s1 (by omega) hg
      simp only [hg] at h
      split at h
      · simp at h
      cases s1 with
      | nil =>
        simp only [Option.some.injEq] at h
        subst h
        exact v6inv_push i ell ip acc hi hacc hinv
      | cons c s2 =>
        simp only at h
        split at h
        · split at h
          · simp at h
          · split at h
            · simp at h
            · rename_i hroom
              cases hf : parseIPv4Fields s with
              | none => simp [hf] at h
              | some fields =>
                simp only [hf, Option.some.injEq] at h
                subst h
                obtain ⟨hl, hb⟩ := parseIPv4Fields_inv s fields hf
                obtain ⟨h1, h2, h3, h4, h5⟩ := hinv
                show V6Inv (i + 4) ell (ip ++ fields)
                refine ⟨by simp [h1, hl], by omega, by omega, ?_, ?_⟩
                · intro b hbm
                  rcases List.mem_append.mp hbm with hb1 | hb1
                  · exact h4 b hb1
                  · exact hb b hb1
                · intro e he
                  have := h5 e he
                  omega
        · split at h
          · simp at h
          · cases s2 with
            | nil => simp at h
            | cons c2 s3 =>
              simp only at h
              split at h
              · split at h
                · simp at h
                · rename_i hell
                  have hell' : ell = none := by simpa using hell
                  subst hell'
                  split at h
                  · simp only [Option.some.injEq] at h
                    subst h
                    exact v6inv_push_ell i ip acc hi hacc hinv
                  · exact ih _ _ _ _ (v6inv_push_ell i ip acc hi hacc hinv) h
              · exact ih _ _ _ _ (v6inv_push i ell ip acc hi hacc hinv) h

theorem beValue_lt (l : List Nat) (h : ∀ b ∈ l, b ≤ 255) : beValue l < 256 ^ l.length := by
  induction l using List.reverseRecOn with
  | nil => simp [beValue]
  | append_singleton l b ih =>
    have hb := h b (by simp)
    have hl := ih (fun x hx => h x (by simp [hx]))
    simp only [beValue, List.foldl_append, List.foldl_cons, List.foldl_nil, List.length_append,
      List.length_singleton, pow_succ] at hl ⊢
    omega

theorem addrFrom16_wf (l : List Nat) (hlen : l.length = 16) (h : ∀ b ∈ l, b ≤ 255)
    (zone : String) :
    ((AddrFrom16 l).WithZone zone).WF = true ∧ ((AddrFrom16 l).WithZone zone).z = Zone.z6 zone := by
  have := beValue_lt l h
  rw [hlen] at this
  have e : (AddrFrom16 l).WithZone zone = ⟨beValue l, Zone.z6 zone⟩ := rfl
  rw [e]
  refine ⟨?_, rfl⟩
  simp only [Addr.WF, decide_eq_true_eq]
  calc beValue l < 256 ^ 16 := this
    _ = 2 ^ 128 := by norm_num

theorem finishIPv6_wf (st : V6State) (zone : String) (ip : Addr)
    (hinv : V6Inv st.i st.ellipsis st.ip) (h : finishIPv6 st zone = some ip) :
    ip.WF = true ∧ ip.z = Zone.z6 zone := by
  obtain ⟨h1, h2, h3, h4, h5⟩ := hinv
  unfold finishIPv6 at h
  split at h
  · simp at h
  split at h
  · rename_i hlt
    split at h
    · simp at h
    · rename_i e he
      simp only [Option.some.injEq] at h
      subst h
      have hle := h5 e he
      exact addrFrom16_wf (st.ip.take e ++ List.replicate (16 - st.i) 0 ++ st.ip.drop e)
        (by simp [h1]; omega)
        (by
          intro b hb
          simp only [List.mem_append, List.mem_replicate] at hb
          rcases hb with (hb | hb) | hb
          · exact h4 b (List.mem_of_mem_take hb)
          · omega
          · exact h4 b (List.mem_of_mem_drop hb)) zone
  · split at h
    · simp at h
    · simp only [Option.some.injEq] at h
      subst h
      exact addrFrom16_wf st.ip (by omega) h4 zone

/-- `parseIPv6` returns a well-formed IPv6 address. -/
theorem parseIPv6_wf (s : List Char) (ip : Addr) (h : parseIPv6 s = some ip) :
    ip.WF = true ∧ ∃ zone, ip.z = Zone.z6 zone := by
  unfold parseIPv6 at h
  simp only at h
  generalize List.takeWhile _ s = s1 at h
  generalize String.mk _ = zone at h
  by_cases c1 : decide (s1.length < s.length) = true ∧ zone = ""
  · rw [if_pos c1] at h; simp at h
  rw [if_neg c1] at h
  by_cases hlead : s1.take 2 = [':', ':']
  · simp only [hlead, decide_True, if_true, true_and] at h
    by_cases c2 : s1.drop 2 = []
    · rw [if_pos c2] at h
      simp only [Option.some.injEq] at h
      subst h
      simp [IPv6Unspecified, Addr.WithZone, Addr.Is6, Addr.WF]
    · rw [if_neg c2] at h
      cases hst : parseIPv6Loop 8 (s1.drop 2) 0 (some 0) [] with
      | none => simp [hst] at h
      | some st =>
        simp only [hst] at h
        have hinv := parseIPv6Loop_inv _ _ _ _ _ st
          (by refine ⟨rfl, by omega, rfl, by simp, ?_⟩; intro e he; simp at he; omega) hst
        obtain ⟨hw, hz⟩ := finishIPv6_wf st _ ip hinv h
        exact ⟨hw, _, hz⟩
  · simp only [hlead, decide_False, Bool.false_eq_true, if_false, false_and] at h
    cases hst : parseIPv6Loop 8 s1 0 none [] with
    | none => simp [hst] at h
    | some st =>
      simp only [hst] at h
      have hinv := parseIPv6Loop_inv _ _ _ _ _ st
        (by refine ⟨rfl, by omega, rfl, by simp, ?_⟩; intro e he; simp at he) hst
      obtain ⟨hw, hz⟩ := finishIPv6_wf st _ ip hinv h
      exact ⟨hw, _, hz⟩

theorem parseAddrScan_wf (s t : List Char) (ip : Addr) (h : parseAddrScan s t = some ip) :
    ip.WF = true ∧ ip.IsValid = true := by
  induction t with
  | nil => simp [parseAddrScan] at h
  | cons c t ih =>
    simp only [parseAddrScan] at h
    split at h
    · obtain ⟨h1, h2⟩ := parseIPv4_wf s ip h
      exact ⟨h1, by simp [Addr.IsValid, h2]⟩
    · split at h
      · obtain ⟨h1, zone, h2⟩ := parseIPv6_wf s ip h
        exact ⟨h1, by simp [Addr.IsValid, h2]⟩
      · split at h
        · simp at h
        · exact ih h

/-- `ParseAddr` returns a valid, well-formed address. -/
theorem parseAddr_wf (s : String) (ip : Addr) (h : ParseAddr s = some ip) :
    ip.WF = true ∧ ip.IsValid = true :=
  parseAddrScan_wf _ _ ip h

theorem bitsTextOk_all : (List.range 129).all bitsTextOk = true := by decide

theorem bitsTextOk_le (b : Nat) (h : b ≤ 128) : bitsTextOk b = true :=
  List.all_eq_true.mp bitsTextOk_all b (List.mem_range.mpr (by omega))

theorem lastSlash_append (A D : List Char) (h : D.contains '/' = false) :
    lastSlash (A ++ '/' :: D) = some A.length := by
  have hD : '/' ∉ D.reverse := by
    intro hm
    have : D.contains '/' = true := by simpa using hm
    rw [h] at this
    exact Bool.false_ne_true this
  have e : (A ++ '/' :: D).reverse = D.reverse ++ '/' :: A.reverse := by simp
  have hidx : ∀ (l r : List Char), '/' ∉ l → (l ++ '/' :: r).indexOf? '/' = some l.length := by
    intro l r hl
    induction l with
    | nil => simp [List.indexOf?, List.findIdx?_cons]
    | cons x xs ih =>
      have hx : x ≠ '/' := fun e => hl (by simp [e])
      have hxs : '/' ∉ xs := fun e => hl (by simp [e])
      have := ih hxs
      simp only [List.indexOf?] at this ⊢
      simp only [List.cons_append, List.findIdx?_cons, beq_iff_eq, hx, if_false, Nat.zero_add,
        List.findIdx?_succ, this, Option.map_some', List.length_cons]
  unfold lastSlash
  rw [e, hidx _ _ hD]
  simp only [List.length_append, List.length_cons, List.length_reverse]
  congr 1
  omega

theorem prefixFrom_ok (ip : Addr) (b : Nat) (hv : ip.IsValid = true) (hz : ip.hasZone = false)
    (hb : b ≤ ip.BitLen) : PrefixFrom ip (b : Int) = ⟨ip, b + 1⟩ := by
  obtain ⟨addr, z⟩ := ip
  cases z with
  | z0 => simp [Addr.IsValid] at hv
  | z4 =>
    simp only [Addr.BitLen] at hb
    simp [PrefixFrom, Addr.withoutZone, Addr.isZero, Addr.BitLen, hb]
  | z6 zone =>
    have : zone = "" := by simpa [Addr.hasZone] using hz
    subst this
    simp only [Addr.BitLen] at hb
    simp [PrefixFrom, Addr.withoutZone, Addr.isZero, Addr.BitLen, hb]

/-- A valid prefix is the parse of its text. -/
theorem parsePrefix_string (p : Prefix) (hwf : p.WF = true) (hv : p.IsValid = true) :
    ParsePrefix p.String = some p := by
  obtain ⟨ip, bp⟩ := p
  simp only [Prefix.IsValid, decide_eq_true_eq] at hv
  simp only [Prefix.WF, Bool.and_eq_true, Bool.not_eq_true', Bool.or_eq_true, beq_iff_eq,
    decide_eq_true_eq] at hwf
  obtain ⟨⟨hipwf, hnz⟩, hb⟩ := hwf
  have hb' : ip.IsValid = true ∧ bp ≤ ip.BitLen + 1 := by
    rcases hb with h | h
    · omega
    · exact h
  obtain ⟨hipv, hbl⟩ := hb'
  obtain ⟨b, rfl⟩ : ∃ b, bp = b + 1 := ⟨bp - 1, by omega⟩
  have hb128 : b ≤ 128 := by
    have : ip.BitLen ≤ 128 := by unfold Addr.BitLen; split <;> omega
    omega
  have hok := bitsTextOk_le b hb128
  simp only [bitsTextOk, Bool.and_eq_true, Bool.not_eq_true', beq_iff_eq] at hok
  obtain ⟨⟨h1, h2⟩, h3⟩ := hok
  have hstr : (Prefix.mk ip (b + 1)).String = String.mk (ip.String.toList ++ '/' :: itoa b) := by
    simp [Prefix.String, Prefix.IsValid, Prefix.Bits]
  rw [hstr]
  unfold ParsePrefix
  simp only [String.toList]
  rw [lastSlash_append _ _ h1]
  simp only [List.take_left', List.drop_left', List.take_append_eq_append_take, List.take_length,
    Nat.sub_self, List.take_zero, List.append_nil]
  have hs : (String.mk ip.String.data) = ip.String := rfl
  rw [hs, parseAddr_string ip hipwf hipv hnz]
  have hz6 : ¬ (ip.Is6 = true ∧ ip.z ≠ Zone.z6 "") := by
    rintro ⟨h6, hne⟩
    obtain ⟨addr, z⟩ := ip
    cases z with
    | z0 => simp [Addr.Is6] at h6
    | z4 => simp [Addr.Is6] at h6
    | z6 zone =>
      have : zone = "" := by simpa [Addr.hasZone] using hnz
      subst this
      exact hne rfl
  have hdrop : List.drop (ip.String.data.length + 1) (ip.String.data ++ '/' :: itoa b) = itoa b := by
    rw [List.drop_append_eq_append_drop]
    simp
  simp only [hz6, if_false, hdrop, h3]
  have hhead : ¬ ((itoa b).length > 1 ∧
      ((itoa b).head!.toNat < '1'.toNat ∨ (itoa b).head!.toNat > '9'.toNat)) := by
    intro ⟨ha, hb2⟩
    have : (decide ((itoa b).length > 1) &&
      (decide ((itoa b).head!.toNat < '1'.toNat) || decide ((itoa b).head!.toNat > '9'.toNat))) = true := by
      simp only [Bool.and_eq_true, decide_eq_true_eq, Bool.or_eq_true]
      exact ⟨ha, hb2⟩
    rw [h2] at this
    exact Bool.false_ne_true this
  simp only [hhead, if_false]
  have hmax : ¬ ((b : Int) < 0 ∨ (b : Int) > (if ip.Is6 = true then 128 else 32)) := by
    obtain ⟨addr, z⟩ := ip
    cases z with
    | z0 => simp [Addr.IsValid] at hipv
    | z4 => simp only [Addr.BitLen] at hbl; simp [Addr.Is6]; omega
    | z6 zone => simp only [Addr.BitLen] at hbl; simp [Addr.Is6]; omega
  simp only [hmax, if_false]
  rw [prefixFrom_ok ip b hipv hnz (by omega)]

/-- `ParsePrefix` returns a valid, well-formed prefix. -/
theorem parsePrefix_wf (s : String) (p : Prefix) (h : ParsePrefix s = some p) :
    p.WF = true ∧ p.IsValid = true := by
  unfold ParsePrefix at h
  simp only [String.toList] at h
  cases hl : lastSlash s.data with
  | none => simp [hl] at h
  | some i =>
    simp only [hl] at h
    cases ha : ParseAddr (String.mk (s.data.take i)) with
    | none => simp [ha] at h
    | some ip =>
      obtain ⟨hw, hv⟩ := parseAddr_wf _ ip ha
      simp only [ha] at h
      split at h
      · simp at h
      rename_i hz
      split at h
      · simp at h
      cases hat : Atoi (s.data.drop (i + 1)) with
      | none => simp [hat] at h
      | some bits =>
        simp only [hat] at h
        by_cases hr : bits < 0 ∨ bits > (if ip.Is6 = true then 128 else 32)
        · rw [if_pos hr] at h; simp at h
        rw [if_neg hr, Option.some.injEq] at h
        subst h
        obtain ⟨b, rfl⟩ : ∃ b : Nat, bits = (b : Int) := ⟨bits.toNat, by omega⟩
        have hnz : ip.hasZone = false := by
          obtain ⟨addr, z⟩ := ip
          cases z with
          | z0 => rfl
          | z4 => rfl
          | z6 zone =>
            by_contra hc
            apply hz
            refine ⟨by simp [Addr.Is6], ?_⟩
            intro e
            simp only [Zone.z6.injEq] at e
            subst e
            simp [Addr.hasZone] at hc
        have hbl : b ≤ ip.BitLen := by
          obtain ⟨addr, z⟩ := ip
          cases z with
          | z0 => simp [Addr.IsValid] at hv
          | z4 => simp [Addr.Is6] at hr; simp [Addr.BitLen]; omega
          | z6 zone => simp [Addr.Is6] at hr; simp [Addr.BitLen]; omega
        rw [prefixFrom_ok ip b hv hnz hbl]
        simp [Prefix.WF, Prefix.IsValid, hw, hnz, hv, hbl]

theorem string_zero : Addr.zero.String = "invalid IP" := rfl

/-- `Addr.Next` on a valid address without zone: the zero `Addr` at the end of
the family, else the valid address whose value is one more. -/
theorem next_spec (ip : Addr) (hwf : ip.WF = true) (hv : ip.IsValid = true)
    (hz : ip.hasZone = false) :
    ip.Next = Addr.zero ∨
    (ip.Next = ⟨ip.addr + 1, ip.z⟩ ∧ ip.Next.WF = true ∧ ip.Next.IsValid = true ∧
      ip.Next.hasZone = false) := by
  obtain ⟨addr, z⟩ := ip
  cases z with
  | z0 => simp [Addr.IsValid] at hv
  | z4 =>
    simp only [Addr.WF, Bool.and_eq_true, decide_eq_true_eq] at hwf
    have e : (addr + 1) % 2 ^ 128 = addr + 1 := Nat.mod_eq_of_lt (by omega)
    have hn : Addr.Next ⟨addr, Zone.z4⟩
        = if (addr + 1) % 2 ^ 32 = 0 then Addr.zero else ⟨addr + 1, Zone.z4⟩ := by
      simp only [Addr.Next, Addr.Is4, beq_self_eq_true, if_true, e]
    rw [hn]
    by_cases h : (addr + 1) % 2 ^ 32 = 0
    · left; rw [if_pos h]
    · right
      rw [if_neg h]
      refine ⟨rfl, ?_, rfl, rfl⟩
      simp only [Addr.WF, Bool.and_eq_true, decide_eq_true_eq]
      omega
  | z6 zone =>
    simp only [Addr.WF, decide_eq_true_eq] at hwf
    have hn : Addr.Next ⟨addr, Zone.z6 zone⟩
        = if (addr + 1) % 2 ^ 128 = 0 then Addr.zero else ⟨(addr + 1) % 2 ^ 128, Zone.z6 zone⟩ := by
      simp only [Addr.Next, Addr.Is4, beq_iff_eq, reduceCtorEq, if_false]
    rw [hn]
    by_cases h : (addr + 1) % 2 ^ 128 = 0
    · left; rw [if_pos h]
    · right
      have e : (addr + 1) % 2 ^ 128 = addr + 1 := by
        apply Nat.mod_eq_of_lt
        by_contra hc
        have : addr + 1 = 2 ^ 128 := by omega
        rw [this] at h
        exact h (Nat.mod_self _)
      rw [if_neg h, e]
      refine ⟨rfl, ?_, rfl, hz⟩
      simp only [Addr.WF, decide_eq_true_eq]
      omega

/-- When the text of `ip.Next` parses, `ip.Next` is the valid address after
`ip` and the parse returns it. -/
theorem parse_next (ip a : Addr) (hwf : ip.WF = true) (hv : ip.IsValid = true)
    (hz : ip.hasZone = false) (h : ParseAddr ip.Next.String = some a) :
    a = ip.Next ∧ ip.Next = ⟨ip.addr + 1, ip.z⟩ ∧ ip.Next.WF = true ∧ ip.Next.IsValid = true ∧
      ip.Next.hasZone = false := by
  rcases next_spec ip hwf hv hz with h0 | ⟨h1, h2, h3, h4⟩
  · rw [h0, string_zero, parseAddr_invalid] at h
    cases h
  · rw [parseAddr_string _ h2 h3 h4] at h
    exact ⟨(Option.some.inj h).symm, h1, h2, h3, h4⟩

theorem wf_valid_ip (p : Prefix) (hp : p.WF = true) (hv : p.IsValid = true) :
    p.ip.WF = true ∧ p.ip.IsValid = true ∧ p.ip.hasZone = false := by
  simp only [Prefix.WF, Prefix.IsValid, Bool.and_eq_true, Bool.or_eq_true, beq_iff_eq,
    decide_eq_true_eq, Bool.not_eq_true'] at hp hv
  obtain ⟨⟨h1, h2⟩, h3⟩ := hp
  rcases h3 with h | h
  · omega
  · exact ⟨h1, h.1, h2⟩

/-- A valid prefix is in network form exactly when the host bits of its
address are zero. -/
theorem masked_eq_iff (p : Prefix) (hp : p.WF = true) (hv : p.IsValid = true) :
    p.Masked = p ↔ p.ip.addr % 2 ^ (p.ip.BitLen - p.Bits.toNat) = 0 := by
  have hbits := wf_bits p hp hv
  obtain ⟨hipwf, hipv, hipz⟩ := wf_valid_ip p hp hv
  obtain ⟨⟨addr, z⟩, bp⟩ := p
  simp only [Prefix.IsValid, decide_eq_true_eq] at hv
  rw [bits_toNat] at hbits ⊢
  simp only at hbits ⊢
  have hB : (Prefix.mk ⟨addr, z⟩ bp).Bits = ((bp - 1 : Nat) : Int) := by
    unfold Prefix.Bits; simp only; omega
  have key : ∀ (v k : Nat), v / 2 ^ k * 2 ^ k = v ↔ v % 2 ^ k = 0 := by
    intro v k
    have := Nat.div_add_mod v (2 ^ k)
    constructor
    · intro h; rw [Nat.mul_comm] at h; omega
    · intro h; rw [Nat.mul_comm]; omega
  cases z with
  | z0 => simp [Addr.IsValid] at hipv
  | z4 =>
    simp only [Addr.BitLen] at hbits ⊢
    simp only [Addr.WF, Bool.and_eq_true, decide_eq_true_eq] at hipwf
    have h1 : ¬ (((bp - 1 : Nat) : Int) < 0) := by omega
    have h2 : ¬ (((bp - 1 : Nat) : Int) > 32) := by omega
    have hle : ((bp - 1 : Nat) : Int) ≤ 32 := by omega
    have e : 128 - (bp - 1 + 96) = 32 - (bp - 1) := by omega
    simp only [Prefix.Masked, hB, Addr.Prefix, h1, h2, if_false, Option.getD_some, PrefixFrom,
      Addr.withoutZone, Addr.isZero, Addr.BitLen, Int.toNat_ofNat, Prefix.mk.injEq, Addr.mk.injEq,
      and_true]
    rw [and_mask6 _ _ (by omega) (by omega), e, key]
    constructor
    · intro h; exact h.1
    · intro h
      refine ⟨h, ?_⟩
      simp [hle]; omega
  | z6 zone =>
    have hzone : zone = "" := by simpa [Addr.hasZone] using hipz
    subst hzone
    simp only [Addr.BitLen] at hbits ⊢
    simp only [Addr.WF, decide_eq_true_eq] at hipwf
    have h1 : ¬ (((bp - 1 : Nat) : Int) < 0) := by omega
    have h2 : ¬ (((bp - 1 : Nat) : Int) > 128) := by omega
    have hle : ((bp - 1 : Nat) : Int) ≤ 128 := by omega
    simp only [Prefix.Masked, hB, Addr.Prefix, h1, h2, if_false, Option.getD_some, PrefixFrom,
      Addr.withoutZone, Addr.isZero, Addr.BitLen, Int.toNat_ofNat, Prefix.mk.injEq, Addr.mk.injEq,
      and_true]
    rw [and_mask6 _ _ hipwf (by omega), key]
    constructor
    · intro h; exact h.1
    · intro h
      refine ⟨h, ?_⟩
      simp [hle]; omega

/-- An address whose host bits are zero keeps its network bits when less than
the size of the host part is added. -/
theorem div_pow_add (v k d : Nat) (hv : v % 2 ^ k = 0) (hd : d < 2 ^ k) :
    (v + d) / 2 ^ k = v / 2 ^ k := by
  have h1 := Nat.div_add_mod v (2 ^ k)
  have hpos : 0 < 2 ^ k := by positivity
  rw [hv, Nat.add_zero] at h1
  have e : v + d = d + 2 ^ k * (v / 2 ^ k) := by omega
  rw [e, Nat.add_mul_div_left _ _ hpos, Nat.div_eq_of_lt hd, Nat.zero_add]

end netip

/-! ## Theorems: `ResolveWireguardConfig` -/

namespace proxy

open netip config

/-- The three base options succeed exactly when every parse does. -/
theorem baseOptions_inv (lk ak : Except String wgtypes.Key) (ov l a p1s p2s p3s : String)
    (extra : List WireguardOption) (wg : Wireguard) (e : Option Error)
    (h : applyOptions ([WithGeneratedKeypairs lk ak, WithOverlay ov l a,
        WithAllowedIPs [p1s, p2s, p3s, ov]] ++ extra) Wireguard.zero = (wg, e)) (he : e = none) :
    ∃ (k1 k2 : wgtypes.Key) (o : Prefix) (la aa : Addr) (p1 p2 p3 p4 : Prefix),
      lk = Except.ok k1 ∧ ak = Except.ok k2 ∧
      ParsePrefix ov = some o ∧ ParseAddr l = some la ∧ ParseAddr a = some aa ∧
      ParsePrefix p1s = some p1 ∧ ParsePrefix p2s = some p2 ∧ ParsePrefix p3s = some p3 ∧
      ParsePrefix ov = some p4 ∧
      applyOptions extra
        { Wireguard.zero with
          LocalKey := ⟨k1⟩
          AgentKey := ⟨k2⟩
          OverlayPrefix := o
          LocalOverlayAddress := la
          AgentOverlayAddress := aa
          AllowedIPs := [p1, p2, p3, p4] } = (wg, none) := by
  subst he
  simp only [List.cons_append, List.nil_append, applyOptions, WithGeneratedKeypairs] at h
  cases lk with
  | error c => simp at h
  | ok k1 =>
    cases ak with
    | error c => simp at h
    | ok k2 =>
      simp only [WithOverlay] at h
      cases ho : ParsePrefix ov with
      | none => simp [ho] at h
      | some o =>
        cases hl : ParseAddr l with
        | none => simp [ho, hl] at h
        | some la =>
          cases ha : ParseAddr a with
          | none => simp [ho, hl, ha] at h
          | some aa =>
            simp only [ho, hl, ha, WithAllowedIPs, appendAllowedIPs] at h
            cases h1 : ParsePrefix p1s with
            | none => simp [h1] at h
            | some p1 =>
              cases h2 : ParsePrefix p2s with
              | none => simp [h1, h2] at h
              | some p2 =>
                cases h3 : ParsePrefix p3s with
                | none => simp [h1, h2, h3] at h
                | some p3 =>
                  simp only [h1, h2, h3, ho] at h
                  exact ⟨k1, k2, o, la, aa, p1, p2, p3, o, rfl, rfl, rfl, rfl, rfl, rfl, rfl, rfl, rfl,
                    by simpa [Wireguard.zero] using h⟩

/-- What a successful `ResolveWireguardConfig` has done: the cluster details
were resolved and stored, an overlay prefix was parsed from the argument or
selected from the candidates, and every field of the Wireguard section is the
parse of the text form of the value computed for it. -/
theorem resolve_ok_inv (env : Env) (cfg cfg1 : Config) (overlayPrefix : String)
    (directAccess : Bool)
    (h : ResolveWireguardConfig env cfg overlayPrefix directAccess = (cfg1, none)) :
    ∃ overlay : Prefix,
      env.getClusterDetails cfg.KubernetesClusterDetails cfg.Namespace
        = Except.ok cfg1.KubernetesClusterDetails ∧
      ((overlayPrefix ≠ "" ∧ ParsePrefix overlayPrefix = some overlay) ∨
        (overlayPrefix = "" ∧
          selectOverlay cfg1.KubernetesClusterDetails overlayCIDRs = Except.ok overlay)) ∧
      ParsePrefix overlay.String = some cfg1.Wireguard.OverlayPrefix ∧
      ParseAddr overlay.Addr.Next.String = some cfg1.Wireguard.LocalOverlayAddress ∧
      ParseAddr overlay.Addr.Next.Next.String = some cfg1.Wireguard.AgentOverlayAddress ∧
      (∃ p1 p2 p3 p4 : Prefix,
        ParsePrefix cfg1.KubernetesClusterDetails.PodCIDR.String = some p1 ∧
        ParsePrefix cfg1.KubernetesClusterDetails.ServiceCIDR.String = some p2 ∧
        ParsePrefix cfg1.KubernetesClusterDetails.NodeCIDR.String = some p3 ∧
        ParsePrefix overlay.String = some p4 ∧
        cfg1.Wireguard.AllowedIPs = [p1, p2, p3, p4]) := by
  unfold ResolveWireguardConfig at h
  cases hcd : env.getClusterDetails cfg.KubernetesClusterDetails cfg.Namespace with
  | error c => simp [hcd] at h
  | ok cd =>
    simp only [hcd] at h
    -- the overlay
    generalize hov : (if overlayPrefix ≠ "" then
        match ParsePrefix overlayPrefix with
        | none => Except.error (Error.parseOverlay overlayPrefix)
        | some overlay => Except.ok overlay
      else selectOverlay cd overlayCIDRs) = ovr at h
    cases ovr with
    | error e => simp at h
    | ok overlay =>
      have hsel : (overlayPrefix ≠ "" ∧ ParsePrefix overlayPrefix = some overlay) ∨
          (overlayPrefix = "" ∧ selectOverlay cd overlayCIDRs = Except.ok overlay) := by
        by_cases hne : overlayPrefix = ""
        · right; simp [hne] at hov; exact ⟨hne, hov⟩
        · left
          simp only [ne_eq, hne, not_false_eq_true, if_true] at hov
          cases hp : ParsePrefix overlayPrefix with
          | none => simp [hp] at hov
          | some o => simp [hp] at hov; exact ⟨hne, by rw [hov]⟩
      simp only at h
      refine ⟨overlay, ?_⟩
      have key : ∀ extra : List WireguardOption,
          (∀ w w1, applyOptions extra w = (w1, none) →
            w1.OverlayPrefix = w.OverlayPrefix ∧ w1.LocalOverlayAddress = w.LocalOverlayAddress ∧
            w1.AgentOverlayAddress = w.AgentOverlayAddress ∧ w1.AllowedIPs = w.AllowedIPs) →
          ({ cfg with KubernetesClusterDetails := cd, Wireguard := (NewWireguardConfig
            ([WithGeneratedKeypairs env.localKeypair env.agentKeypair,
              WithOverlay overlay.String overlay.Addr.Next.String overlay.Addr.Next.Next.String,
              WithAllowedIPs [cd.PodCIDR.String, cd.ServiceCIDR.String, cd.NodeCIDR.String,
                overlay.String]] ++ extra)).1 },
            (NewWireguardConfig
            ([WithGeneratedKeypairs env.localKeypair env.agentKeypair,
              WithOverlay overlay.String overlay.Addr.Next.String overlay.Addr.Next.Next.String,
              WithAllowedIPs [cd.PodCIDR.String, cd.ServiceCIDR.String, cd.NodeCIDR.String,
                overlay.String]] ++ extra)).2) = (cfg1, none) →
          Except.ok cd = (Except.ok cfg1.KubernetesClusterDetails : Except String _) ∧
          ((overlayPrefix ≠ "" ∧ ParsePrefix overlayPrefix = some overlay) ∨
            (overlayPrefix = "" ∧
              selectOverlay cfg1.KubernetesClusterDetails overlayCIDRs = Except.ok overlay)) ∧
          ParsePrefix overlay.String = some cfg1.Wireguard.OverlayPrefix ∧
          ParseAddr overlay.Addr.Next.String = some cfg1.Wireguard.LocalOverlayAddress ∧
          ParseAddr overlay.Addr.Next.Next.String = some cfg1.Wireguard.AgentOverlayAddress ∧
          (∃ p1 p2 p3 p4 : Prefix,
            ParsePrefix cfg1.KubernetesClusterDetails.PodCIDR.String = some p1 ∧
            ParsePrefix cfg1.KubernetesClusterDetails.ServiceCIDR.String = some p2 ∧
            ParsePrefix cfg1.KubernetesClusterDetails.NodeCIDR.String = some p3 ∧
            ParsePrefix overlay.String = some p4 ∧
            cfg1.Wireguard.AllowedIPs = [p1, p2, p3, p4]) := by
        intro extra hextra hres
        rw [Prod.mk.injEq] at hres
        obtain ⟨hc, he⟩ := hres
        obtain ⟨k1, k2, o, la, aa, p1, p2, p3, p4, -, -, ho, hl, ha, h1, h2, h3, h4, hx⟩ :=
          baseOptions_inv _ _ _ _ _ _ _ _ extra _ _ (Prod.mk.eta (p := NewWireguardConfig _)).symm he
        obtain ⟨e1, e2, e3, e4⟩ := hextra _ _ hx
        subst hc
        simp only at e1 e2 e3 e4 ⊢
        refine ⟨trivial, hsel, ?_, ?_, ?_, p1, p2, p3, p4, h1, h2, h3, h4, ?_⟩
        · rw [ho, e1]
        · rw [hl, e2]
        · rw [ha, e3]
        · rw [e4]
      by_cases hda : directAccess = true
      · simp only [hda, if_true] at h
        cases hf : env.findLocalAddressAndPort with
        | error c => simp [hf] at h
        | ok lp =>
          obtain ⟨localIP, localPort⟩ := lp
          simp only [hf] at h
          cases hpa : ParseAddr localIP with
          | none => simp [hpa] at h
          | some localAddr =>
            simp only [hpa] at h
            exact key _ (by
              intro w w1 hw
              simp [applyOptions, WithLocalAddress, WithDirectAccess] at hw
              subst hw; simp) h
      · rw [if_neg hda] at h
        by_cases hla : cfg.Wireguard.LocalAddress.IsValid = true
        · rw [if_pos hla] at h
          exact key [WithLocalAddress cfg.Wireguard.LocalAddress] (by
              intro w w1 hw
              simp [applyOptions, WithLocalAddress] at hw
              subst hw; simp) (by simpa using h)
        · rw [if_neg hla] at h
          exact key [] (by
              intro w w1 hw
              simp [applyOptions] at hw
              subst hw; simp) (by simpa using h)

theorem overlayCIDRs_eq : overlayCIDRs =
    [⟨⟨0xffff0a010000, Zone.z4⟩, 29⟩, ⟨⟨0xffff64403300, Zone.z4⟩, 29⟩] := by decide

/-- The overlay selection returns a candidate that overlaps none of the three
cluster prefixes. -/
theorem selectOverlay_ok (cd : kuberneteshelpers.ClusterDetails) (l : List Prefix) (o : Prefix)
    (h : selectOverlay cd l = Except.ok o) :
    o ∈ l ∧ o.Overlaps cd.PodCIDR = false ∧ o.Overlaps cd.ServiceCIDR = false ∧
      o.Overlaps cd.NodeCIDR = false := by
  induction l with
  | nil => simp [selectOverlay] at h
  | cons c rest ih =>
    simp only [selectOverlay] at h
    split at h
    · obtain ⟨h1, h2⟩ := ih h
      exact ⟨List.mem_cons_of_mem _ h1, h2⟩
    · rename_i hc
      simp only [Bool.or_eq_true, not_or, Bool.not_eq_true] at hc
      simp only [Except.ok.injEq] at h
      subst h
      exact ⟨List.mem_cons_self _ _, hc.1.1, hc.1.2, hc.2⟩

/-- The text form of each candidate parses back to the candidate. -/
theorem overlayCIDRs_roundtrip (o : Prefix) (h : o ∈ overlayCIDRs) :
    ParsePrefix o.String = some o ∧ o.WF = true := by
  rw [overlayCIDRs_eq] at h
  simp only [List.mem_cons, List.mem_singleton, List.not_mem_nil, or_false] at h
  rcases h with rfl | rfl
  · decide
  · decide

theorem overlayCIDRs_valid (o : Prefix) (h : o ∈ overlayCIDRs) : o.IsValid = true := by
  rw [overlayCIDRs_eq] at h
  simp only [List.mem_cons, List.mem_singleton, List.not_mem_nil, or_false] at h
  rcases h with rfl | rfl <;> decide

/-- What a successful `ResolveWireguardConfig` stores: the overlay prefix it
parsed or selected, the address after the one written in that prefix as the
local overlay address, and the address after that as the agent overlay
address. -/
theorem resolve_ok_overlay (env : Env) (cfg cfg1 : Config) (overlayPrefix : String)
    (directAccess : Bool)
    (h : ResolveWireguardConfig env cfg overlayPrefix directAccess = (cfg1, none)) :
    ((overlayPrefix ≠ "" ∧ ParsePrefix overlayPrefix = some cfg1.Wireguard.OverlayPrefix) ∨
      (overlayPrefix = "" ∧ selectOverlay cfg1.KubernetesClusterDetails overlayCIDRs
        = Except.ok cfg1.Wireguard.OverlayPrefix)) ∧
    cfg1.Wireguard.OverlayPrefix.WF = true ∧ cfg1.Wireguard.OverlayPrefix.IsValid = true ∧
    cfg1.Wireguard.LocalOverlayAddress = cfg1.Wireguard.OverlayPrefix.Addr.Next ∧
    cfg1.Wireguard.AgentOverlayAddress = cfg1.Wireguard.OverlayPrefix.Addr.Next.Next ∧
    cfg1.Wireguard.OverlayPrefix.Addr.Next
      = ⟨cfg1.Wireguard.OverlayPrefix.ip.addr + 1, cfg1.Wireguard.OverlayPrefix.ip.z⟩ ∧
    cfg1.Wireguard.OverlayPrefix.Addr.Next.Next
      = ⟨cfg1.Wireguard.OverlayPrefix.ip.addr + 2, cfg1.Wireguard.OverlayPrefix.ip.z⟩ ∧
    cfg1.Wireguard.AgentOverlayAddress.WF = true := by
  obtain ⟨overlay, -, hsel, hov, hl, ha, -⟩ := resolve_ok_inv env cfg cfg1 overlayPrefix directAccess h
  have hwv : overlay.WF = true ∧ overlay.IsValid = true := by
    rcases hsel with ⟨-, hp⟩ | ⟨-, hs⟩
    · exact parsePrefix_wf _ _ hp
    · obtain ⟨hmem, -⟩ := selectOverlay_ok _ _ _ hs
      exact ⟨(overlayCIDRs_roundtrip overlay hmem).2, overlayCIDRs_valid overlay hmem⟩
  obtain ⟨hwf, hv⟩ := hwv
  rw [parsePrefix_string overlay hwf hv, Option.some.injEq] at hov
  subst hov
  obtain ⟨hipwf, hipv, hipz⟩ := wf_valid_ip _ hwf hv
  obtain ⟨e1, n1, w1, v1, z1⟩ := parse_next _ _ hipwf hipv hipz hl
  obtain ⟨e2, n2, w2, v2, z2⟩ := parse_next _ _ w1 v1 z1 ha
  refine ⟨hsel, hwf, hv, e1, e2, n1, ?_, ?_⟩
  · show cfg1.Wireguard.OverlayPrefix.ip.Next.Next = _
    rw [n2]
    have n1' : cfg1.Wireguard.OverlayPrefix.ip.Next
      = ⟨cfg1.Wireguard.OverlayPrefix.ip.addr + 1, cfg1.Wireguard.OverlayPrefix.ip.z⟩ := n1
    rw [n1']
  · rw [e2]; exact w2

/-- The two addresses after the one written in a valid prefix in network form
with at least two host bits lie in the prefix. -/
theorem contains_next_of_masked (p : Prefix) (hp : p.WF = true) (hv : p.IsValid = true)
    (hm : p.Masked = p) (hroom : p.Bits.toNat + 2 ≤ p.ip.BitLen) (d : Nat) (hd : d ≤ 2)
    (a : Addr) (ha : a = ⟨p.ip.addr + d, p.ip.z⟩) (hawf : a.WF = true) :
    p.Contains a = true := by
  obtain ⟨hipwf, hipv, hipz⟩ := wf_valid_ip p hp hv
  rw [contains_iff p a hp hawf]
  have hz : a.z = p.ip.z := by rw [ha]
  have haz : a.hasZone = false := by
    unfold Addr.hasZone at hipz ⊢
    rw [hz]; exact hipz
  have hbl : a.BitLen = p.ip.BitLen := by
    unfold Addr.BitLen
    rw [hz]
  refine ⟨hv, haz, hbl, ?_⟩
  have h0 := (masked_eq_iff p hp hv).mp hm
  have haddr : a.addr = p.ip.addr + d := by rw [ha]
  rw [haddr]
  apply div_pow_add _ _ _ h0
  have : 2 ^ 2 ≤ 2 ^ (p.ip.BitLen - p.Bits.toNat) :=
    Nat.pow_le_pow_right (by norm_num) (by omega)
  omega

/-- The text of a well-formed prefix parses only to that prefix. -/
theorem parse_string_eq (p q : Prefix) (hp : p.WF = true) (h : ParsePrefix p.String = some q) :
    q = p ∧ p.IsValid = true := by
  by_cases hv : p.IsValid = true
  · rw [parsePrefix_string p hp hv, Option.some.injEq] at h
    exact ⟨h.symm, hv⟩
  · have : p.String = "invalid Prefix" := by simp [Prefix.String, hv]
    rw [this, parsePrefix_invalid] at h
    cases h

/-- The overlay selection is the search for the first candidate that overlaps
none of the three cluster prefixes. -/
theorem selectOverlay_find (cd : kuberneteshelpers.ClusterDetails) (l : List Prefix) :
    selectOverlay cd l =
      match l.find? (fun c => !(c.Overlaps cd.PodCIDR || c.Overlaps cd.ServiceCIDR
          || c.Overlaps cd.NodeCIDR)) with
      | some c => Except.ok c
      | none => Except.error Error.noOverlay := by
  induction l with
  | nil => rfl
  | cons c rest ih =>
    simp only [selectOverlay, List.find?]
    by_cases hc : (c.Overlaps cd.PodCIDR || c.Overlaps cd.ServiceCIDR
        || c.Overlaps cd.NodeCIDR) = true
    · rw [if_pos hc, ih]
      simp only [hc, Bool.not_true]
    · rw [if_neg hc]
      simp only [Bool.not_eq_true] at hc
      simp only [hc, Bool.not_false]

/-- When the selection fails, `ResolveWireguardConfig` returns its error with
the cluster details stored. -/
theorem resolve_select_error (env : Env) (cfg : Config) (directAccess : Bool)
    (cd : kuberneteshelpers.ClusterDetails) (e : Error)
    (hcd : env.getClusterDetails cfg.KubernetesClusterDetails cfg.Namespace = Except.ok cd)
    (hsel : selectOverlay cd overlayCIDRs = Except.error e) :
    ResolveWireguardConfig env cfg "" directAccess
      = ({ cfg with KubernetesClusterDetails := cd }, some e) := by
  unfold ResolveWireguardConfig
  simp only [hcd, ne_eq, not_true_eq_false, if_false, hsel]

/-- The three base options succeed when the keys are drawn and every text
parses. -/
theorem baseOptions_ok (k1 k2 : wgtypes.Key) (ov l a p1s p2s p3s : String)
    (o : Prefix) (la aa : Addr) (p1 p2 p3 : Prefix)
    (ho : ParsePrefix ov = some o) (hl : ParseAddr l = some la) (ha : ParseAddr a = some aa)
    (h1 : ParsePrefix p1s = some p1) (h2 : ParsePrefix p2s = some p2)
    (h3 : ParsePrefix p3s = some p3)
    (extra : List WireguardOption) :
    applyOptions ([WithGeneratedKeypairs (Except.ok k1) (Except.ok k2), WithOverlay ov l a,
        WithAllowedIPs [p1s, p2s, p3s, ov]] ++ extra) Wireguard.zero =
      applyOptions extra
        { Wireguard.zero with
          LocalKey := ⟨k1⟩
          AgentKey := ⟨k2⟩
          OverlayPrefix := o
          LocalOverlayAddress := la
          AgentOverlayAddress := aa
          AllowedIPs := [p1, p2, p3, o] } := by
  simp only [List.cons_append, List.nil_append, applyOptions, WithGeneratedKeypairs, WithOverlay,
    WithAllowedIPs, appendAllowedIPs, ho, hl, ha, h1, h2, h3, Wireguard.zero, List.nil_append,
    List.cons_append, List.append_nil]
  rfl

/-- When the selection returns a candidate and no other step fails,
`ResolveWireguardConfig` succeeds and stores the candidate. -/
theorem resolve_select_ok (env : Env) (cfg : Config) (directAccess : Bool)
    (cd : kuberneteshelpers.ClusterDetails) (c : Prefix) (k1 k2 : wgtypes.Key)
    (hcd : env.getClusterDetails cfg.KubernetesClusterDetails cfg.Namespace = Except.ok cd)
    (hsel : selectOverlay cd overlayCIDRs = Except.ok c)
    (hk1 : env.localKeypair = Except.ok k1) (hk2 : env.agentKeypair = Except.ok k2)
    (hpod : cd.PodCIDR.WF = true ∧ cd.PodCIDR.IsValid = true)
    (hsvc : cd.ServiceCIDR.WF = true ∧ cd.ServiceCIDR.IsValid = true)
    (hnode : cd.NodeCIDR.WF = true ∧ cd.NodeCIDR.IsValid = true)
    (hda : directAccess = true → ∃ (ip : String) (port : Int) (a : Addr),
      env.findLocalAddressAndPort = Except.ok (ip, port) ∧ ParseAddr ip = some a) :
    (ResolveWireguardConfig env cfg "" directAccess).2 = none ∧
    (ResolveWireguardConfig env cfg "" directAccess).1.Wireguard.OverlayPrefix = c := by
  obtain ⟨hmem, -⟩ := selectOverlay_ok _ _ _ hsel
  have hpar : ∃ la aa : Addr, ParsePrefix c.String = some c ∧
      ParseAddr c.Addr.Next.String = some la ∧ ParseAddr c.Addr.Next.Next.String = some aa := by
    rw [overlayCIDRs_eq] at hmem
    simp only [List.mem_cons, List.mem_singleton, List.not_mem_nil, or_false] at hmem
    rcases hmem with e | e <;> rw [e]
    · exact ⟨MustParseAddr "10.1.0.1", MustParseAddr "10.1.0.2", by decide, by decide, by decide⟩
    · exact ⟨MustParseAddr "100.64.51.1", MustParseAddr "100.64.51.2", by decide, by decide,
        by decide⟩
  obtain ⟨la, aa, ho, hl, ha⟩ := hpar
  have key := baseOptions_ok k1 k2 c.String c.Addr.Next.String c.Addr.Next.Next.String
    cd.PodCIDR.String cd.ServiceCIDR.String cd.NodeCIDR.String c la aa _ _ _ ho hl ha
    (parsePrefix_string _ hpod.1 hpod.2) (parsePrefix_string _ hsvc.1 hsvc.2)
    (parsePrefix_string _ hnode.1 hnode.2)
  unfold ResolveWireguardConfig
  simp only [hcd, ne_eq, not_true_eq_false, if_false, hsel, hk1, hk2, NewWireguardConfig]
  by_cases hd : directAccess = true
  · obtain ⟨ip, port, a, hf, hp⟩ := hda hd
    rw [if_pos hd]
    simp only [hf, hp]
    rw [key]
    exact ⟨rfl, rfl⟩
  · rw [if_neg hd]
    by_cases hla : { cfg with KubernetesClusterDetails := cd }.Wireguard.LocalAddress.IsValid = true
    · rw [if_pos hla, key]
      exact ⟨rfl, rfl⟩
    · rw [if_neg hla]
      have key0 := key []
      rw [List.append_nil] at key0
      rw [key0]
      exact ⟨rfl, rfl⟩

/-- A list of options none of which returns the no-overlay error does not
return it either. -/
theorem applyOptions_ne_noOverlay (opts : List WireguardOption)
    (h : ∀ o ∈ opts, ∀ wg : Wireguard, (o wg).2 ≠ some Error.noOverlay) (wg : Wireguard) :
    (applyOptions opts wg).2 ≠ some Error.noOverlay := by
  induction opts generalizing wg with
  | nil => simp [applyOptions]
  | cons o rest ih =>
    have ho := h o (List.mem_cons_self _ _) wg
    simp only [applyOptions]
    rcases hr : o wg with ⟨wg1, _ | err⟩
    · exact ih (fun o1 h1 => h o1 (List.mem_cons_of_mem _ h1)) wg1
    · rw [hr] at ho
      exact ho

/-- The loop of `WithAllowedIPs` does not return the no-overlay error. -/
theorem appendAllowedIPs_ne_noOverlay (l : List String) (wg : Wireguard) :
    (appendAllowedIPs l wg).2 ≠ some Error.noOverlay := by
  induction l generalizing wg with
  | nil => simp [appendAllowedIPs]
  | cons s rest ih =>
    simp only [appendAllowedIPs]
    cases ParsePrefix s with
    | none => simp
    | some p => exact ih _

/-- None of the options that `ResolveWireguardConfig` passes returns the
no-overlay error. -/
theorem options_ne_noOverlay (lk ak : Except String wgtypes.Key) (ov l a : String)
    (ips : List String) (extra : List WireguardOption)
    (hextra : ∀ o ∈ extra, ∀ wg : Wireguard, (o wg).2 ≠ some Error.noOverlay) :
    (NewWireguardConfig ([WithGeneratedKeypairs lk ak, WithOverlay ov l a, WithAllowedIPs ips]
      ++ extra)).2 ≠ some Error.noOverlay := by
  apply applyOptions_ne_noOverlay
  intro o ho wg
  simp only [List.cons_append, List.nil_append, List.mem_cons] at ho
  rcases ho with rfl | rfl | rfl | ho
  · simp only [WithGeneratedKeypairs]
    cases lk with
    | error c => simp
    | ok k1 =>
      cases ak with
      | error c => simp
      | ok k2 => simp
  · simp only [WithOverlay]
    cases ParsePrefix ov with
    | none => simp
    | some p =>
      cases ParseAddr l with
      | none => simp
      | some la =>
        cases ParseAddr a with
        | none => simp
        | some aa => simp
  · exact appendAllowedIPs_ne_noOverlay ips wg
  · exact hextra o ho wg

/-- When the selection returns a candidate, `ResolveWireguardConfig` does not
return the no-overlay error. -/
theorem resolve_select_ok_ne (env : Env) (cfg : Config) (directAccess : Bool)
    (cd : kuberneteshelpers.ClusterDetails) (c : Prefix)
    (hcd : env.getClusterDetails cfg.KubernetesClusterDetails cfg.Namespace = Except.ok cd)
    (hsel : selectOverlay cd overlayCIDRs = Except.ok c) :
    (ResolveWireguardConfig env cfg "" directAccess).2 ≠ some Error.noOverlay := by
  unfold ResolveWireguardConfig
  simp only [hcd, ne_eq, not_true_eq_false, if_false, hsel]
  by_cases hd : directAccess = true
  · rw [if_pos hd]
    rcases hf : env.findLocalAddressAndPort with cause | ⟨ip, port⟩
    · simp
    · simp only
      cases hp : ParseAddr ip with
      | none => simp
      | some a =>
        simp only
        apply options_ne_noOverlay
        intro o ho wg
        simp only [List.mem_cons, List.mem_singleton, List.not_mem_nil, or_false] at ho
        rcases ho with rfl | rfl
        · simp [WithLocalAddress]
        · simp [WithDirectAccess]
  · rw [if_neg hd]
    by_cases hla : { cfg with KubernetesClusterDetails := cd }.Wireguard.LocalAddress.IsValid = true
    · rw [if_pos hla]
      apply options_ne_noOverlay
      intro o ho wg
      simp only [List.mem_cons, List.mem_singleton, List.not_mem_nil, or_false] at ho
      subst ho
      simp [WithLocalAddress]
    · rw [if_neg hla]
      have := options_ne_noOverlay env.localKeypair env.agentKeypair c.String c.Addr.Next.String
        c.Addr.Next.Next.String [cd.PodCIDR.String, cd.ServiceCIDR.String, cd.NodeCIDR.String,
          c.String] [] (by simp)
      rw [List.append_nil] at this
      exact this

/-- C1: with an empty overlay argument, whenever `ResolveWireguardConfig`
succeeds the `OverlayPrefix` it stores overlaps none of the pod, service and
node prefixes of the resolved cluster details: `Prefix.Overlaps` is false for
each, and no address lies both in the overlay prefix and in one of them. -/
theorem C1_auto_overlay_disjoint (env : Env) (cfg cfg1 : Config) (directAccess : Bool)
    (h : ResolveWireguardConfig env cfg "" directAccess = (cfg1, none))
    (hpod : cfg1.KubernetesClusterDetails.PodCIDR.WF = true)
    (hsvc : cfg1.KubernetesClusterDetails.ServiceCIDR.WF = true)
    (hnode : cfg1.KubernetesClusterDetails.NodeCIDR.WF = true) :
    cfg1.Wireguard.OverlayPrefix.Overlaps cfg1.KubernetesClusterDetails.PodCIDR = false ∧
    cfg1.Wireguard.OverlayPrefix.Overlaps cfg1.KubernetesClusterDetails.ServiceCIDR = false ∧
    cfg1.Wireguard.OverlayPrefix.Overlaps cfg1.KubernetesClusterDetails.NodeCIDR = false ∧
    ∀ a : Addr, a.WF = true → cfg1.Wireguard.OverlayPrefix.Contains a = true →
      cfg1.KubernetesClusterDetails.PodCIDR.Contains a = false ∧
      cfg1.KubernetesClusterDetails.ServiceCIDR.Contains a = false ∧
      cfg1.KubernetesClusterDetails.NodeCIDR.Contains a = false := by
  obtain ⟨overlay, -, hsel, hov, -⟩ := resolve_ok_inv env cfg cfg1 "" directAccess h
  rcases hsel with ⟨hne, -⟩ | ⟨-, hsel⟩
  · exact absurd rfl hne
  obtain ⟨hmem, h1, h2, h3⟩ := selectOverlay_ok _ _ _ hsel
  obtain ⟨hrt, hwf⟩ := overlayCIDRs_roundtrip overlay hmem
  rw [hrt, Option.some.injEq] at hov
  subst hov
  refine ⟨h1, h2, h3, ?_⟩
  intro a ha hc
  have key : ∀ q : Prefix, q.WF = true → cfg1.Wireguard.OverlayPrefix.Overlaps q = false →
      q.Contains a = false := by
    intro q hq hno
    by_contra hcq
    rw [Bool.not_eq_false] at hcq
    have := (overlaps_iff_shared _ q hwf hq).mpr ⟨a, ha, hc, hcq⟩
    rw [hno] at this
    exact Bool.false_ne_true this
  exact ⟨key _ hpod h1, key _ hsvc h2, key _ hnode h3⟩

/-- C1 at the fixture of the test: the run succeeds, the overlay is `10.1.0.0/28`, and its address
`10.1.0.1` lies in none of the cluster prefixes. -/
theorem C1_auto_overlay_disjoint_witness :
    (ResolveWireguardConfig (testEnv validClusterDetails) NewConfig "" false).2 = none ∧
    (ResolveWireguardConfig (testEnv validClusterDetails) NewConfig "" false).1.Wireguard.OverlayPrefix
      = MustParsePrefix "10.1.0.0/28" ∧
    validClusterDetails.PodCIDR.Contains (MustParseAddr "10.1.0.1") = false ∧
    validClusterDetails.ServiceCIDR.Contains (MustParseAddr "10.1.0.1") = false ∧
    validClusterDetails.NodeCIDR.Contains (MustParseAddr "10.1.0.1") = false :=
  ⟨by decide, by decide,
    (C1_auto_overlay_disjoint (testEnv validClusterDetails) NewConfig
      (ResolveWireguardConfig (testEnv validClusterDetails) NewConfig "" false).1 false
      (by decide) (by decide) (by decide) (by decide)).2.2.2 (MustParseAddr "10.1.0.1")
      (by decide) (by decide)⟩

/-- C2: with an empty overlay argument and cluster details `cd` resolved, the
candidate list is `[10.1.0.0/28, 100.64.51.0/28]`; when every candidate
overlaps one of the pod, service and node prefixes the call fails with the
no-overlay error, and it returns that error in no other case; a successful
call stores the first candidate of the list that overlaps none of the three;
and when no other step fails (both keys are
drawn, the three cluster prefixes are valid, and for direct access the NAT
lookup returns an address that parses) the call fails exactly when every
candidate overlaps one of the three, and otherwise stores the first
candidate that overlaps none; with the node prefix `10.1.0.0/16` and pod and
service prefixes that do not overlap `100.64.51.0/28`, that first candidate is
`100.64.51.0/28`. -/
theorem C2_first_free_candidate (env : Env) (cfg : Config) (directAccess : Bool)
    (cd : kuberneteshelpers.ClusterDetails)
    (hcd : env.getClusterDetails cfg.KubernetesClusterDetails cfg.Namespace = Except.ok cd) :
    overlayCIDRs = [MustParsePrefix "10.1.0.0/28", MustParsePrefix "100.64.51.0/28"] ∧
    ((∀ c ∈ overlayCIDRs, (c.Overlaps cd.PodCIDR || c.Overlaps cd.ServiceCIDR
          || c.Overlaps cd.NodeCIDR) = true) →
      ResolveWireguardConfig env cfg "" directAccess
        = ({ cfg with KubernetesClusterDetails := cd }, some Error.noOverlay)) ∧
    ((ResolveWireguardConfig env cfg "" directAccess).2 = some Error.noOverlay →
      ∀ c ∈ overlayCIDRs, (c.Overlaps cd.PodCIDR || c.Overlaps cd.ServiceCIDR
        || c.Overlaps cd.NodeCIDR) = true) ∧
    (∀ cfg1 : Config, ResolveWireguardConfig env cfg "" directAccess = (cfg1, none) →
      overlayCIDRs.find? (fun c => !(c.Overlaps cd.PodCIDR || c.Overlaps cd.ServiceCIDR
          || c.Overlaps cd.NodeCIDR)) = some cfg1.Wireguard.OverlayPrefix) ∧
    ((∃ k1 k2 : wgtypes.Key, env.localKeypair = Except.ok k1 ∧ env.agentKeypair = Except.ok k2) →
      (cd.PodCIDR.WF = true ∧ cd.PodCIDR.IsValid = true) →
      (cd.ServiceCIDR.WF = true ∧ cd.ServiceCIDR.IsValid = true) →
      (cd.NodeCIDR.WF = true ∧ cd.NodeCIDR.IsValid = true) →
      (directAccess = true → ∃ (ip : String) (port : Int) (a : Addr),
        env.findLocalAddressAndPort = Except.ok (ip, port) ∧ ParseAddr ip = some a) →
      (((ResolveWireguardConfig env cfg "" directAccess).2 ≠ none ↔
          ∀ c ∈ overlayCIDRs, (c.Overlaps cd.PodCIDR || c.Overlaps cd.ServiceCIDR
            || c.Overlaps cd.NodeCIDR) = true) ∧
        ∀ c : Prefix, overlayCIDRs.find? (fun c => !(c.Overlaps cd.PodCIDR
            || c.Overlaps cd.ServiceCIDR || c.Overlaps cd.NodeCIDR)) = some c →
          (ResolveWireguardConfig env cfg "" directAccess).2 = none ∧
          (ResolveWireguardConfig env cfg "" directAccess).1.Wireguard.OverlayPrefix = c)) ∧
    (cd.NodeCIDR = MustParsePrefix "10.1.0.0/16" →
      (MustParsePrefix "100.64.51.0/28").Overlaps cd.PodCIDR = false →
      (MustParsePrefix "100.64.51.0/28").Overlaps cd.ServiceCIDR = false →
      overlayCIDRs.find? (fun c => !(c.Overlaps cd.PodCIDR || c.Overlaps cd.ServiceCIDR
          || c.Overlaps cd.NodeCIDR)) = some (MustParsePrefix "100.64.51.0/28")) := by
  have hall : (∀ c ∈ overlayCIDRs, (c.Overlaps cd.PodCIDR || c.Overlaps cd.ServiceCIDR
        || c.Overlaps cd.NodeCIDR) = true) ↔
      overlayCIDRs.find? (fun c => !(c.Overlaps cd.PodCIDR || c.Overlaps cd.ServiceCIDR
        || c.Overlaps cd.NodeCIDR)) = none := by
    rw [List.find?_eq_none]
    simp only [Bool.not_eq_true', Bool.not_eq_false]
  have hfind := selectOverlay_find cd overlayCIDRs
  refine ⟨rfl, ?_, ?_, ?_, ?_, ?_⟩
  · intro hov
    rw [hall.1 hov] at hfind
    exact resolve_select_error env cfg directAccess cd _ hcd hfind
  · intro he
    rw [hall]
    cases hf : overlayCIDRs.find? (fun c => !(c.Overlaps cd.PodCIDR
        || c.Overlaps cd.ServiceCIDR || c.Overlaps cd.NodeCIDR)) with
    | none => rfl
    | some c =>
      rw [hf] at hfind
      exact absurd he (resolve_select_ok_ne env cfg directAccess cd c hcd hfind)
  · intro cfg1 h
    obtain ⟨overlay, hcd1, hsel, hp, -⟩ := resolve_ok_inv env cfg cfg1 "" directAccess h
    rw [hcd, Except.ok.injEq] at hcd1
    subst hcd1
    rcases hsel with ⟨hne, -⟩ | ⟨-, hsel⟩
    · exact absurd rfl hne
    obtain ⟨hmem, -⟩ := selectOverlay_ok _ _ _ hsel
    rw [(overlayCIDRs_roundtrip overlay hmem).1, Option.some.injEq] at hp
    subst hp
    rw [hsel] at hfind
    split at hfind
    · rename_i c hc
      rw [hc]
      cases hfind
      rfl
    · cases hfind
  · rintro ⟨k1, k2, hk1, hk2⟩ hpod hsvc hnode hda
    have hsome : ∀ c : Prefix, overlayCIDRs.find? (fun c => !(c.Overlaps cd.PodCIDR
          || c.Overlaps cd.ServiceCIDR || c.Overlaps cd.NodeCIDR)) = some c →
        (ResolveWireguardConfig env cfg "" directAccess).2 = none ∧
        (ResolveWireguardConfig env cfg "" directAccess).1.Wireguard.OverlayPrefix = c := by
      intro c hc
      rw [hc] at hfind
      exact resolve_select_ok env cfg directAccess cd c k1 k2 hcd hfind hk1 hk2 hpod hsvc hnode hda
    refine ⟨⟨?_, ?_⟩, hsome⟩
    · intro hne
      rw [hall]
      cases hf : overlayCIDRs.find? (fun c => !(c.Overlaps cd.PodCIDR
          || c.Overlaps cd.ServiceCIDR || c.Overlaps cd.NodeCIDR)) with
      | none => rfl
      | some c => exact absurd (hsome c hf).1 hne
    · intro hov
      rw [hall.1 hov] at hfind
      rw [resolve_select_error env cfg directAccess cd _ hcd hfind]
      simp
  · intro hn h1 h2
    have e1 : (MustParsePrefix "10.1.0.0/28").Overlaps (MustParsePrefix "10.1.0.0/16") = true := by
      decide
    have e2 : (MustParsePrefix "100.64.51.0/28").Overlaps (MustParsePrefix "10.1.0.0/16")
        = false := by decide
    show List.find? _ [MustParsePrefix "10.1.0.0/28", MustParsePrefix "100.64.51.0/28"] = _
    simp only [List.find?, hn, e1, e2, h1, h2, Bool.or_true, Bool.not_true, Bool.or_false,
      Bool.not_false]

/-- C2 at the examples: a node prefix `10.1.0.0/16`, with pod and service
prefixes that overlap no candidate, yields `100.64.51.0/28`, and the pod prefix
`100.64.51.0/16` together with the node prefix `10.1.0.0/16` yields the
no-overlay error. -/
theorem C2_first_free_candidate_witness :
    ((ResolveWireguardConfig
        (testEnv { validClusterDetails with
          PodCIDR := MustParsePrefix "10.244.0.0/16"
          NodeCIDR := MustParsePrefix "10.1.0.0/16" })
        NewConfig "" false).2 = none ∧
      (ResolveWireguardConfig
        (testEnv { validClusterDetails with
          PodCIDR := MustParsePrefix "10.244.0.0/16"
          NodeCIDR := MustParsePrefix "10.1.0.0/16" })
        NewConfig "" false).1.Wireguard.OverlayPrefix = MustParsePrefix "100.64.51.0/28") ∧
    ResolveWireguardConfig (testEnv overlappingClusterDetails) NewConfig "" false
      = ({ NewConfig with KubernetesClusterDetails := overlappingClusterDetails },
          some Error.noOverlay) :=
  ⟨by decide,
    (C2_first_free_candidate (testEnv overlappingClusterDetails) NewConfig false
      overlappingClusterDetails rfl).2.1 (by decide)⟩

/-- C3 at the user overlay `192.168.0.0/31`: the run succeeds, the local
overlay address `192.168.0.1` lies in the prefix and the agent overlay address
is `192.168.0.2`, which `OverlayPrefix.Contains` rejects, although the field
`AgentOverlayAddress` is documented as the agent address inside the overlay
network. -/
theorem C3_agent_address_outside :
    (ResolveWireguardConfig (testEnv validClusterDetails) NewConfig "192.168.0.0/31" false).2 = none ∧
    (ResolveWireguardConfig (testEnv validClusterDetails) NewConfig "192.168.0.0/31"
      false).1.Wireguard.AgentOverlayAddress = MustParseAddr "192.168.0.2" ∧
    (ResolveWireguardConfig (testEnv validClusterDetails) NewConfig "192.168.0.0/31"
      false).1.Wireguard.OverlayPrefix.Contains
        (ResolveWireguardConfig (testEnv validClusterDetails) NewConfig "192.168.0.0/31"
          false).1.Wireguard.LocalOverlayAddress = true ∧
    (ResolveWireguardConfig (testEnv validClusterDetails) NewConfig "192.168.0.0/31"
      false).1.Wireguard.OverlayPrefix.Contains
        (ResolveWireguardConfig (testEnv validClusterDetails) NewConfig "192.168.0.0/31"
          false).1.Wireguard.AgentOverlayAddress = false := by
  decide

/-- Where the overlay addresses do lie inside the prefix: for every successful
`ResolveWireguardConfig` the local and the agent overlay address are two
different addresses; both lie inside `OverlayPrefix` when the prefix was
selected automatically, and also when it is a user prefix in network form
with at least two host bits. -/
theorem overlay_addresses_inside (env : Env) (cfg cfg1 : Config) (overlayPrefix : String)
    (directAccess : Bool)
    (h : ResolveWireguardConfig env cfg overlayPrefix directAccess = (cfg1, none)) :
    cfg1.Wireguard.LocalOverlayAddress ≠ cfg1.Wireguard.AgentOverlayAddress ∧
    (overlayPrefix = "" →
      cfg1.Wireguard.OverlayPrefix.Contains cfg1.Wireguard.LocalOverlayAddress = true ∧
      cfg1.Wireguard.OverlayPrefix.Contains cfg1.Wireguard.AgentOverlayAddress = true) ∧
    (cfg1.Wireguard.OverlayPrefix.Masked = cfg1.Wireguard.OverlayPrefix →
      cfg1.Wireguard.OverlayPrefix.Bits.toNat + 2 ≤ cfg1.Wireguard.OverlayPrefix.Addr.BitLen →
      cfg1.Wireguard.OverlayPrefix.Contains cfg1.Wireguard.LocalOverlayAddress = true ∧
      cfg1.Wireguard.OverlayPrefix.Contains cfg1.Wireguard.AgentOverlayAddress = true) := by
  obtain ⟨hsel, hwf, hv, hl, ha, n1, n2, haw⟩ :=
    resolve_ok_overlay env cfg cfg1 overlayPrefix directAccess h
  have hlw : cfg1.Wireguard.LocalOverlayAddress.WF = true := by
    obtain ⟨hipwf, hipv, hipz⟩ := wf_valid_ip _ hwf hv
    rcases next_spec _ hipwf hipv hipz with h0 | ⟨-, h2, -, -⟩
    · have : cfg1.Wireguard.OverlayPrefix.Addr.Next = Addr.zero := h0
      rw [hl, this]; rfl
    · rw [hl]; exact h2
  have hmasked : cfg1.Wireguard.OverlayPrefix.Masked = cfg1.Wireguard.OverlayPrefix →
      cfg1.Wireguard.OverlayPrefix.Bits.toNat + 2 ≤ cfg1.Wireguard.OverlayPrefix.Addr.BitLen →
      cfg1.Wireguard.OverlayPrefix.Contains cfg1.Wireguard.LocalOverlayAddress = true ∧
      cfg1.Wireguard.OverlayPrefix.Contains cfg1.Wireguard.AgentOverlayAddress = true := by
    intro hm hroom
    exact ⟨contains_next_of_masked _ hwf hv hm hroom 1 (by omega) _ (by rw [hl, n1]) hlw,
      contains_next_of_masked _ hwf hv hm hroom 2 (by omega) _ (by rw [ha, n2]) haw⟩
  refine ⟨?_, ?_, hmasked⟩
  · rw [hl, ha, n2, n1]
    intro e
    simp only [Addr.mk.injEq, and_true] at e
    omega
  · intro hempty
    rcases hsel with ⟨hne, -⟩ | ⟨-, hs⟩
    · exact absurd hempty hne
    · obtain ⟨hmem, -⟩ := selectOverlay_ok _ _ _ hs
      apply hmasked
      · rw [overlayCIDRs_eq] at hmem
        simp only [List.mem_cons, List.mem_singleton, List.not_mem_nil, or_false] at hmem
        rcases hmem with e | e <;> rw [e] <;> decide
      · rw [overlayCIDRs_eq] at hmem
        simp only [List.mem_cons, List.mem_singleton, List.not_mem_nil, or_false] at hmem
        rcases hmem with e | e <;> rw [e] <;> decide

/-- The addresses of `overlay_addresses_inside` at the fixture of the test with
the user overlay `192.168.0.0/16`. -/
theorem overlay_addresses_inside_test :
    (ResolveWireguardConfig (testEnv validClusterDetails) NewConfig "192.168.0.0/16" false).2 = none ∧
    (ResolveWireguardConfig (testEnv validClusterDetails) NewConfig "192.168.0.0/16"
        false).1.Wireguard.LocalOverlayAddress ≠
      (ResolveWireguardConfig (testEnv validClusterDetails) NewConfig "192.168.0.0/16"
        false).1.Wireguard.AgentOverlayAddress :=
  ⟨by decide,
    (overlay_addresses_inside (testEnv validClusterDetails) NewConfig
      (ResolveWireguardConfig (testEnv validClusterDetails) NewConfig "192.168.0.0/16" false).1
      "192.168.0.0/16" false (by decide)).1⟩

/-- C4 as stated fails: with the user overlay `192.168.5.7/16` the run succeeds,
the network address of the overlay prefix is `192.168.0.0`, and the local and
agent overlay addresses are `192.168.5.8` and `192.168.5.9`, not `192.168.0.1`
and `192.168.0.2`. -/
theorem C4_counterexample :
    (ResolveWireguardConfig (testEnv validClusterDetails) NewConfig "192.168.5.7/16" false).2 = none ∧
    (ResolveWireguardConfig (testEnv validClusterDetails) NewConfig "192.168.5.7/16"
      false).1.Wireguard.OverlayPrefix.Masked.Addr = MustParseAddr "192.168.0.0" ∧
    (ResolveWireguardConfig (testEnv validClusterDetails) NewConfig "192.168.5.7/16"
      false).1.Wireguard.LocalOverlayAddress = MustParseAddr "192.168.5.8" ∧
    (ResolveWireguardConfig (testEnv validClusterDetails) NewConfig "192.168.5.7/16"
      false).1.Wireguard.AgentOverlayAddress = MustParseAddr "192.168.5.9" := by
  decide

/-- C4, amended: for every successful `ResolveWireguardConfig` the local overlay
address is the address after the one written in the overlay prefix and the
agent overlay address is the one after that; these are the network address
plus one and plus two whenever the overlay prefix is in network form, as an
automatically selected prefix always is. -/
theorem C4_first_two_addresses (env : Env) (cfg cfg1 : Config) (overlayPrefix : String)
    (directAccess : Bool)
    (h : ResolveWireguardConfig env cfg overlayPrefix directAccess = (cfg1, none)) :
    cfg1.Wireguard.LocalOverlayAddress = cfg1.Wireguard.OverlayPrefix.Addr.Next ∧
    cfg1.Wireguard.AgentOverlayAddress = cfg1.Wireguard.OverlayPrefix.Addr.Next.Next ∧
    cfg1.Wireguard.LocalOverlayAddress
      = ⟨cfg1.Wireguard.OverlayPrefix.Addr.addr + 1, cfg1.Wireguard.OverlayPrefix.Addr.z⟩ ∧
    cfg1.Wireguard.AgentOverlayAddress
      = ⟨cfg1.Wireguard.OverlayPrefix.Addr.addr + 2, cfg1.Wireguard.OverlayPrefix.Addr.z⟩ ∧
    (cfg1.Wireguard.OverlayPrefix.Masked = cfg1.Wireguard.OverlayPrefix →
      cfg1.Wireguard.LocalOverlayAddress
        = ⟨cfg1.Wireguard.OverlayPrefix.Masked.Addr.addr + 1,
            cfg1.Wireguard.OverlayPrefix.Masked.Addr.z⟩ ∧
      cfg1.Wireguard.AgentOverlayAddress
        = ⟨cfg1.Wireguard.OverlayPrefix.Masked.Addr.addr + 2,
            cfg1.Wireguard.OverlayPrefix.Masked.Addr.z⟩) ∧
    (overlayPrefix = "" → cfg1.Wireguard.OverlayPrefix.Masked = cfg1.Wireguard.OverlayPrefix) := by
  obtain ⟨hsel, hwf, hv, hl, ha, n1, n2, -⟩ :=
    resolve_ok_overlay env cfg cfg1 overlayPrefix directAccess h
  refine ⟨hl, ha, by rw [hl, n1]; rfl, by rw [ha, n2]; rfl, ?_, ?_⟩
  · intro hm
    rw [hm]
    exact ⟨by rw [hl, n1]; rfl, by rw [ha, n2]; rfl⟩
  · intro hempty
    rcases hsel with ⟨hne, -⟩ | ⟨-, hs⟩
    · exact absurd hempty hne
    · obtain ⟨hmem, -⟩ := selectOverlay_ok _ _ _ hs
      rw [overlayCIDRs_eq] at hmem
      simp only [List.mem_cons, List.mem_singleton, List.not_mem_nil, or_false] at hmem
      rcases hmem with e | e <;> rw [e] <;> decide

/-- C4 (amended) at the fixture of the test: the selected overlay `10.1.0.0/28`
gives `10.1.0.1` and `10.1.0.2`, and the user overlay `192.168.0.0/16` gives
`192.168.0.1` and `192.168.0.2`. -/
theorem C4_first_two_addresses_witness :
    (ResolveWireguardConfig (testEnv validClusterDetails) NewConfig "" false).2 = none ∧
    ((ResolveWireguardConfig (testEnv validClusterDetails) NewConfig "" false).1.Wireguard.OverlayPrefix
        = MustParsePrefix "10.1.0.0/28" ∧
      (ResolveWireguardConfig (testEnv validClusterDetails) NewConfig ""
        false).1.Wireguard.LocalOverlayAddress = MustParseAddr "10.1.0.1" ∧
      (ResolveWireguardConfig (testEnv validClusterDetails) NewConfig ""
        false).1.Wireguard.AgentOverlayAddress = MustParseAddr "10.1.0.2") ∧
    ((ResolveWireguardConfig (testEnv validClusterDetails) NewConfig "192.168.0.0/16"
        false).1.Wireguard.LocalOverlayAddress = MustParseAddr "192.168.0.1" ∧
      (ResolveWireguardConfig (testEnv validClusterDetails) NewConfig "192.168.0.0/16"
        false).1.Wireguard.AgentOverlayAddress = MustParseAddr "192.168.0.2") ∧
    (ResolveWireguardConfig (testEnv validClusterDetails) NewConfig ""
        false).1.Wireguard.LocalOverlayAddress
      = (ResolveWireguardConfig (testEnv validClusterDetails) NewConfig ""
        false).1.Wireguard.OverlayPrefix.Addr.Next :=
  ⟨by decide, by decide, by decide,
    (C4_first_two_addresses (testEnv validClusterDetails) NewConfig
      (ResolveWireguardConfig (testEnv validClusterDetails) NewConfig "" false).1 "" false
      (by decide)).1⟩

/-- C5: for every successful `ResolveWireguardConfig`, `AllowedIPs` is exactly the
list of the pod prefix, the service prefix, the node prefix and the overlay
prefix, in that order. -/
theorem C5_allowed_ips (env : Env) (cfg cfg1 : Config) (overlayPrefix : String)
    (directAccess : Bool)
    (h : ResolveWireguardConfig env cfg overlayPrefix directAccess = (cfg1, none))
    (hpod : cfg1.KubernetesClusterDetails.PodCIDR.WF = true)
    (hsvc : cfg1.KubernetesClusterDetails.ServiceCIDR.WF = true)
    (hnode : cfg1.KubernetesClusterDetails.NodeCIDR.WF = true) :
    cfg1.Wireguard.AllowedIPs =
      [cfg1.KubernetesClusterDetails.PodCIDR, cfg1.KubernetesClusterDetails.ServiceCIDR,
        cfg1.KubernetesClusterDetails.NodeCIDR, cfg1.Wireguard.OverlayPrefix] := by
  obtain ⟨overlay, -, -, hov, -, -, p1, p2, p3, p4, h1, h2, h3, h4, hall⟩ :=
    resolve_ok_inv env cfg cfg1 overlayPrefix directAccess h
  rw [hall, (parse_string_eq _ _ hpod h1).1, (parse_string_eq _ _ hsvc h2).1,
    (parse_string_eq _ _ hnode h3).1]
  rw [hov, Option.some.injEq] at h4
  rw [h4]

/-- C5 at the fixture of the test with automatic selection. -/
theorem C5_allowed_ips_witness :
    (ResolveWireguardConfig (testEnv validClusterDetails) NewConfig "" false).2 = none ∧
    (ResolveWireguardConfig (testEnv validClusterDetails) NewConfig "" false).1.Wireguard.AllowedIPs =
      [MustParsePrefix "100.64.0.0/16", MustParsePrefix "172.0.0.0/16",
        MustParsePrefix "10.0.0.0/16", MustParsePrefix "10.1.0.0/28"] :=
  ⟨by decide,
    (C5_allowed_ips (testEnv validClusterDetails) NewConfig
      (ResolveWireguardConfig (testEnv validClusterDetails) NewConfig "" false).1 "" false
      (by decide) (by decide) (by decide) (by decide)).trans (by decide)⟩


/-- C6: a non-empty overlay argument that does not parse as a prefix makes
`ResolveWireguardConfig` return an error and leave the Wireguard section as it
was on entry; when the cluster details were resolved they are stored all the
same, nothing else of the config changes, and the error is the parse error of
the overlay. -/
theorem C6_invalid_overlay (env : Env) (cfg : Config) (overlayPrefix : String)
    (directAccess : Bool) (hne : overlayPrefix ≠ "") (hparse : ParsePrefix overlayPrefix = none) :
    (ResolveWireguardConfig env cfg overlayPrefix directAccess).2 ≠ none ∧
    (ResolveWireguardConfig env cfg overlayPrefix directAccess).1.Wireguard = cfg.Wireguard ∧
    ∀ clusterDetails,
      env.getClusterDetails cfg.KubernetesClusterDetails cfg.Namespace = Except.ok clusterDetails →
      ResolveWireguardConfig env cfg overlayPrefix directAccess
        = ({ cfg with KubernetesClusterDetails := clusterDetails },
            some (Error.parseOverlay overlayPrefix)) := by
  unfold ResolveWireguardConfig
  cases hcd : env.getClusterDetails cfg.KubernetesClusterDetails cfg.Namespace with
  | error c => simp
  | ok cd => simp [hne, hparse]

/-- C6 at the overlay `1.2./1` of the test, on an empty config. -/
theorem C6_invalid_overlay_witness :
    ParsePrefix "1.2./1" = none ∧
    ResolveWireguardConfig (testEnv validClusterDetails) NewConfig "1.2./1" false
      = ({ NewConfig with KubernetesClusterDetails := validClusterDetails },
          some (Error.parseOverlay "1.2./1")) :=
  ⟨by decide,
    (C6_invalid_overlay (testEnv validClusterDetails) NewConfig "1.2./1" false (by decide)
      (by decide)).2.2 validClusterDetails rfl⟩

end proxy

/-! ## Theorems: the listen port -/

namespace wg

/-- C7: the listen port bound for a configured port `p` is `p` when `p > 0`,
`0` when `p < 0` and `19070` when `p = 0`, on Linux and on Darwin alike. -/
theorem C7_listen_port (p : Int) :
    listenPortLinux p = (if p > 0 then p else if p < 0 then 0 else 19070) ∧
    listenPortDarwin p = listenPortLinux p := by
  unfold listenPortLinux listenPortDarwin DefaultWireguardPort
  refine ⟨?_, rfl⟩
  by_cases h1 : p < 0
  · have : ¬ p > 0 := by omega
    simp [h1, this]
  · by_cases h2 : p = 0
    · simp [h2]
    · have : p > 0 := by omega
      simp [h1, h2, this]

end wg

/-! ## Theorems: the container to replace -/

/-- `slices.IndexFunc` from a non-negative start: either no element satisfies
`f` and the result is `-1`, or the result is the position of the first one
that does. -/
theorem indexFuncFrom_spec {α : Type} (f : α → Bool) (l : List α) (i : Int) (hi : 0 ≤ i) :
    (IndexFuncFrom f l i = -1 ∧ ∀ x ∈ l, f x = false) ∨
    (∃ (k : Nat) (hk : k < l.length), IndexFuncFrom f l i = i + k ∧ f (l.get ⟨k, hk⟩) = true ∧
      ∀ (j : Nat) (hj : j < l.length), j < k → f (l.get ⟨j, hj⟩) = false) := by
  induction l generalizing i with
  | nil => left; simp [IndexFuncFrom]
  | cons x xs ih =>
    by_cases hx : f x = true
    · right
      refine ⟨0, by simp, by simp [IndexFuncFrom, hx], by simpa using hx, ?_⟩
      intro j hj hj0; omega
    · rw [Bool.not_eq_true] at hx
      rcases ih (i + 1) (by omega) with ⟨h1, h2⟩ | ⟨k, hk, h1, h2, h3⟩
      · left
        refine ⟨by simp [IndexFuncFrom, hx, h1], ?_⟩
        intro y hy
        rcases List.mem_cons.mp hy with rfl | hy
        · exact hx
        · exact h2 y hy
      · right
        refine ⟨k + 1, by simpa using hk, ?_, ?_, ?_⟩
        · simp only [IndexFuncFrom, hx, Bool.false_eq_true, if_false, h1]; push_cast; ring
        · simpa using h2
        · intro j hj hjk
          cases j with
          | zero => simpa using hx
          | succ j => simpa using h3 j (by simpa using hj) (by omega)

/-- `slices.IndexFunc`: `-1` when no element satisfies `f`, else the first
position whose element does. -/
theorem indexFunc_spec {α : Type} (f : α → Bool) (l : List α) :
    (IndexFunc l f = -1 ∧ ∀ x ∈ l, f x = false) ∨
    (∃ (k : Nat) (hk : k < l.length), IndexFunc l f = k ∧ f (l.get ⟨k, hk⟩) = true ∧
      ∀ (j : Nat) (hj : j < l.length), j < k → f (l.get ⟨j, hj⟩) = false) := by
  have := indexFuncFrom_spec f l 0 (le_refl _)
  simpa [IndexFunc] using this

theorem lookup_map_ne (m : GoMap) (k k1 v : String) (h : k1 ≠ k) :
    List.lookup k (m.map (fun kv => if kv.1 == k1 then (k1, v) else kv)) = List.lookup k m := by
  induction m with
  | nil => rfl
  | cons kv rest ih =>
    obtain ⟨a, b⟩ := kv
    rw [List.map_cons]
    by_cases ha : a = k1
    · subst ha
      have hne : (k == a) = false := by simpa using (fun e => h e.symm)
      rw [if_pos (by simp)]
      simp only [List.lookup, hne]
      exact ih
    · rw [if_neg (by simpa using ha)]
      simp only [List.lookup]
      split
      · rfl
      · exact ih

theorem lookup_append_ne (m : GoMap) (k k1 v : String) (h : k1 ≠ k) :
    List.lookup k (m ++ [(k1, v)]) = List.lookup k m := by
  induction m with
  | nil =>
    have hne : (k == k1) = false := by simpa using (fun e => h e.symm)
    simp [List.lookup, hne]
  | cons kv rest ih =>
    obtain ⟨a, b⟩ := kv
    simp only [List.cons_append, List.lookup]
    split
    · rfl
    · exact ih

/-- Storing under one key does not change what is stored under another. -/
theorem GoMap.get_set_ne (m : GoMap) (k k1 v : String) (h : k1 ≠ k) :
    (m.set k1 v).get k = m.get k := by
  unfold GoMap.set GoMap.get
  split
  · rw [lookup_map_ne m k k1 v h]
  · rw [lookup_append_ne m k k1 v h]

namespace agent

open corev1

/-- On a non-empty list the code and the specification look for one name. -/
theorem containerIndexOrDefault_eq (containerName : String) (annotations : GoMap)
    (first : Container) (rest : List Container) :
    containerIndexOrDefault containerName annotations (first :: rest)
      = IndexFunc (first :: rest) (fun container =>
          container.Name == resolvedContainerName containerName annotations (first :: rest)) := by
  unfold containerIndexOrDefault resolvedContainerName
  by_cases h : containerName = ""
  · subst h
    by_cases h2 : annotations.get DefaultContainerAnnotationName = ""
    · simp [h2]
    · have : (annotations.get DefaultContainerAnnotationName).length > 0 := by
        rcases hs : annotations.get DefaultContainerAnnotationName with ⟨l⟩
        rw [hs] at h2
        cases l with
        | nil => exact absurd rfl h2
        | cons c l => simp [String.length]
      simp [h2, this]
  · simp [h]

/-- C8: `containerIndexOrDefault` looks for the explicit container name when it
is not empty, else for the value of the default-container annotation when
that is not empty, else for the name of the first container. An explicit name
makes the result independent of the annotations, and with no explicit name
and an empty annotation value the result is index 0. -/
theorem C8_container_name_resolution (containerName : String) (annotations : GoMap)
    (first : Container) (rest : List Container) :
    containerIndexOrDefault containerName annotations (first :: rest)
      = IndexFunc (first :: rest) (fun container => container.Name ==
          (if containerName ≠ "" then containerName
            else if annotations.get "kubectl.kubernetes.io/default-container" ≠ "" then
              annotations.get "kubectl.kubernetes.io/default-container"
            else first.Name)) ∧
    (containerName ≠ "" → ∀ annotations1 : GoMap,
      containerIndexOrDefault containerName annotations1 (first :: rest)
        = containerIndexOrDefault containerName annotations (first :: rest)) ∧
    (containerName = "" → annotations.get "kubectl.kubernetes.io/default-container" = "" →
      containerIndexOrDefault containerName annotations (first :: rest) = 0) := by
  refine ⟨?_, ?_, ?_⟩
  · rw [containerIndexOrDefault_eq]
    simp [resolvedContainerName, DefaultContainerAnnotationName]
  · intro h annotations1
    simp [containerIndexOrDefault, h]
  · intro h1 h2
    rw [containerIndexOrDefault_eq]
    simp [resolvedContainerName, DefaultContainerAnnotationName, h1, h2, IndexFunc, IndexFuncFrom]

/-- The revision annotation that `Start` adds does not change the container
that is looked for. -/
theorem containerIndexOrDefault_set_revision (containerName revision : String)
    (annotations : GoMap) (containers : List Container) :
    containerIndexOrDefault containerName
        (annotations.set WireguardRevisionAnnotationName revision) containers
      = containerIndexOrDefault containerName annotations containers := by
  unfold containerIndexOrDefault
  rw [GoMap.get_set_ne _ _ _ _ (by decide)]

/-- `containerIndexOrDefault` is `-1` exactly when the list is empty or no
container has the resolved name. -/
theorem containerIndexOrDefault_eq_neg_one (containerName : String) (annotations : GoMap)
    (containers : List Container) :
    containerIndexOrDefault containerName annotations containers = -1 ↔
      containers = [] ∨
      ∀ c ∈ containers, c.Name ≠ resolvedContainerName containerName annotations containers := by
  cases containers with
  | nil => simp [containerIndexOrDefault]
  | cons first rest =>
    rw [containerIndexOrDefault_eq]
    rcases indexFunc_spec (fun container : Container => container.Name ==
        resolvedContainerName containerName annotations (first :: rest)) (first :: rest) with
      ⟨h1, h2⟩ | ⟨k, hk, h1, h2, -⟩
    · simp only [h1, true_iff]
      right
      intro c hc
      simpa using h2 c hc
    · rw [h1]
      constructor
      · intro h; omega
      · rintro (h | h)
        · simp at h
        · exact absurd (by simpa using h2) (h _ (List.get_mem _ _ _))

/-- When `containerIndexOrDefault` is not `-1` it is the first index of a
container with the resolved name. -/
theorem containerIndexOrDefault_found (containerName : String) (annotations : GoMap)
    (containers : List Container)
    (hne : containerIndexOrDefault containerName annotations containers ≠ -1) :
    ∃ (i : Nat) (hi : i < containers.length),
      containerIndexOrDefault containerName annotations containers = (i : Int) ∧
      (containers.get ⟨i, hi⟩).Name = resolvedContainerName containerName annotations containers ∧
      ∀ (j : Nat) (hj : j < containers.length), j < i →
        (containers.get ⟨j, hj⟩).Name ≠ resolvedContainerName containerName annotations containers := by
  cases containers with
  | nil => simp [containerIndexOrDefault] at hne
  | cons first rest =>
    rw [containerIndexOrDefault_eq] at hne ⊢
    rcases indexFunc_spec (fun container : Container => container.Name ==
        resolvedContainerName containerName annotations (first :: rest)) (first :: rest) with
      ⟨h1, -⟩ | ⟨k, hk, h1, h2, h3⟩
    · exact absurd h1 hne
    · refine ⟨k, hk, h1, by simpa using h2, ?_⟩
      intro j hj hjk
      simpa using h3 j hj hjk

/-- C9: `containerIndexOrDefault` returns `-1` exactly when the container list
is empty or no container bears the resolved name; otherwise it returns the
smallest index, within the list, of a container with the resolved name. When
it returns `-1` on the template of a Deployment or StatefulSet, `Start` fails
with the container-not-found error, having sent no request. -/
theorem C9_container_not_found (containerName : String) (annotations : GoMap)
    (containers : List Container) (a : kubernetesAgent) (cluster : Cluster) :
    (containerIndexOrDefault containerName annotations containers = -1 ↔
      containers = [] ∨
      ∀ c ∈ containers, c.Name ≠ resolvedContainerName containerName annotations containers) ∧
    (containerIndexOrDefault containerName annotations containers ≠ -1 →
      ∃ (i : Nat) (hi : i < containers.length),
        containerIndexOrDefault containerName annotations containers = (i : Int) ∧
        (containers.get ⟨i, hi⟩).Name = resolvedContainerName containerName annotations containers ∧
        ∀ (j : Nat) (hj : j < containers.length), j < i →
          (containers.get ⟨j, hj⟩).Name ≠ resolvedContainerName containerName annotations containers) ∧
    (∀ d : appsv1.Deployment, a.config.TargetObject = TargetObject.deployment d →
      containerIndexOrDefault a.config.Container d.Template.Annotations d.Template.Spec.Containers = -1 →
      (a.Start cluster).err = some (Error.containerNotFound d.Namespace d.Name) ∧
      (a.Start cluster).requests = []) ∧
    (∀ s : appsv1.StatefulSet, a.config.TargetObject = TargetObject.statefulSet s →
      containerIndexOrDefault a.config.Container s.Template.Annotations s.Template.Spec.Containers = -1 →
      (a.Start cluster).err = some (Error.containerNotFound s.Namespace s.Name) ∧
      (a.Start cluster).requests = []) := by
  refine ⟨containerIndexOrDefault_eq_neg_one _ _ _, containerIndexOrDefault_found _ _ _, ?_, ?_⟩
  · intro d hd hidx
    simp only [kubernetesAgent.Start, hd, startTemplate, containerIndexOrDefault_set_revision, hidx,
      if_true, and_self]
  · intro s hs hidx
    simp only [kubernetesAgent.Start, hs, startTemplate, containerIndexOrDefault_set_revision, hidx,
      if_true, and_self]

/-- The container as the first loop of `replaceContainerWithAgent` leaves it. -/
theorem clearProbesLoop_fst (containerIndex : Int) (l : List Container) (index : Int)
    (acc : List String) :
    (clearProbesLoop containerIndex l index acc).1
      = l.map (fun c => { c with LivenessProbe := none, ReadinessProbe := none, StartupProbe := none }) := by
  induction l generalizing index acc with
  | nil => rfl
  | cons c rest ih => simp only [clearProbesLoop, List.map_cons, ih]

/-- Storing `x` at a position of a list: the elements that satisfy `p` are
those among the other positions, and `x` if it does. -/
theorem countP_set {α : Type} (p : α → Bool) (l : List α) (i : Nat) (x : α) (hi : i < l.length) :
    (l.set i x).countP p = (l.eraseIdx i).countP p + (if p x then 1 else 0) := by
  induction l generalizing i with
  | nil => simp at hi
  | cons y ys ih =>
    cases i with
    | zero => simp [List.countP_cons]
    | succ i =>
      simp only [List.set_cons_succ, List.eraseIdx_cons_succ, List.countP_cons]
      rw [ih i (by simpa using hi)]
      omega

/-- Erasing a position commutes with mapping. -/
theorem eraseIdx_map {α β : Type} (f : α → β) (l : List α) (i : Nat) :
    (l.map f).eraseIdx i = (l.eraseIdx i).map f := by
  induction l generalizing i with
  | nil => rfl
  | cons y ys ih =>
    cases i with
    | zero => rfl
    | succ i => simp only [List.map_cons, List.eraseIdx_cons_succ, ih]

/-- What `replaceContainerWithAgent` does to the container list, at an index of
the list. -/
theorem replaceContainerWithAgent_containers (AgentImage : String) (podSpec : PodSpec)
    (configName : String) (i : Nat) (hi : i < podSpec.Containers.length) :
    ∃ (spec : PodSpec) (excludePorts : List String),
      replaceContainerWithAgent AgentImage podSpec configName (i : Int) = some spec ∧
      spec.Containers = (podSpec.Containers.map (fun c =>
          { c with LivenessProbe := none, ReadinessProbe := none, StartupProbe := none })).set i
        (agentContainer AgentImage
          { podSpec.Containers.get ⟨i, hi⟩ with
            LivenessProbe := none, ReadinessProbe := none, StartupProbe := none } excludePorts) := by
  unfold replaceContainerWithAgent
  simp only [clearProbesLoop_fst]
  have h0 : ¬ ((i : Int) < 0) := by omega
  simp only [h0, if_false, Int.toNat_ofNat]
  rw [List.getElem?_eq_getElem (by simpa using hi)]
  simp only [List.getElem_map]
  exact ⟨_, _, rfl, rfl⟩

/-- C10 as stated fails: with a container already named `agent` next to the
one that is replaced, the patched pod spec has two containers named `agent`. -/
theorem C10_counterexample :
    containerIndexOrDefault "app" [] sidecarPodSpec.Containers = 1 ∧
    (replaceContainerWithAgent "agent-image" sidecarPodSpec "wg-test-object"
        (containerIndexOrDefault "app" [] sidecarPodSpec.Containers)).map
      (fun spec => spec.Containers.map (fun c => c.Name)) = some ["agent", "agent"] := by
  decide

/-- C10, amended: `replaceContainerWithAgent` at the resolved index returns a
pod spec whose container list has the length it had, whose container at that
index is named `agent`, and in which the containers named `agent` are that one
and the other containers that had the name before; so exactly one container
has the agent name when no other container had it. -/
theorem C10_one_agent_container (AgentImage configName containerName : String)
    (annotations : GoMap) (podSpec : PodSpec)
    (h : containerIndexOrDefault containerName annotations podSpec.Containers ≠ -1) :
    ∃ (spec : PodSpec) (i : Nat) (hi : i < spec.Containers.length),
      containerIndexOrDefault containerName annotations podSpec.Containers = (i : Int) ∧
      replaceContainerWithAgent AgentImage podSpec configName
        (containerIndexOrDefault containerName annotations podSpec.Containers) = some spec ∧
      spec.Containers.length = podSpec.Containers.length ∧
      (spec.Containers.get ⟨i, hi⟩).Name = "agent" ∧
      spec.Containers.countP (fun c => c.Name == "agent")
        = 1 + (podSpec.Containers.eraseIdx i).countP (fun c => c.Name == "agent") ∧
      ((podSpec.Containers.eraseIdx i).all (fun c => c.Name != "agent") = true →
        spec.Containers.countP (fun c => c.Name == "agent") = 1) := by
  obtain ⟨i, hi, hidx, -, -⟩ := containerIndexOrDefault_found containerName annotations _ h
  obtain ⟨spec, ports, hspec, hcs⟩ :=
    replaceContainerWithAgent_containers AgentImage podSpec configName i hi
  have hlen : spec.Containers.length = podSpec.Containers.length := by simp [hcs]
  have hcount : spec.Containers.countP (fun c => c.Name == "agent")
      = 1 + (podSpec.Containers.eraseIdx i).countP (fun c => c.Name == "agent") := by
    rw [hcs, countP_set _ _ _ _ (by simpa using hi), eraseIdx_map, List.countP_map]
    have : (agentContainer AgentImage
        { podSpec.Containers.get ⟨i, hi⟩ with
          LivenessProbe := none, ReadinessProbe := none, StartupProbe := none } ports).Name
        = "agent" := rfl
    simp only [this, beq_self_eq_true, if_true]
    rw [Nat.add_comm]
    rfl
  refine ⟨spec, i, by omega, hidx, by rw [hidx]; exact hspec, hlen, ?_, hcount, ?_⟩
  · simp only [hcs, List.get_eq_getElem, List.getElem_set_self]
    rfl
  · intro hall
    rw [hcount, List.countP_eq_zero.mpr]
    intro c hc
    have := List.all_eq_true.mp hall c hc
    simpa using this

/-- C10 (amended) at the pod spec of the test with three containers, where the
default-container annotation names `test-container`. -/
theorem C10_one_agent_container_witness :
    containerIndexOrDefault "" [(DefaultContainerAnnotationName, "test-container")]
      multiContainerPodSpec.Containers ≠ -1 ∧
    ∃ (spec : PodSpec) (i : Nat) (hi : i < spec.Containers.length),
      containerIndexOrDefault "" [(DefaultContainerAnnotationName, "test-container")]
        multiContainerPodSpec.Containers = (i : Int) ∧
      replaceContainerWithAgent "agent-image" multiContainerPodSpec "wg-test-object"
        (containerIndexOrDefault "" [(DefaultContainerAnnotationName, "test-container")]
          multiContainerPodSpec.Containers) = some spec ∧
      spec.Containers.length = multiContainerPodSpec.Containers.length ∧
      (spec.Containers.get ⟨i, hi⟩).Name = "agent" ∧
      spec.Containers.countP (fun c => c.Name == "agent")
        = 1 + (multiContainerPodSpec.Containers.eraseIdx i).countP (fun c => c.Name == "agent") ∧
      ((multiContainerPodSpec.Containers.eraseIdx i).all (fun c => c.Name != "agent") = true →
        spec.Containers.countP (fun c => c.Name == "agent") = 1) :=
  ⟨by decide,
    C10_one_agent_container "agent-image" "wg-test-object" ""
      [(DefaultContainerAnnotationName, "test-container")] multiContainerPodSpec (by decide)⟩

end agent

/-! ## Theorems: the patched workload -/

theorem lookup_map_self (m : GoMap) (k v : String) (h : m.any (fun kv => kv.1 == k) = true) :
    List.lookup k (m.map (fun kv => if kv.1 == k then (k, v) else kv)) = some v := by
  induction m with
  | nil => simp at h
  | cons kv rest ih =>
    obtain ⟨a, b⟩ := kv
    rw [List.map_cons]
    by_cases ha : a = k
    · subst ha
      rw [if_pos (by simp)]
      simp [List.lookup]
    · have h1 : (a == k) = false := by simpa using ha
      have h2 : (k == a) = false := by simpa using (fun e : k = a => ha e.symm)
      rw [List.any_cons] at h
      simp only [h1, Bool.false_or] at h
      rw [if_neg (by simp [h1])]
      simp only [List.lookup, h2]
      exact ih h

theorem lookup_append_self (m : GoMap) (k v : String) (h : m.any (fun kv => kv.1 == k) = false) :
    List.lookup k (m ++ [(k, v)]) = some v := by
  induction m with
  | nil => simp [List.lookup]
  | cons kv rest ih =>
    obtain ⟨a, b⟩ := kv
    rw [List.any_cons, Bool.or_eq_false_iff] at h
    have h2 : (k == a) = false := by
      have := h.1
      simp only [beq_eq_false_iff_ne, ne_eq] at this ⊢
      exact fun e => this e.symm
    simp only [List.cons_append, List.lookup, h2]
    exact ih h.2

/-- Storing under a key makes it the value read back. -/
theorem GoMap.get_set_self (m : GoMap) (k v : String) : (m.set k v).get k = v := by
  unfold GoMap.set GoMap.get
  split
  · rename_i h
    rw [lookup_map_self m k v h]
    rfl
  · rename_i h
    rw [lookup_append_self m k v (Bool.eq_false_iff.mpr h)]
    rfl

/-- Storing under one key keeps every entry under another key. -/
theorem GoMap.mem_set_of_ne (m : GoMap) (k v : String) (kv : String × String) (h : kv ∈ m)
    (hk : kv.1 ≠ k) : kv ∈ m.set k v := by
  unfold GoMap.set
  split
  · rw [List.mem_map]
    refine ⟨kv, h, ?_⟩
    rw [if_neg (by simpa using hk)]
  · exact List.mem_append_left _ h

/-- `slices.IndexFunc` is the position `k` when the element there satisfies `f`
and none before it does. -/
theorem indexFunc_eq_of_first {α : Type} (f : α → Bool) (l : List α) (k : Nat) (hk : k < l.length)
    (h1 : f (l.get ⟨k, hk⟩) = true)
    (h2 : ∀ (j : Nat) (hj : j < l.length), j < k → f (l.get ⟨j, hj⟩) = false) :
    IndexFunc l f = (k : Int) := by
  rcases indexFunc_spec f l with ⟨-, hall⟩ | ⟨k1, hk1, e, g1, g2⟩
  · have := hall _ (List.get_mem l k hk)
    rw [h1] at this
    cases this
  · rw [e]
    rcases Nat.lt_trichotomy k1 k with hlt | heq | hgt
    · have := h2 k1 hk1 hlt
      rw [g1] at this
      cases this
    · rw [heq]
    · have := g2 k hk hgt
      rw [h1] at this
      cases this

namespace agent

open corev1

/-- The reachability step leaves the config of the agent as it is and keeps
the requests sent before it. -/
theorem startReachability_config (cluster : Cluster) (a : kubernetesAgent) (requests : List Request)
    (objectName relatedObjectName : String) (matchLabels : GoMap) (revision : String) :
    (startReachability cluster a requests objectName relatedObjectName matchLabels revision).agent.config
      = a.config ∧
    requests <+: (startReachability cluster a requests objectName relatedObjectName matchLabels
      revision).requests := by
  unfold startReachability
  split
  · split
    · exact ⟨rfl, List.prefix_refl _⟩
    · split
      · exact ⟨rfl, List.prefix_append _ _⟩
      · exact ⟨rfl, List.prefix_append _ _⟩
  · split
    · split
      · exact ⟨rfl, List.prefix_append _ _⟩
      · split
        · exact ⟨rfl, List.prefix_append _ _⟩
        · exact ⟨rfl, List.prefix_append _ _⟩
    · exact ⟨rfl, List.prefix_refl _⟩

/-- A successful run of the shared body of `Start`: the index found is an index
of the container list, the patch succeeds, the patched template is stored in
the target and sent in the update request. -/
theorem startTemplate_ok (cluster : Cluster) (a : kubernetesAgent)
    (objectName objectNamespace : String) (matchLabels : GoMap) (template : PodTemplateSpec)
    (store : PodTemplateSpec → TargetObject) (update : PodTemplateSpec → Request)
    (h : (startTemplate cluster a objectName objectNamespace matchLabels template store update).err
      = none) :
    ∃ (i : Nat) (spec : PodSpec),
      i < template.Spec.Containers.length ∧
      containerIndexOrDefault a.config.Container template.Annotations template.Spec.Containers
        = (i : Int) ∧
      replaceContainerWithAgent a.config.AgentImage template.Spec (wgObjectName objectName) (i : Int)
        = some spec ∧
      (startTemplate cluster a objectName objectNamespace matchLabels template store
          update).agent.config.TargetObject
        = store { template with
            Annotations := template.Annotations.set WireguardRevisionAnnotationName cluster.newRevision
            Spec := spec } ∧
      [Request.applySecret a.config.Namespace (wgObjectName objectName) a.config.Wireguard,
        update { template with
          Annotations := template.Annotations.set WireguardRevisionAnnotationName cluster.newRevision
          Spec := spec }] <+:
        (startTemplate cluster a objectName objectNamespace matchLabels template store
          update).requests := by
  unfold startTemplate at h ⊢
  simp only [containerIndexOrDefault_set_revision] at h ⊢
  by_cases hidx : containerIndexOrDefault a.config.Container template.Annotations
      template.Spec.Containers = -1
  · simp [hidx] at h
  obtain ⟨i, hi, hci, -, -⟩ := containerIndexOrDefault_found _ _ _ hidx
  obtain ⟨spec, ports, hspec, -⟩ :=
    replaceContainerWithAgent_containers a.config.AgentImage template.Spec (wgObjectName objectName)
      i hi
  refine ⟨i, spec, hi, hci, hspec, ?_⟩
  have hne : ¬ ((i : Int) = -1) := by omega
  rw [hci] at h ⊢
  simp only [hne, if_false, hspec] at h ⊢
  cases hr : cluster.respond (Request.applySecret a.config.Namespace (wgObjectName objectName)
      a.config.Wireguard) with
  | some e => simp [hr] at h
  | none =>
    simp only [hr] at h ⊢
    cases hr1 : cluster.respond (update { template with
        Annotations := template.Annotations.set WireguardRevisionAnnotationName cluster.newRevision
        Spec := spec }) with
    | some e => simp [hr1] at h
    | none =>
      simp only [hr1] at h ⊢
      obtain ⟨h1, h2⟩ := startReachability_config cluster
        { a with config := { a.config with TargetObject := store { template with
            Annotations := template.Annotations.set WireguardRevisionAnnotationName
              cluster.newRevision
            Spec := spec } } }
        [Request.applySecret a.config.Namespace (wgObjectName objectName) a.config.Wireguard,
          update { template with
            Annotations := template.Annotations.set WireguardRevisionAnnotationName
              cluster.newRevision
            Spec := spec }]
        objectName (wgObjectName objectName) matchLabels cluster.newRevision
      exact ⟨by rw [h1], h2⟩

/-- What `replaceContainerWithAgent` leaves of the containers it does not
replace: the container with its three probes cleared. -/
theorem replaceContainerWithAgent_others (AgentImage : String) (podSpec spec : PodSpec)
    (configName : String) (i : Nat)
    (h : replaceContainerWithAgent AgentImage podSpec configName (i : Int) = some spec) :
    i < podSpec.Containers.length ∧
    spec.Containers.length = podSpec.Containers.length ∧
    ∀ (j : Nat) (hj : j < podSpec.Containers.length), j ≠ i →
      spec.Containers[j]? = some
        { podSpec.Containers.get ⟨j, hj⟩ with
          LivenessProbe := none, ReadinessProbe := none, StartupProbe := none } := by
  have hi : i < podSpec.Containers.length := by
    by_contra hn
    unfold replaceContainerWithAgent at h
    simp only [clearProbesLoop_fst] at h
    have h0 : ¬ ((i : Int) < 0) := by omega
    simp only [h0, if_false, Int.toNat_ofNat] at h
    rw [List.getElem?_eq_none (by simpa using Nat.le_of_not_lt hn)] at h
    cases h
  obtain ⟨spec1, ports, hspec, hcs⟩ :=
    replaceContainerWithAgent_containers AgentImage podSpec configName i hi
  rw [h, Option.some.injEq] at hspec
  subst hspec
  refine ⟨hi, by simp [hcs], ?_⟩
  intro j hj hne
  rw [hcs, List.getElem?_set_ne (fun e => hne e.symm), List.getElem?_map,
    List.getElem?_eq_getElem hj]
  rfl

/-- C11: after a successful `Start` on a Deployment or a StatefulSet, the target
object stored in the config (and sent in the update request) has replica count
1, its template carries the annotation `wgko.io/revision` with the revision of
this run and every other annotation it had, its container list has the length
it had, and every container other than the replaced one is the container it
was with its liveness, readiness and startup probes cleared. -/
theorem C11_patched_workload (a : kubernetesAgent) (cluster : Cluster)
    (h : (a.Start cluster).err = none) :
    (∀ d : appsv1.Deployment, a.config.TargetObject = TargetObject.deployment d →
      ∃ (d1 : appsv1.Deployment) (i : Nat),
        (a.Start cluster).agent.config.TargetObject = TargetObject.deployment d1 ∧
        Request.updateDeployment d.Namespace d1 ∈ (a.Start cluster).requests ∧
        containerIndexOrDefault a.config.Container d.Template.Annotations
          d.Template.Spec.Containers = (i : Int) ∧
        d1.Replicas = some 1 ∧
        d1.Template.Annotations.get "wgko.io/revision" = cluster.newRevision ∧
        (∀ k : String, k ≠ "wgko.io/revision" →
          d1.Template.Annotations.get k = d.Template.Annotations.get k) ∧
        (∀ kv ∈ d.Template.Annotations, kv.1 ≠ "wgko.io/revision" →
          kv ∈ d1.Template.Annotations) ∧
        d1.Template.Spec.Containers.length = d.Template.Spec.Containers.length ∧
        ∀ (j : Nat) (hj : j < d.Template.Spec.Containers.length), j ≠ i →
          d1.Template.Spec.Containers[j]? = some
            { d.Template.Spec.Containers.get ⟨j, hj⟩ with
              LivenessProbe := none, ReadinessProbe := none, StartupProbe := none }) ∧
    (∀ s : appsv1.StatefulSet, a.config.TargetObject = TargetObject.statefulSet s →
      ∃ (s1 : appsv1.StatefulSet) (i : Nat),
        (a.Start cluster).agent.config.TargetObject = TargetObject.statefulSet s1 ∧
        Request.updateStatefulSet s.Namespace s1 ∈ (a.Start cluster).requests ∧
        containerIndexOrDefault a.config.Container s.Template.Annotations
          s.Template.Spec.Containers = (i : Int) ∧
        s1.Replicas = some 1 ∧
        s1.Template.Annotations.get "wgko.io/revision" = cluster.newRevision ∧
        (∀ k : String, k ≠ "wgko.io/revision" →
          s1.Template.Annotations.get k = s.Template.Annotations.get k) ∧
        (∀ kv ∈ s.Template.Annotations, kv.1 ≠ "wgko.io/revision" →
          kv ∈ s1.Template.Annotations) ∧
        s1.Template.Spec.Containers.length = s.Template.Spec.Containers.length ∧
        ∀ (j : Nat) (hj : j < s.Template.Spec.Containers.length), j ≠ i →
          s1.Template.Spec.Containers[j]? = some
            { s.Template.Spec.Containers.get ⟨j, hj⟩ with
              LivenessProbe := none, ReadinessProbe := none, StartupProbe := none }) := by
  constructor
  · intro d hd
    simp only [kubernetesAgent.Start, hd] at h ⊢
    obtain ⟨i, spec, -, hidx, hspec, hstore, hreq⟩ := startTemplate_ok _ _ _ _ _ _ _ _ h
    obtain ⟨-, hlen, hothers⟩ := replaceContainerWithAgent_others _ _ _ _ _ hspec
    refine ⟨_, i, hstore, ?_, hidx, rfl, GoMap.get_set_self _ _ _,
      fun k hk => GoMap.get_set_ne _ _ _ _ (fun e => hk e.symm),
      fun kv hkv hk => GoMap.mem_set_of_ne _ _ _ _ hkv hk, hlen, hothers⟩
    exact hreq.subset (by simp)
  · intro s hs
    simp only [kubernetesAgent.Start, hs] at h ⊢
    obtain ⟨i, spec, -, hidx, hspec, hstore, hreq⟩ := startTemplate_ok _ _ _ _ _ _ _ _ h
    obtain ⟨-, hlen, hothers⟩ := replaceContainerWithAgent_others _ _ _ _ _ hspec
    refine ⟨_, i, hstore, ?_, hidx, rfl, GoMap.get_set_self _ _ _,
      fun k hk => GoMap.get_set_ne _ _ _ _ (fun e => hk e.symm),
      fun kv hkv hk => GoMap.mem_set_of_ne _ _ _ _ hkv hk, hlen, hothers⟩
    exact hreq.subset (by simp)

/-- C11 at the Deployment of the test "deployment with multiple containers". -/
theorem C11_patched_workload_witness :
    ((NewKubernetesAgent (testConfig (TargetObject.deployment testDeployment))).Start
      testCluster).err = none ∧
    ∃ d1 : appsv1.Deployment,
      ((NewKubernetesAgent (testConfig (TargetObject.deployment testDeployment))).Start
        testCluster).agent.config.TargetObject = TargetObject.deployment d1 ∧
      d1.Replicas = some 1 ∧
      d1.Template.Annotations.get "wgko.io/revision" = "1-2-3-4" ∧
      d1.Template.Annotations.get "kubectl.kubernetes.io/default-container" = "test-container" ∧
      d1.Template.Spec.Containers.length = 3 ∧
      d1.Template.Spec.Containers[2]? = some
        { containerNamed "other-container" with
          Ports := [{ Name := "other", HostPort := 0, ContainerPort := 12345, Protocol := "", HostIP := "" }] } := by
  refine ⟨by decide, ?_⟩
  obtain ⟨d1, i, h1, -, h3, h4, h5, h6, -, h8, h9⟩ :=
    (C11_patched_workload (NewKubernetesAgent (testConfig (TargetObject.deployment testDeployment)))
      testCluster (by decide)).1 testDeployment rfl
  have hi : i = 1 := by
    have e : containerIndexOrDefault
        (NewKubernetesAgent (testConfig (TargetObject.deployment testDeployment))).config.Container
        testDeployment.Template.Annotations testDeployment.Template.Spec.Containers = 1 := by decide
    rw [e] at h3
    omega
  refine ⟨d1, h1, h4, h5, (h6 _ (by decide)).trans (by decide), h8, ?_⟩
  rw [h9 2 (by decide) (by omega)]
  decide

/-- Past the replaced index the first loop of `replaceContainerWithAgent`
collects the ports of every container. -/
theorem clearProbesLoop_snd_past (containerIndex : Int) (l : List Container) (index : Int)
    (acc : List String) (h : containerIndex < index) :
    (clearProbesLoop containerIndex l index acc).2
      = acc ++ l.flatMap (fun c => c.Ports.map (fun port => FormatInt port.ContainerPort)) := by
  induction l generalizing index acc with
  | nil => simp [clearProbesLoop]
  | cons c rest ih =>
    have hne : index ≠ containerIndex := by omega
    simp only [clearProbesLoop, hne, ne_eq, not_false_eq_true, if_true, List.flatMap_cons]
    rw [ih (index + 1) _ (by omega), List.append_assoc]

/-- The ports the first loop of `replaceContainerWithAgent` collects: those of
the containers other than the one at the replaced index, in order. -/
theorem clearProbesLoop_snd (l : List Container) (index : Int) (k : Nat) (acc : List String) :
    (clearProbesLoop (index + k) l index acc).2
      = acc ++ (l.eraseIdx k).flatMap
          (fun c => c.Ports.map (fun port => FormatInt port.ContainerPort)) := by
  induction l generalizing index acc k with
  | nil => simp [clearProbesLoop]
  | cons c rest ih =>
    cases k with
    | zero =>
      simp only [clearProbesLoop, Nat.cast_zero, add_zero, ne_eq, not_true_eq_false, if_false,
        List.eraseIdx_cons_zero]
      exact clearProbesLoop_snd_past index rest (index + 1) acc (by omega)
    | succ k =>
      have hne : index ≠ index + ((k + 1 : Nat) : Int) := by omega
      simp only [clearProbesLoop, hne, ne_eq, not_false_eq_true, if_true, List.eraseIdx_cons_succ,
        List.flatMap_cons]
      have e : index + ((k + 1 : Nat) : Int) = (index + 1) + (k : Int) := by push_cast; ring
      rw [e, ih (index + 1) k, List.append_assoc]

/-- The agent container that `replaceContainerWithAgent` stores at an index of
the container list. -/
theorem replaceContainerWithAgent_agent (AgentImage : String) (podSpec : PodSpec)
    (configName : String) (i : Nat) (hi : i < podSpec.Containers.length) :
    ∃ spec : PodSpec,
      replaceContainerWithAgent AgentImage podSpec configName (i : Int) = some spec ∧
      spec.Containers[i]? = some (agentContainer AgentImage
        { podSpec.Containers.get ⟨i, hi⟩ with
          LivenessProbe := none, ReadinessProbe := none, StartupProbe := none }
        ((podSpec.Containers.eraseIdx i).flatMap
          (fun c => c.Ports.map (fun port => FormatInt port.ContainerPort)))) := by
  unfold replaceContainerWithAgent
  have hs := clearProbesLoop_snd podSpec.Containers 0 i []
  simp only [zero_add, List.nil_append] at hs
  simp only [clearProbesLoop_fst, hs]
  have h0 : ¬ ((i : Int) < 0) := by omega
  simp only [h0, if_false, Int.toNat_ofNat]
  rw [List.getElem?_eq_getElem (by simpa using hi)]
  simp only [List.getElem_map]
  refine ⟨_, rfl, ?_⟩
  simp only [List.getElem?_set_self (by simpa using hi : i < (podSpec.Containers.map _).length)]
  rfl

/-- C12: for every pod spec and index `i` of its container list, the value of
`LOCAL_PORTS_EXCLUDE_PROXY` on the agent container that
`replaceContainerWithAgent` stores at `i` is the decimal container ports of the
containers other than the one at `i`, container by container and port by port
in declaration order, joined by commas; it is the only variable of that name,
it is the empty string when the other containers declare no ports, and the
containers `[istio:15001, test-container, other-container:12345]` with
`test-container` replaced give `15001,12345`. -/
theorem C12_excluded_ports (AgentImage configName : String) (podSpec : PodSpec) (i : Nat)
    (hi : i < podSpec.Containers.length) :
    (∃ (spec : PodSpec) (agentC : Container),
      replaceContainerWithAgent AgentImage podSpec configName (i : Int) = some spec ∧
      spec.Containers[i]? = some agentC ∧
      agentC.Env.filter (fun e => e.Name == "LOCAL_PORTS_EXCLUDE_PROXY") =
        [{ Name := "LOCAL_PORTS_EXCLUDE_PROXY"
           Value := String.intercalate ","
             ((podSpec.Containers.eraseIdx i).flatMap
               (fun c => c.Ports.map (fun port => FormatInt port.ContainerPort)))
           ValueFrom := none }] ∧
      ((∀ c ∈ podSpec.Containers.eraseIdx i, c.Ports = []) →
        agentC.Env.filter (fun e => e.Name == "LOCAL_PORTS_EXCLUDE_PROXY") =
          [{ Name := "LOCAL_PORTS_EXCLUDE_PROXY", Value := "", ValueFrom := none }])) ∧
    (∀ n : Nat, FormatInt (n : Int) = String.mk (Nat.toDigits 10 n)) ∧
    (replaceContainerWithAgent "agent-image" multiContainerPodSpec "wg-test-object" 1).map
        (fun spec => spec.Containers.map (fun c =>
          (c.Env.filter (fun e => e.Name == "LOCAL_PORTS_EXCLUDE_PROXY")).map (fun e => e.Value)))
      = some [[], ["15001,12345"], []] := by
  refine ⟨?_, fun n => rfl, ?_⟩
  · obtain ⟨spec, hspec, hagent⟩ :=
      replaceContainerWithAgent_agent AgentImage podSpec configName i hi
    refine ⟨spec, _, hspec, hagent, rfl, ?_⟩
    intro hnone
    have : (podSpec.Containers.eraseIdx i).flatMap
        (fun c => c.Ports.map (fun port => FormatInt port.ContainerPort)) = [] := by
      rw [List.flatMap_eq_nil_iff]
      intro c hc
      rw [hnone c hc]
      rfl
    show List.filter _ (agentContainer _ _ _).Env = _
    rw [this]
    rfl
  · decide

/-- C12 at the pod spec of the test "deployment with multiple containers". -/
theorem C12_excluded_ports_witness :
    1 < multiContainerPodSpec.Containers.length ∧
    ∃ (spec : PodSpec) (agentC : Container),
      replaceContainerWithAgent "agent-image" multiContainerPodSpec "wg-test-object" 1 = some spec ∧
      spec.Containers[1]? = some agentC ∧
      agentC.Env.filter (fun e => e.Name == "LOCAL_PORTS_EXCLUDE_PROXY") =
        [{ Name := "LOCAL_PORTS_EXCLUDE_PROXY", Value := "15001,12345", ValueFrom := none }] :=
  ⟨by decide,
    match (C12_excluded_ports "agent-image" "wg-test-object" multiContainerPodSpec 1
      (by decide)).1 with
    | ⟨spec, agentC, h1, h2, h3, _⟩ => ⟨spec, agentC, h1, h2, h3.trans (by decide)⟩⟩

/-- The volume list that `replaceContainerWithAgent` leaves, at an index of
the container list. -/
theorem replaceContainerWithAgent_volumes (AgentImage : String) (podSpec : PodSpec)
    (configName : String) (i : Nat) (hi : i < podSpec.Containers.length) :
    ∃ spec : PodSpec,
      replaceContainerWithAgent AgentImage podSpec configName (i : Int) = some spec ∧
      spec.Containers.length = podSpec.Containers.length ∧
      spec.Volumes =
        if IndexFunc podSpec.Volumes (fun v => v.Name == WireguardConfigVolumeName) = -1 then
          podSpec.Volumes ++
            [{ Name := WireguardConfigVolumeName
               Secret := some { SecretName := configName, Optional := some false }
               HostPath := none }]
        else
          podSpec.Volumes.set
            (IndexFunc podSpec.Volumes (fun v => v.Name == WireguardConfigVolumeName)).toNat
            { Name := WireguardConfigVolumeName
              Secret := some { SecretName := configName, Optional := some false }
              HostPath := none } := by
  unfold replaceContainerWithAgent
  simp only [clearProbesLoop_fst]
  have h0 : ¬ ((i : Int) < 0) := by omega
  simp only [h0, if_false, Int.toNat_ofNat]
  rw [List.getElem?_eq_getElem (by simpa using hi)]
  exact ⟨_, rfl, by simp, rfl⟩

/-- The two cases of the volume list that `replaceContainerWithAgent` leaves:
the config volume appended when no volume has its name, else stored at the
first position of a volume with its name. -/
theorem replaceContainerWithAgent_volumes_cases (AgentImage : String) (podSpec : PodSpec)
    (configName : String) (i : Nat) (hi : i < podSpec.Containers.length) :
    ∃ spec : PodSpec,
      replaceContainerWithAgent AgentImage podSpec configName (i : Int) = some spec ∧
      spec.Containers.length = podSpec.Containers.length ∧
      (((∀ v ∈ podSpec.Volumes, v.Name ≠ WireguardConfigVolumeName) ∧
        spec.Volumes = podSpec.Volumes ++
          [{ Name := WireguardConfigVolumeName
             Secret := some { SecretName := configName, Optional := some false }
             HostPath := none }]) ∨
      (∃ (k : Nat) (hk : k < podSpec.Volumes.length),
        (podSpec.Volumes.get ⟨k, hk⟩).Name = WireguardConfigVolumeName ∧
        (∀ (j : Nat) (hj : j < podSpec.Volumes.length), j < k →
          (podSpec.Volumes.get ⟨j, hj⟩).Name ≠ WireguardConfigVolumeName) ∧
        spec.Volumes = podSpec.Volumes.set k
          { Name := WireguardConfigVolumeName
            Secret := some { SecretName := configName, Optional := some false }
            HostPath := none })) := by
  obtain ⟨spec, hspec, hlen, hv⟩ :=
    replaceContainerWithAgent_volumes AgentImage podSpec configName i hi
  refine ⟨spec, hspec, hlen, ?_⟩
  rcases indexFunc_spec (fun v : Volume => v.Name == WireguardConfigVolumeName) podSpec.Volumes with
    ⟨h1, h2⟩ | ⟨k, hk, h1, h2, h3⟩
  · left
    rw [h1, if_pos rfl] at hv
    exact ⟨fun v hvm => by simpa using h2 v hvm, hv⟩
  · right
    have hne : ¬ ((k : Int) = -1) := by omega
    rw [h1, if_neg hne, Int.toNat_ofNat] at hv
    exact ⟨k, hk, by simpa using h2, fun j hj hjk => by simpa using h3 j hj hjk, hv⟩

/-- C13: `replaceContainerWithAgent` at an index of the container list leaves a
volume list in which the config volume (named `wireguard-config`, secret
`configName`, optional false) is appended last when no volume had its name,
and otherwise stands at the first position of a volume with its name, the
other positions unchanged. The number of volumes with the name is 1, or what
it was if that was more; volume names that were distinct stay distinct; and
applying the mutation again leaves the same volume list. `Start` passes
`wg-<name of the workload>` as `configName`. -/
theorem C13_config_volume (AgentImage configName : String) (podSpec : PodSpec) (i : Nat)
    (hi : i < podSpec.Containers.length) :
    (∃ spec : PodSpec,
      replaceContainerWithAgent AgentImage podSpec configName (i : Int) = some spec ∧
      (((∀ v ∈ podSpec.Volumes, v.Name ≠ "wireguard-config") ∧
        spec.Volumes = podSpec.Volumes ++
          [{ Name := "wireguard-config"
             Secret := some { SecretName := configName, Optional := some false }
             HostPath := none }]) ∨
      (∃ (k : Nat) (hk : k < podSpec.Volumes.length),
        (podSpec.Volumes.get ⟨k, hk⟩).Name = "wireguard-config" ∧
        (∀ (j : Nat) (hj : j < podSpec.Volumes.length), j < k →
          (podSpec.Volumes.get ⟨j, hj⟩).Name ≠ "wireguard-config") ∧
        spec.Volumes = podSpec.Volumes.set k
          { Name := "wireguard-config"
            Secret := some { SecretName := configName, Optional := some false }
            HostPath := none })) ∧
      spec.Volumes.countP (fun v => v.Name == "wireguard-config")
        = max 1 (podSpec.Volumes.countP (fun v => v.Name == "wireguard-config")) ∧
      ((podSpec.Volumes.map (fun v => v.Name)).Nodup →
        (spec.Volumes.map (fun v => v.Name)).Nodup) ∧
      (∀ i2 : Nat, i2 < spec.Containers.length →
        ∃ spec2 : PodSpec,
          replaceContainerWithAgent AgentImage spec configName (i2 : Int) = some spec2 ∧
          spec2.Volumes = spec.Volumes)) ∧
    (∀ (a : kubernetesAgent) (cluster : Cluster), (a.Start cluster).err = none →
      (∀ d : appsv1.Deployment, a.config.TargetObject = TargetObject.deployment d →
        ∃ (d1 : appsv1.Deployment) (i1 : Nat),
          (a.Start cluster).agent.config.TargetObject = TargetObject.deployment d1 ∧
          replaceContainerWithAgent a.config.AgentImage d.Template.Spec ("wg-" ++ d.Name) (i1 : Int)
            = some d1.Template.Spec) ∧
      (∀ s : appsv1.StatefulSet, a.config.TargetObject = TargetObject.statefulSet s →
        ∃ (s1 : appsv1.StatefulSet) (i1 : Nat),
          (a.Start cluster).agent.config.TargetObject = TargetObject.statefulSet s1 ∧
          replaceContainerWithAgent a.config.AgentImage s.Template.Spec ("wg-" ++ s.Name) (i1 : Int)
            = some s1.Template.Spec)) := by
  constructor
  · obtain ⟨spec, hspec, hlen, hcases⟩ :=
      replaceContainerWithAgent_volumes_cases AgentImage podSpec configName i hi
    have hcases1 := hcases
    refine ⟨spec, hspec, hcases, ?_, ?_, ?_⟩
    · rcases hcases1 with ⟨hnone, hv⟩ | ⟨k, hk, hname, -, hv⟩
      · rw [hv, List.countP_append, List.countP_eq_zero.mpr]
        · rfl
        · intro v hvm
          simpa using hnone v hvm
      · have hself : podSpec.Volumes.set k (podSpec.Volumes.get ⟨k, hk⟩) = podSpec.Volumes := by
          apply List.ext_getElem (by simp)
          intro n h1 h2
          by_cases hn : k = n
          · subst hn
            simp
          · simp only [List.getElem_set_ne hn]
        have h1 := countP_set (fun v : Volume => v.Name == "wireguard-config") podSpec.Volumes k
          (podSpec.Volumes.get ⟨k, hk⟩) hk
        rw [hself] at h1
        have hname1 : (podSpec.Volumes.get ⟨k, hk⟩).Name = "wireguard-config" := hname
        simp only [hname1, beq_self_eq_true, if_true] at h1
        rw [hv, countP_set _ _ _ _ hk, h1]
        have : (WireguardConfigVolumeName == "wireguard-config") = true := by decide
        simp only [this, if_true]
        omega
    · intro hnd
      rcases hcases1 with ⟨hnone, hv⟩ | ⟨k, hk, hname, -, hv⟩
      · rw [hv, List.map_append, List.nodup_append]
        refine ⟨hnd, by simp, ?_⟩
        intro n hn hn1
        rw [List.mem_map] at hn
        obtain ⟨v, hvm, rfl⟩ := hn
        simp only [List.map_cons, List.map_nil, List.mem_singleton] at hn1
        exact hnone v hvm hn1
      · rw [hv, List.map_set]
        have : (podSpec.Volumes.map (fun v => v.Name)).set k WireguardConfigVolumeName
            = podSpec.Volumes.map (fun v => v.Name) := by
          apply List.ext_getElem (by simp)
          intro n h1 h2
          by_cases hn : k = n
          · subst hn
            simp only [List.getElem_set_self, List.getElem_map]
            exact hname.symm
          · simp only [List.getElem_set_ne hn]
        rw [this]
        exact hnd
    · intro i2 hi2
      obtain ⟨spec2, hspec2, -, hv2⟩ :=
        replaceContainerWithAgent_volumes AgentImage spec configName i2 hi2
      refine ⟨spec2, hspec2, ?_⟩
      rw [hv2]
      rcases hcases1 with ⟨hnone, hv⟩ | ⟨k, hk, hname, hbefore, hv⟩
      · have hidx : IndexFunc spec.Volumes (fun v => v.Name == WireguardConfigVolumeName)
            = (podSpec.Volumes.length : Int) := by
          apply indexFunc_eq_of_first _ _ _ (by rw [hv]; simp)
          · simp only [hv, List.get_eq_getElem, List.getElem_concat_length]
            decide
          · intro j hj hjk
            simp only [hv, List.get_eq_getElem, List.getElem_append_left hjk]
            simpa using hnone _ (List.getElem_mem hjk)
        have hne : ¬ ((podSpec.Volumes.length : Int) = -1) := by omega
        rw [hidx, if_neg hne, Int.toNat_ofNat, hv]
        simp
      · have hidx : IndexFunc spec.Volumes (fun v => v.Name == WireguardConfigVolumeName)
            = (k : Int) := by
          apply indexFunc_eq_of_first _ _ _ (by rw [hv]; simpa using hk)
          · simp only [hv, List.get_eq_getElem, List.getElem_set_self]
            decide
          · intro j hj hjk
            have hkj : k ≠ j := by omega
            simp only [hv, List.get_eq_getElem, List.getElem_set_ne hkj]
            have hj1 : j < podSpec.Volumes.length := by omega
            simpa using hbefore j hj1 hjk
        have hne : ¬ ((k : Int) = -1) := by omega
        rw [hidx, if_neg hne, Int.toNat_ofNat, hv]
        simp
  · intro a cluster h
    constructor
    · intro d hd
      simp only [kubernetesAgent.Start, hd] at h ⊢
      obtain ⟨i1, spec, -, -, hspec, hstore, -⟩ := startTemplate_ok _ _ _ _ _ _ _ _ h
      exact ⟨_, i1, hstore, hspec⟩
    · intro s hs
      simp only [kubernetesAgent.Start, hs] at h ⊢
      obtain ⟨i1, spec, -, -, hspec, hstore, -⟩ := startTemplate_ok _ _ _ _ _ _ _ _ h
      exact ⟨_, i1, hstore, hspec⟩

/-- C13 at the pod spec of the test "deployment with existing volume": the
volume that names another secret is replaced where it stands. -/
theorem C13_config_volume_witness :
    0 < existingVolumePodSpec.Containers.length ∧
    (∃ spec : PodSpec,
      replaceContainerWithAgent "agent-image" existingVolumePodSpec "wg-test-object" 0 = some spec ∧
      spec.Volumes.countP (fun v => v.Name == "wireguard-config") = 1) ∧
    (replaceContainerWithAgent "agent-image" existingVolumePodSpec "wg-test-object" 0).map
        (fun spec => spec.Volumes)
      = some [{ Name := "wireguard-config"
                Secret := some { SecretName := "wg-test-object", Optional := some false }
                HostPath := none }] :=
  ⟨by decide,
    match (C13_config_volume "agent-image" "wg-test-object" existingVolumePodSpec 0
      (by decide)).1 with
    | ⟨spec, h1, _, h3, _⟩ => ⟨spec, h1, h3.trans (by decide)⟩,
    by decide⟩

/-! ## Theorems: the stop function of the agent -/

/-- A successful `Start` has a target object with a name. -/
theorem start_ok_objectName (a : kubernetesAgent) (cluster : Cluster)
    (h : (a.Start cluster).err = none) :
    ∃ name : String, objectName a.config.TargetObject = some name := by
  unfold kubernetesAgent.Start at h
  cases ht : a.config.TargetObject with
  | deployment d => exact ⟨d.Name, rfl⟩
  | statefulSet s => exact ⟨s.Name, rfl⟩
  | other name =>
    rw [ht] at h
    cases name with
    | none => simp at h
    | some n => simp at h

/-- C14: the stop function that `Start` returns is `stop` with the name
`wg-<name of the workload>`. Invoked while `KeepResources` is true it sends no
request and logs nothing. Invoked while `KeepResources` is false it sends,
whatever the cluster answers, exactly the deletions of the service, the
network policy and the secret of that name in the namespace of the config, in
this order; and when every failing deletion fails with not-found it logs no
error. -/
theorem C14_stop (cluster : Cluster) (a : kubernetesAgent) (relatedObjectName : String) :
    (a.config.KeepResources = true → stop cluster a relatedObjectName = ([], [])) ∧
    (a.config.KeepResources = false →
      (stop cluster a relatedObjectName).1 =
        [ Request.deleteService a.config.Namespace relatedObjectName,
          Request.deleteNetworkPolicy a.config.Namespace relatedObjectName,
          Request.deleteSecret a.config.Namespace relatedObjectName ]) ∧
    ((∀ req : Request, cluster.respond req = none ∨ cluster.respond req = some APIError.notFound) →
      (stop cluster a relatedObjectName).2 = []) ∧
    (∀ (a0 : kubernetesAgent) (cluster0 : Cluster), (a0.Start cluster0).err = none →
      ∃ (name : String) (f : Cluster → kubernetesAgent → List Request × List String),
        objectName a0.config.TargetObject = some name ∧
        a0.StartStop cluster0 = some f ∧
        ∀ (cluster1 : Cluster) (a1 : kubernetesAgent), f cluster1 a1 = stop cluster1 a1 ("wg-" ++ name)) := by
  refine ⟨?_, ?_, ?_, ?_⟩
  · intro h
    simp [stop, h]
  · intro h
    simp [stop, h]
  · intro h
    unfold stop
    split
    · rfl
    · have hd : ∀ (req : Request) (what : String), deleteError (cluster.respond req) what = [] := by
        intro req what
        rcases h req with e | e <;> rw [e] <;> rfl
      simp only [hd, List.append_nil]
  · intro a0 cluster0 h
    obtain ⟨name, hn⟩ := start_ok_objectName a0 cluster0 h
    refine ⟨name, fun cluster1 a1 => stop cluster1 a1 (wgObjectName name), hn, ?_, fun _ _ => rfl⟩
    unfold kubernetesAgent.StartStop
    rw [h, hn]

end agent

/-! ## Theorems: the teardown of the proxy -/

namespace proxy

open runnable

/-- The deferred loop of `Run` calls the stop functions in the order of the
list. -/
theorem runStopFuncs_eq (stopFuncs : List StopFunc) : runStopFuncs stopFuncs = stopFuncs := by
  unfold runStopFuncs
  have : ∀ (l acc : List StopFunc),
      l.foldl (fun called stop => called ++ [stop]) acc = acc ++ l := by
    intro l
    induction l with
    | nil => intro acc; simp
    | cons x xs ih => intro acc; simp [ih]
  simpa using this stopFuncs []

/-- C15 at a run where every step succeeds and no local address is set: the
stop functions are registered in the order agent, device, routing and the
deferred loop of `Run` calls them in that same order, not in the reverse one,
the order in which the deferred calls of `Run` of the agent stop its routing
and its device. -/
theorem C15_forward_teardown :
    (Run testRunEnv (agent.testConfig (TargetObject.deployment agent.testDeployment)) []).err = none ∧
    (Run testRunEnv (agent.testConfig (TargetObject.deployment agent.testDeployment))
      []).state.stopFuncs = [StopFunc.agentStop, StopFunc.wgStop, StopFunc.routerStop] ∧
    (Run testRunEnv (agent.testConfig (TargetObject.deployment agent.testDeployment)) []).stopped
      = [StopFunc.agentStop, StopFunc.wgStop, StopFunc.routerStop] ∧
    (Run testRunEnv (agent.testConfig (TargetObject.deployment agent.testDeployment)) []).stopped
      ≠ (Run testRunEnv (agent.testConfig (TargetObject.deployment agent.testDeployment))
        []).state.stopFuncs.reverse := by
  decide

/-- The stop functions `wireguardDeviceSetup` registers on success. -/
theorem wireguardDeviceSetup_stopFuncs (env : RunEnv) (st st1 : RunState)
    (agentAddress : netip.AddrPort)
    (h : wireguardDeviceSetup env st agentAddress = (st1, none)) :
    st1.stopFuncs = st.stopFuncs ++ [StopFunc.wgStop, StopFunc.routerStop] := by
  unfold wireguardDeviceSetup at h
  simp only at h
  split at h
  · simp at h
  · split at h
    · simp at h
    · simp only [Prod.mk.injEq, and_true] at h
      rw [← h]
      simp

/-- The stop function `kubernetesSetup` registers on success. -/
theorem kubernetesSetup_stopFuncs (env : RunEnv) (st st1 : RunState) (addr : netip.AddrPort)
    (h : kubernetesSetup env st = (st1, addr, none)) :
    st1.stopFuncs = st.stopFuncs ++ [StopFunc.agentStop] := by
  unfold kubernetesSetup at h
  simp only at h
  split at h
  · simp at h
  · simp only [Prod.mk.injEq, and_true] at h
    rw [← h.1]

/-- The stop functions a successful startup registers. -/
theorem runBody_stopFuncs (env : RunEnv) (st st1 : RunState) (h : runBody env st = (st1, none)) :
    st1.stopFuncs = st.stopFuncs ++
      (if st.cfg.Wireguard.LocalAddress.IsValid then
        [StopFunc.wgStop, StopFunc.routerStop, StopFunc.agentStop]
      else [StopFunc.agentStop, StopFunc.wgStop, StopFunc.routerStop]) := by
  unfold runBody at h
  by_cases hla : st.cfg.Wireguard.LocalAddress.IsValid = true
  · rw [if_pos hla] at h
    rw [if_pos hla]
    rcases hw : wireguardDeviceSetup env st netip.AddrPort.zero with ⟨sa, e1⟩
    rw [hw] at h
    cases e1 with
    | some e => simp at h
    | none =>
      simp only at h
      rcases hk : kubernetesSetup env sa with ⟨sb, addr, e2⟩
      rw [hk] at h
      cases e2 with
      | some e => simp at h
      | none =>
        simp only [Prod.mk.injEq, and_true] at h
        rw [← h, kubernetesSetup_stopFuncs env sa sb addr hk,
          wireguardDeviceSetup_stopFuncs env st sa _ hw]
        simp
  · rw [if_neg hla] at h
    rw [if_neg hla]
    rcases hk : kubernetesSetup env st with ⟨sa, addr, e1⟩
    rw [hk] at h
    cases e1 with
    | some e => simp at h
    | none =>
      simp only at h
      rcases hw : wireguardDeviceSetup env sa addr with ⟨sb, e2⟩
      rw [hw] at h
      cases e2 with
      | some e => simp at h
      | none =>
        simp only [Prod.mk.injEq, and_true] at h
        rw [← h, wireguardDeviceSetup_stopFuncs env sa sb addr hw,
          kubernetesSetup_stopFuncs env st sa addr hk]
        simp

/-- The order of the teardown of the proxy: when `Run` returns, its deferred
function has called the registered stop functions in registration order, the
first one registered first and the last one last; after a successful startup
these are the stop functions of the device, the routing and the agent, in
this order, when a local address is set, and those of the agent, the device
and the routing otherwise, after the ones registered before the call. -/
theorem run_teardown_order (env : RunEnv) (cfg : config.Config) (stopFuncs : List StopFunc) :
    (Run env cfg stopFuncs).stopped = (Run env cfg stopFuncs).state.stopFuncs ∧
    (Run env cfg stopFuncs).stopped.head? = (Run env cfg stopFuncs).state.stopFuncs.head? ∧
    (Run env cfg stopFuncs).stopped.getLast? = (Run env cfg stopFuncs).state.stopFuncs.getLast? ∧
    ((Run env cfg stopFuncs).err = none →
      (Run env cfg stopFuncs).state.stopFuncs = stopFuncs ++
        (if cfg.Wireguard.LocalAddress.IsValid then
          [StopFunc.wgStop, StopFunc.routerStop, StopFunc.agentStop]
        else [StopFunc.agentStop, StopFunc.wgStop, StopFunc.routerStop])) := by
  have h1 : (Run env cfg stopFuncs).stopped = (Run env cfg stopFuncs).state.stopFuncs := by
    simp only [Run, runStopFuncs_eq]
  refine ⟨h1, by rw [h1], by rw [h1], ?_⟩
  intro herr
  simp only [Run] at herr ⊢
  exact runBody_stopFuncs env ⟨cfg, stopFuncs, [], []⟩ _ (Prod.ext rfl herr)

end proxy

/-! ## Theorems: the forwarding rules of the agent -/

namespace agent

/-- The calls `updateIPTablesRules` makes when none of them fails, after the
calls recorded before. -/
theorem updateIPTablesRules_recorder (cfg : config.Wireguard) (calls : List Call)
    (wireguardDeviceName : String) (istioEnabled : Bool) (proxyExcludedPorts : List String)
    (deviceName : String) (deviceAddr : netip.Addr) :
    updateIPTablesRules cfg recorder calls wireguardDeviceName istioEnabled proxyExcludedPorts
        (Except.ok (deviceName, deviceAddr)) =
      (calls ++
        [ Call.AppendUnique "nat" "POSTROUTING" ["-p", "udp", "-o", deviceName, "-j", "MASQUERADE"],
          Call.AppendUnique "nat" "PREROUTING"
            (["-p", "tcp", "-i", deviceName] ++
              (if proxyExcludedPorts ≠ [] then
                ["-m", "multiport", "!", "--dports", String.intercalate "," proxyExcludedPorts]
              else []) ++
              ["-j", "DNAT", "--to-destination", cfg.LocalOverlayAddress.String]) ] ++
        (if istioEnabled then
          [ Call.InsertUnique "nat" "PREROUTING" 1
              ["-p", "tcp", "-i", wireguardDeviceName, "-j", "DNAT", "--to-destination",
                "127.0.0.6:15001"] ]
        else
          [ Call.AppendUnique "nat" "PREROUTING"
              ["-p", "tcp", "-i", wireguardDeviceName, "--destination", deviceAddr.String, "-j",
                "DNAT", "--to-destination", cfg.LocalOverlayAddress.String],
            Call.AppendUnique "nat" "POSTROUTING"
              ["-p", "tcp", "-o", deviceName, "-j", "MASQUERADE"] ]), none) := by
  cases proxyExcludedPorts with
  | nil => cases istioEnabled <;> simp [updateIPTablesRules, recorder]
  | cons p ps => cases istioEnabled <;> simp [updateIPTablesRules, recorder]

/-- The rule tables `updateIPTablesRules` leaves when driven through `iptables`:
no call fails. -/
theorem updateIPTablesRules_iptables (cfg : config.Wireguard) (t : Tables)
    (wireguardDeviceName : String) (istioEnabled : Bool) (proxyExcludedPorts : List String)
    (deviceName : String) (deviceAddr : netip.Addr) :
    updateIPTablesRules cfg iptables t wireguardDeviceName istioEnabled proxyExcludedPorts
        (Except.ok (deviceName, deviceAddr)) =
      (if istioEnabled then
        ((t.appendUnique "nat" "POSTROUTING"
            ["-p", "udp", "-o", deviceName, "-j", "MASQUERADE"]).appendUnique "nat" "PREROUTING"
            (["-p", "tcp", "-i", deviceName] ++
              (if proxyExcludedPorts ≠ [] then
                ["-m", "multiport", "!", "--dports", String.intercalate "," proxyExcludedPorts]
              else []) ++
              ["-j", "DNAT", "--to-destination", cfg.LocalOverlayAddress.String])).insertUnique
            "nat" "PREROUTING" 1
            ["-p", "tcp", "-i", wireguardDeviceName, "-j", "DNAT", "--to-destination",
              "127.0.0.6:15001"]
      else
        (((t.appendUnique "nat" "POSTROUTING"
            ["-p", "udp", "-o", deviceName, "-j", "MASQUERADE"]).appendUnique "nat" "PREROUTING"
            (["-p", "tcp", "-i", deviceName] ++
              (if proxyExcludedPorts ≠ [] then
                ["-m", "multiport", "!", "--dports", String.intercalate "," proxyExcludedPorts]
              else []) ++
              ["-j", "DNAT", "--to-destination", cfg.LocalOverlayAddress.String])).appendUnique
            "nat" "PREROUTING"
            ["-p", "tcp", "-i", wireguardDeviceName, "--destination", deviceAddr.String, "-j",
              "DNAT", "--to-destination", cfg.LocalOverlayAddress.String]).appendUnique
            "nat" "POSTROUTING" ["-p", "tcp", "-o", deviceName, "-j", "MASQUERADE"], none) := by
  cases proxyExcludedPorts with
  | nil =>
    cases istioEnabled
    · simp [updateIPTablesRules, iptables]
    · simp [updateIPTablesRules, iptables]
      rw [if_neg (fun h => by have := h.2; omega)]
  | cons p ps =>
    cases istioEnabled
    · simp [updateIPTablesRules, iptables]
    · simp [updateIPTablesRules, iptables]
      rw [if_neg (fun h => by have := h.2; omega)]

/-- A chain read after `AppendUnique`. -/
theorem appendUnique_apply (t : Tables) (table chain : String) (r : List String)
    (table1 chain1 : String) :
    t.appendUnique table chain r table1 chain1 =
      if table1 = table ∧ chain1 = chain then
        (if r ∈ t table chain then t table chain else t table chain ++ [r])
      else t table1 chain1 := by
  unfold Tables.appendUnique
  by_cases hm : r ∈ t table chain
  · rw [if_pos hm, if_pos hm]
    split
    · rename_i h
      rw [h.1, h.2]
    · rfl
  · rw [if_neg hm, if_neg hm]
    rfl

/-- A chain read after `InsertUnique` at position 1. -/
theorem insertUnique_apply (t : Tables) (table chain : String) (r : List String)
    (table1 chain1 : String) :
    t.insertUnique table chain 1 r table1 chain1 =
      if table1 = table ∧ chain1 = chain then
        (if r ∈ t table chain then t table chain else r :: t table chain)
      else t table1 chain1 := by
  unfold Tables.insertUnique
  by_cases hm : r ∈ t table chain
  · rw [if_pos hm, if_pos hm]
    split
    · rename_i h
      rw [h.1, h.2]
    · rfl
  · rw [if_neg hm, if_neg hm]
    simp [Tables.setChain]

/-- C16: without sidecar interception and on empty rule tables,
`updateIPTablesRules` succeeds and leaves in `PREROUTING` the DNAT rule of the
data interface, with the multiport clause exactly when the list of excluded
ports is not empty, followed by the DNAT rule of the tunnel interface for
the address of the data interface, and in `POSTROUTING` the MASQUERADE rule
for UDP followed by the one for TCP; every other chain stays empty. With the
`fakeIptables` of the test the same rules stand in the same order, each as
its words joined by blanks. -/
theorem C16_plain_rules (cfg : config.Wireguard) (wireguardDeviceName : String)
    (proxyExcludedPorts : List String) (deviceName : String) (deviceAddr : netip.Addr) :
    (updateIPTablesRules cfg iptables Tables.empty wireguardDeviceName false proxyExcludedPorts
      (Except.ok (deviceName, deviceAddr))).2 = none ∧
    (updateIPTablesRules cfg iptables Tables.empty wireguardDeviceName false proxyExcludedPorts
      (Except.ok (deviceName, deviceAddr))).1 "nat" "PREROUTING" =
      [ ["-p", "tcp", "-i", deviceName] ++
          (if proxyExcludedPorts ≠ [] then
            ["-m", "multiport", "!", "--dports", String.intercalate "," proxyExcludedPorts]
          else []) ++
          ["-j", "DNAT", "--to-destination", cfg.LocalOverlayAddress.String],
        ["-p", "tcp", "-i", wireguardDeviceName, "--destination", deviceAddr.String, "-j", "DNAT",
          "--to-destination", cfg.LocalOverlayAddress.String] ] ∧
    (updateIPTablesRules cfg iptables Tables.empty wireguardDeviceName false proxyExcludedPorts
      (Except.ok (deviceName, deviceAddr))).1 "nat" "POSTROUTING" =
      [ ["-p", "udp", "-o", deviceName, "-j", "MASQUERADE"],
        ["-p", "tcp", "-o", deviceName, "-j", "MASQUERADE"] ] ∧
    (∀ table chain : String, ¬ (table = "nat" ∧ (chain = "PREROUTING" ∨ chain = "POSTROUTING")) →
      (updateIPTablesRules cfg iptables Tables.empty wireguardDeviceName false proxyExcludedPorts
        (Except.ok (deviceName, deviceAddr))).1 table chain = []) ∧
    (updateIPTablesRules cfg fakeIptables (fun _ => none) wireguardDeviceName false
      proxyExcludedPorts (Except.ok (deviceName, deviceAddr))).2 = none ∧
    ((updateIPTablesRules cfg fakeIptables (fun _ => none) wireguardDeviceName false
      proxyExcludedPorts (Except.ok (deviceName, deviceAddr))).1 "nat").map
        (fun chains => (chains "PREROUTING", chains "POSTROUTING")) = some
      ([ String.intercalate " " (["-p", "tcp", "-i", deviceName] ++
            (if proxyExcludedPorts ≠ [] then
              ["-m", "multiport", "!", "--dports", String.intercalate "," proxyExcludedPorts]
            else []) ++
            ["-j", "DNAT", "--to-destination", cfg.LocalOverlayAddress.String]),
          String.intercalate " " ["-p", "tcp", "-i", wireguardDeviceName, "--destination",
            deviceAddr.String, "-j", "DNAT", "--to-destination", cfg.LocalOverlayAddress.String] ],
        [ String.intercalate " " ["-p", "udp", "-o", deviceName, "-j", "MASQUERADE"],
          String.intercalate " " ["-p", "tcp", "-o", deviceName, "-j", "MASQUERADE"] ]) ∧
    ((updateIPTablesRules testWireguard fakeIptables (fun _ => none) "wg0" false []
      testDefaultInterface).1 "nat").map
        (fun chains => (chains "PREROUTING", chains "POSTROUTING")) = some
      ([ "-p tcp -i eth0 -j DNAT --to-destination 10.1.0.1",
         "-p tcp -i wg0 --destination 100.34.56.10 -j DNAT --to-destination 10.1.0.1" ],
       [ "-p udp -o eth0 -j MASQUERADE", "-p tcp -o eth0 -j MASQUERADE" ]) ∧
    ((updateIPTablesRules testWireguard fakeIptables (fun _ => none) "wg0" false ["12345", "23456"]
      testDefaultInterface).1 "nat").map
        (fun chains => (chains "PREROUTING", chains "POSTROUTING")) = some
      ([ "-p tcp -i eth0 -m multiport ! --dports 12345,23456 -j DNAT --to-destination 10.1.0.1",
         "-p tcp -i wg0 --destination 100.34.56.10 -j DNAT --to-destination 10.1.0.1" ],
       [ "-p udp -o eth0 -j MASQUERADE", "-p tcp -o eth0 -j MASQUERADE" ]) := by
  refine ⟨?_, ?_, ?_, ?_, ?_, ?_, by decide, by decide⟩
  · rw [updateIPTablesRules_iptables]
  · rw [updateIPTablesRules_iptables]
    cases proxyExcludedPorts with
    | nil => simp [appendUnique_apply, Tables.empty]
    | cons p ps => simp [appendUnique_apply, Tables.empty]
  · rw [updateIPTablesRules_iptables]
    simp [appendUnique_apply, Tables.empty]
  · intro table chain h
    rw [updateIPTablesRules_iptables]
    have h1 : ¬ (table = "nat" ∧ chain = "PREROUTING") := fun e => h ⟨e.1, Or.inl e.2⟩
    have h2 : ¬ (table = "nat" ∧ chain = "POSTROUTING") := fun e => h ⟨e.1, Or.inr e.2⟩
    simp only [Bool.false_eq_true, if_false, appendUnique_apply, h1, h2, Tables.empty]
  · cases proxyExcludedPorts with
    | nil => simp [updateIPTablesRules, fakeIptables]
    | cons p ps => simp [updateIPTablesRules, fakeIptables]
  · cases proxyExcludedPorts with
    | nil => simp [updateIPTablesRules, fakeIptables]
    | cons p ps => simp [updateIPTablesRules, fakeIptables]

/-- The chains after the three calls of the sidecar-interception mode on empty
tables. -/
theorem istio_chains (udp dflt istio : List String) :
    ((Tables.empty.appendUnique "nat" "POSTROUTING" udp).appendUnique "nat" "PREROUTING"
        dflt).insertUnique "nat" "PREROUTING" 1 istio "nat" "PREROUTING"
      = istio :: (if dflt = istio then [] else [dflt]) ∧
    ((Tables.empty.appendUnique "nat" "POSTROUTING" udp).appendUnique "nat" "PREROUTING"
        dflt).insertUnique "nat" "PREROUTING" 1 istio "nat" "POSTROUTING" = [udp] ∧
    ∀ table chain : String, ¬ (table = "nat" ∧ (chain = "PREROUTING" ∨ chain = "POSTROUTING")) →
      ((Tables.empty.appendUnique "nat" "POSTROUTING" udp).appendUnique "nat" "PREROUTING"
        dflt).insertUnique "nat" "PREROUTING" 1 istio table chain = [] := by
  refine ⟨?_, ?_, ?_⟩
  · by_cases h : dflt = istio
    · subst h
      simp [insertUnique_apply, appendUnique_apply, Tables.empty]
    · have h1 : ¬ istio = dflt := fun e => h e.symm
      simp [insertUnique_apply, appendUnique_apply, Tables.empty, h, h1]
  · simp [insertUnique_apply, appendUnique_apply, Tables.empty]
  · intro table chain h
    have h1 : ¬ (table = "nat" ∧ chain = "PREROUTING") := fun e => h ⟨e.1, Or.inl e.2⟩
    have h2 : ¬ (table = "nat" ∧ chain = "POSTROUTING") := fun e => h ⟨e.1, Or.inr e.2⟩
    simp only [insertUnique_apply, appendUnique_apply, h1, h2, if_false, Tables.empty]

/-- C17: with sidecar interception, `updateIPTablesRules` makes three calls: it
appends the MASQUERADE rule for UDP to `POSTROUTING`, appends the DNAT rule of
the data interface to `PREROUTING`, and inserts the rule
`-p tcp -i <tunnel> -j DNAT --to-destination 127.0.0.6:15001` into `PREROUTING`
at position 1; it installs no rule that matches the address of the data
interface and no TCP rule in `POSTROUTING`. On empty rule tables
`POSTROUTING` then holds the UDP rule alone and `PREROUTING` begins with the
tunnel rule, followed by the rule of the data interface. With the
`fakeIptables` of the test, whose insert counts from 0, the tunnel rule stands
second. -/
theorem C17_istio_rules (cfg : config.Wireguard) (wireguardDeviceName : String)
    (proxyExcludedPorts : List String) (deviceName : String) (deviceAddr : netip.Addr) :
    updateIPTablesRules cfg recorder [] wireguardDeviceName true proxyExcludedPorts
        (Except.ok (deviceName, deviceAddr)) =
      ([ Call.AppendUnique "nat" "POSTROUTING" ["-p", "udp", "-o", deviceName, "-j", "MASQUERADE"],
         Call.AppendUnique "nat" "PREROUTING"
          (["-p", "tcp", "-i", deviceName] ++
            (if proxyExcludedPorts ≠ [] then
              ["-m", "multiport", "!", "--dports", String.intercalate "," proxyExcludedPorts]
            else []) ++
            ["-j", "DNAT", "--to-destination", cfg.LocalOverlayAddress.String]),
         Call.InsertUnique "nat" "PREROUTING" 1
          ["-p", "tcp", "-i", wireguardDeviceName, "-j", "DNAT", "--to-destination",
            "127.0.0.6:15001"] ], none) ∧
    (updateIPTablesRules cfg iptables Tables.empty wireguardDeviceName true proxyExcludedPorts
      (Except.ok (deviceName, deviceAddr))).2 = none ∧
    (updateIPTablesRules cfg iptables Tables.empty wireguardDeviceName true proxyExcludedPorts
      (Except.ok (deviceName, deviceAddr))).1 "nat" "POSTROUTING" =
      [["-p", "udp", "-o", deviceName, "-j", "MASQUERADE"]] ∧
    ((updateIPTablesRules cfg iptables Tables.empty wireguardDeviceName true proxyExcludedPorts
      (Except.ok (deviceName, deviceAddr))).1 "nat" "PREROUTING").head? = some
      ["-p", "tcp", "-i", wireguardDeviceName, "-j", "DNAT", "--to-destination",
        "127.0.0.6:15001"] ∧
    ((wireguardDeviceName ≠ deviceName ∨ proxyExcludedPorts ≠ []) →
      (updateIPTablesRules cfg iptables Tables.empty wireguardDeviceName true proxyExcludedPorts
        (Except.ok (deviceName, deviceAddr))).1 "nat" "PREROUTING" =
        [ ["-p", "tcp", "-i", wireguardDeviceName, "-j", "DNAT", "--to-destination",
            "127.0.0.6:15001"],
          ["-p", "tcp", "-i", deviceName] ++
            (if proxyExcludedPorts ≠ [] then
              ["-m", "multiport", "!", "--dports", String.intercalate "," proxyExcludedPorts]
            else []) ++
            ["-j", "DNAT", "--to-destination", cfg.LocalOverlayAddress.String] ]) ∧
    (∀ table chain : String, ¬ (table = "nat" ∧ (chain = "PREROUTING" ∨ chain = "POSTROUTING")) →
      (updateIPTablesRules cfg iptables Tables.empty wireguardDeviceName true proxyExcludedPorts
        (Except.ok (deviceName, deviceAddr))).1 table chain = []) ∧
    ((updateIPTablesRules testWireguard fakeIptables (fun _ => none) "wg0" true ["12345", "23456"]
      testDefaultInterface).1 "nat").map
        (fun chains => (chains "PREROUTING", chains "POSTROUTING")) = some
      ([ "-p tcp -i eth0 -m multiport ! --dports 12345,23456 -j DNAT --to-destination 10.1.0.1",
         "-p tcp -i wg0 -j DNAT --to-destination 127.0.0.6:15001" ],
       [ "-p udp -o eth0 -j MASQUERADE" ]) := by
  refine ⟨?_, ?_, ?_, ?_, ?_, ?_, by decide⟩
  · have := updateIPTablesRules_recorder cfg [] wireguardDeviceName true proxyExcludedPorts
      deviceName deviceAddr
    simpa using this
  · rw [updateIPTablesRules_iptables]
  · rw [updateIPTablesRules_iptables]
    exact (istio_chains _ _ _).2.1
  · rw [updateIPTablesRules_iptables]
    simp only [if_true]
    rw [(istio_chains _ _ _).1]
    rfl
  · intro h
    rw [updateIPTablesRules_iptables]
    simp only [if_true]
    rw [(istio_chains _ _ _).1, if_neg]
    rcases h with h | h
    · intro e
      cases proxyExcludedPorts with
      | nil => simp at e; exact h e.1.symm
      | cons p ps => simp at e
    · intro e
      cases proxyExcludedPorts with
      | nil => exact h rfl
      | cons p ps => simp at e
  · intro table chain h
    rw [updateIPTablesRules_iptables]
    exact (istio_chains _ _ _).2.2 table chain h

/-- `Run` calls `updateIPTablesRules` at most once, with the `istioEnabled` and
`proxyExcludedPorts` it was given, and returns what that call returns. -/
theorem run_ruleCalls {σ : Type} (env : RunEnv) (ipt : iptablesManager σ) (tables : σ)
    (cfg : config.Wireguard) (istioEnabled : Bool) (proxyExcludedPorts : List String) :
    (Run env ipt tables cfg istioEnabled proxyExcludedPorts).ruleCalls = [] ∨
    ∃ deviceName : String,
      (Run env ipt tables cfg istioEnabled proxyExcludedPorts).ruleCalls
        = [(deviceName, istioEnabled, proxyExcludedPorts)] ∧
      (Run env ipt tables cfg istioEnabled proxyExcludedPorts).tables
        = (updateIPTablesRules cfg ipt tables deviceName istioEnabled proxyExcludedPorts
            env.defaultInterface).1 ∧
      (Run env ipt tables cfg istioEnabled proxyExcludedPorts).err
        = (updateIPTablesRules cfg ipt tables deviceName istioEnabled proxyExcludedPorts
            env.defaultInterface).2 := by
  unfold Run
  simp only
  split
  · exact Or.inl rfl
  · split
    · exact Or.inl rfl
    · split
      · exact Or.inl rfl
      · split
        · exact Or.inl rfl
        · exact Or.inr ⟨_, rfl, rfl, rfl⟩

end agent

namespace cmd

/-- C18: when `ISTIO_INTERCEPTION_MODE` is not empty the `agent` command passes
`istioEnabled = true` and, as excluded ports, the comma-separated pieces of
`LOCAL_PORTS_EXCLUDE_PROXY` (none when it is empty) followed by `15020` and
`15021`; when the variable is empty it passes `istioEnabled = false` and the
pieces alone. `agent.Run` hands both to `updateIPTablesRules` unchanged, whose
rule for the data interface excludes the ports of a list that is not empty,
joined by commas: the excluded ports `12345,23456` give
`! --dports 12345,23456,15020,15021`. -/
theorem C18_istio_ports (localPortsExcludeProxy istioInterceptMode : String) :
    (istioInterceptMode ≠ "" →
      agentArguments localPortsExcludeProxy istioInterceptMode =
        (true, (if localPortsExcludeProxy ≠ "" then Split localPortsExcludeProxy ',' else [])
          ++ ["15020", "15021"])) ∧
    (istioInterceptMode = "" →
      agentArguments localPortsExcludeProxy istioInterceptMode =
        (false, if localPortsExcludeProxy ≠ "" then Split localPortsExcludeProxy ',' else [])) ∧
    (∀ (σ : Type) (env : agent.RunEnv) (ipt : agent.iptablesManager σ) (tables : σ)
        (cfg : config.Wireguard) (getenv : String → String),
      agentCommand env ipt tables (Except.ok cfg) getenv =
        agent.Run env ipt tables cfg
          (agentArguments (getenv "LOCAL_PORTS_EXCLUDE_PROXY")
            (getenv "ISTIO_INTERCEPTION_MODE")).1
          (agentArguments (getenv "LOCAL_PORTS_EXCLUDE_PROXY")
            (getenv "ISTIO_INTERCEPTION_MODE")).2) ∧
    (∀ (σ : Type) (env : agent.RunEnv) (ipt : agent.iptablesManager σ) (tables : σ)
        (cfg : config.Wireguard) (istioEnabled : Bool) (proxyExcludedPorts : List String),
      (agent.Run env ipt tables cfg istioEnabled proxyExcludedPorts).ruleCalls = [] ∨
      ∃ deviceName : String,
        (agent.Run env ipt tables cfg istioEnabled proxyExcludedPorts).ruleCalls
          = [(deviceName, istioEnabled, proxyExcludedPorts)] ∧
        (agent.Run env ipt tables cfg istioEnabled proxyExcludedPorts).tables
          = (agent.updateIPTablesRules cfg ipt tables deviceName istioEnabled proxyExcludedPorts
              env.defaultInterface).1 ∧
        (agent.Run env ipt tables cfg istioEnabled proxyExcludedPorts).err
          = (agent.updateIPTablesRules cfg ipt tables deviceName istioEnabled proxyExcludedPorts
              env.defaultInterface).2) ∧
    (∀ (cfg : config.Wireguard) (wireguardDeviceName : String) (istioEnabled : Bool)
        (proxyExcludedPorts : List String) (deviceName : String) (deviceAddr : netip.Addr),
      proxyExcludedPorts ≠ [] →
      agent.Call.AppendUnique "nat" "PREROUTING"
          ["-p", "tcp", "-i", deviceName, "-m", "multiport", "!", "--dports",
            String.intercalate "," proxyExcludedPorts, "-j", "DNAT", "--to-destination",
            cfg.LocalOverlayAddress.String] ∈
        (agent.updateIPTablesRules cfg agent.recorder [] wireguardDeviceName istioEnabled
          proxyExcludedPorts (Except.ok (deviceName, deviceAddr))).1) ∧
    agentArguments "12345,23456" "REDIRECT" = (true, ["12345", "23456", "15020", "15021"]) ∧
    agentArguments "12345,23456" "" = (false, ["12345", "23456"]) ∧
    (agentCommand agent.testRunEnv agent.recorder [] (Except.ok agent.testWireguard)
        (fun name =>
          if name = "LOCAL_PORTS_EXCLUDE_PROXY" then "12345,23456"
          else if name = "ISTIO_INTERCEPTION_MODE" then "REDIRECT" else "")).tables =
      [ agent.Call.AppendUnique "nat" "POSTROUTING" ["-p", "udp", "-o", "eth0", "-j", "MASQUERADE"],
        agent.Call.AppendUnique "nat" "PREROUTING"
          ["-p", "tcp", "-i", "eth0", "-m", "multiport", "!", "--dports",
            "12345,23456,15020,15021", "-j", "DNAT", "--to-destination", "10.1.0.1"],
        agent.Call.InsertUnique "nat" "PREROUTING" 1
          ["-p", "tcp", "-i", "wg0", "-j", "DNAT", "--to-destination", "127.0.0.6:15001"] ] := by
  refine ⟨?_, ?_, ?_, ?_, ?_, by decide, by decide, by decide⟩
  · intro h
    simp [agentArguments, h]
  · intro h
    simp [agentArguments, h]
  · intro σ env ipt tables cfg getenv
    rfl
  · intro σ env ipt tables cfg istioEnabled proxyExcludedPorts
    exact agent.run_ruleCalls env ipt tables cfg istioEnabled proxyExcludedPorts
  · intro cfg wireguardDeviceName istioEnabled proxyExcludedPorts deviceName deviceAddr hne
    rw [agent.updateIPTablesRules_recorder]
    simp [hne]

end cmd

namespace agent

theorem appendUnique_mem (t : Tables) (table chain : String) (r : List String) :
    r ∈ t.appendUnique table chain r table chain := by
  rw [appendUnique_apply, if_pos ⟨rfl, rfl⟩]
  split
  · assumption
  · simp

theorem appendUnique_mono (t : Tables) (table chain : String) (r x : List String)
    (table1 chain1 : String) (h : x ∈ t table1 chain1) :
    x ∈ t.appendUnique table chain r table1 chain1 := by
  rw [appendUnique_apply]
  split
  · rename_i e
    rw [e.1, e.2] at h
    split
    · exact h
    · exact List.mem_append_left _ h
  · exact h

theorem appendUnique_of_mem (t : Tables) (table chain : String) (r : List String)
    (h : r ∈ t table chain) : t.appendUnique table chain r = t := by
  unfold Tables.appendUnique
  rw [if_pos h]

theorem appendUnique_nodup (t : Tables) (table chain : String) (r : List String)
    (h : ∀ table1 chain1 : String, (t table1 chain1).Nodup) (table1 chain1 : String) :
    (t.appendUnique table chain r table1 chain1).Nodup := by
  rw [appendUnique_apply]
  split
  · split
    · exact h _ _
    · rename_i hm
      rw [List.nodup_append]
      refine ⟨h _ _, by simp, ?_⟩
      intro a ha hb
      rw [List.mem_singleton] at hb
      subst hb
      exact hm ha
  · exact h _ _

theorem insertUnique_mem (t : Tables) (table chain : String) (r : List String) :
    r ∈ t.insertUnique table chain 1 r table chain := by
  rw [insertUnique_apply, if_pos ⟨rfl, rfl⟩]
  split
  · assumption
  · simp

theorem insertUnique_mono (t : Tables) (table chain : String) (r x : List String)
    (table1 chain1 : String) (h : x ∈ t table1 chain1) :
    x ∈ t.insertUnique table chain 1 r table1 chain1 := by
  rw [insertUnique_apply]
  split
  · rename_i e
    rw [e.1, e.2] at h
    split
    · exact h
    · exact List.mem_cons_of_mem _ h
  · exact h

theorem insertUnique_of_mem (t : Tables) (table chain : String) (pos : Nat) (r : List String)
    (h : r ∈ t table chain) : t.insertUnique table chain pos r = t := by
  unfold Tables.insertUnique
  rw [if_pos h]

theorem insertUnique_nodup (t : Tables) (table chain : String) (r : List String)
    (h : ∀ table1 chain1 : String, (t table1 chain1).Nodup) (table1 chain1 : String) :
    (t.insertUnique table chain 1 r table1 chain1).Nodup := by
  rw [insertUnique_apply]
  split
  · split
    · exact h _ _
    · rename_i hm
      exact List.nodup_cons.mpr ⟨hm, h _ _⟩
  · exact h _ _

/-- C19: driven through `iptables`, where `AppendUnique` and `InsertUnique` do
nothing when the chain already holds the rule, `updateIPTablesRules` succeeds
on any rule tables, with or without sidecar interception; a second call with
the same arguments succeeds and leaves the rule tables exactly as the first
call left them; and when no chain held a rule twice before the first call,
none does after it, as is the case on empty tables. -/
theorem C19_idempotent (cfg : config.Wireguard) (t : Tables) (wireguardDeviceName : String)
    (istioEnabled : Bool) (proxyExcludedPorts : List String) (deviceName : String)
    (deviceAddr : netip.Addr) :
    (updateIPTablesRules cfg iptables t wireguardDeviceName istioEnabled proxyExcludedPorts
      (Except.ok (deviceName, deviceAddr))).2 = none ∧
    updateIPTablesRules cfg iptables
        (updateIPTablesRules cfg iptables t wireguardDeviceName istioEnabled proxyExcludedPorts
          (Except.ok (deviceName, deviceAddr))).1
        wireguardDeviceName istioEnabled proxyExcludedPorts (Except.ok (deviceName, deviceAddr))
      = ((updateIPTablesRules cfg iptables t wireguardDeviceName istioEnabled proxyExcludedPorts
          (Except.ok (deviceName, deviceAddr))).1, none) ∧
    ((∀ table chain : String, (t table chain).Nodup) →
      ∀ table chain : String,
        ((updateIPTablesRules cfg iptables t wireguardDeviceName istioEnabled proxyExcludedPorts
          (Except.ok (deviceName, deviceAddr))).1 table chain).Nodup) ∧
    (∀ table chain : String,
      ((updateIPTablesRules cfg iptables Tables.empty wireguardDeviceName istioEnabled
        proxyExcludedPorts (Except.ok (deviceName, deviceAddr))).1 table chain).Nodup) := by
  have hnd : (∀ table chain : String, (t table chain).Nodup) →
      ∀ table chain : String,
        ((updateIPTablesRules cfg iptables t wireguardDeviceName istioEnabled proxyExcludedPorts
          (Except.ok (deviceName, deviceAddr))).1 table chain).Nodup := by
    intro h
    rw [updateIPTablesRules_iptables]
    cases istioEnabled
    · simp only [Bool.false_eq_true, if_false]
      exact appendUnique_nodup _ _ _ _ (appendUnique_nodup _ _ _ _
        (appendUnique_nodup _ _ _ _ (appendUnique_nodup _ _ _ _ h)))
    · simp only [if_true]
      exact insertUnique_nodup _ _ _ _ (appendUnique_nodup _ _ _ _
        (appendUnique_nodup _ _ _ _ h))
  refine ⟨by rw [updateIPTablesRules_iptables], ?_, hnd, ?_⟩
  · rw [updateIPTablesRules_iptables cfg t, updateIPTablesRules_iptables]
    cases istioEnabled
    · simp only [Bool.false_eq_true, if_false]
      generalize ["-p", "udp", "-o", deviceName, "-j", "MASQUERADE"] = udp
      generalize ["-p", "tcp", "-o", deviceName, "-j", "MASQUERADE"] = tcp
      generalize (["-p", "tcp", "-i", deviceName] ++
        (if proxyExcludedPorts ≠ [] then
          ["-m", "multiport", "!", "--dports", String.intercalate "," proxyExcludedPorts]
        else []) ++
        ["-j", "DNAT", "--to-destination", cfg.LocalOverlayAddress.String]) = dflt
      generalize ["-p", "tcp", "-i", wireguardDeviceName, "--destination", deviceAddr.String, "-j",
        "DNAT", "--to-destination", cfg.LocalOverlayAddress.String] = tunnel
      have h1 : udp ∈ (((t.appendUnique "nat" "POSTROUTING" udp).appendUnique "nat" "PREROUTING"
          dflt).appendUnique "nat" "PREROUTING" tunnel).appendUnique "nat" "POSTROUTING" tcp
          "nat" "POSTROUTING" :=
        appendUnique_mono _ _ _ _ _ _ _ (appendUnique_mono _ _ _ _ _ _ _
          (appendUnique_mono _ _ _ _ _ _ _ (appendUnique_mem _ _ _ _)))
      have h2 : dflt ∈ (((t.appendUnique "nat" "POSTROUTING" udp).appendUnique "nat" "PREROUTING"
          dflt).appendUnique "nat" "PREROUTING" tunnel).appendUnique "nat" "POSTROUTING" tcp
          "nat" "PREROUTING" :=
        appendUnique_mono _ _ _ _ _ _ _ (appendUnique_mono _ _ _ _ _ _ _
          (appendUnique_mem _ _ _ _))
      have h3 : tunnel ∈ (((t.appendUnique "nat" "POSTROUTING" udp).appendUnique "nat" "PREROUTING"
          dflt).appendUnique "nat" "PREROUTING" tunnel).appendUnique "nat" "POSTROUTING" tcp
          "nat" "PREROUTING" :=
        appendUnique_mono _ _ _ _ _ _ _ (appendUnique_mem _ _ _ _)
      have h4 : tcp ∈ (((t.appendUnique "nat" "POSTROUTING" udp).appendUnique "nat" "PREROUTING"
          dflt).appendUnique "nat" "PREROUTING" tunnel).appendUnique "nat" "POSTROUTING" tcp
          "nat" "POSTROUTING" := appendUnique_mem _ _ _ _
      generalize (((t.appendUnique "nat" "POSTROUTING" udp).appendUnique "nat" "PREROUTING"
          dflt).appendUnique "nat" "PREROUTING" tunnel).appendUnique "nat" "POSTROUTING" tcp = r1
        at h1 h2 h3 h4 ⊢
      rw [appendUnique_of_mem r1 _ _ _ h1, appendUnique_of_mem r1 _ _ _ h2,
        appendUnique_of_mem r1 _ _ _ h3, appendUnique_of_mem r1 _ _ _ h4]
    · simp only [if_true]
      generalize ["-p", "udp", "-o", deviceName, "-j", "MASQUERADE"] = udp
      generalize (["-p", "tcp", "-i", deviceName] ++
        (if proxyExcludedPorts ≠ [] then
          ["-m", "multiport", "!", "--dports", String.intercalate "," proxyExcludedPorts]
        else []) ++
        ["-j", "DNAT", "--to-destination", cfg.LocalOverlayAddress.String]) = dflt
      generalize ["-p", "tcp", "-i", wireguardDeviceName, "-j", "DNAT", "--to-destination",
        "127.0.0.6:15001"] = istio
      have h1 : udp ∈ ((t.appendUnique "nat" "POSTROUTING" udp).appendUnique "nat" "PREROUTING"
          dflt).insertUnique "nat" "PREROUTING" 1 istio "nat" "POSTROUTING" :=
        insertUnique_mono _ _ _ _ _ _ _ (appendUnique_mono _ _ _ _ _ _ _
          (appendUnique_mem _ _ _ _))
      have h2 : dflt ∈ ((t.appendUnique "nat" "POSTROUTING" udp).appendUnique "nat" "PREROUTING"
          dflt).insertUnique "nat" "PREROUTING" 1 istio "nat" "PREROUTING" :=
        insertUnique_mono _ _ _ _ _ _ _ (appendUnique_mem _ _ _ _)
      have h3 : istio ∈ ((t.appendUnique "nat" "POSTROUTING" udp).appendUnique "nat" "PREROUTING"
          dflt).insertUnique "nat" "PREROUTING" 1 istio "nat" "PREROUTING" :=
        insertUnique_mem _ _ _ _
      generalize ((t.appendUnique "nat" "POSTROUTING" udp).appendUnique "nat" "PREROUTING"
          dflt).insertUnique "nat" "PREROUTING" 1 istio = r1 at h1 h2 h3 ⊢
      rw [appendUnique_of_mem r1 _ _ _ h1, appendUnique_of_mem r1 _ _ _ h2,
        insertUnique_of_mem r1 _ _ _ _ h3]
  · rw [updateIPTablesRules_iptables]
    have h0 : ∀ table chain : String, (Tables.empty table chain).Nodup := fun _ _ => List.nodup_nil
    cases istioEnabled
    · simp only [Bool.false_eq_true, if_false]
      exact appendUnique_nodup _ _ _ _ (appendUnique_nodup _ _ _ _
        (appendUnique_nodup _ _ _ _ (appendUnique_nodup _ _ _ _ h0)))
    · simp only [if_true]
      exact insertUnique_nodup _ _ _ _ (appendUnique_nodup _ _ _ _
        (appendUnique_nodup _ _ _ _ h0))

end agent

/-! ## Theorems: the pod prefix of `Resolve` -/

namespace netip

/-- `Addr.Prefix 16` of a valid address: the valid prefix of 16 bits that
contains the address (without its zone). -/
theorem prefix16_spec (ip : Addr) (hwf : ip.WF = true) (hv : ip.IsValid = true) :
    ∃ p : Prefix, ip.Prefix 16 = some p ∧ p.WF = true ∧ p.IsValid = true ∧ p.Bits = 16 ∧
      p.ip.z = ip.withoutZone.z ∧ p.Contains ip.withoutZone = true := by
  obtain ⟨addr, z⟩ := ip
  cases z with
  | z0 => simp [Addr.IsValid] at hv
  | z4 =>
    simp only [Addr.WF, Bool.and_eq_true, decide_eq_true_eq] at hwf
    have hlt : addr < 2 ^ 128 := by
      have : (0xffff00000000 : Nat) + 2 ^ 32 < 2 ^ 128 := by norm_num
      omega
    have hm : addr &&& mask6 112 = addr / 65536 * 65536 := by
      rw [and_mask6 _ _ hlt (by norm_num)]
      norm_num
    have hp : (Addr.mk addr Zone.z4).Prefix 16 = some ⟨⟨addr / 65536 * 65536, Zone.z4⟩, 17⟩ := by
      simp [Addr.Prefix, PrefixFrom, Addr.withoutZone, Addr.isZero, Addr.BitLen, hm]
    have hw1 : 281470681743360 ≤ addr / 65536 * 65536 := by
      norm_num at hwf
      omega
    have hw2 : addr / 65536 * 65536 < 281470681743360 + 2 ^ 32 := by
      norm_num at hwf ⊢
      omega
    have hpw : (Prefix.mk ⟨addr / 65536 * 65536, Zone.z4⟩ 17).WF = true := by
      simp only [Prefix.WF, Addr.WF, Addr.hasZone, Addr.IsValid, Addr.BitLen, Bool.and_eq_true,
        decide_eq_true_eq, Bool.or_eq_true, beq_iff_eq, Bool.not_eq_true']
      exact ⟨⟨⟨hw1, hw2⟩, trivial⟩, Or.inr ⟨by simp, by norm_num⟩⟩
    have haw : (Addr.mk addr Zone.z4).withoutZone.WF = true := by
      simp only [Addr.withoutZone, Addr.WF, Bool.and_eq_true, decide_eq_true_eq]
      exact hwf
    refine ⟨_, hp, hpw, by simp [Prefix.IsValid], by simp [Prefix.Bits], rfl, ?_⟩
    rw [contains_iff _ _ hpw haw]
    refine ⟨by simp [Prefix.IsValid], rfl, rfl, ?_⟩
    simp only [Addr.withoutZone, Addr.BitLen, bits_toNat]
    have e : 32 - (17 - 1) = 16 := by norm_num
    have e2 : (2 : Nat) ^ 16 = 65536 := by norm_num
    rw [e, e2, Nat.mul_div_cancel _ (by norm_num)]
  | z6 zone =>
    simp only [Addr.WF, decide_eq_true_eq] at hwf
    have hm : addr &&& mask6 16 = addr / 2 ^ 112 * 2 ^ 112 := by
      rw [and_mask6 _ _ hwf (by norm_num)]
    have hp : (Addr.mk addr (Zone.z6 zone)).Prefix 16
        = some ⟨⟨addr / 2 ^ 112 * 2 ^ 112, Zone.z6 ""⟩, 17⟩ := by
      simp [Addr.Prefix, PrefixFrom, Addr.withoutZone, Addr.isZero, Addr.BitLen, hm]
    have hle : addr / 2 ^ 112 * 2 ^ 112 ≤ addr := Nat.div_mul_le_self _ _
    have hpw : (Prefix.mk ⟨addr / 2 ^ 112 * 2 ^ 112, Zone.z6 ""⟩ 17).WF = true := by
      simp only [Prefix.WF, Addr.WF, Addr.hasZone, Addr.IsValid, Addr.BitLen, Bool.and_eq_true,
        decide_eq_true_eq, Bool.or_eq_true, beq_iff_eq, Bool.not_eq_true']
      refine ⟨⟨by omega, by simp⟩, Or.inr ⟨by simp, by norm_num⟩⟩
    have haw : (Addr.mk addr (Zone.z6 zone)).withoutZone.WF = true := by
      simp only [Addr.withoutZone, Addr.WF, decide_eq_true_eq]
      exact hwf
    refine ⟨_, hp, hpw, by simp [Prefix.IsValid], by simp [Prefix.Bits], rfl, ?_⟩
    rw [contains_iff _ _ hpw haw]
    refine ⟨by simp [Prefix.IsValid], by simp [Addr.withoutZone, Addr.hasZone], rfl, ?_⟩
    simp only [Addr.withoutZone, Addr.BitLen, bits_toNat]
    have e : 128 - (17 - 1) = 112 := by norm_num
    rw [e, Nat.mul_div_cancel _ (by positivity)]

end netip

namespace kuberneteshelpers

open netip

/-- The pod address found: that of the first pod that is not on the host
network, has a pod address, and whose address parses; the pods before it fail
one of the three. -/
theorem findPodAddr_ok (pods : List Pod) (addr : Addr) (h : findPodAddr pods = Except.ok addr) :
    ∃ (pre : List Pod) (p : Pod) (post : List Pod),
      pods = pre ++ p :: post ∧
      (∀ q ∈ pre, q.HostNetwork = true ∨ q.PodIP = "" ∨ ParseAddr q.PodIP = none) ∧
      p.HostNetwork = false ∧ p.PodIP ≠ "" ∧ ParseAddr p.PodIP = some addr := by
  induction pods with
  | nil => simp [findPodAddr] at h
  | cons q rest ih =>
    unfold findPodAddr at h
    by_cases hskip : (q.HostNetwork || q.PodIP == "") = true
    · rw [if_pos hskip] at h
      obtain ⟨pre, p, post, e, hpre, hp⟩ := ih h
      refine ⟨q :: pre, p, post, by rw [e]; rfl, ?_, hp⟩
      intro x hx
      rcases List.mem_cons.mp hx with rfl | hx
      · simp only [Bool.or_eq_true, beq_iff_eq] at hskip
        rcases hskip with h1 | h1
        · exact Or.inl h1
        · exact Or.inr (Or.inl h1)
      · exact hpre x hx
    · rw [if_neg hskip] at h
      simp only [Bool.or_eq_true, beq_iff_eq, not_or, Bool.not_eq_true] at hskip
      cases hpa : ParseAddr q.PodIP with
      | none =>
        rw [hpa] at h
        obtain ⟨pre, p, post, e, hpre, hp⟩ := ih h
        refine ⟨q :: pre, p, post, by rw [e]; rfl, ?_, hp⟩
        intro x hx
        rcases List.mem_cons.mp hx with rfl | hx
        · exact Or.inr (Or.inr hpa)
        · exact hpre x hx
      | some a =>
        rw [hpa] at h
        simp only [Except.ok.injEq] at h
        subst h
        exact ⟨[], q, rest, rfl, by simp, hskip.1, hskip.2, hpa⟩

/-- A successful `Resolve` without a pod prefix supplied: the pod prefix is
`Prefix(16)` of the pod address found. -/
theorem resolve_ok_pod (c cd : ClusterDetails) (client : Client) (ns : String)
    (h : c.Resolve client ns = (cd, none)) (hp : c.PodCIDR.IsValid = false) :
    ∃ (pods : List Pod) (addr : Addr),
      client.listPods ns = Except.ok pods ∧ findPodAddr pods = Except.ok addr ∧
      addr.Prefix 16 = some cd.PodCIDR := by
  unfold ClusterDetails.Resolve at h
  cases hl : client.listPods ns with
  | error cause => simp [hl] at h
  | ok pods =>
    simp only [hl, hp, Bool.not_false, if_true] at h
    cases hf : findPodAddr pods with
    | error cause => simp [hf] at h
    | ok addr =>
      simp only [hf] at h
      cases hpre : addr.Prefix 16 with
      | none => simp [hpre] at h
      | some p =>
        simp only [hpre] at h
        refine ⟨pods, addr, rfl, hf, ?_⟩
        cases hs : client.getServiceClusterIP "kube-system" "kube-dns" with
        | error cause => simp [hs] at h
        | ok clusterIP =>
          simp only [hs] at h
          cases hsa : ParseAddr clusterIP with
          | none => simp [hsa] at h
          | some serviceAddr =>
            simp only [hsa] at h
            split at h
            · simp at h
            · split at h
              · simp at h
              · simp only [Prod.mk.injEq, and_true] at h
                rw [← h]
                exact hpre

/-- C20 as stated fails: with the pods `fd00::1` and `100.64.0.1`, in this
order, `Resolve` succeeds and returns the pod prefix `fd00::/16` of the first
pod, whose address is not an IPv4 address, and not the prefix `100.64.0.0/16`
of the second. -/
theorem C20_counterexample :
    (ClusterDetails.zero.Resolve
      (testClient [⟨false, "fd00::1"⟩, ⟨false, "100.64.0.1"⟩]) "test-ns").2 = none ∧
    (ParseAddr "fd00::1").map (fun ip => ip.Is4) = some false ∧
    (ClusterDetails.zero.Resolve
      (testClient [⟨false, "fd00::1"⟩, ⟨false, "100.64.0.1"⟩]) "test-ns").1.PodCIDR
        = MustParsePrefix "fd00::/16" ∧
    (ClusterDetails.zero.Resolve
      (testClient [⟨false, "fd00::1"⟩, ⟨false, "100.64.0.1"⟩]) "test-ns").1.PodCIDR
        ≠ MustParsePrefix "100.64.0.0/16" := by
  decide

/-- C20, amended: when no pod prefix is supplied and `Resolve` succeeds, the pod
list splits at the first pod that is not on the host network, has a pod
address, and whose address `netip.ParseAddr` accepts, IPv4 or IPv6; every pod
before it is on the host network, has no pod address, or has one that does
not parse; and the pod prefix returned is `Prefix(16)` of that address: a
valid prefix of 16 bits, of the family of the address, that contains it. -/
theorem C20_pod_prefix (c cd : ClusterDetails) (client : Client) (ns : String)
    (h : c.Resolve client ns = (cd, none)) (hp : c.PodCIDR.IsValid = false) :
    ∃ (pre : List Pod) (p : Pod) (post : List Pod) (addr : Addr),
      client.listPods ns = Except.ok (pre ++ p :: post) ∧
      (∀ q ∈ pre, q.HostNetwork = true ∨ q.PodIP = "" ∨ ParseAddr q.PodIP = none) ∧
      p.HostNetwork = false ∧ p.PodIP ≠ "" ∧ ParseAddr p.PodIP = some addr ∧
      addr.Prefix 16 = some cd.PodCIDR ∧
      cd.PodCIDR.IsValid = true ∧ cd.PodCIDR.Bits = 16 ∧
      cd.PodCIDR.Addr.Is4 = addr.Is4 ∧
      cd.PodCIDR.Contains addr.withoutZone = true := by
  obtain ⟨pods, addr, hl, hf, hpre⟩ := resolve_ok_pod c cd client ns h hp
  obtain ⟨pre, p, post, e, hskip, h1, h2, h3⟩ := findPodAddr_ok pods addr hf
  obtain ⟨hwf, hv⟩ := parseAddr_wf _ _ h3
  obtain ⟨q, hq, -, hqv, hqb, hqz, hqc⟩ := prefix16_spec addr hwf hv
  rw [hpre, Option.some.injEq] at hq
  subst hq
  refine ⟨pre, p, post, addr, by rw [hl, e], hskip, h1, h2, h3, hpre, hqv, hqb, ?_, hqc⟩
  show (cd.PodCIDR.ip.z == Zone.z4) = (addr.z == Zone.z4)
  rw [hqz]
  rcases addr with ⟨a, z⟩
  cases z <;> rfl

/-- C20 (amended) at the pods of the test "pods with invalid IP": the pod
`100.` is skipped and `100.64.0.1` gives `100.64.0.0/16`. -/
theorem C20_pod_prefix_witness :
    (ClusterDetails.zero.Resolve
      (testClient [⟨false, "100."⟩, ⟨false, "100.64.0.1"⟩]) "test-ns").2 = none ∧
    ClusterDetails.zero.PodCIDR.IsValid = false ∧
    (ClusterDetails.zero.Resolve
      (testClient [⟨false, "100."⟩, ⟨false, "100.64.0.1"⟩]) "test-ns").1.PodCIDR
        = MustParsePrefix "100.64.0.0/16" ∧
    ∃ (pre : List Pod) (p : Pod) (post : List Pod) (addr : Addr),
      (testClient [⟨false, "100."⟩, ⟨false, "100.64.0.1"⟩]).listPods "test-ns"
        = Except.ok (pre ++ p :: post) ∧
      ParseAddr p.PodIP = some addr ∧
      addr.Prefix 16 = some (ClusterDetails.zero.Resolve
        (testClient [⟨false, "100."⟩, ⟨false, "100.64.0.1"⟩]) "test-ns").1.PodCIDR :=
  ⟨by decide, by decide, by decide,
    match C20_pod_prefix ClusterDetails.zero
      (ClusterDetails.zero.Resolve
        (testClient [⟨false, "100."⟩, ⟨false, "100.64.0.1"⟩]) "test-ns").1
      (testClient [⟨false, "100."⟩, ⟨false, "100.64.0.1"⟩]) "test-ns" (by decide) (by decide) with
    | ⟨pre, p, post, addr, h1, _, _, _, h5, h6, _⟩ => ⟨pre, p, post, addr, h1, h5, h6⟩⟩

end kuberneteshelpers

/-! ## Theorems: the prefixes and the failures of `Resolve` -/

namespace kuberneteshelpers

open netip

/-- A successful `Resolve`: the service address is the parse of the cluster
address of `kube-dns`, and each prefix is the one supplied when that is valid
and else the one inferred. -/
theorem clusterResolve_ok_inv (c cd : ClusterDetails) (client : Client) (ns : String)
    (h : c.Resolve client ns = (cd, none)) :
    ∃ (pods : List Pod) (clusterIP : String),
      client.listPods ns = Except.ok pods ∧
      client.getServiceClusterIP "kube-system" "kube-dns" = Except.ok clusterIP ∧
      ParseAddr clusterIP = some cd.ServiceIP ∧
      (if c.PodCIDR.IsValid then cd.PodCIDR = c.PodCIDR
        else ∃ addr : Addr, findPodAddr pods = Except.ok addr ∧ addr.Prefix 16 = some cd.PodCIDR) ∧
      (if c.ServiceCIDR.IsValid then cd.ServiceCIDR = c.ServiceCIDR
        else cd.ServiceIP.Prefix 16 = some cd.ServiceCIDR) ∧
      (if c.NodeCIDR.IsValid then cd.NodeCIDR = c.NodeCIDR
        else ∃ nodes : List Node, client.listNodes = Except.ok nodes ∧ nodes ≠ [] ∧
          findNodeCIDR nodes = Except.ok (some cd.NodeCIDR)) := by
  unfold ClusterDetails.Resolve at h
  cases hl : client.listPods ns with
  | error cause => simp [hl] at h
  | ok pods =>
    simp only [hl] at h
    split at h
    · simp at h
    · rename_i podResult podCIDR hpod
      cases hs : client.getServiceClusterIP "kube-system" "kube-dns" with
      | error cause => simp [hs] at h
      | ok clusterIP =>
        simp only [hs] at h
        cases hsa : ParseAddr clusterIP with
        | none => simp [hsa] at h
        | some serviceAddr =>
          simp only [hsa] at h
          split at h
          · simp at h
          · rename_i serviceResult serviceCIDR hsvc
            split at h
            · simp at h
            · rename_i nodeResult nodeCIDR hnode
              simp only [Prod.mk.injEq, and_true] at h
              subst h
              refine ⟨pods, clusterIP, rfl, rfl, hsa, ?_, ?_, ?_⟩
              · by_cases hv : c.PodCIDR.IsValid = true
                · rw [if_pos hv]
                  simp only [hv, Bool.not_true, Bool.false_eq_true, if_false, Except.ok.injEq] at hpod
                  exact hpod.symm
                · rw [if_neg hv]
                  simp only [Bool.not_eq_true] at hv
                  simp only [hv, Bool.not_false, if_true] at hpod
                  cases hf : findPodAddr pods with
                  | error cause => simp [hf] at hpod
                  | ok addr =>
                    simp only [hf] at hpod
                    cases hp : addr.Prefix 16 with
                    | none => simp [hp] at hpod
                    | some p =>
                      simp only [hp, Except.ok.injEq] at hpod
                      exact ⟨addr, rfl, by rw [hp, hpod]⟩
              · by_cases hv : c.ServiceCIDR.IsValid = true
                · rw [if_pos hv]
                  simp only [hv, Bool.not_true, Bool.false_eq_true, if_false, Except.ok.injEq] at hsvc
                  exact hsvc.symm
                · rw [if_neg hv]
                  simp only [Bool.not_eq_true] at hv
                  simp only [hv, Bool.not_false, if_true] at hsvc
                  cases hp : serviceAddr.Prefix 16 with
                  | none => simp [hp] at hsvc
                  | some p =>
                    simp only [hp, Except.ok.injEq] at hsvc
                    rw [hsvc]
              · by_cases hv : c.NodeCIDR.IsValid = true
                · rw [if_pos hv]
                  simp only [hv, Bool.not_true, Bool.false_eq_true, if_false, Except.ok.injEq] at hnode
                  exact hnode.symm
                · rw [if_neg hv]
                  simp only [Bool.not_eq_true] at hv
                  simp only [hv, Bool.not_false, if_true] at hnode
                  cases hn : client.listNodes with
                  | error cause => simp [hn] at hnode
                  | ok nodes =>
                    simp only [hn] at hnode
                    by_cases hlen : nodes = []
                    · simp [hlen] at hnode
                    · have hlen2 : ¬ nodes.length < 1 := by
                        cases nodes with
                        | nil => exact absurd rfl hlen
                        | cons a l => simp
                      rw [if_neg hlen2] at hnode
                      cases hf : findNodeCIDR nodes with
                      | error cause => simp [hf] at hnode
                      | ok r =>
                        cases r with
                        | none => simp [hf] at hnode
                        | some p =>
                          simp only [hf, Except.ok.injEq] at hnode
                          exact ⟨nodes, rfl, hlen, by rw [hf, hnode]⟩

/-- When no pod is suitable, the closure that finds the pod address fails. -/
theorem findPodAddr_none (pods : List Pod)
    (h : ∀ p ∈ pods, p.HostNetwork = true ∨ p.PodIP = "" ∨ ParseAddr p.PodIP = none) :
    findPodAddr pods = Except.error "unable to find any pods" := by
  induction pods with
  | nil => rfl
  | cons q rest ih =>
    have ih2 := ih (fun p hp => h p (List.mem_cons_of_mem _ hp))
    unfold findPodAddr
    rcases h q (List.mem_cons_self _ _) with h1 | h1 | h1
    · rw [if_pos (by simp [h1])]
      exact ih2
    · rw [if_pos (by simp [h1])]
      exact ih2
    · rw [h1]
      simp only [ih2, ite_self]

/-- When no address of a node is an `InternalIP` that parses, the inner loop
ends without a `return`. -/
theorem findNodeAddress_none (addresses : List NodeAddress)
    (h : ∀ a ∈ addresses, a.AddressType = NodeInternalIP → ParseAddr a.Address = none) :
    findNodeAddress addresses = none := by
  induction addresses with
  | nil => rfl
  | cons a rest ih =>
    have ih2 := ih (fun p hp => h p (List.mem_cons_of_mem _ hp))
    unfold findNodeAddress
    by_cases ht : a.AddressType = NodeInternalIP
    · rw [if_pos (by simp [ht]), h a (List.mem_cons_self _ _) ht]
      exact ih2
    · rw [if_neg (by simp [ht])]
      exact ih2

/-- When no node has an `InternalIP` address that parses, the closure that
finds the node prefix fails. -/
theorem findNodeCIDR_none (nodes : List Node)
    (h : ∀ n ∈ nodes, ∀ a ∈ n.Addresses,
      a.AddressType = NodeInternalIP → ParseAddr a.Address = none) :
    findNodeCIDR nodes = Except.error "no valid InternalIP node addresses found" := by
  induction nodes with
  | nil => rfl
  | cons n rest ih =>
    unfold findNodeCIDR
    rw [findNodeAddress_none n.Addresses (h n (List.mem_cons_self _ _))]
    exact ih (fun p hp => h p (List.mem_cons_of_mem _ hp))

/-- With each error `Resolve` returns the zero `ClusterDetails`. -/
theorem clusterResolve_error_zero (c : ClusterDetails) (client : Client) (ns : String)
    (h : (c.Resolve client ns).2 ≠ none) : (c.Resolve client ns).1 = ClusterDetails.zero := by
  generalize hr : c.Resolve client ns = r at h
  unfold ClusterDetails.Resolve at hr
  cases hl : client.listPods ns with
  | error cause => simp only [hl] at hr; rw [← hr]
  | ok pods =>
    simp only [hl] at hr
    split at hr
    · rw [← hr]
    · cases hs : client.getServiceClusterIP "kube-system" "kube-dns" with
      | error cause => simp only [hs] at hr; rw [← hr]
      | ok clusterIP =>
        simp only [hs] at hr
        cases hsa : ParseAddr clusterIP with
        | none => simp only [hsa] at hr; rw [← hr]
        | some serviceAddr =>
          simp only [hsa] at hr
          split at hr
          · rw [← hr]
          · split at hr
            · rw [← hr]
            · rw [← hr] at h
              exact absurd rfl h

/-- C21: a successful `Resolve` sets `ServiceIP` to the parse of the cluster
address of the service `kube-dns` of `kube-system`, whether or not a service
prefix was supplied; it returns each supplied (valid) pod, service and node
prefix unchanged; and it infers the ones not supplied: the pod prefix is
`Prefix(16)` of the pod address found, the service prefix `Prefix(16)` of
`ServiceIP`, the node prefix the one found among the nodes. -/
theorem C21_supplied_prefixes (c cd : ClusterDetails) (client : Client) (ns : String)
    (h : c.Resolve client ns = (cd, none)) :
    (∃ clusterIP : String,
      client.getServiceClusterIP "kube-system" "kube-dns" = Except.ok clusterIP ∧
      ParseAddr clusterIP = some cd.ServiceIP) ∧
    (c.PodCIDR.IsValid = true → cd.PodCIDR = c.PodCIDR) ∧
    (c.ServiceCIDR.IsValid = true → cd.ServiceCIDR = c.ServiceCIDR) ∧
    (c.NodeCIDR.IsValid = true → cd.NodeCIDR = c.NodeCIDR) ∧
    (c.PodCIDR.IsValid = false →
      ∃ (pods : List Pod) (addr : Addr), client.listPods ns = Except.ok pods ∧
        findPodAddr pods = Except.ok addr ∧ addr.Prefix 16 = some cd.PodCIDR) ∧
    (c.ServiceCIDR.IsValid = false → cd.ServiceIP.Prefix 16 = some cd.ServiceCIDR) ∧
    (c.NodeCIDR.IsValid = false →
      ∃ nodes : List Node, client.listNodes = Except.ok nodes ∧ nodes ≠ [] ∧
        findNodeCIDR nodes = Except.ok (some cd.NodeCIDR)) := by
  obtain ⟨pods, clusterIP, hl, hs, hsa, hpod, hsvc, hnode⟩ :=
    clusterResolve_ok_inv c cd client ns h
  refine ⟨⟨clusterIP, hs, hsa⟩, ?_, ?_, ?_, ?_, ?_, ?_⟩
  · intro hv
    rw [if_pos hv] at hpod
    exact hpod
  · intro hv
    rw [if_pos hv] at hsvc
    exact hsvc
  · intro hv
    rw [if_pos hv] at hnode
    exact hnode
  · intro hv
    rw [if_neg (by simp [hv])] at hpod
    obtain ⟨addr, h1, h2⟩ := hpod
    exact ⟨pods, addr, hl, h1, h2⟩
  · intro hv
    rw [if_neg (by simp [hv])] at hsvc
    exact hsvc
  · intro hv
    rw [if_neg (by simp [hv])] at hnode
    exact hnode

/-- C21 at the test "prefilled CIDRs": with only `kube-dns` among the objects
and the three prefixes supplied, `Resolve` succeeds, the three prefixes are
returned unchanged and `ServiceIP` is `172.0.0.1`. -/
theorem C21_supplied_prefixes_witness :
    prefilledDetails.Resolve (fakeClient [] (some "172.0.0.1") []) "test-ns"
      = ({ ServiceIP := MustParseAddr "172.0.0.1"
           PodCIDR := MustParsePrefix "100.64.0.0/24"
           ServiceCIDR := MustParsePrefix "172.0.0.0/12"
           NodeCIDR := MustParsePrefix "10.0.0.0/12" }, none) ∧
    (∃ clusterIP : String,
      (fakeClient [] (some "172.0.0.1") []).getServiceClusterIP "kube-system" "kube-dns"
        = Except.ok clusterIP ∧
      ParseAddr clusterIP = some (MustParseAddr "172.0.0.1")) ∧
    (prefilledDetails.PodCIDR.IsValid = true →
      MustParsePrefix "100.64.0.0/24" = prefilledDetails.PodCIDR) :=
  ⟨by decide,
    (C21_supplied_prefixes prefilledDetails
      { ServiceIP := MustParseAddr "172.0.0.1"
        PodCIDR := MustParsePrefix "100.64.0.0/24"
        ServiceCIDR := MustParsePrefix "172.0.0.0/12"
        NodeCIDR := MustParsePrefix "10.0.0.0/12" }
      (fakeClient [] (some "172.0.0.1") []) "test-ns" (by decide)).1,
    (C21_supplied_prefixes prefilledDetails
      { ServiceIP := MustParseAddr "172.0.0.1"
        PodCIDR := MustParsePrefix "100.64.0.0/24"
        ServiceCIDR := MustParsePrefix "172.0.0.0/12"
        NodeCIDR := MustParsePrefix "10.0.0.0/12" }
      (fakeClient [] (some "172.0.0.1") []) "test-ns" (by decide)).2.1⟩

/-- C22 as stated fails: with the service prefix `10.96.0.0/12` supplied and
`kube-dns` at `172.0.0.1`, `Resolve` succeeds, returns the supplied prefix and
the address of `kube-dns`, and the prefix does not contain the address. -/
theorem C22_counterexample :
    ({ ClusterDetails.zero with ServiceCIDR := MustParsePrefix "10.96.0.0/12" }.Resolve
      (fakeClient [validPod] (some "172.0.0.1") [validNode]) "test-ns").2 = none ∧
    ({ ClusterDetails.zero with ServiceCIDR := MustParsePrefix "10.96.0.0/12" }.Resolve
      (fakeClient [validPod] (some "172.0.0.1") [validNode]) "test-ns").1.ServiceIP
        = MustParseAddr "172.0.0.1" ∧
    ({ ClusterDetails.zero with ServiceCIDR := MustParsePrefix "10.96.0.0/12" }.Resolve
      (fakeClient [validPod] (some "172.0.0.1") [validNode]) "test-ns").1.ServiceCIDR
        = MustParsePrefix "10.96.0.0/12" ∧
    (MustParsePrefix "10.96.0.0/12").IsValid = true ∧
    (MustParsePrefix "10.96.0.0/12").Contains (MustParseAddr "172.0.0.1") = false := by
  decide

/-- C22, amended: for every successful `Resolve` to which no service prefix was
supplied, the service prefix returned is `Prefix(16)` of the `ServiceIP`
returned, a valid prefix of 16 bits that contains `ServiceIP` with its zone
removed, and so `ServiceIP` itself when it has no zone. -/
theorem C22_service_ip (c cd : ClusterDetails) (client : Client) (ns : String)
    (h : c.Resolve client ns = (cd, none)) (hs : c.ServiceCIDR.IsValid = false) :
    cd.ServiceIP.Prefix 16 = some cd.ServiceCIDR ∧
    cd.ServiceCIDR.IsValid = true ∧ cd.ServiceCIDR.Bits = 16 ∧
    cd.ServiceCIDR.Contains cd.ServiceIP.withoutZone = true ∧
    (cd.ServiceIP.hasZone = false → cd.ServiceCIDR.Contains cd.ServiceIP = true) := by
  obtain ⟨pods, clusterIP, hl, hd, hsa, hpod, hsvc, hnode⟩ :=
    clusterResolve_ok_inv c cd client ns h
  rw [if_neg (by simp [hs])] at hsvc
  obtain ⟨hwf, hv⟩ := parseAddr_wf _ _ hsa
  obtain ⟨q, hq, -, hqv, hqb, hqz, hqc⟩ := prefix16_spec cd.ServiceIP hwf hv
  rw [hsvc, Option.some.injEq] at hq
  subst hq
  refine ⟨hsvc, hqv, hqb, hqc, ?_⟩
  intro hz
  have e : cd.ServiceIP.withoutZone = cd.ServiceIP := by
    rcases hip : cd.ServiceIP with ⟨a, z⟩
    cases z with
    | z0 => rfl
    | z4 => rfl
    | z6 zone =>
      rw [hip] at hz
      simp only [Addr.hasZone, bne_eq_false_iff_eq] at hz
      subst hz
      rfl
  rw [e] at hqc
  exact hqc

/-- C22 (amended) at the test "valid cluster": the inferred service prefix is
`172.0.0.0/16`, which contains `172.0.0.1`. -/
theorem C22_service_ip_witness :
    ClusterDetails.zero.Resolve (fakeClient [validPod] (some "172.0.0.1") [validNode]) "test-ns"
      = ({ ServiceIP := MustParseAddr "172.0.0.1"
           PodCIDR := MustParsePrefix "100.64.0.0/16"
           ServiceCIDR := MustParsePrefix "172.0.0.0/16"
           NodeCIDR := MustParsePrefix "10.0.0.0/16" }, none) ∧
    ClusterDetails.zero.ServiceCIDR.IsValid = false ∧
    (MustParsePrefix "172.0.0.0/16").Contains (MustParseAddr "172.0.0.1").withoutZone = true :=
  ⟨by decide, by decide,
    (C22_service_ip ClusterDetails.zero
      { ServiceIP := MustParseAddr "172.0.0.1"
        PodCIDR := MustParsePrefix "100.64.0.0/16"
        ServiceCIDR := MustParsePrefix "172.0.0.0/16"
        NodeCIDR := MustParsePrefix "10.0.0.0/16" }
      (fakeClient [validPod] (some "172.0.0.1") [validNode]) "test-ns"
      (by decide) (by decide)).2.2.2.1⟩

/-- A result of `Resolve` without an error is a success. -/
theorem clusterResolve_ok_of_none (c : ClusterDetails) (client : Client) (ns : String)
    (h : (c.Resolve client ns).2 = none) :
    c.Resolve client ns = ((c.Resolve client ns).1, none) :=
  Prod.ext rfl h

/-- C23: `Resolve` returns the zero `ClusterDetails` with every error, and it
fails in each of these cases: no pod prefix is supplied and every pod of
the namespace is on the host network, has no pod address, or has one that
does not parse (the error is then "unable to find any pods"); the request for the
service `kube-dns` fails; the cluster address of `kube-dns` does not parse; no
node prefix is supplied and no node, if any, has an `InternalIP` address that
parses. -/
theorem C23_failures (c : ClusterDetails) (client : Client) (ns : String) :
    ((c.Resolve client ns).2 ≠ none → (c.Resolve client ns).1 = ClusterDetails.zero) ∧
    (∀ pods : List Pod, c.PodCIDR.IsValid = false → client.listPods ns = Except.ok pods →
      (∀ p ∈ pods, p.HostNetwork = true ∨ p.PodIP = "" ∨ ParseAddr p.PodIP = none) →
      c.Resolve client ns
        = (ClusterDetails.zero, some (Error.podCIDR "unable to find any pods"))) ∧
    (∀ cause : String,
      client.getServiceClusterIP "kube-system" "kube-dns" = Except.error cause →
      (c.Resolve client ns).1 = ClusterDetails.zero ∧ (c.Resolve client ns).2 ≠ none) ∧
    (∀ clusterIP : String,
      client.getServiceClusterIP "kube-system" "kube-dns" = Except.ok clusterIP →
      ParseAddr clusterIP = none →
      (c.Resolve client ns).1 = ClusterDetails.zero ∧ (c.Resolve client ns).2 ≠ none) ∧
    (∀ nodes : List Node, c.NodeCIDR.IsValid = false → client.listNodes = Except.ok nodes →
      (∀ n ∈ nodes, ∀ a ∈ n.Addresses,
        a.AddressType = NodeInternalIP → ParseAddr a.Address = none) →
      (c.Resolve client ns).1 = ClusterDetails.zero ∧ (c.Resolve client ns).2 ≠ none) := by
  refine ⟨clusterResolve_error_zero c client ns, ?_, ?_, ?_, ?_⟩
  · intro pods hv hl hall
    unfold ClusterDetails.Resolve
    simp only [hl, hv, Bool.not_false, if_true, findPodAddr_none pods hall]
  · intro cause hd
    have hne : (c.Resolve client ns).2 ≠ none := by
      intro hn
      obtain ⟨pods, clusterIP, -, hs, -⟩ :=
        clusterResolve_ok_inv c _ client ns (clusterResolve_ok_of_none c client ns hn)
      rw [hd] at hs
      exact absurd hs (by simp)
    exact ⟨clusterResolve_error_zero c client ns hne, hne⟩
  · intro clusterIP hd hp
    have hne : (c.Resolve client ns).2 ≠ none := by
      intro hn
      obtain ⟨pods, clusterIP2, -, hs, hsa, -⟩ :=
        clusterResolve_ok_inv c _ client ns (clusterResolve_ok_of_none c client ns hn)
      rw [hd, Except.ok.injEq] at hs
      subst hs
      rw [hp] at hsa
      exact absurd hsa (by simp)
    exact ⟨clusterResolve_error_zero c client ns hne, hne⟩
  · intro nodes hv hl hall
    have hne : (c.Resolve client ns).2 ≠ none := by
      intro hn
      obtain ⟨pods, clusterIP2, -, -, -, -, -, hnode⟩ :=
        clusterResolve_ok_inv c _ client ns (clusterResolve_ok_of_none c client ns hn)
      rw [if_neg (by simp [hv])] at hnode
      obtain ⟨nodes2, h1, -, h3⟩ := hnode
      rw [hl, Except.ok.injEq] at h1
      subst h1
      rw [findNodeCIDR_none nodes hall] at h3
      exact absurd h3 (by simp)
    exact ⟨clusterResolve_error_zero c client ns hne, hne⟩

/-- C23 at the failing tests of `TestGetClusterDetails`: "only host network
pods" through the theorem, and the results of the others evaluated: each
returns the zero `ClusterDetails` and the error of its stage. -/
theorem C23_failures_witness :
    ClusterDetails.zero.Resolve (fakeClient [⟨true, ""⟩] (some "172.0.0.1") [validNode]) "test-ns"
      = (ClusterDetails.zero, some (Error.podCIDR "unable to find any pods")) ∧
    ClusterDetails.zero.Resolve (fakeClient [⟨false, ""⟩] (some "172.0.0.1") [validNode]) "test-ns"
      = (ClusterDetails.zero, some (Error.podCIDR "unable to find any pods")) ∧
    ClusterDetails.zero.Resolve (fakeClient [⟨false, "100."⟩] (some "172.0.0.1") [validNode]) "test-ns"
      = (ClusterDetails.zero, some (Error.podCIDR "unable to find any pods")) ∧
    ClusterDetails.zero.Resolve (fakeClient [validPod] none [validNode]) "test-ns"
      = (ClusterDetails.zero, some (Error.dnsService "not found")) ∧
    ClusterDetails.zero.Resolve (fakeClient [validPod] (some "") [validNode]) "test-ns"
      = (ClusterDetails.zero, some (Error.serviceCIDR "")) ∧
    ClusterDetails.zero.Resolve (fakeClient [validPod] (some "172.0.0.1") []) "test-ns"
      = (ClusterDetails.zero, some Error.noNodes) ∧
    ClusterDetails.zero.Resolve
        (fakeClient [validPod] (some "172.0.0.1") [⟨[⟨"ExternalIP", "34.123.34.12"⟩]⟩]) "test-ns"
      = (ClusterDetails.zero, some (Error.nodeCIDR "no valid InternalIP node addresses found")) ∧
    ClusterDetails.zero.Resolve
        (fakeClient [validPod] (some "172.0.0.1") [⟨[⟨"InternalIP", "100."⟩]⟩]) "test-ns"
      = (ClusterDetails.zero, some (Error.nodeCIDR "no valid InternalIP node addresses found")) :=
  ⟨(C23_failures ClusterDetails.zero
      (fakeClient [⟨true, ""⟩] (some "172.0.0.1") [validNode]) "test-ns").2.1
      [⟨true, ""⟩] (by decide) rfl (by decide),
    by decide, by decide, by decide, by decide, by decide, by decide, by decide⟩

end kuberneteshelpers

/-! ## Theorems: the reachability mode of `Start` -/

namespace agent

open netip corev1

/-- A successful reachability part of `Start`, by mode. -/
theorem startReachability_ok (cluster : Cluster) (a : kubernetesAgent) (requests : List Request)
    (objectName relatedObjectName : String) (labels : GoMap) (revision : String)
    (h : (startReachability cluster a requests objectName relatedObjectName labels revision).err
      = none) :
    (a.config.Wireguard.DirectAccess = true →
      ∃ address : AddrPort,
        cluster.waitForPod a.config.Namespace labels revision = Except.ok address ∧
        startReachability cluster a requests objectName relatedObjectName labels revision
          = ⟨{ a with agentAddress := address },
              requests ++ [Request.applyNetworkPolicy a.config.Namespace relatedObjectName labels
                address.port], none⟩) ∧
    (a.config.Wireguard.DirectAccess = false → a.config.Wireguard.LocalAddress.IsValid = false →
      ∃ address : AddrPort,
        (applyLoadbalancer cluster a.config.Namespace relatedObjectName labels).2
          = Except.ok address ∧
        startReachability cluster a requests objectName relatedObjectName labels revision
          = ⟨{ a with agentAddress := address },
              requests ++
                [Request.applyService a.config.Namespace relatedObjectName labels
                    wg.DefaultWireguardPort,
                  Request.applyNetworkPolicy a.config.Namespace relatedObjectName labels
                    wg.DefaultWireguardPort], none⟩) ∧
    (a.config.Wireguard.DirectAccess = false → a.config.Wireguard.LocalAddress.IsValid = true →
      startReachability cluster a requests objectName relatedObjectName labels revision
        = ⟨a, requests, none⟩) := by
  unfold startReachability at h ⊢
  refine ⟨?_, ?_, ?_⟩
  · intro hd
    simp only [hd, if_true] at h ⊢
    cases hw : cluster.waitForPod a.config.Namespace labels revision with
    | error e => simp [hw] at h
    | ok address =>
      simp only [hw] at h ⊢
      refine ⟨address, rfl, ?_⟩
      unfold applyNetworkPolicy at h ⊢
      cases hr : cluster.respond (Request.applyNetworkPolicy a.config.Namespace relatedObjectName
          labels address.port) with
      | some e => simp [hr] at h
      | none => simp [hr]
  · intro hd hl
    simp only [hd, hl, Bool.false_eq_true, if_false, Bool.not_false, if_true] at h ⊢
    rcases hlb : applyLoadbalancer cluster a.config.Namespace relatedObjectName labels
      with ⟨req, r⟩
    have hreq : req = Request.applyService a.config.Namespace relatedObjectName labels
        wg.DefaultWireguardPort := by
      have : (applyLoadbalancer cluster a.config.Namespace relatedObjectName labels).1
          = Request.applyService a.config.Namespace relatedObjectName labels
            wg.DefaultWireguardPort := by
        unfold applyLoadbalancer
        simp only []
        split
        · rfl
        · split
          · rfl
          · rfl
          · split
            · split <;> rfl
            · split
              · split <;> rfl
              · rfl
      rw [hlb] at this
      exact this
    rw [hlb] at h
    cases r with
    | error e => simp at h
    | ok address =>
      simp only [] at h ⊢
      refine ⟨address, rfl, ?_⟩
      unfold applyNetworkPolicy at h ⊢
      cases hr : cluster.respond (Request.applyNetworkPolicy a.config.Namespace relatedObjectName
          labels wg.DefaultWireguardPort) with
      | some e => simp [hr] at h
      | none => simp [hr, hreq]
  · intro hd hl
    simp only [hd, hl, Bool.false_eq_true, if_false, Bool.not_true]

/-- A successful run of the shared body of `Start` ends with the reachability
part, run on the agent with the patched target after the two requests that
apply the secret and update the target. -/
theorem startTemplate_ok_reach (cluster : Cluster) (a : kubernetesAgent)
    (objectName objectNamespace : String) (labels : GoMap) (template : PodTemplateSpec)
    (store : PodTemplateSpec → TargetObject) (update : PodTemplateSpec → Request)
    (h : (startTemplate cluster a objectName objectNamespace labels template store update).err
      = none) :
    ∃ template2 : PodTemplateSpec,
      startTemplate cluster a objectName objectNamespace labels template store update
        = startReachability cluster
            { a with config := { a.config with TargetObject := store template2 } }
            [Request.applySecret a.config.Namespace (wgObjectName objectName) a.config.Wireguard,
              update template2]
            objectName (wgObjectName objectName) labels cluster.newRevision := by
  unfold startTemplate at h ⊢
  simp only [containerIndexOrDefault_set_revision] at h ⊢
  by_cases hidx : containerIndexOrDefault a.config.Container template.Annotations
      template.Spec.Containers = -1
  · simp [hidx] at h
  obtain ⟨i, hi, hci, -, -⟩ := containerIndexOrDefault_found _ _ _ hidx
  obtain ⟨spec, ports, hspec, -⟩ :=
    replaceContainerWithAgent_containers a.config.AgentImage template.Spec (wgObjectName objectName)
      i hi
  refine ⟨{ template with
    Annotations := template.Annotations.set WireguardRevisionAnnotationName cluster.newRevision
    Spec := spec }, ?_⟩
  have hne : ¬ ((i : Int) = -1) := by omega
  rw [hci] at h ⊢
  simp only [hne, if_false, hspec] at h ⊢
  cases hr : cluster.respond (Request.applySecret a.config.Namespace (wgObjectName objectName)
      a.config.Wireguard) with
  | some e => simp [hr] at h
  | none =>
    simp only [hr] at h ⊢
    cases hr1 : cluster.respond (update { template with
        Annotations := template.Annotations.set WireguardRevisionAnnotationName cluster.newRevision
        Spec := spec }) with
    | some e => simp [hr1] at h
    | none => simp only [hr1]

/-- A successful `Start` ends with the reachability part, run after the two
requests that apply the secret and update the target, on an agent that
differs from the one given only in the target object. -/
theorem start_ok_reach (a : kubernetesAgent) (cluster : Cluster)
    (h : (a.Start cluster).err = none) :
    ∃ (name : String) (target : TargetObject) (update : Request),
      objectName a.config.TargetObject = some name ∧
      ((∃ (ns : String) (d : appsv1.Deployment), update = Request.updateDeployment ns d) ∨
        (∃ (ns : String) (s : appsv1.StatefulSet), update = Request.updateStatefulSet ns s)) ∧
      a.Start cluster
        = startReachability cluster
            { a with config := { a.config with TargetObject := target } }
            [Request.applySecret a.config.Namespace (wgObjectName name) a.config.Wireguard, update]
            name (wgObjectName name) (matchLabels a.config.TargetObject) cluster.newRevision := by
  unfold kubernetesAgent.Start at h ⊢
  cases ht : a.config.TargetObject with
  | other name =>
    rw [ht] at h
    cases name with
    | none => simp at h
    | some n => simp at h
  | deployment d =>
    rw [ht] at h
    simp only [] at h ⊢
    obtain ⟨t2, e⟩ := startTemplate_ok_reach _ _ _ _ _ _ _ _ h
    exact ⟨d.Name, _, _, rfl, Or.inl ⟨_, _, rfl⟩, e⟩
  | statefulSet s =>
    rw [ht] at h
    simp only [] at h ⊢
    obtain ⟨t2, e⟩ := startTemplate_ok_reach _ _ _ _ _ _ _ _ h
    exact ⟨s.Name, _, _, rfl, Or.inr ⟨_, _, rfl⟩, e⟩

/-- C25: a successful `Start` sends the request that applies the secret, the
update of the target, and then, by the mode the config selects: with
`DirectAccess`, the network policy for the port of the address the pod wait
returned, which becomes the agent address, and no service; without
`DirectAccess` and with `LocalAddress` unset, the load balancer service and
then the network policy for the port 19070, the agent address being the one
of the load balancer; without `DirectAccess` and with `LocalAddress` set,
nothing more, and the agent address stays as it was. So the service is
applied exactly when `DirectAccess` is false and `LocalAddress` is unset. -/
theorem C25_reachability (a : kubernetesAgent) (cluster : Cluster)
    (h : (a.Start cluster).err = none) :
    ∃ (name : String) (update : Request),
      objectName a.config.TargetObject = some name ∧
      ((∃ (ns : String) (d : appsv1.Deployment), update = Request.updateDeployment ns d) ∨
        (∃ (ns : String) (s : appsv1.StatefulSet), update = Request.updateStatefulSet ns s)) ∧
      (a.config.Wireguard.DirectAccess = true →
        ∃ address : AddrPort,
          cluster.waitForPod a.config.Namespace (matchLabels a.config.TargetObject)
            cluster.newRevision = Except.ok address ∧
          (a.Start cluster).requests =
            [ Request.applySecret a.config.Namespace ("wg-" ++ name) a.config.Wireguard, update,
              Request.applyNetworkPolicy a.config.Namespace ("wg-" ++ name)
                (matchLabels a.config.TargetObject) address.port ] ∧
          (a.Start cluster).agent.agentAddress = address) ∧
      (a.config.Wireguard.DirectAccess = false →
        a.config.Wireguard.LocalAddress.IsValid = false →
        ∃ address : AddrPort,
          (applyLoadbalancer cluster a.config.Namespace ("wg-" ++ name)
            (matchLabels a.config.TargetObject)).2 = Except.ok address ∧
          (a.Start cluster).requests =
            [ Request.applySecret a.config.Namespace ("wg-" ++ name) a.config.Wireguard, update,
              Request.applyService a.config.Namespace ("wg-" ++ name)
                (matchLabels a.config.TargetObject) 19070,
              Request.applyNetworkPolicy a.config.Namespace ("wg-" ++ name)
                (matchLabels a.config.TargetObject) 19070 ] ∧
          (a.Start cluster).agent.agentAddress = address) ∧
      (a.config.Wireguard.DirectAccess = false →
        a.config.Wireguard.LocalAddress.IsValid = true →
        (a.Start cluster).requests =
          [ Request.applySecret a.config.Namespace ("wg-" ++ name) a.config.Wireguard, update ] ∧
        (a.Start cluster).agent.agentAddress = a.agentAddress) ∧
      ((∃ (ns n : String) (sel : GoMap) (port : Int),
          Request.applyService ns n sel port ∈ (a.Start cluster).requests) ↔
        (a.config.Wireguard.DirectAccess = false ∧
          a.config.Wireguard.LocalAddress.IsValid = false)) ∧
      ((∃ (ns n : String) (sel : GoMap) (port : Int),
          Request.applyNetworkPolicy ns n sel port ∈ (a.Start cluster).requests) ↔
        ¬ (a.config.Wireguard.DirectAccess = false ∧
          a.config.Wireguard.LocalAddress.IsValid = true)) := by
  obtain ⟨name, target, update, hn, hu, e⟩ := start_ok_reach a cluster h
  rw [e] at h
  obtain ⟨h1, h2, h3⟩ := startReachability_ok _ _ _ _ _ _ _ h
  have hnu1 : ∀ (ns n : String) (sel : GoMap) (port : Int),
      Request.applyService ns n sel port ≠ update := by
    intro ns n sel port he
    rcases hu with ⟨_, _, hu⟩ | ⟨_, _, hu⟩ <;> rw [hu] at he <;> cases he
  have hnu2 : ∀ (ns n : String) (sel : GoMap) (port : Int),
      Request.applyNetworkPolicy ns n sel port ≠ update := by
    intro ns n sel port he
    rcases hu with ⟨_, _, hu⟩ | ⟨_, _, hu⟩ <;> rw [hu] at he <;> cases he
  have c1 : a.config.Wireguard.DirectAccess = true →
      ∃ address : AddrPort,
        cluster.waitForPod a.config.Namespace (matchLabels a.config.TargetObject)
          cluster.newRevision = Except.ok address ∧
        (a.Start cluster).requests =
          [ Request.applySecret a.config.Namespace ("wg-" ++ name) a.config.Wireguard, update,
            Request.applyNetworkPolicy a.config.Namespace ("wg-" ++ name)
              (matchLabels a.config.TargetObject) address.port ] ∧
        (a.Start cluster).agent.agentAddress = address := by
    intro hd
    obtain ⟨address, hw, hs⟩ := h1 hd
    exact ⟨address, hw, by rw [e, hs]; rfl, by rw [e, hs]⟩
  have c2 : a.config.Wireguard.DirectAccess = false →
      a.config.Wireguard.LocalAddress.IsValid = false →
      ∃ address : AddrPort,
        (applyLoadbalancer cluster a.config.Namespace ("wg-" ++ name)
          (matchLabels a.config.TargetObject)).2 = Except.ok address ∧
        (a.Start cluster).requests =
          [ Request.applySecret a.config.Namespace ("wg-" ++ name) a.config.Wireguard, update,
            Request.applyService a.config.Namespace ("wg-" ++ name)
              (matchLabels a.config.TargetObject) 19070,
            Request.applyNetworkPolicy a.config.Namespace ("wg-" ++ name)
              (matchLabels a.config.TargetObject) 19070 ] ∧
        (a.Start cluster).agent.agentAddress = address := by
    intro hd hl
    obtain ⟨address, hw, hs⟩ := h2 hd hl
    exact ⟨address, hw, by rw [e, hs]; rfl, by rw [e, hs]⟩
  have c3 : a.config.Wireguard.DirectAccess = false →
      a.config.Wireguard.LocalAddress.IsValid = true →
      (a.Start cluster).requests =
        [ Request.applySecret a.config.Namespace ("wg-" ++ name) a.config.Wireguard, update ] ∧
      (a.Start cluster).agent.agentAddress = a.agentAddress := by
    intro hd hl
    have hs := h3 hd hl
    exact ⟨by rw [e, hs]; rfl, by rw [e, hs]⟩
  refine ⟨name, update, hn, hu, c1, c2, c3, ?_, ?_⟩
  · constructor
    · rintro ⟨ns, n, sel, port, hm⟩
      by_cases hd : a.config.Wireguard.DirectAccess = true
      · obtain ⟨address, -, hr, -⟩ := c1 hd
        rw [hr] at hm
        simp only [List.mem_cons, List.mem_singleton, List.not_mem_nil, or_false] at hm
        rcases hm with hm | hm | hm
        · cases hm
        · exact absurd hm (hnu1 _ _ _ _)
        · cases hm
      · simp only [Bool.not_eq_true] at hd
        refine ⟨hd, ?_⟩
        by_contra hl
        simp only [Bool.not_eq_false] at hl
        obtain ⟨hr, -⟩ := c3 hd hl
        rw [hr] at hm
        simp only [List.mem_cons, List.mem_singleton, List.not_mem_nil, or_false] at hm
        rcases hm with hm | hm
        · cases hm
        · exact absurd hm (hnu1 _ _ _ _)
    · rintro ⟨hd, hl⟩
      obtain ⟨address, -, hr, -⟩ := c2 hd hl
      exact ⟨a.config.Namespace, "wg-" ++ name, matchLabels a.config.TargetObject, 19070,
        by rw [hr]; simp⟩
  · constructor
    · rintro ⟨ns, n, sel, port, hm⟩ ⟨hd, hl⟩
      obtain ⟨hr, -⟩ := c3 hd hl
      rw [hr] at hm
      simp only [List.mem_cons, List.mem_singleton, List.not_mem_nil, or_false] at hm
      rcases hm with hm | hm
      · cases hm
      · exact absurd hm (hnu2 _ _ _ _)
    · intro hnot
      by_cases hd : a.config.Wireguard.DirectAccess = true
      · obtain ⟨address, -, hr, -⟩ := c1 hd
        exact ⟨a.config.Namespace, "wg-" ++ name, matchLabels a.config.TargetObject, address.port,
          by rw [hr]; simp⟩
      · simp only [Bool.not_eq_true] at hd
        have hl : a.config.Wireguard.LocalAddress.IsValid = false := by
          by_contra hl
          simp only [Bool.not_eq_false] at hl
          exact hnot ⟨hd, hl⟩
        obtain ⟨address, -, hr, -⟩ := c2 hd hl
        exact ⟨a.config.Namespace, "wg-" ++ name, matchLabels a.config.TargetObject, 19070,
        by rw [hr]; simp⟩

open netip corev1

/-- C25 at the tests "deployment with direct", "deployment with multiple
containers" and "deployment with local address": the network policy for the
port 19017 of the pod wait and no service; the service and the network policy
for 19070; neither of them, and the agent address unset. -/
theorem C25_reachability_witness :
    ((NewKubernetesAgent directConfig).Start testCluster).err = none ∧
    ((NewKubernetesAgent directConfig).Start testCluster).requests.drop 2 =
      [ Request.applyNetworkPolicy "test-namespace" "wg-test-object"
          [("app.kubernetes.io/name", "test-object")] 19017 ] ∧
    ((NewKubernetesAgent directConfig).Start testCluster).agent.agentAddress
      = AddrPortFrom (MustParseAddr "4.5.6.7") 19017 ∧
    ((NewKubernetesAgent (testConfig (TargetObject.deployment testDeployment))).Start
        testCluster).requests.drop 2 =
      [ Request.applyService "test-namespace" "wg-test-object"
          [("app.kubernetes.io/name", "test-object")] 19070,
        Request.applyNetworkPolicy "test-namespace" "wg-test-object"
          [("app.kubernetes.io/name", "test-object")] 19070 ] ∧
    ((NewKubernetesAgent localAddressConfig).Start testCluster).err = none ∧
    ((NewKubernetesAgent localAddressConfig).Start testCluster).requests.length = 2 ∧
    ((NewKubernetesAgent localAddressConfig).Start testCluster).agent.agentAddress.IsValid
      = false ∧
    (¬ ∃ (ns n : String) (sel : GoMap) (port : Int),
      Request.applyService ns n sel port
        ∈ ((NewKubernetesAgent directConfig).Start testCluster).requests) := by
  refine ⟨by decide, by decide, by decide, by decide, by decide, by decide, by decide, ?_⟩
  obtain ⟨name, update, -, -, -, -, -, hsvc, -⟩ :=
    C25_reachability (NewKubernetesAgent directConfig) testCluster (by decide)
  intro hex
  exact absurd (hsvc.mp hex).1 (by decide)

end agent

/-! ## Theorems: the device and the routes of the proxy -/

namespace proxy

open netip config

/-- A successful `ResolveWireguardConfig`: with `directAccess` the local address
is the one the NAT lookup returned, parsed, with its port, and `DirectAccess`
is set; without it `DirectAccess` stays unset and the local address is the
one of the config given when that is valid, else the zero value. -/
theorem resolve_ok_local (env : Env) (cfg cfg1 : Config) (overlayPrefix : String)
    (directAccess : Bool)
    (h : ResolveWireguardConfig env cfg overlayPrefix directAccess = (cfg1, none)) :
    (directAccess = true →
      ∃ (localIP : String) (localPort : Int) (localAddr : Addr),
        env.findLocalAddressAndPort = Except.ok (localIP, localPort) ∧
        ParseAddr localIP = some localAddr ∧
        cfg1.Wireguard.LocalAddress = AddrPortFrom localAddr (localPort % 2 ^ 16).toNat ∧
        cfg1.Wireguard.DirectAccess = true) ∧
    (directAccess = false →
      cfg1.Wireguard.DirectAccess = false ∧
      cfg1.Wireguard.LocalAddress
        = if cfg.Wireguard.LocalAddress.IsValid then cfg.Wireguard.LocalAddress
          else AddrPort.zero) := by
  unfold ResolveWireguardConfig at h
  cases hcd : env.getClusterDetails cfg.KubernetesClusterDetails cfg.Namespace with
  | error c => simp [hcd] at h
  | ok cd =>
    simp only [hcd] at h
    split at h
    · simp at h
    · rename_i ovr overlay hov
      have key : ∀ extra : List WireguardOption,
          ({ cfg with KubernetesClusterDetails := cd, Wireguard := (NewWireguardConfig
            ([WithGeneratedKeypairs env.localKeypair env.agentKeypair,
              WithOverlay overlay.String overlay.Addr.Next.String overlay.Addr.Next.Next.String,
              WithAllowedIPs [cd.PodCIDR.String, cd.ServiceCIDR.String, cd.NodeCIDR.String,
                overlay.String]] ++ extra)).1 },
            (NewWireguardConfig
            ([WithGeneratedKeypairs env.localKeypair env.agentKeypair,
              WithOverlay overlay.String overlay.Addr.Next.String overlay.Addr.Next.Next.String,
              WithAllowedIPs [cd.PodCIDR.String, cd.ServiceCIDR.String, cd.NodeCIDR.String,
                overlay.String]] ++ extra)).2) = (cfg1, none) →
          ∃ w : Wireguard, w.LocalAddress = AddrPort.zero ∧ w.DirectAccess = false ∧
            applyOptions extra w = (cfg1.Wireguard, none) := by
        intro extra hres
        rw [Prod.mk.injEq] at hres
        obtain ⟨hc, he⟩ := hres
        obtain ⟨k1, k2, o, la, aa, p1, p2, p3, p4, -, -, ho, hl, ha, h1, h2, h3, h4, hx⟩ :=
          baseOptions_inv _ _ _ _ _ _ _ _ extra _ _ (Prod.mk.eta (p := NewWireguardConfig _)).symm he
        subst hc
        exact ⟨_, rfl, rfl, hx⟩
      by_cases hda : directAccess = true
      · simp only [hda, if_true] at h
        refine ⟨fun _ => ?_, fun hf => by simp [hda] at hf⟩
        cases hf : env.findLocalAddressAndPort with
        | error c => simp [hf] at h
        | ok lp =>
          obtain ⟨localIP, localPort⟩ := lp
          simp only [hf] at h
          cases hpa : ParseAddr localIP with
          | none => simp [hpa] at h
          | some localAddr =>
            simp only [hpa] at h
            obtain ⟨w, -, -, hw⟩ := key _ h
            simp only [applyOptions, WithLocalAddress, WithDirectAccess, Prod.mk.injEq,
              and_true] at hw
            refine ⟨localIP, localPort, localAddr, rfl, hpa, ?_, ?_⟩
            · rw [← hw]
            · rw [← hw]
      · rw [if_neg hda] at h
        simp only [Bool.not_eq_true] at hda
        refine ⟨fun hf => by simp [hda] at hf, fun _ => ?_⟩
        by_cases hla : cfg.Wireguard.LocalAddress.IsValid = true
        · rw [if_pos hla] at h
          obtain ⟨w, h1, h2, hw⟩ := key [WithLocalAddress cfg.Wireguard.LocalAddress] (by simpa using h)
          simp only [applyOptions, WithLocalAddress, Prod.mk.injEq, and_true] at hw
          rw [if_pos hla, ← hw]
          exact ⟨h2, rfl⟩
        · rw [if_neg hla] at h
          obtain ⟨w, h1, h2, hw⟩ := key [] (by simpa using h)
          simp only [applyOptions, Prod.mk.injEq, and_true] at hw
          rw [if_neg hla, ← hw]
          exact ⟨h2, h1⟩

open netip config runnable

/-- What `wireguardDeviceSetup` does: it starts the device of
`workstationDevice` and then the routing for `workstationRoutes`, and leaves
the config as it is. -/
theorem wireguardDeviceSetup_eq (env : RunEnv) (st : RunState) (agentAddress : AddrPort) :
    wireguardDeviceSetup env st agentAddress =
      match env.deviceStart (workstationDevice env st.cfg agentAddress) with
      | Except.error cause => (st, some (Error.passed cause))
      | Except.ok deviceName =>
        match env.routerStart (routing.NewRouting deviceName
            st.cfg.KubernetesClusterDetails.ServiceIP (workstationRoutes st.cfg)) with
        | some cause =>
          ({ st with
              stopFuncs := st.stopFuncs ++ [StopFunc.wgStop]
              devices := st.devices ++ [workstationDevice env st.cfg agentAddress] },
            some (Error.passed cause))
        | none =>
          ({ st with
              stopFuncs := st.stopFuncs ++ [StopFunc.wgStop] ++ [StopFunc.routerStop]
              devices := st.devices ++ [workstationDevice env st.cfg agentAddress]
              routers := st.routers ++ [routing.NewRouting deviceName
                st.cfg.KubernetesClusterDetails.ServiceIP (workstationRoutes st.cfg)] },
            none) := by
  unfold wireguardDeviceSetup workstationDevice workstationRoutes
  rfl

/-- The Kubernetes setup changes neither the devices nor the routings
started. -/
theorem kubernetesSetup_devices (env : RunEnv) (st : RunState) :
    (kubernetesSetup env st).1.devices = st.devices ∧
    (kubernetesSetup env st).1.routers = st.routers := by
  unfold kubernetesSetup
  simp only []
  split <;> exact ⟨rfl, rfl⟩

/-- The devices and routings `Run` starts when the local address of the config
is valid: the device is set up first, with the zero `AddrPort` as the peer
endpoint. -/
theorem run_devices_local (env : RunEnv) (cfg : Config) (stopFuncs : List StopFunc)
    (hla : cfg.Wireguard.LocalAddress.IsValid = true) :
    (Run env cfg stopFuncs).state.devices =
      (match env.deviceStart (workstationDevice env cfg AddrPort.zero) with
      | Except.error _ => []
      | Except.ok _ => [workstationDevice env cfg AddrPort.zero]) ∧
    (Run env cfg stopFuncs).state.routers =
      (match env.deviceStart (workstationDevice env cfg AddrPort.zero) with
      | Except.error _ => []
      | Except.ok deviceName =>
        match env.routerStart (routing.NewRouting deviceName
            cfg.KubernetesClusterDetails.ServiceIP (workstationRoutes cfg)) with
        | some _ => []
        | none => [routing.NewRouting deviceName
            cfg.KubernetesClusterDetails.ServiceIP (workstationRoutes cfg)]) := by
  unfold Run runBody
  simp only [hla, if_true, wireguardDeviceSetup_eq]
  cases hd : env.deviceStart (workstationDevice env cfg AddrPort.zero) with
  | error cause => exact ⟨rfl, rfl⟩
  | ok deviceName =>
    simp only []
    cases hr : env.routerStart (routing.NewRouting deviceName
        cfg.KubernetesClusterDetails.ServiceIP (workstationRoutes cfg)) with
    | some cause => exact ⟨rfl, rfl⟩
    | none =>
      simp only []
      split
      · rename_i st2 x err heq
        have h1 := kubernetesSetup_devices env
          { cfg := cfg
            stopFuncs := stopFuncs ++ [StopFunc.wgStop] ++ [StopFunc.routerStop]
            devices := [] ++ [workstationDevice env cfg AddrPort.zero]
            routers := [] ++ [routing.NewRouting deviceName
              cfg.KubernetesClusterDetails.ServiceIP (workstationRoutes cfg)] }
        rw [heq] at h1
        exact h1
      · rename_i st2 x heq
        have h1 := kubernetesSetup_devices env
          { cfg := cfg
            stopFuncs := stopFuncs ++ [StopFunc.wgStop] ++ [StopFunc.routerStop]
            devices := [] ++ [workstationDevice env cfg AddrPort.zero]
            routers := [] ++ [routing.NewRouting deviceName
              cfg.KubernetesClusterDetails.ServiceIP (workstationRoutes cfg)] }
        rw [heq] at h1
        exact h1

end proxy

namespace agent

open netip corev1

/-- The shared body of `Start` changes nothing of the config but the target
object. -/
theorem startTemplate_config (cluster : Cluster) (a : kubernetesAgent)
    (objectName objectNamespace : String) (labels : GoMap) (template : PodTemplateSpec)
    (store : PodTemplateSpec → TargetObject) (update : PodTemplateSpec → Request) :
    (startTemplate cluster a objectName objectNamespace labels template store update).agent.config
      = { a.config with
          TargetObject := (startTemplate cluster a objectName objectNamespace labels template store
            update).agent.config.TargetObject } := by
  unfold startTemplate
  simp only []
  split
  · rfl
  · split
    · rfl
    · split
      · rfl
      · split
        · rfl
        · rw [(startReachability_config _ _ _ _ _ _ _).1]

/-- `Start` changes nothing of the config but the target object. -/
theorem start_config (a : kubernetesAgent) (cluster : Cluster) :
    (a.Start cluster).agent.config
      = { a.config with TargetObject := (a.Start cluster).agent.config.TargetObject } := by
  unfold kubernetesAgent.Start
  split
  · rfl
  · rfl
  · exact startTemplate_config _ _ _ _ _ _ _ _
  · exact startTemplate_config _ _ _ _ _ _ _ _

end agent

namespace proxy

open netip config runnable

/-- The Kubernetes setup changes nothing of the config but the target object;
on success it returns the agent address of `Start`. -/
theorem kubernetesSetup_config (env : RunEnv) (st : RunState) :
    (kubernetesSetup env st).1.cfg.Wireguard = st.cfg.Wireguard ∧
    (kubernetesSetup env st).1.cfg.KubernetesClusterDetails = st.cfg.KubernetesClusterDetails ∧
    ((kubernetesSetup env st).2.2 = none →
      (kubernetesSetup env st).2.1
        = ((agent.NewKubernetesAgent st.cfg).Start env.cluster).agent.agentAddress) := by
  have hc := agent.start_config (agent.NewKubernetesAgent st.cfg) env.cluster
  unfold kubernetesSetup
  simp only []
  split
  · refine ⟨?_, ?_, ?_⟩
    · show ((agent.NewKubernetesAgent st.cfg).Start env.cluster).agent.config.Wireguard = _
      rw [hc]
      rfl
    · show ((agent.NewKubernetesAgent st.cfg).Start env.cluster).agent.config.KubernetesClusterDetails
        = _
      rw [hc]
      rfl
    · intro h
      simp at h
  · refine ⟨?_, ?_, fun _ => rfl⟩
    · show ((agent.NewKubernetesAgent st.cfg).Start env.cluster).agent.config.Wireguard = _
      rw [hc]
      rfl
    · show ((agent.NewKubernetesAgent st.cfg).Start env.cluster).agent.config.KubernetesClusterDetails
        = _
      rw [hc]
      rfl

/-- The device and the routing of `workstationDevice` and `workstationRoutes`
depend on the config only through the Wireguard part and the cluster
details. -/
theorem workstationDevice_congr (env : RunEnv) (cfg cfg1 : Config) (agentAddress : AddrPort)
    (h1 : cfg1.Wireguard = cfg.Wireguard)
    (h2 : cfg1.KubernetesClusterDetails = cfg.KubernetesClusterDetails) :
    workstationDevice env cfg1 agentAddress = workstationDevice env cfg agentAddress ∧
    workstationRoutes cfg1 = workstationRoutes cfg := by
  unfold workstationDevice workstationRoutes
  rw [h1, h2]
  exact ⟨rfl, rfl⟩

/-- A successful `Run` has started one device and one routing: the device of
`workstationDevice`, whose peer endpoint is the zero `AddrPort` when the local
address of the config is valid and else the agent address of `Start`, and the
routing through that device for `workstationRoutes`. -/
theorem run_ok_devices (env : RunEnv) (cfg : Config) (stopFuncs : List StopFunc)
    (h : (Run env cfg stopFuncs).err = none) :
    ∃ deviceName : String,
      env.deviceStart (workstationDevice env cfg
        (if cfg.Wireguard.LocalAddress.IsValid then AddrPort.zero
          else ((agent.NewKubernetesAgent cfg).Start env.cluster).agent.agentAddress))
        = Except.ok deviceName ∧
      (Run env cfg stopFuncs).state.devices =
        [workstationDevice env cfg
          (if cfg.Wireguard.LocalAddress.IsValid then AddrPort.zero
            else ((agent.NewKubernetesAgent cfg).Start env.cluster).agent.agentAddress)] ∧
      (Run env cfg stopFuncs).state.routers =
        [routing.NewRouting deviceName cfg.KubernetesClusterDetails.ServiceIP
          (workstationRoutes cfg)] := by
  unfold Run at h ⊢
  simp only [] at h ⊢
  unfold runBody at h ⊢
  by_cases hla : cfg.Wireguard.LocalAddress.IsValid = true
  · simp only [hla, if_true, wireguardDeviceSetup_eq] at h ⊢
    cases hd : env.deviceStart (workstationDevice env cfg AddrPort.zero) with
    | error cause => simp [hd] at h
    | ok deviceName =>
      simp only [hd] at h ⊢
      cases hr : env.routerStart (routing.NewRouting deviceName
          cfg.KubernetesClusterDetails.ServiceIP (workstationRoutes cfg)) with
      | some cause => simp [hr] at h
      | none =>
        simp only [hr] at h ⊢
        refine ⟨deviceName, rfl, ?_⟩
        have h1 := kubernetesSetup_devices env
          { cfg := cfg
            stopFuncs := stopFuncs ++ [StopFunc.wgStop] ++ [StopFunc.routerStop]
            devices := [] ++ [workstationDevice env cfg AddrPort.zero]
            routers := [] ++ [routing.NewRouting deviceName
              cfg.KubernetesClusterDetails.ServiceIP (workstationRoutes cfg)] }
        split
        · rename_i st2 x err heq
          rw [heq] at h1
          exact h1
        · rename_i st2 x heq
          rw [heq] at h1
          exact h1
  · simp only [hla, Bool.false_eq_true, if_false] at h ⊢
    obtain ⟨k1, k2, k3⟩ := kubernetesSetup_config env
      { cfg := cfg, stopFuncs := stopFuncs, devices := [], routers := [] }
    obtain ⟨k4, k5⟩ := kubernetesSetup_devices env
      { cfg := cfg, stopFuncs := stopFuncs, devices := [], routers := [] }
    rcases hk : kubernetesSetup env
      { cfg := cfg, stopFuncs := stopFuncs, devices := [], routers := [] } with ⟨st1, address, e⟩
    rw [hk] at h k1 k2 k3 k4 k5
    cases e with
    | some err => simp at h
    | none =>
      simp only [] at h k1 k2 k3 k4 k5 ⊢
      obtain ⟨c1, c2⟩ := workstationDevice_congr env cfg st1.cfg address k1 k2
      have k3a := k3 trivial
      rw [wireguardDeviceSetup_eq] at h ⊢
      rw [c1, c2, k2] at h ⊢
      rw [← k3a]
      cases hd : env.deviceStart (workstationDevice env cfg address) with
      | error cause => simp [hd] at h
      | ok deviceName =>
        simp only [hd] at h ⊢
        cases hr : env.routerStart (routing.NewRouting deviceName
            cfg.KubernetesClusterDetails.ServiceIP (workstationRoutes cfg)) with
        | some cause => simp [hr] at h
        | none =>
          simp only [hr, k4, k5]
          exact ⟨deviceName, rfl, rfl, rfl⟩

open netip config runnable

/-- C26 as stated fails: with the config `ResolveWireguardConfig` leaves when
called with `directAccess = true` (NAT lookup `1.2.3.4`, `9080`), and the pod
wait returning `4.5.6.7:19017` as the address the agent published, `Run`
succeeds and starts the workstation device with no peer endpoint, listening
on the port 9080; the address of the pod wait is not the endpoint. -/
theorem C26_counterexample :
    (ResolveWireguardConfig (testEnv validClusterDetails)
      (agent.testConfig (TargetObject.deployment agent.testDeployment)) "" true).2 = none ∧
    directProxyConfig.Wireguard.DirectAccess = true ∧
    directProxyConfig.Wireguard.LocalAddress = AddrPortFrom (MustParseAddr "1.2.3.4") 9080 ∧
    (testRunEnv.cluster.waitForPod "test-namespace" [("app.kubernetes.io/name", "test-object")]
      "1-2-3-4").toOption = some (AddrPortFrom (MustParseAddr "4.5.6.7") 19017) ∧
    (Run testRunEnv directProxyConfig []).err = none ∧
    (Run testRunEnv directProxyConfig []).state.devices.map (fun d => d.Peer.Endpoint)
      = [AddrPort.zero] ∧
    (Run testRunEnv directProxyConfig []).state.devices.map (fun d => d.ListenPort) = [9080] ∧
    AddrPort.zero ≠ AddrPortFrom (MustParseAddr "4.5.6.7") 19017 := by
  decide

/-- C26, amended: with the config a successful `ResolveWireguardConfig` leaves
when called with `directAccess = true`, `DirectAccess` is set and the local
address is the valid address of the NAT lookup; a successful `Run` has then
started exactly one workstation device, whose peer endpoint is unset (the zero
`AddrPort`, whatever address the agent published) and whose listen port is
the port of the local address. -/
theorem C26_direct_access (env : Env) (cfg cfg1 : Config) (overlayPrefix : String)
    (renv : RunEnv) (stopFuncs : List StopFunc)
    (h : ResolveWireguardConfig env cfg overlayPrefix true = (cfg1, none))
    (hrun : (Run renv cfg1 stopFuncs).err = none) :
    cfg1.Wireguard.DirectAccess = true ∧
    cfg1.Wireguard.LocalAddress.IsValid = true ∧
    (∃ (localIP : String) (localPort : Int) (localAddr : Addr),
      env.findLocalAddressAndPort = Except.ok (localIP, localPort) ∧
      ParseAddr localIP = some localAddr ∧
      cfg1.Wireguard.LocalAddress = AddrPortFrom localAddr (localPort % 2 ^ 16).toNat) ∧
    (∃ d : wg.WireguardDeviceConfig,
      (Run renv cfg1 stopFuncs).state.devices = [d] ∧
      d.Peer.Endpoint = AddrPort.zero ∧ d.Peer.Endpoint.IsValid = false ∧
      d.ListenPort = (cfg1.Wireguard.LocalAddress.port : Int) ∧
      d.Peer.PublicKey = renv.publicKey cfg1.Wireguard.AgentKey.Key ∧
      d.Peer.AllowedIPs = cfg1.Wireguard.AllowedIPs ∧
      d.PrivateKey = cfg1.Wireguard.LocalKey.Key ∧
      d.Address = cfg1.Wireguard.LocalOverlayAddress) := by
  obtain ⟨localIP, localPort, localAddr, hf, hp, hl, hd⟩ :=
    (resolve_ok_local env cfg cfg1 overlayPrefix true h).1 rfl
  have hv : cfg1.Wireguard.LocalAddress.IsValid = true := by
    rw [hl]
    exact (parseAddr_wf _ _ hp).2
  obtain ⟨deviceName, -, hdev, -⟩ := run_ok_devices renv cfg1 stopFuncs hrun
  rw [if_pos hv] at hdev
  refine ⟨hd, hv, ⟨localIP, localPort, localAddr, hf, hp, hl⟩, _, hdev, rfl, rfl, ?_, rfl, rfl,
    rfl, rfl⟩
  unfold workstationDevice
  simp only [hv, if_true]

/-- C26 (amended) at the config of the counterexample. -/
theorem C26_direct_access_witness :
    ResolveWireguardConfig (testEnv validClusterDetails)
      (agent.testConfig (TargetObject.deployment agent.testDeployment)) "" true
      = (directProxyConfig, none) ∧
    (Run testRunEnv directProxyConfig []).err = none ∧
    directProxyConfig.Wireguard.LocalAddress.IsValid = true ∧
    ∃ d : wg.WireguardDeviceConfig,
      (Run testRunEnv directProxyConfig []).state.devices = [d] ∧
      d.Peer.Endpoint = AddrPort.zero :=
  ⟨by decide, by decide,
    (C26_direct_access (testEnv validClusterDetails)
      (agent.testConfig (TargetObject.deployment agent.testDeployment)) directProxyConfig ""
      testRunEnv [] (by decide) (by decide)).2.1,
    match (C26_direct_access (testEnv validClusterDetails)
      (agent.testConfig (TargetObject.deployment agent.testDeployment)) directProxyConfig ""
      testRunEnv [] (by decide) (by decide)).2.2.2 with
    | ⟨d, h1, h2, _⟩ => ⟨d, h1, h2⟩⟩

/-- C27 as stated fails: for the config of the test environment the allowed
prefixes end with the overlay prefix `10.1.0.0/28`, and the routes `Run`
passes to the routing end with `10.1.0.2/32`, the prefix of the overlay
address of the agent alone. -/
theorem C27_counterexample :
    (Run testRunEnv directProxyConfig []).err = none ∧
    directProxyConfig.Wireguard.AllowedIPs =
      [ MustParsePrefix "100.64.0.0/16", MustParsePrefix "172.0.0.0/16",
        MustParsePrefix "10.0.0.0/16", MustParsePrefix "10.1.0.0/28" ] ∧
    (Run testRunEnv directProxyConfig []).state.routers.map (fun r => r.routes) =
      [[ MustParsePrefix "100.64.0.0/16", MustParsePrefix "172.0.0.0/16",
         MustParsePrefix "10.0.0.0/16", MustParsePrefix "10.1.0.2/32" ]] ∧
    MustParsePrefix "10.1.0.2/32" ≠ MustParsePrefix "10.1.0.0/28" ∧
    (MustParsePrefix "10.1.0.2/32").Contains (MustParseAddr "10.1.0.1") = false ∧
    (MustParsePrefix "10.1.0.0/28").Contains (MustParseAddr "10.1.0.1") = true :=
  ⟨by decide, by decide, by decide, by decide, by decide, by decide⟩

/-- C27, amended: a successful `Run` has started exactly one routing, through
the device that was started, for these routes in this order: the pod, the
service and the node prefix of the cluster details, and the prefix
`PrefixFrom(AgentOverlayAddress, 32)` of the overlay address of the agent
(which is not the overlay prefix: its address is the agent's). -/
theorem C27_routes (env : RunEnv) (cfg : Config) (stopFuncs : List StopFunc)
    (h : (Run env cfg stopFuncs).err = none) :
    ∃ (deviceName : String) (d : wg.WireguardDeviceConfig),
      (Run env cfg stopFuncs).state.devices = [d] ∧
      env.deviceStart d = Except.ok deviceName ∧
      (Run env cfg stopFuncs).state.routers =
        [{ deviceName := deviceName
           routes :=
            [ cfg.KubernetesClusterDetails.PodCIDR, cfg.KubernetesClusterDetails.ServiceCIDR,
              cfg.KubernetesClusterDetails.NodeCIDR,
              PrefixFrom cfg.Wireguard.AgentOverlayAddress 32 ]
           dnsServer := cfg.KubernetesClusterDetails.ServiceIP }] ∧
      (PrefixFrom cfg.Wireguard.AgentOverlayAddress 32).Addr
        = cfg.Wireguard.AgentOverlayAddress.withoutZone := by
  obtain ⟨deviceName, hd, hdev, hr⟩ := run_ok_devices env cfg stopFuncs h
  exact ⟨deviceName, _, hdev, hd, hr, rfl⟩

/-- C27 (amended) at the config of the counterexample. -/
theorem C27_routes_witness :
    (Run testRunEnv directProxyConfig []).err = none ∧
    ∃ (deviceName : String) (d : wg.WireguardDeviceConfig),
      (Run testRunEnv directProxyConfig []).state.devices = [d] ∧
      testRunEnv.deviceStart d = Except.ok deviceName ∧
      (Run testRunEnv directProxyConfig []).state.routers =
        [{ deviceName := deviceName
           routes :=
            [ directProxyConfig.KubernetesClusterDetails.PodCIDR,
              directProxyConfig.KubernetesClusterDetails.ServiceCIDR,
              directProxyConfig.KubernetesClusterDetails.NodeCIDR,
              PrefixFrom directProxyConfig.Wireguard.AgentOverlayAddress 32 ]
           dnsServer := directProxyConfig.KubernetesClusterDetails.ServiceIP }] :=
  ⟨by decide,
    match C27_routes testRunEnv directProxyConfig [] (by decide) with
    | ⟨deviceName, d, h1, h2, h3, _⟩ => ⟨deviceName, d, h1, h2, h3⟩⟩

end proxy

/-! ## Theorems: the peer of the device -/

namespace wg

open netip

/-- No `allowed_ip` line has another key. -/
theorem lookup_allowed_ip (key : String) (hk : key ≠ "allowed_ip") (l : List Prefix) :
    (l.map (fun ip => ("allowed_ip", ip.String))).lookup key = none := by
  induction l with
  | nil => rfl
  | cons p rest ih =>
    rw [List.map_cons, List.lookup_cons]
    have : (key == "allowed_ip") = false := by
      rw [beq_eq_false_iff_ne]
      exact hk
    rw [this]
    exact ih

/-- The `allowed_ip` lines among the `allowed_ip` lines are all of them. -/
theorem filter_allowed_ip (l : List Prefix) :
    ((l.map (fun ip => ("allowed_ip", ip.String))).filter (fun kv => kv.1 == "allowed_ip")).map
      (fun kv => kv.2) = l.map (fun ip => ip.String) := by
  induction l with
  | nil => rfl
  | cons p rest ih =>
    rw [List.map_cons, List.filter_cons_of_pos (by rfl), List.map_cons, ih]
    rfl

/-- No `allowed_ip` line is a `public_key` line. -/
theorem filter_public_key (l : List Prefix) :
    (l.map (fun ip => ("allowed_ip", ip.String))).filter (fun kv => kv.1 == "public_key") = [] := by
  induction l with
  | nil => rfl
  | cons p rest ih =>
    rw [List.map_cons, List.filter_cons_of_neg (by simp), ih]

/-- C28, as far as it holds, and where it fails: the Linux implementation
configures, replacing the peers, one peer with the public key of the config,
the keepalive interval of 25 seconds, one `net.IPNet` for each allowed prefix
in order, and an endpoint exactly when the configured endpoint is valid. The
Darwin implementation writes one `public_key` line, one `allowed_ip` line for
each allowed prefix in order, and the `endpoint` line exactly when the
configured endpoint is valid; but it writes the
`persistent_keepalive_interval=25` line only in that case too: for a device
config whose peer endpoint is not valid, such as the one the proxy starts
when the local address is set, no line sets the keepalive interval. -/
theorem C28_keepalive (config : WireguardDeviceConfig) :
    (∃ peer : PeerConfig,
      peersConfigLinux config = { ReplacePeers := true, Peers := [peer] } ∧
      peer.PublicKey = config.Peer.PublicKey ∧
      peer.PersistentKeepaliveInterval = some 25 ∧
      peer.AllowedIPs = config.Peer.AllowedIPs.map (fun ip =>
        { IP := AsSlice ip.Addr, Mask := CIDRMask ip.Bits (ip.Addr.BitLen : Int) }) ∧
      (peer.Endpoint.isSome = config.Peer.Endpoint.IsValid)) ∧
    (replacePeerLines config).head? = some ("replace_peers", "true") ∧
    ((replacePeerLines config).filter (fun kv => kv.1 == "public_key")).map (fun kv => kv.2)
      = [hexEncodeToString config.Peer.PublicKey.bytes] ∧
    ((replacePeerLines config).filter (fun kv => kv.1 == "allowed_ip")).map (fun kv => kv.2)
      = config.Peer.AllowedIPs.map (fun ip => ip.String) ∧
    (replacePeerLines config).lookup "endpoint"
      = (if config.Peer.Endpoint.IsValid then some config.Peer.Endpoint.String else none) ∧
    (replacePeerLines config).lookup "persistent_keepalive_interval"
      = (if config.Peer.Endpoint.IsValid then some "25" else none) ∧
    (proxy.workstationDevice proxy.testRunEnv proxy.directProxyConfig
      AddrPort.zero).Peer.Endpoint.IsValid = false ∧
    (peersConfigLinux (proxy.workstationDevice proxy.testRunEnv proxy.directProxyConfig
      AddrPort.zero)).Peers.map (fun peer => peer.PersistentKeepaliveInterval) = [some 25] ∧
    (replacePeerLines (proxy.workstationDevice proxy.testRunEnv proxy.directProxyConfig
      AddrPort.zero)).lookup "persistent_keepalive_interval" = none ∧
    replacePeerLines (proxy.workstationDevice proxy.testRunEnv proxy.directProxyConfig
      AddrPort.zero)
      = [ ("replace_peers", "true"),
          ("public_key", "0202020202020202020202020202020202020202020202020202020202020202"),
          ("allowed_ip", "100.64.0.0/16"), ("allowed_ip", "172.0.0.0/16"),
          ("allowed_ip", "10.0.0.0/16"), ("allowed_ip", "10.1.0.0/28") ] := by
  refine ⟨⟨_, rfl, rfl, rfl, rfl, ?_⟩, ?_, ?_, ?_, ?_, ?_, by decide, by decide, by decide,
    by decide⟩
  · show (if config.Peer.Endpoint.IsValid = true then
      some (UDPAddrFromAddrPort config.Peer.Endpoint) else none).isSome = _
    by_cases hv : config.Peer.Endpoint.IsValid = true
    · rw [if_pos hv, hv]
      rfl
    · rw [if_neg hv]
      simp only [Bool.not_eq_true] at hv
      rw [hv]
      rfl
  · rfl
  · unfold replacePeerLines
    by_cases hv : config.Peer.Endpoint.IsValid = true
    · simp [hv, List.filter_cons, filter_public_key]
    · simp [hv, List.filter_cons, filter_public_key]
  · unfold replacePeerLines
    have := filter_allowed_ip config.Peer.AllowedIPs
    by_cases hv : config.Peer.Endpoint.IsValid = true
    · simp only [hv, if_true, List.cons_append, List.nil_append, List.filter_cons]
      simpa using this
    · simp only [hv, Bool.false_eq_true, if_false, List.cons_append, List.nil_append,
        List.append_nil, List.filter_cons]
      simpa using this
  · unfold replacePeerLines
    by_cases hv : config.Peer.Endpoint.IsValid = true
    · rw [if_pos hv, if_pos hv]
      rfl
    · rw [if_neg hv, if_neg hv]
      simp only [List.cons_append, List.nil_append, List.append_nil]
      rw [List.lookup_cons, List.lookup_cons]
      exact lookup_allowed_ip "endpoint" (by decide) _
  · unfold replacePeerLines
    by_cases hv : config.Peer.Endpoint.IsValid = true
    · rw [if_pos hv, if_pos hv]
      rfl
    · rw [if_neg hv, if_neg hv]
      simp only [List.cons_append, List.nil_append, List.append_nil]
      rw [List.lookup_cons, List.lookup_cons]
      exact lookup_allowed_ip "persistent_keepalive_interval" (by decide) _

end wg

/-! ## Theorems: the address poll of `waitForPod` -/

namespace cmd

/-- The first piece of a split is the text before the first separator. -/
theorem splitChars_head (sep : Char) (s : List Char) :
    (splitChars sep s).headD [] = s.takeWhile (fun c => c ≠ sep) := by
  induction s with
  | nil => rfl
  | cons c cs ih =>
    unfold splitChars
    by_cases hc : c = sep
    · rw [if_pos hc]
      simp [hc]
    · rw [if_neg hc]
      rw [List.takeWhile_cons_of_pos (by simpa using hc)]
      cases hs : splitChars sep cs with
      | nil =>
        rw [hs] at ih
        simp only [List.headD_nil] at ih
        simp only [List.headD_cons]
        rw [← ih]
      | cons piece pieces =>
        rw [hs] at ih
        simp only [List.headD_cons] at ih ⊢
        rw [ih]

end cmd

namespace agent

open netip

/-- The first line the address poll reads is the text before the first
newline. -/
theorem pollAddress_line (contents : String) :
    (cmd.Split contents '\n').headD "" = String.mk (contents.toList.takeWhile (fun c => c ≠ '\n')) := by
  unfold cmd.Split
  rw [← cmd.splitChars_head]
  cases cmd.splitChars '\n' contents.toList with
  | nil => rfl
  | cons a l => rfl

/-- C29 fails where the first line is empty: for contents that are empty or
begin with a newline, which `FileContents` returns without an error when the
file is empty, the condition function evaluates `err.Error()` on the `nil`
error and panics. For all other contents it does as C29 says: it accepts the
first line when `netip.ParseAddrPort` does, and else reports not-done; and it
reports not-done when the read fails. -/
theorem C29_poll_empty_line :
    pollAddress (Except.ok "") = PollOutcome.panic "nil pointer dereference" ∧
    pollAddress (Except.ok "\n1.2.3.4:9080") = PollOutcome.panic "nil pointer dereference" ∧
    (∀ contents : String, (contents = "" ∨ contents.toList.head? = some '\n') →
      pollAddress (Except.ok contents) = PollOutcome.panic "nil pointer dereference") ∧
    (∀ contents : String, contents ≠ "" → contents.toList.head? ≠ some '\n' →
      pollAddress (Except.ok contents) =
        match ParseAddrPort (String.mk (contents.toList.takeWhile (fun c => c ≠ '\n'))) with
        | none => PollOutcome.retry
        | some address => PollOutcome.done address) ∧
    (∀ cause : String, pollAddress (Except.error cause) = PollOutcome.retry) ∧
    pollAddress (Except.ok "1.2.3.4:9080\n")
      = PollOutcome.done (AddrPortFrom (MustParseAddr "1.2.3.4") 9080) ∧
    pollAddress (Except.ok "1.2.3.4") = PollOutcome.retry := by
  have key : ∀ contents : String,
      ((cmd.Split contents '\n').headD "" = "" ↔
        (contents = "" ∨ contents.toList.head? = some '\n')) := by
    intro contents
    rw [pollAddress_line]
    obtain ⟨l⟩ := contents
    cases l with
    | nil => simp
    | cons c cs =>
      by_cases hc : c = '\n'
      · subst hc
        simp
      · have h1 : (String.mk (c :: cs) = "") = False := by
          simp only [eq_iff_iff, iff_false]
          intro h
          have := congrArg String.data h
          simp at this
        simp only [String.toList, List.head?_cons, Option.some.injEq, hc, or_false, h1]
        rw [List.takeWhile_cons_of_pos (by simpa using hc)]
        simp only [iff_false]
        intro h
        have := congrArg String.data h
        simp at this
  refine ⟨by decide, by decide, ?_, ?_, fun _ => rfl, by decide, by decide⟩
  · intro contents h
    unfold pollAddress
    simp only []
    rw [if_pos ((key contents).mpr h)]
  · intro contents h1 h2
    unfold pollAddress
    simp only []
    rw [if_neg (fun h => by
      rcases (key contents).mp h with h | h
      · exact h1 h
      · exact h2 h)]
    rw [pollAddress_line]

end agent

/-! ## Theorems: the excluded ports, from the proxy to the agent -/

namespace cmd

/-- A split has at least one piece. -/
theorem splitChars_ne_nil (sep : Char) (s : List Char) : splitChars sep s ≠ [] := by
  cases s with
  | nil => simp [splitChars]
  | cons c cs =>
    unfold splitChars
    split
    · simp
    · split <;> simp

/-- A text without the separator is the one piece of its split. -/
theorem splitChars_single (sep : Char) (a : List Char) (h : sep ∉ a) :
    splitChars sep a = [a] := by
  induction a with
  | nil => rfl
  | cons c cs ih =>
    have hc : c ≠ sep := fun e => h (by rw [e]; exact List.mem_cons_self _ _)
    have ih2 := ih (fun hm => h (List.mem_cons_of_mem _ hm))
    unfold splitChars
    rw [if_neg hc, ih2]

/-- A text without the separator, followed by the separator, is the first piece
of the split. -/
theorem splitChars_append (sep : Char) (a rest : List Char) (h : sep ∉ a) :
    splitChars sep (a ++ sep :: rest) = a :: splitChars sep rest := by
  induction a with
  | nil =>
    show splitChars sep (sep :: rest) = _
    rw [splitChars, if_pos rfl]
  | cons c cs ih =>
    have hc : c ≠ sep := fun e => h (by rw [e]; exact List.mem_cons_self _ _)
    have ih2 := ih (fun hm => h (List.mem_cons_of_mem _ hm))
    show splitChars sep (c :: (cs ++ sep :: rest)) = _
    rw [splitChars, if_neg hc, ih2]

/-- The split of pieces joined by the separator is the pieces, when no piece
holds the separator. -/
theorem splitChars_join (sep : Char) (a : List Char) (l : List (List Char))
    (ha : sep ∉ a) (hl : ∀ x ∈ l, sep ∉ x) :
    splitChars sep (a ++ l.flatMap (fun x => sep :: x)) = a :: l := by
  induction l generalizing a with
  | nil =>
    rw [List.flatMap_nil, List.append_nil]
    exact splitChars_single sep a ha
  | cons x rest ih =>
    rw [List.flatMap_cons, List.cons_append, splitChars_append sep a _ ha,
      ih x (hl x (List.mem_cons_self _ _)) (fun y hy => hl y (List.mem_cons_of_mem _ hy))]

/-- The characters of the accumulating loop of `String.intercalate`. -/
theorem intercalate_go_toList (acc s : String) (l : List String) :
    (String.intercalate.go acc s l).toList
      = acc.toList ++ l.flatMap (fun a => s.toList ++ a.toList) := by
  induction l generalizing acc with
  | nil => simp [String.intercalate.go]
  | cons a rest ih =>
    rw [String.intercalate.go, ih]
    simp [String.toList, List.append_assoc]

/-- The digits of a number are decimal digits, and there is at least one. -/
theorem toDigitsCore_digits (fuel n : Nat) (ds : List Char)
    (hds : ∀ c ∈ ds, c ≠ ',' ∧ c ≠ '-') :
    (fuel ≠ 0 → Nat.toDigitsCore 10 fuel n ds ≠ []) ∧
    ∀ c ∈ Nat.toDigitsCore 10 fuel n ds, c ≠ ',' ∧ c ≠ '-' := by
  have hd : ∀ m : Nat, m < 10 → Nat.digitChar m ≠ ',' ∧ Nat.digitChar m ≠ '-' := by decide
  induction fuel generalizing n ds with
  | zero => exact ⟨fun h => absurd rfl h, by simpa [Nat.toDigitsCore] using hds⟩
  | succ fuel ih =>
    have hds2 : ∀ c ∈ Nat.digitChar (n % 10) :: ds, c ≠ ',' ∧ c ≠ '-' := by
      intro c hc
      rcases List.mem_cons.mp hc with rfl | hc
      · exact hd _ (Nat.mod_lt _ (by decide))
      · exact hds c hc
    unfold Nat.toDigitsCore
    simp only []
    by_cases h0 : n / 10 = 0
    · rw [if_pos h0]
      exact ⟨fun _ => by simp, hds2⟩
    · rw [if_neg h0]
      refine ⟨fun _ => ?_, (ih (n / 10) _ hds2).2⟩
      cases fuel with
      | zero => simp [Nat.toDigitsCore]
      | succ f => exact (ih (n / 10) _ hds2).1 (by simp)

end cmd

namespace agent

open corev1

/-- The decimal text of a number is not empty and holds no comma. -/
theorem formatInt_chars (n : Int) :
    (FormatInt n).toList ≠ [] ∧ ',' ∉ (FormatInt n).toList := by
  have hnat : ∀ m : Nat, Nat.toDigits 10 m ≠ [] ∧ ',' ∉ Nat.toDigits 10 m := by
    intro m
    obtain ⟨h1, h2⟩ := cmd.toDigitsCore_digits (m + 1) m [] (by simp)
    exact ⟨h1 (by simp), fun hm => (h2 _ hm).1 rfl⟩
  cases n with
  | ofNat m =>
    show (String.mk (Nat.toDigits 10 m)).toList ≠ [] ∧ ',' ∉ (String.mk (Nat.toDigits 10 m)).toList
    exact hnat m
  | negSucc m =>
    show (String.mk ('-' :: Nat.toDigits 10 (m + 1))).toList ≠ [] ∧
      ',' ∉ (String.mk ('-' :: Nat.toDigits 10 (m + 1))).toList
    refine ⟨by simp, ?_⟩
    intro hm
    rcases List.mem_cons.mp hm with h | h
    · exact absurd h (by decide)
    · exact (hnat (m + 1)).2 h

/-- The agent command reads back the list that was joined by commas, when no
text of the list is empty or holds a comma. -/
theorem split_intercalate (ports : List String)
    (h : ∀ p ∈ ports, p.toList ≠ [] ∧ ',' ∉ p.toList) :
    (if String.intercalate "," ports ≠ "" then cmd.Split (String.intercalate "," ports) ','
      else []) = ports := by
  cases ports with
  | nil => rfl
  | cons a rest =>
    have hchars : (String.intercalate "," (a :: rest)).toList
        = a.toList ++ (rest.map String.toList).flatMap (fun x => ',' :: x) := by
      show (String.intercalate.go a "," rest).toList = _
      rw [cmd.intercalate_go_toList, List.flatMap_map]
      rfl
    have hne : String.intercalate "," (a :: rest) ≠ "" := by
      intro he
      have := congrArg String.toList he
      rw [hchars] at this
      have h1 := (h a (List.mem_cons_self _ _)).1
      cases ha : a.toList with
      | nil => exact h1 ha
      | cons c cs =>
        rw [ha] at this
        simp at this
    rw [if_pos hne]
    unfold cmd.Split
    rw [hchars, cmd.splitChars_join ',' a.toList (rest.map String.toList)
      (h a (List.mem_cons_self _ _)).2
      (by
        intro x hx
        obtain ⟨p, hp, rfl⟩ := List.mem_map.mp hx
        exact (h p (List.mem_cons_of_mem _ hp)).2)]
    simp only [List.map_cons, List.map_map]
    congr 1
    rw [List.map_congr_left (g := id) (by intro p _; rfl), List.map_id]

/-- C30: for every pod spec and index `i` of its container list, the agent
container that `replaceContainerWithAgent` stores at `i` carries one variable
`LOCAL_PORTS_EXCLUDE_PROXY`, and what the agent command makes of its value,
splitting it on commas unless it is empty, is exactly the decimal container
ports of the containers other than the one at `i`, container by container and
port by port in declaration order; with `ISTIO_INTERCEPTION_MODE` unset that
list is the one passed to `agent.Run`. -/
theorem C30_ports_roundtrip (AgentImage configName : String) (podSpec : PodSpec) (i : Nat)
    (hi : i < podSpec.Containers.length) :
    ∃ (spec : PodSpec) (agentC : Container) (value : String),
      replaceContainerWithAgent AgentImage podSpec configName (i : Int) = some spec ∧
      spec.Containers[i]? = some agentC ∧
      agentC.Env.filter (fun e => e.Name == "LOCAL_PORTS_EXCLUDE_PROXY") =
        [{ Name := "LOCAL_PORTS_EXCLUDE_PROXY", Value := value, ValueFrom := none }] ∧
      (if value ≠ "" then cmd.Split value ',' else []) =
        (podSpec.Containers.eraseIdx i).flatMap
          (fun c => c.Ports.map (fun port => FormatInt port.ContainerPort)) ∧
      (cmd.agentArguments value "").2 =
        (podSpec.Containers.eraseIdx i).flatMap
          (fun c => c.Ports.map (fun port => FormatInt port.ContainerPort)) := by
  obtain ⟨spec, hspec, hagent⟩ :=
    replaceContainerWithAgent_agent AgentImage podSpec configName i hi
  have hports : ∀ p ∈ (podSpec.Containers.eraseIdx i).flatMap
      (fun c => c.Ports.map (fun port => FormatInt port.ContainerPort)),
      p.toList ≠ [] ∧ ',' ∉ p.toList := by
    intro p hp
    obtain ⟨c, -, hc⟩ := List.mem_flatMap.mp hp
    obtain ⟨port, -, rfl⟩ := List.mem_map.mp hc
    exact formatInt_chars _
  have hsplit := split_intercalate _ hports
  refine ⟨spec, _, _, hspec, hagent, rfl, hsplit, ?_⟩
  unfold cmd.agentArguments
  simp only [ne_eq, not_true_eq_false, decide_False, Bool.false_eq_true, if_false]
  exact hsplit

/-- C30 at the pod spec of the test "deployment with multiple containers": the
value `15001,12345` is read back as the two ports. -/
theorem C30_ports_roundtrip_witness :
    1 < multiContainerPodSpec.Containers.length ∧
    (cmd.agentArguments "15001,12345" "").2 = ["15001", "12345"] ∧
    ∃ (spec : PodSpec) (agentC : Container) (value : String),
      replaceContainerWithAgent "agent-image" multiContainerPodSpec "wg-test-object" 1 = some spec ∧
      spec.Containers[1]? = some agentC ∧
      (if value ≠ "" then cmd.Split value ',' else []) =
        (multiContainerPodSpec.Containers.eraseIdx 1).flatMap
          (fun c => c.Ports.map (fun port => FormatInt port.ContainerPort)) :=
  ⟨by decide, by decide,
    match C30_ports_roundtrip "agent-image" "wg-test-object" multiContainerPodSpec 1 (by decide) with
    | ⟨spec, agentC, value, h1, h2, _, h4, _⟩ => ⟨spec, agentC, value, h1, h2, h4⟩⟩

end agent

/-! ## Theorems: the round trip of the config -/

namespace base64

/-- The encoded text has four characters for each three bytes, rounded up. -/
theorem encodeToString_length (bs : List Nat) :
    (EncodeToString bs).length = 4 * ((bs.length + 2) / 3) := by
  induction bs using EncodeToString.induct with
  | case1 b0 b1 b2 rest ih =>
    rw [EncodeToString]
    simp only [List.length_cons, ih]
    omega
  | case2 b0 b1 => simp [EncodeToString]
  | case3 b0 => simp [EncodeToString]
  | case4 => rfl

/-- Each character of the alphabet decodes to its index, and is none of `=`,
`\n` and `\r`. -/
theorem decodeMap_encode (v : Nat) (h : v < 64) :
    decodeMap (encode v) = some v ∧ encode v ≠ '=' ∧ encode v ≠ '\n' ∧ encode v ≠ '\r' := by
  have key : ∀ v : Nat, v < 64 →
      decodeMap (encode v) = some v ∧ encode v ≠ '=' ∧ encode v ≠ '\n' ∧ encode v ≠ '\r' := by
    decide
  exact key v h

/-- The encoded text holds no newline characters. -/
theorem encodeToString_chars (bs : List Nat) :
    ∀ c ∈ EncodeToString bs, c ≠ '\n' ∧ c ≠ '\r' := by
  induction bs using EncodeToString.induct with
  | case1 b0 b1 b2 rest ih =>
    intro c hc
    rw [EncodeToString] at hc
    simp only [List.mem_cons] at hc
    rcases hc with h | h | h | h | h
    · rw [h]; exact (decodeMap_encode _ (Nat.mod_lt _ (by decide))).2.2
    · rw [h]; exact (decodeMap_encode _ (Nat.mod_lt _ (by decide))).2.2
    · rw [h]; exact (decodeMap_encode _ (Nat.mod_lt _ (by decide))).2.2
    · rw [h]; exact (decodeMap_encode _ (Nat.mod_lt _ (by decide))).2.2
    · exact ih c h
  | case2 b0 b1 =>
    intro c hc
    rw [EncodeToString] at hc
    simp only [List.mem_cons, List.mem_singleton, List.not_mem_nil, or_false] at hc
    rcases hc with h | h | h | h
    · rw [h]; exact (decodeMap_encode _ (Nat.mod_lt _ (by decide))).2.2
    · rw [h]; exact (decodeMap_encode _ (Nat.mod_lt _ (by decide))).2.2
    · rw [h]; exact (decodeMap_encode _ (Nat.mod_lt _ (by decide))).2.2
    · rw [h]; decide
  | case3 b0 =>
    intro c hc
    rw [EncodeToString] at hc
    simp only [List.mem_cons, List.mem_singleton, List.not_mem_nil, or_false] at hc
    rcases hc with h | h | h | h
    · rw [h]; exact (decodeMap_encode _ (Nat.mod_lt _ (by decide))).2.2
    · rw [h]; exact (decodeMap_encode _ (Nat.mod_lt _ (by decide))).2.2
    · rw [h]; decide
    · rw [h]; decide
  | case4 =>
    intro c hc
    simp [EncodeToString] at hc

/-- The quanta of an encoded text decode to the bytes encoded. -/
theorem decodeQuanta_encode (bs : List Nat) (h : ∀ b ∈ bs, b < 256) :
    decodeQuanta (EncodeToString bs) = some bs := by
  induction bs using EncodeToString.induct with
  | case1 b0 b1 b2 rest ih =>
    have h0 : b0 < 256 := h b0 (by simp)
    have h1 : b1 < 256 := h b1 (by simp)
    have h2 : b2 < 256 := h b2 (by simp)
    have ih2 := ih (fun b hb => h b (by simp [hb]))
    obtain ⟨e0, -, -, -⟩ := decodeMap_encode ((b0 * 2 ^ 16 + b1 * 2 ^ 8 + b2) / 2 ^ 18 % 64) (Nat.mod_lt _ (by decide))
    obtain ⟨e1, -, -, -⟩ := decodeMap_encode ((b0 * 2 ^ 16 + b1 * 2 ^ 8 + b2) / 2 ^ 12 % 64) (Nat.mod_lt _ (by decide))
    obtain ⟨e2, n2, -, -⟩ := decodeMap_encode ((b0 * 2 ^ 16 + b1 * 2 ^ 8 + b2) / 2 ^ 6 % 64) (Nat.mod_lt _ (by decide))
    obtain ⟨e3, n3, -, -⟩ := decodeMap_encode ((b0 * 2 ^ 16 + b1 * 2 ^ 8 + b2) % 64) (Nat.mod_lt _ (by decide))
    rw [EncodeToString, decodeQuanta]
    simp only [e0, e1, e2, e3, n2, n3, if_false, ih2]
    simp only [Option.some.injEq, List.cons.injEq, and_true]
    refine ⟨?_, ?_, ?_⟩ <;> omega
  | case2 b0 b1 =>
    have h0 : b0 < 256 := h b0 (by simp)
    have h1 : b1 < 256 := h b1 (by simp)
    obtain ⟨e0, -, -, -⟩ := decodeMap_encode ((b0 * 2 ^ 16 + b1 * 2 ^ 8) / 2 ^ 18 % 64) (Nat.mod_lt _ (by decide))
    obtain ⟨e1, -, -, -⟩ := decodeMap_encode ((b0 * 2 ^ 16 + b1 * 2 ^ 8) / 2 ^ 12 % 64) (Nat.mod_lt _ (by decide))
    obtain ⟨e2, n2, -, -⟩ := decodeMap_encode ((b0 * 2 ^ 16 + b1 * 2 ^ 8) / 2 ^ 6 % 64) (Nat.mod_lt _ (by decide))
    rw [EncodeToString, decodeQuanta]
    simp only [e0, e1, e2, n2, if_false, if_true]
    simp only [Option.some.injEq, List.cons.injEq, and_true]
    refine ⟨?_, ?_⟩ <;> omega
  | case3 b0 =>
    have h0 : b0 < 256 := h b0 (by simp)
    obtain ⟨e0, -, -, -⟩ := decodeMap_encode ((b0 * 2 ^ 16) / 2 ^ 18 % 64) (Nat.mod_lt _ (by decide))
    obtain ⟨e1, -, -, -⟩ := decodeMap_encode ((b0 * 2 ^ 16) / 2 ^ 12 % 64) (Nat.mod_lt _ (by decide))
    rw [EncodeToString, decodeQuanta]
    simp only [e0, e1, if_true, true_and]
    simp only [Option.some.injEq, List.cons.injEq, and_true]
    omega
  | case4 => rfl

/-- `DecodeString` of `EncodeToString` returns the bytes. -/
theorem decodeString_encodeToString (bs : List Nat) (h : ∀ b ∈ bs, b < 256) :
    DecodeString (EncodeToString bs) = some bs := by
  unfold DecodeString
  rw [List.filter_eq_self.mpr]
  · exact decodeQuanta_encode bs h
  · intro c hc
    have := encodeToString_chars bs c hc
    simpa using this

end base64

namespace netip

/-- The value of decimal digits read after `a`. -/
theorem foldl_digits (l : List Char) (a : Nat) :
    l.foldl (fun acc c => acc * 10 + (c.toNat - '0'.toNat)) a
      = a * 10 ^ l.length + l.foldl (fun acc c => acc * 10 + (c.toNat - '0'.toNat)) 0 := by
  induction l generalizing a with
  | nil => simp
  | cons c l ih =>
    rw [List.foldl_cons, List.foldl_cons, ih (a * 10 + (c.toNat - '0'.toNat)),
      ih (0 * 10 + (c.toNat - '0'.toNat)), List.length_cons]
    ring

/-- The digits `Nat.toDigits` writes are decimal digits, and their value is the
number written. -/
theorem toDigitsCore_value (fuel n : Nat) (ds : List Char) (hf : n < fuel)
    (hds : ∀ c ∈ ds, '0'.toNat ≤ c.toNat ∧ c.toNat ≤ '9'.toNat) :
    (∀ c ∈ Nat.toDigitsCore 10 fuel n ds, '0'.toNat ≤ c.toNat ∧ c.toNat ≤ '9'.toNat) ∧
    Nat.toDigitsCore 10 fuel n ds ≠ [] ∧
    (Nat.toDigitsCore 10 fuel n ds).foldl (fun acc c => acc * 10 + (c.toNat - '0'.toNat)) 0
      = n * 10 ^ ds.length + ds.foldl (fun acc c => acc * 10 + (c.toNat - '0'.toNat)) 0 := by
  have hd : ∀ m : Nat, m < 10 →
      ('0'.toNat ≤ (Nat.digitChar m).toNat ∧ (Nat.digitChar m).toNat ≤ '9'.toNat) ∧
      (Nat.digitChar m).toNat - '0'.toNat = m := by decide
  induction fuel generalizing n ds with
  | zero => omega
  | succ fuel ih =>
    have hm := hd (n % 10) (Nat.mod_lt _ (by decide))
    have hds2 : ∀ c ∈ Nat.digitChar (n % 10) :: ds, '0'.toNat ≤ c.toNat ∧ c.toNat ≤ '9'.toNat := by
      intro c hc
      rcases List.mem_cons.mp hc with rfl | hc
      · exact hm.1
      · exact hds c hc
    have hval : (Nat.digitChar (n % 10) :: ds).foldl
        (fun acc c => acc * 10 + (c.toNat - '0'.toNat)) 0
        = (n % 10) * 10 ^ ds.length
          + ds.foldl (fun acc c => acc * 10 + (c.toNat - '0'.toNat)) 0 := by
      rw [List.foldl_cons, foldl_digits, hm.2]
      simp
    unfold Nat.toDigitsCore
    simp only []
    by_cases h0 : n / 10 = 0
    · rw [if_pos h0]
      refine ⟨hds2, by simp, ?_⟩
      rw [hval]
      have : n % 10 = n := by omega
      rw [this]
    · rw [if_neg h0]
      obtain ⟨i1, i2, i3⟩ := ih (n / 10) (Nat.digitChar (n % 10) :: ds) (by omega) hds2
      refine ⟨i1, i2, ?_⟩
      rw [i3, hval, List.length_cons, pow_succ]
      have hn : n = 10 * (n / 10) + n % 10 := by omega
      generalize 10 ^ ds.length = p
      generalize n / 10 = q at hn ⊢
      generalize n % 10 = r at hn ⊢
      rw [hn]
      ring

/-- `ParseUint` reads back the decimal text of a number that fits. -/
theorem parseUint_itoa (n bitSize : Nat) (h : n < 2 ^ bitSize) :
    ParseUint (itoa n) bitSize = some n ∧ ':' ∉ itoa n ∧ itoa n ≠ [] := by
  obtain ⟨h1, h2, h3⟩ := toDigitsCore_value (n + 1) n [] (by omega) (by simp)
  simp only [List.length_nil, pow_zero, mul_one, List.foldl_nil, add_zero] at h3
  refine ⟨?_, ?_, h2⟩
  · unfold ParseUint itoa Nat.toDigits
    rw [if_neg h2, if_pos (by
      rw [List.all_eq_true]
      intro c hc
      simpa using h1 c hc)]
    simp only [h3]
    rw [if_neg (by omega)]
  · intro hm
    have := h1 _ hm
    revert this
    decide

/-- The scan of `ParseAddr` on text that begins with hexadecimal digits and
colons, a colon among them, takes the text for an IPv6 address. -/
theorem scan_v6_append (s t rest : List Char)
    (h : ∀ c ∈ t, c = ':' ∨ ∃ d, d < 16 ∧ c = digit d) (hc : ':' ∈ t) :
    parseAddrScan s (t ++ rest) = parseIPv6 s := by
  induction t with
  | nil => simp at hc
  | cons c t ih =>
    rcases h c (by simp) with rfl | ⟨d, hd, rfl⟩
    · simp [parseAddrScan]
    · rw [List.cons_append, scan_step_hex _ _ _ hd]
      refine ih (fun x hx => h x (List.mem_cons_of_mem _ hx)) ?_
      rcases List.mem_cons.mp hc with h1 | h1
      · exact absurd h1.symm (digit_ne_colon d hd)
      · exact h1

/-- The text before the first `%`. -/
theorem takeWhile_percent (t zone : List Char) (ht : ∀ c ∈ t, c ≠ '%') :
    (t ++ '%' :: zone).takeWhile (fun c => decide (c ≠ '%')) = t := by
  induction t with
  | nil => simp
  | cons c t ih =>
    rw [List.cons_append, List.takeWhile_cons_of_pos (by simpa using ht c (by simp)),
      ih (fun x hx => ht x (List.mem_cons_of_mem _ hx))]

/-- The zone changes nothing of what `finishIPv6` returns but the zone. -/
theorem finishIPv6_zone (st : V6State) (zone : String) (ip : Addr)
    (h : finishIPv6 st "" = some ip) :
    finishIPv6 st zone = some ⟨ip.addr, Zone.z6 zone⟩ := by
  unfold finishIPv6 at h ⊢
  have hw : ∀ l : List Nat, (AddrFrom16 l).WithZone zone = ⟨(AddrFrom16 l).addr, Zone.z6 zone⟩ := by
    intro l
    simp [AddrFrom16, Addr.WithZone, Addr.Is6]
  split
  · rename_i h1
    rw [if_pos h1] at h
    exact absurd h (by simp)
  · rename_i h1
    rw [if_neg h1] at h
    split
    · rename_i h2
      rw [if_pos h2] at h
      split
      · rename_i h3
        rw [h3] at h
        exact absurd h (by simp)
      · rename_i e h3
        rw [h3] at h
        simp only [withZone_empty, Option.some.injEq] at h
        rw [hw, ← h]
    · rename_i h2
      rw [if_neg h2] at h
      split
      · rename_i h3
        rw [if_pos h3] at h
        exact absurd h (by simp)
      · rename_i h3
        rw [if_neg h3] at h
        simp only [withZone_empty, Option.some.injEq] at h
        rw [hw, ← h]

/-- `parseIPv6` on text with a zone: the address of the text before the `%`,
with the zone. -/
theorem parseIPv6_zone (t zone : List Char) (ht : ∀ c ∈ t, c ≠ '%') (hz : zone ≠ [])
    (ip : Addr) (h : parseIPv6 t = some ip) :
    parseIPv6 (t ++ '%' :: zone) = some ⟨ip.addr, Zone.z6 (String.mk zone)⟩ := by
  rw [parseIPv6_no_zone t ht] at h
  unfold parseIPv6
  have hlen : t.length < (t ++ '%' :: zone).length := by simp
  have hdrop : List.drop (t.length + 1) (t ++ '%' :: zone) = zone := by
    rw [List.drop_append_eq_append_drop]
    simp
  have hzone : ¬ (String.mk zone = "") := by
    intro e
    exact hz (congrArg String.data e)
  simp only [takeWhile_percent t zone ht, hlen, decide_True, hdrop, hzone, and_false, if_false]
  simp only [] at h
  by_cases hlead : (decide (t.take 2 = [':', ':']) = true ∧
      (if decide (t.take 2 = [':', ':']) = true then t.drop 2 else t) = [])
  · rw [if_pos hlead] at h ⊢
    simp only [Option.some.injEq] at h
    rw [← h]
    simp [IPv6Unspecified, Addr.WithZone, Addr.Is6]
  · rw [if_neg hlead] at h ⊢
    cases hl : parseIPv6Loop 8 (if decide (t.take 2 = [':', ':']) = true then t.drop 2 else t) 0
        (if decide (t.take 2 = [':', ':']) = true then some 0 else none) [] with
    | none =>
      rw [hl] at h
      exact absurd h (by simp)
    | some st =>
      rw [hl] at h
      exact finishIPv6_zone st _ ip h

/-- The second loop of `Addr.appendTo6` reads the address only. -/
theorem appendTo6Loop_addr (addr : Nat) (z1 z2 : Zone) (zs ze n i : Nat) (ret : List Char) :
    appendTo6Loop ⟨addr, z1⟩ zs ze n i ret = appendTo6Loop ⟨addr, z2⟩ zs ze n i ret := by
  induction n generalizing i ret with
  | zero => rfl
  | succ n ih =>
    unfold appendTo6Loop
    simp only [ih]
    rfl

/-- The text of an IPv6 address is the text of the address without its zone,
followed by `%` and the zone when there is one; the text without the zone
holds no `%`, the scan of `ParseAddr` takes it for an IPv6 address, and it
parses to the address. -/
theorem string_v6 (addr : Nat) (zone : String) (hlt : addr < 2 ^ 128) :
    ∃ t : List Char,
      (Addr.mk addr (Zone.z6 zone)).String
        = String.mk (t ++ (if zone = "" then [] else '%' :: zone.toList)) ∧
      (∀ c ∈ t, c ≠ '%') ∧
      (∀ s rest : List Char, parseAddrScan s (t ++ rest) = parseIPv6 s) ∧
      parseIPv6 t = some ⟨addr, Zone.z6 ""⟩ := by
  have hwf0 : (Addr.mk addr (Zone.z6 "")).WF = true := by simpa [Addr.WF] using hlt
  have hp0 := parseAddr_string ⟨addr, Zone.z6 ""⟩ hwf0 rfl rfl
  have hzb : ∀ (r : List Char),
      (if (zone != "") = true then r ++ ['%'] ++ zone.toList else r)
        = r ++ (if zone = "" then [] else '%' :: zone.toList) := by
    intro r
    by_cases hz : zone = ""
    · simp [hz]
    · simp [hz]
  by_cases h46 : (Addr.mk addr (Zone.z6 zone)).Is4In6 = true
  · have h460 : (Addr.mk addr (Zone.z6 "")).Is4In6 = true := by
      simpa [Addr.Is4In6, Addr.Is6] using h46
    refine ⟨"::ffff:".toList ++ dotted (Addr.v4 ⟨addr, Zone.z4⟩ 0) (Addr.v4 ⟨addr, Zone.z4⟩ 1)
      (Addr.v4 ⟨addr, Zone.z4⟩ 2) (Addr.v4 ⟨addr, Zone.z4⟩ 3), ?_, ?_, ?_, ?_⟩
    · simp only [Addr.String, h46, if_true, Addr.appendTo4In6, Addr.Unmap, appendTo4_eq,
        List.nil_append]
      rw [hzb]
    · intro x hx
      rcases List.mem_append.mp hx with h | h
      · have : ∀ y ∈ "::ffff:".toList, y ≠ '%' := by decide
        exact this x h
      · rcases dotted_chars _ _ _ _ (v4_le _ _) (v4_le _ _) (v4_le _ _) (v4_le _ _) x h
          with rfl | ⟨k, hk, rfl⟩
        · decide
        · exact (digit_not_sep k hk).2.2
    · intro s rest
      show parseAddrScan s (':' :: _) = _
      simp [parseAddrScan]
    · have hstr : (Addr.mk addr (Zone.z6 "")).String
          = String.mk ("::ffff:".toList ++ dotted (Addr.v4 ⟨addr, Zone.z4⟩ 0)
              (Addr.v4 ⟨addr, Zone.z4⟩ 1) (Addr.v4 ⟨addr, Zone.z4⟩ 2) (Addr.v4 ⟨addr, Zone.z4⟩ 3)) := by
        simp only [Addr.String, h460, if_true, Addr.appendTo4In6, Addr.Unmap, appendTo4_eq,
          List.nil_append]
        rfl
      rw [hstr] at hp0
      unfold ParseAddr at hp0
      have : parseAddrScan ("::ffff:".toList ++ dotted (Addr.v4 ⟨addr, Zone.z4⟩ 0)
          (Addr.v4 ⟨addr, Zone.z4⟩ 1) (Addr.v4 ⟨addr, Zone.z4⟩ 2) (Addr.v4 ⟨addr, Zone.z4⟩ 3))
          (':' :: (":ffff:".toList ++ dotted (Addr.v4 ⟨addr, Zone.z4⟩ 0)
          (Addr.v4 ⟨addr, Zone.z4⟩ 1) (Addr.v4 ⟨addr, Zone.z4⟩ 2) (Addr.v4 ⟨addr, Zone.z4⟩ 3)))
          = some ⟨addr, Zone.z6 ""⟩ := hp0
      simpa [parseAddrScan] using this
  · have h460 : (Addr.mk addr (Zone.z6 "")).Is4In6 = false := by
      simpa [Addr.Is4In6, Addr.Is6] using h46
    have hgs := groups_lt ⟨addr, Zone.z6 ""⟩
    have hchars : (∀ c ∈ appendTo6Loop ⟨addr, Zone.z6 ""⟩ (zeroRun ⟨addr, Zone.z6 ""⟩).1
          (zeroRun ⟨addr, Zone.z6 ""⟩).2 8 0 [], c = ':' ∨ ∃ d, d < 16 ∧ c = digit d) ∧
        ':' ∈ appendTo6Loop ⟨addr, Zone.z6 ""⟩ (zeroRun ⟨addr, Zone.z6 ""⟩).1
          (zeroRun ⟨addr, Zone.z6 ""⟩).2 8 0 [] := by
      rcases zeroRun_spec ⟨addr, Zone.z6 ""⟩ with h | ⟨h1, h2, h3⟩
      · rw [h, appendTo6Loop_none]
        exact ⟨groupsText_chars _ hgs, by simp [Addr.groups, groupsText]⟩
      · rw [appendTo6Loop_run _ _ _ h1 h2]
        refine ⟨?_, by simp⟩
        intro c hc
        simp only [List.mem_append, List.mem_cons] at hc
        rcases hc with h | h | h | h
        · exact groupsText_chars _ (fun g hg => hgs g (List.mem_of_mem_take hg)) c h
        · exact Or.inl h
        · exact Or.inl h
        · exact groupsText_chars _ (fun g hg => hgs g (List.mem_of_mem_drop hg)) c h
    have hzr : zeroRun ⟨addr, Zone.z6 zone⟩ = zeroRun ⟨addr, Zone.z6 ""⟩ := rfl
    refine ⟨appendTo6Loop ⟨addr, Zone.z6 ""⟩ (zeroRun ⟨addr, Zone.z6 ""⟩).1
      (zeroRun ⟨addr, Zone.z6 ""⟩).2 8 0 [], ?_, hexcolon_no_percent _ hchars.1, ?_, ?_⟩
    · simp only [Addr.String, h46, Bool.false_eq_true, if_false, Addr.appendTo6, hzr]
      rw [hzb, appendTo6Loop_addr addr (Zone.z6 zone) (Zone.z6 "")]
    · intro s rest
      exact scan_v6_append s _ rest hchars.1 hchars.2
    · have hstr : (Addr.mk addr (Zone.z6 "")).String
          = String.mk (appendTo6Loop ⟨addr, Zone.z6 ""⟩ (zeroRun ⟨addr, Zone.z6 ""⟩).1
            (zeroRun ⟨addr, Zone.z6 ""⟩).2 8 0 []) := by
        simp [Addr.String, h460, Addr.appendTo6]
      rw [hstr] at hp0
      unfold ParseAddr at hp0
      have h2 := scan_v6_append (appendTo6Loop ⟨addr, Zone.z6 ""⟩ (zeroRun ⟨addr, Zone.z6 ""⟩).1
            (zeroRun ⟨addr, Zone.z6 ""⟩).2 8 0 []) _ [] hchars.1 hchars.2
      rw [List.append_nil] at h2
      rw [← h2]
      exact hp0

/-- A valid address is the parse of its text, with or without a zone. -/
theorem parseAddr_string_zone (ip : Addr) (hwf : ip.WF = true) (hv : ip.IsValid = true) :
    ParseAddr ip.String = some ip := by
  by_cases hz : ip.hasZone = false
  · exact parseAddr_string ip hwf hv hz
  · obtain ⟨addr, z⟩ := ip
    cases z with
    | z0 => simp [Addr.hasZone] at hz
    | z4 => simp [Addr.hasZone] at hz
    | z6 zone =>
      have hzone : zone ≠ "" := by simpa [Addr.hasZone] using hz
      have hlt : addr < 2 ^ 128 := by simpa [Addr.WF] using hwf
      obtain ⟨t, h1, h2, h3, h4⟩ := string_v6 addr zone hlt
      rw [if_neg hzone] at h1
      rw [h1]
      unfold ParseAddr
      show parseAddrScan (t ++ '%' :: zone.toList) (t ++ '%' :: zone.toList) = _
      rw [h3, parseIPv6_zone t zone.toList h2 (by
        intro e
        exact hzone (by
          have : zone = String.mk zone.toList := rfl
          rw [this, e])) _ h4]
      rfl

/-- The second loop of `Addr.appendTo6` appends to the text given. -/
theorem appendTo6Loop_ret (ip : Addr) (zs ze n i : Nat) (ret : List Char) :
    appendTo6Loop ip zs ze n i ret = ret ++ appendTo6Loop ip zs ze n i [] := by
  induction n generalizing i ret with
  | zero => simp [appendTo6Loop]
  | succ n ih =>
    unfold appendTo6Loop
    by_cases hi : i < 8
    · simp only [hi, if_true]
      by_cases hz : i = zs
      · simp only [hz, if_true]
        by_cases he : ze ≥ 8
        · simp [he]
        · simp only [he, if_false]
          rw [ih, ih (ze + 1) (appendHex _ _), appendHex_eq, appendHex_eq ([] ++ _)]
          simp
      · simp only [hz, if_false]
        rw [ih, ih (i + 1) (appendHex _ _), appendHex_eq, appendHex_eq (if i > 0 then _ else _)]
        by_cases h0 : i > 0 <;> simp [h0]
    · simp [hi]

/-- The text `MarshalText` and `AppendTo` write for a valid address is the text
of `String`, appended to the text given. -/
theorem appendTo_string (ip : Addr) (ret : List Char) :
    (match ip.z with
      | Zone.z0 => ret ++ ip.String.toList
      | Zone.z4 => ip.appendTo4 ret
      | Zone.z6 _ => if ip.Is4In6 then ip.appendTo4In6 ret else ip.appendTo6 ret)
      = ret ++ ip.String.toList := by
  obtain ⟨addr, z⟩ := ip
  cases z with
  | z0 => rfl
  | z4 =>
    show Addr.appendTo4 _ ret = ret ++ (Addr.appendTo4 _ [])
    rw [appendTo4_eq, appendTo4_eq]
    simp
  | z6 zone =>
    by_cases h46 : (Addr.mk addr (Zone.z6 zone)).Is4In6 = true
    · simp only [h46, if_true, Addr.String, Addr.appendTo4In6, appendTo4_eq]
      by_cases hz : zone = "" <;> simp [hz]
    · simp only [h46, Bool.false_eq_true, if_false, Addr.String, Addr.appendTo6]
      rw [appendTo6Loop_ret]
      by_cases hz : zone = "" <;> simp [hz]

/-- `Addr.UnmarshalText` returns what `ParseAddr` does on text that parses. -/
theorem addr_unmarshal_of_parse (text : String) (ip : Addr) (h : ParseAddr text = some ip) :
    Addr.UnmarshalText text = some ip := by
  unfold Addr.UnmarshalText
  by_cases hl : text.length = 0
  · have : text = "" := by
      obtain ⟨l⟩ := text
      cases l with
      | nil => rfl
      | cons c cs => simp [String.length] at hl
    rw [this, (by decide : ParseAddr "" = none)] at h
    exact absurd h (by simp)
  · rw [if_neg hl, h]

/-- An address that is the zero `Addr` or valid is what `UnmarshalText` makes of
its `MarshalText`. -/
theorem addr_text_roundtrip (ip : Addr)
    (h : ip = Addr.zero ∨ (ip.WF = true ∧ ip.IsValid = true)) :
    Addr.UnmarshalText ip.MarshalText = some ip := by
  rcases h with rfl | ⟨hwf, hv⟩
  · rfl
  · apply addr_unmarshal_of_parse
    have e : ip.MarshalText = ip.String := by
      obtain ⟨addr, z⟩ := ip
      cases z with
      | z0 => simp [Addr.IsValid] at hv
      | z4 => rfl
      | z6 zone => rfl
    rw [e]
    exact parseAddr_string_zone ip hwf hv

/-- `Prefix.UnmarshalText` returns what `ParsePrefix` does on text that
parses. -/
theorem prefix_unmarshal_of_parse (text : String) (p : Prefix) (h : ParsePrefix text = some p) :
    Prefix.UnmarshalText text = some p := by
  unfold Prefix.UnmarshalText
  by_cases hl : text.length = 0
  · have : text = "" := by
      obtain ⟨l⟩ := text
      cases l with
      | nil => rfl
      | cons c cs => simp [String.length] at hl
    rw [this, (by decide : ParsePrefix "" = none)] at h
    exact absurd h (by simp)
  · rw [if_neg hl, h]

theorem appendDecimal_itoa_all :
    (List.range 129).all (fun b => decide (appendDecimal [] b = itoa b)) = true := by decide

/-- A prefix that is the zero `Prefix` or valid is what `UnmarshalText` makes of
its `MarshalText`. -/
theorem prefix_text_roundtrip (p : Prefix)
    (h : p = Prefix.zero ∨ (p.WF = true ∧ p.IsValid = true)) :
    Prefix.UnmarshalText p.MarshalText = some p := by
  rcases h with rfl | ⟨hwf, hv⟩
  · rfl
  · apply prefix_unmarshal_of_parse
    have e : p.MarshalText = p.String := by
      obtain ⟨hipwf, hipv, hipz⟩ := wf_valid_ip p hwf hv
      have hb : p.Bits.toNat ≤ 128 := by
        obtain ⟨ip, bp⟩ := p
        simp only [Prefix.WF, Bool.and_eq_true, Bool.or_eq_true, beq_iff_eq,
          decide_eq_true_eq] at hwf
        simp only [Prefix.IsValid, decide_eq_true_eq] at hv
        have : ip.BitLen ≤ 128 := by unfold Addr.BitLen; split <;> omega
        simp only [Prefix.Bits]
        omega
      have hd : appendDecimal [] p.Bits.toNat = itoa p.Bits.toNat := by
        have := List.all_eq_true.mp appendDecimal_itoa_all p.Bits.toNat
          (List.mem_range.mpr (by omega))
        simpa using this
      have hne : p ≠ Prefix.zero := by
        intro e
        rw [e] at hv
        exact absurd hv (by decide)
      unfold Prefix.MarshalText Prefix.String
      rw [if_neg hne]
      simp only [hv, Bool.not_true, Bool.false_eq_true, if_false, hd]
      congr 2
      have := appendTo_string p.ip []
      obtain ⟨ip, bp⟩ := p
      obtain ⟨addr, z⟩ := ip
      cases z with
      | z0 => simp [Addr.IsValid] at hipv
      | z4 => simpa using this
      | z6 zone => simpa using this
    rw [e]
    exact parsePrefix_string p hwf hv

/-- The last `:` of text that ends with `:` and text without one. -/
theorem lastColon_append (A D : List Char) (h : ':' ∉ D) :
    lastColon (A ++ ':' :: D) = some A.length := by
  have hD : ':' ∉ D.reverse := by simpa using h
  have e : (A ++ ':' :: D).reverse = D.reverse ++ ':' :: A.reverse := by simp
  have hidx : ∀ (l r : List Char), ':' ∉ l → (l ++ ':' :: r).indexOf? ':' = some l.length := by
    intro l r hl
    induction l with
    | nil => simp [List.indexOf?, List.findIdx?_cons]
    | cons x xs ih =>
      have hx : x ≠ ':' := fun e => hl (by simp [e])
      have hxs : ':' ∉ xs := fun e => hl (by simp [e])
      have := ih hxs
      simp only [List.indexOf?] at this ⊢
      simp only [List.cons_append, List.findIdx?_cons, beq_iff_eq, hx, if_false, Nat.zero_add,
        List.findIdx?_succ, this, Option.map_some', List.length_cons]
  unfold lastColon
  rw [e, hidx _ _ hD]
  simp only [List.length_append, List.length_cons, List.length_reverse]
  congr 1
  omega

/-- `splitAddrPort` on an address without brackets, `:` and a port. -/
theorem splitAddrPort_plain (A D : List Char) (hA : A ≠ []) (hh : A.head? ≠ some '[')
    (hD : ':' ∉ D) (hne : D ≠ []) : splitAddrPort (A ++ ':' :: D) = some (A, D, false) := by
  unfold splitAddrPort
  rw [lastColon_append A D hD]
  have hdrop : List.drop (A.length + 1) (A ++ ':' :: D) = D := by
    rw [List.drop_append_eq_append_drop]
    simp
  have hl1 : ¬ (A.length = 0) := fun e => hA (List.length_eq_zero.mp e)
  have hl2 : ¬ (D.length = 0) := fun e => hne (List.length_eq_zero.mp e)
  simp only [List.take_left', hdrop, hl1, hl2, hh, if_false]

/-- `splitAddrPort` on an address in brackets, `:` and a port. -/
theorem splitAddrPort_brackets (T D : List Char) (hD : ':' ∉ D) (hne : D ≠ []) :
    splitAddrPort ('[' :: (T ++ [']']) ++ ':' :: D) = some (T, D, true) := by
  have hlast : ('[' :: (T ++ [']'])).getLast? = some ']' := by
    rw [← List.cons_append, List.getLast?_append]
    simp
  have hinner : (('[' :: (T ++ [']'])).drop 1).dropLast = T := by
    show (T ++ [']']).dropLast = T
    simp
  have hlen : ¬ (('[' :: (T ++ [']'])).length < 2) := by simp
  have hhead : ('[' :: (T ++ [']'])).head? = some '[' := rfl
  have hl1 : ¬ (('[' :: (T ++ [']'])).length = 0) := by simp
  generalize '[' :: (T ++ [']']) = B at hlast hinner hlen hhead hl1
  unfold splitAddrPort
  rw [lastColon_append B D hD]
  have hdrop : List.drop (B.length + 1) (B ++ ':' :: D) = D := by
    rw [List.drop_append_eq_append_drop]
    simp
  have hl2 : ¬ (D.length = 0) := fun e => hne (List.length_eq_zero.mp e)
  simp only [List.take_left', hdrop, hl1, hl2, if_false, hhead, if_true, hlen, hlast, hinner,
    ne_eq, not_true_eq_false, or_self]

/-- `AddrPort.UnmarshalText` returns what `ParseAddrPort` does on text that
parses. -/
theorem addrPort_unmarshal_of_parse (text : String) (p : AddrPort)
    (h : ParseAddrPort text = some p) : AddrPort.UnmarshalText text = some p := by
  unfold AddrPort.UnmarshalText
  by_cases hl : text.length = 0
  · have : text = "" := by
      obtain ⟨l⟩ := text
      cases l with
      | nil => rfl
      | cons c cs => simp [String.length] at hl
    rw [this, (by decide : ParseAddrPort "" = none)] at h
    exact absurd h (by simp)
  · rw [if_neg hl, h]

/-- A valid address with a port is the parse of its text. -/
theorem parseAddrPort_marshal (p : AddrPort) (hwf : p.ip.WF = true) (hv : p.ip.IsValid = true)
    (hp : p.port < 2 ^ 16) : ParseAddrPort p.MarshalText = some p := by
  obtain ⟨hpu, hpc, hpn⟩ := parseUint_itoa p.port 16 hp
  have hparse := parseAddr_string_zone p.ip hwf hv
  obtain ⟨ip, port⟩ := p
  obtain ⟨addr, z⟩ := ip
  cases z with
  | z0 => simp [Addr.IsValid] at hv
  | z4 =>
    have htext : (AddrPort.mk ⟨addr, Zone.z4⟩ port).MarshalText
        = String.mk ((Addr.mk addr Zone.z4).String.toList ++ ':' :: itoa port) := by
      have := appendTo_string ⟨addr, Zone.z4⟩ []
      simp only [List.nil_append] at this
      simp only [AddrPort.MarshalText, AddrPort.AppendTo, this]
      simp
    obtain ⟨k, t, hk, ek⟩ := appendDecimal_head (Addr.v4 ⟨addr, Zone.z4⟩ 0) (v4_le _ _)
    have hA : (Addr.mk addr Zone.z4).String.toList = digit k :: (t ++ '.' ::
        (appendDecimal [] (Addr.v4 ⟨addr, Zone.z4⟩ 1) ++ '.' ::
          (appendDecimal [] (Addr.v4 ⟨addr, Zone.z4⟩ 2) ++ '.' ::
            appendDecimal [] (Addr.v4 ⟨addr, Zone.z4⟩ 3)))) := by
      show Addr.appendTo4 _ [] = _
      rw [appendTo4_eq]
      unfold dotted
      rw [ek]
      rfl
    have hs : String.mk (Addr.mk addr Zone.z4).String.toList = (Addr.mk addr Zone.z4).String := rfl
    generalize (Addr.mk addr Zone.z4).String.toList = A at htext hA hs
    rw [htext]
    unfold ParseAddrPort
    show (match splitAddrPort (A ++ ':' :: itoa port) with
      | none => none
      | some (ip, port, v6) => _) = _
    rw [splitAddrPort_plain A _ (by rw [hA]; simp)
      (by
        rw [hA]
        simp only [List.head?_cons, ne_eq, Option.some.injEq]
        have hd : ∀ m : Nat, m < 10 → digit m ≠ '[' := by decide
        exact hd k hk) hpc hpn]
    simp only [hpu, hs, hparse]
    simp [Addr.Is4, Addr.Is6]
  | z6 zone =>
    have htext : (AddrPort.mk ⟨addr, Zone.z6 zone⟩ port).MarshalText
        = String.mk ('[' :: ((Addr.mk addr (Zone.z6 zone)).String.toList ++ [']'])
            ++ ':' :: itoa port) := by
      have := appendTo_string ⟨addr, Zone.z6 zone⟩ ['[']
      simp only [] at this
      simp only [AddrPort.MarshalText, AddrPort.AppendTo, List.nil_append, this]
      simp
    have hs : String.mk (Addr.mk addr (Zone.z6 zone)).String.toList
        = (Addr.mk addr (Zone.z6 zone)).String := rfl
    generalize (Addr.mk addr (Zone.z6 zone)).String.toList = A at htext hs
    rw [htext]
    unfold ParseAddrPort
    show (match splitAddrPort ('[' :: (A ++ [']']) ++ ':' :: itoa port) with
      | none => none
      | some (ip, port, v6) => _) = _
    rw [splitAddrPort_brackets A _ hpc hpn]
    simp only [hpu, hs, hparse]
    simp [Addr.Is4, Addr.Is6]

/-- An address with a port that is the zero `AddrPort` or valid is what
`UnmarshalText` makes of its `MarshalText`. -/
theorem addrPort_text_roundtrip (p : AddrPort)
    (h : p = AddrPort.zero ∨ (p.ip.WF = true ∧ p.ip.IsValid = true ∧ p.port < 2 ^ 16)) :
    AddrPort.UnmarshalText p.MarshalText = some p := by
  rcases h with rfl | ⟨hwf, hv, hp⟩
  · rfl
  · exact addrPort_unmarshal_of_parse _ _ (parseAddrPort_marshal p hwf hv hp)

end netip

namespace config

open netip

/-- A key of 32 bytes is what `UnmarshalText` makes of its `MarshalText`, the
base64 text of its bytes. -/
theorem key_text_roundtrip (k : config.Key) (h : k.Key.WF = true) :
    Key.UnmarshalText k.MarshalText = some k := by
  obtain ⟨⟨bytes⟩⟩ := k
  simp only [wgtypes.Key.WF, Bool.and_eq_true, beq_iff_eq, List.all_eq_true,
    decide_eq_true_eq] at h
  obtain ⟨hlen, hb⟩ := h
  unfold Key.UnmarshalText Key.MarshalText wgtypes.ParseKey wgtypes.Key.String
  show Option.map _ (match base64.DecodeString (base64.EncodeToString bytes) with
    | none => none
    | some b => wgtypes.NewKey b) = _
  rw [base64.decodeString_encodeToString bytes hb]
  simp only [wgtypes.NewKey, hlen, ne_eq, not_true_eq_false, if_false, Option.map_some']

/-- The sequence of the texts of prefixes that are each the zero `Prefix` or
valid decodes to the prefixes. -/
theorem unmarshalPrefixes_map (l : List Prefix)
    (h : ∀ p ∈ l, p = Prefix.zero ∨ (p.WF = true ∧ p.IsValid = true)) :
    unmarshalPrefixes (l.map (fun p => p.MarshalText)) = some l := by
  induction l with
  | nil => rfl
  | cons p rest ih =>
    rw [List.map_cons, unmarshalPrefixes, prefix_text_roundtrip p (h p (List.mem_cons_self _ _)),
      ih (fun q hq => h q (List.mem_cons_of_mem _ hq))]

/-- The conditions of `Wireguard.WF`, one by one. -/
theorem wireguard_wf_iff (w : Wireguard) :
    w.WF = true ↔
      (w.LocalKey.Key.WF = true ∧ w.AgentKey.Key.WF = true ∧
        (w.LocalAddress = AddrPort.zero ∨
          (w.LocalAddress.ip.WF = true ∧ w.LocalAddress.ip.IsValid = true ∧
            w.LocalAddress.port < 2 ^ 16)) ∧
        (w.OverlayPrefix = Prefix.zero ∨
          (w.OverlayPrefix.WF = true ∧ w.OverlayPrefix.IsValid = true)) ∧
        (w.LocalOverlayAddress = Addr.zero ∨
          (w.LocalOverlayAddress.WF = true ∧ w.LocalOverlayAddress.IsValid = true)) ∧
        (w.AgentOverlayAddress = Addr.zero ∨
          (w.AgentOverlayAddress.WF = true ∧ w.AgentOverlayAddress.IsValid = true)) ∧
        ∀ p ∈ w.AllowedIPs, p = Prefix.zero ∨ (p.WF = true ∧ p.IsValid = true)) := by
  unfold Wireguard.WF
  simp only [Bool.and_eq_true, Bool.or_eq_true, beq_iff_eq, decide_eq_true_eq, List.all_eq_true]
  tauto

/-- The document of a config decodes to the config, when its values are of the
Go types and each address and prefix is the zero value or valid. -/
theorem wireguard_roundtrip (w : Wireguard) (h : w.WF = true) :
    Wireguard.Unmarshal w.Marshal = some w := by
  obtain ⟨h1, h2, h3, h4, h5, h6, h7⟩ := (wireguard_wf_iff w).mp h
  have hb : yaml.decodeBool (if w.DirectAccess = true then "true" else "false")
      = some w.DirectAccess := by
    cases w.DirectAccess <;> decide
  unfold Wireguard.Unmarshal Wireguard.Marshal
  simp only [Wireguard.unmarshalFields, Wireguard.unmarshalField, if_true, if_false, hb,
    key_text_roundtrip _ h1, key_text_roundtrip _ h2, addrPort_text_roundtrip _ h3,
    prefix_text_roundtrip _ h4, addr_text_roundtrip _ h5, addr_text_roundtrip _ h6,
    unmarshalPrefixes_map _ h7, Option.map_some', String.reduceEq]

end config

namespace proxy

open netip config

/-- A successful `ResolveWireguardConfig` stores the two keys drawn. -/
theorem resolve_ok_keys (env : Env) (cfg cfg1 : Config) (overlayPrefix : String)
    (directAccess : Bool)
    (h : ResolveWireguardConfig env cfg overlayPrefix directAccess = (cfg1, none)) :
    ∃ k1 k2 : wgtypes.Key,
      env.localKeypair = Except.ok k1 ∧ env.agentKeypair = Except.ok k2 ∧
      cfg1.Wireguard.LocalKey = ⟨k1⟩ ∧ cfg1.Wireguard.AgentKey = ⟨k2⟩ := by
  unfold ResolveWireguardConfig at h
  cases hcd : env.getClusterDetails cfg.KubernetesClusterDetails cfg.Namespace with
  | error c => simp [hcd] at h
  | ok cd =>
    simp only [hcd] at h
    split at h
    · simp at h
    · rename_i ovr overlay hov
      have key : ∀ extra : List WireguardOption,
          ({ cfg with KubernetesClusterDetails := cd, Wireguard := (NewWireguardConfig
            ([WithGeneratedKeypairs env.localKeypair env.agentKeypair,
              WithOverlay overlay.String overlay.Addr.Next.String overlay.Addr.Next.Next.String,
              WithAllowedIPs [cd.PodCIDR.String, cd.ServiceCIDR.String, cd.NodeCIDR.String,
                overlay.String]] ++ extra)).1 },
            (NewWireguardConfig
            ([WithGeneratedKeypairs env.localKeypair env.agentKeypair,
              WithOverlay overlay.String overlay.Addr.Next.String overlay.Addr.Next.Next.String,
              WithAllowedIPs [cd.PodCIDR.String, cd.ServiceCIDR.String, cd.NodeCIDR.String,
                overlay.String]] ++ extra)).2) = (cfg1, none) →
          ∃ (k1 k2 : wgtypes.Key) (w : Wireguard),
            env.localKeypair = Except.ok k1 ∧ env.agentKeypair = Except.ok k2 ∧
            w.LocalKey = ⟨k1⟩ ∧ w.AgentKey = ⟨k2⟩ ∧
            applyOptions extra w = (cfg1.Wireguard, none) := by
        intro extra hres
        rw [Prod.mk.injEq] at hres
        obtain ⟨hc, he⟩ := hres
        obtain ⟨k1, k2, o, la, aa, p1, p2, p3, p4, e1, e2, ho, hl, ha, h1, h2, h3, h4, hx⟩ :=
          baseOptions_inv _ _ _ _ _ _ _ _ extra _ _ (Prod.mk.eta (p := NewWireguardConfig _)).symm he
        subst hc
        exact ⟨k1, k2, _, e1, e2, rfl, rfl, hx⟩
      by_cases hda : directAccess = true
      · simp only [hda, if_true] at h
        cases hf : env.findLocalAddressAndPort with
        | error c => simp [hf] at h
        | ok lp =>
          obtain ⟨localIP, localPort⟩ := lp
          simp only [hf] at h
          cases hpa : ParseAddr localIP with
          | none => simp [hpa] at h
          | some localAddr =>
            simp only [hpa] at h
            obtain ⟨k1, k2, w, e1, e2, e3, e4, hw⟩ := key _ h
            simp only [applyOptions, WithLocalAddress, WithDirectAccess, Prod.mk.injEq,
              and_true] at hw
            exact ⟨k1, k2, e1, e2, by rw [← hw]; exact e3, by rw [← hw]; exact e4⟩
      · rw [if_neg hda] at h
        by_cases hla : cfg.Wireguard.LocalAddress.IsValid = true
        · rw [if_pos hla] at h
          obtain ⟨k1, k2, w, e1, e2, e3, e4, hw⟩ :=
            key [WithLocalAddress cfg.Wireguard.LocalAddress] (by simpa using h)
          simp only [applyOptions, WithLocalAddress, Prod.mk.injEq, and_true] at hw
          exact ⟨k1, k2, e1, e2, by rw [← hw]; exact e3, by rw [← hw]; exact e4⟩
        · rw [if_neg hla] at h
          obtain ⟨k1, k2, w, e1, e2, e3, e4, hw⟩ := key [] (by simpa using h)
          simp only [applyOptions, Prod.mk.injEq, and_true] at hw
          exact ⟨k1, k2, e1, e2, by rw [← hw]; exact e3, by rw [← hw]; exact e4⟩

/-- The config a successful `ResolveWireguardConfig` leaves satisfies
`Wireguard.WF`, when the keys drawn have 32 bytes and the local address of the
config given is a value of its Go type. -/
theorem resolve_ok_wf (env : Env) (cfg cfg1 : Config) (overlayPrefix : String)
    (directAccess : Bool)
    (h : ResolveWireguardConfig env cfg overlayPrefix directAccess = (cfg1, none))
    (hk1 : ∀ k, env.localKeypair = Except.ok k → k.WF = true)
    (hk2 : ∀ k, env.agentKeypair = Except.ok k → k.WF = true)
    (hla : cfg.Wireguard.LocalAddress.ip.WF = true ∧ cfg.Wireguard.LocalAddress.port < 2 ^ 16) :
    cfg1.Wireguard.WF = true := by
  obtain ⟨k1, k2, e1, e2, e3, e4⟩ := resolve_ok_keys env cfg cfg1 overlayPrefix directAccess h
  obtain ⟨-, hwf, hv, -⟩ := resolve_ok_overlay env cfg cfg1 overlayPrefix directAccess h
  obtain ⟨overlay, -, -, -, hl, ha, p1, p2, p3, p4, hp1, hp2, hp3, hp4, hall⟩ :=
    resolve_ok_inv env cfg cfg1 overlayPrefix directAccess h
  obtain ⟨hd1, hd2⟩ := resolve_ok_local env cfg cfg1 overlayPrefix directAccess h
  rw [wireguard_wf_iff]
  refine ⟨by rw [e3]; exact hk1 k1 e1, by rw [e4]; exact hk2 k2 e2, ?_, Or.inr ⟨hwf, hv⟩,
    Or.inr (parseAddr_wf _ _ hl), Or.inr (parseAddr_wf _ _ ha), ?_⟩
  · cases hda : directAccess with
    | true =>
      obtain ⟨localIP, localPort, localAddr, -, hp, hl2, -⟩ := hd1 hda
      right
      rw [hl2]
      obtain ⟨w1, w2⟩ := parseAddr_wf _ _ hp
      exact ⟨w1, w2, Nat.mod_lt _ (by decide)⟩
    | false =>
      obtain ⟨-, hl2⟩ := hd2 hda
      rw [hl2]
      by_cases hv2 : cfg.Wireguard.LocalAddress.IsValid = true
      · rw [if_pos hv2]
        exact Or.inr ⟨hla.1, hv2, hla.2⟩
      · rw [if_neg hv2]
        exact Or.inl rfl
  · intro p hp
    rw [hall] at hp
    simp only [List.mem_cons, List.mem_singleton, List.not_mem_nil, or_false] at hp
    rcases hp with rfl | rfl | rfl | rfl
    · exact Or.inr (parsePrefix_wf _ _ hp1)
    · exact Or.inr (parsePrefix_wf _ _ hp2)
    · exact Or.inr (parsePrefix_wf _ _ hp3)
    · exact Or.inr (parsePrefix_wf _ _ hp4)

open netip config

/-- C24: the document that `yaml.Marshal` writes for a `Wireguard` config
decodes, as the `agent` command decodes it, to a config equal to the
original, for every config whose values are of the Go types and whose
addresses and prefixes are each the zero value or valid (`Wireguard.WF`);
every config that a successful `ResolveWireguardConfig` leaves is one, so
what `applyConfig` stores in the secret is read back unchanged. In
particular `Key.UnmarshalText` of `Key.MarshalText` of a key of 32 bytes is the
key, the text being the standard base64 encoding of the bytes, of 44
characters. -/
theorem C24_config_roundtrip :
    (∀ k : config.Key, k.Key.WF = true →
      Key.UnmarshalText k.MarshalText = some k ∧
      k.MarshalText = String.mk (base64.EncodeToString k.Key.bytes) ∧
      k.MarshalText.length = 44) ∧
    (∀ w : Wireguard, w.WF = true → Wireguard.Unmarshal w.Marshal = some w) ∧
    (∀ (env : Env) (cfg cfg1 : Config) (overlayPrefix : String) (directAccess : Bool),
      ResolveWireguardConfig env cfg overlayPrefix directAccess = (cfg1, none) →
      (∀ k, env.localKeypair = Except.ok k → k.WF = true) →
      (∀ k, env.agentKeypair = Except.ok k → k.WF = true) →
      (cfg.Wireguard.LocalAddress.ip.WF = true ∧ cfg.Wireguard.LocalAddress.port < 2 ^ 16) →
      cfg1.Wireguard.WF = true ∧
      Wireguard.Unmarshal cfg1.Wireguard.Marshal = some cfg1.Wireguard) := by
  refine ⟨?_, wireguard_roundtrip, ?_⟩
  · intro k hk
    refine ⟨key_text_roundtrip k hk, rfl, ?_⟩
    show (String.mk (base64.EncodeToString k.Key.bytes)).length = 44
    simp only [wgtypes.Key.WF, Bool.and_eq_true, beq_iff_eq] at hk
    rw [String.length, base64.encodeToString_length, hk.1]
    rfl
  · intro env cfg cfg1 overlayPrefix directAccess h hk1 hk2 hla
    have hwf := resolve_ok_wf env cfg cfg1 overlayPrefix directAccess h hk1 hk2 hla
    exact ⟨hwf, wireguard_roundtrip _ hwf⟩

/-- The config of the test environment satisfies `Wireguard.WF`. -/
theorem directProxyConfig_wf : directProxyConfig.Wireguard.WF = true :=
  (wireguard_wf_iff directProxyConfig.Wireguard).mpr ⟨by decide, by decide,
    Or.inr ⟨by decide, by decide, by decide⟩,
    Or.inr ⟨by decide, by decide⟩, Or.inr ⟨by decide, by decide⟩,
    Or.inr ⟨by decide, by decide⟩, by decide⟩

/-- C24 at the config of the test environment: the key of 32 bytes `1` is
written `AQEB...AQE=`, and the document of the config decodes to the config. -/
theorem C24_config_roundtrip_witness :
    (config.Key.mk ⟨List.replicate 32 1⟩).Key.WF = true ∧
    (config.Key.mk ⟨List.replicate 32 1⟩).MarshalText
      = "AQEBAQEBAQEBAQEBAQEBAQEBAQEBAQEBAQEBAQEBAQE=" ∧
    Key.UnmarshalText "AQEBAQEBAQEBAQEBAQEBAQEBAQEBAQEBAQEBAQEBAQE="
      = some (config.Key.mk ⟨List.replicate 32 1⟩) ∧
    directProxyConfig.Wireguard.WF = true ∧
    (directProxyConfig.Wireguard.Marshal.map (fun kv => kv.1)) =
      ["directaccess", "localkey", "agentkey", "localaddress", "overlayprefix",
        "localoverlayaddress", "agentoverlayaddress", "allowedips"] ∧
    directProxyConfig.Wireguard.Marshal.lookup "localaddress"
      = some (yaml.Node.scalar "1.2.3.4:9080") ∧
    directProxyConfig.Wireguard.Marshal.lookup "allowedips"
      = some (yaml.Node.sequence ["100.64.0.0/16", "172.0.0.0/16", "10.0.0.0/16", "10.1.0.0/28"]) ∧
    Wireguard.Unmarshal directProxyConfig.Wireguard.Marshal = some directProxyConfig.Wireguard := by
  have hkey := (C24_config_roundtrip.1 (config.Key.mk ⟨List.replicate 32 1⟩) (by decide)).1
  have e : (config.Key.mk ⟨List.replicate 32 1⟩).MarshalText
      = "AQEBAQEBAQEBAQEBAQEBAQEBAQEBAQEBAQEBAQEBAQE=" := by decide
  rw [e] at hkey
  exact ⟨by decide, e, hkey, directProxyConfig_wf, by decide, by decide, by decide,
    C24_config_roundtrip.2.1 directProxyConfig.Wireguard directProxyConfig_wf⟩

end proxy

namespace proxy

open netip config

/-- The config without a local address satisfies `Wireguard.WF`. -/
theorem noAddressConfig_wf : noAddressConfig.WF = true :=
  (wireguard_wf_iff noAddressConfig).mpr ⟨by decide, by decide,
    Or.inl rfl,
    Or.inr ⟨by decide, by decide⟩, Or.inr ⟨by decide, by decide⟩,
    Or.inr ⟨by decide, by decide⟩, by decide⟩

/-- Outside `Wireguard.WF` the document need not decode to the config: for a
local address that is the zero address with the port 5, which no flag and no
option of `ResolveWireguardConfig` sets, `MarshalText` gives the empty text,
as of the zero value, and the document decodes to the config without a local
address. -/
theorem portOnlyConfig_unmarshal :
    portOnlyConfig.LocalKey.Key.WF = true ∧ portOnlyConfig.AgentKey.Key.WF = true ∧
    portOnlyConfig.LocalAddress = AddrPortFrom Addr.zero 5 ∧
    portOnlyConfig.LocalAddress.MarshalText = "" ∧
    AddrPort.UnmarshalText "" = some AddrPort.zero ∧
    Wireguard.Unmarshal portOnlyConfig.Marshal = some noAddressConfig ∧
    noAddressConfig.LocalAddress.port = 0 ∧ portOnlyConfig.LocalAddress.port = 5 ∧
    Wireguard.Unmarshal portOnlyConfig.Marshal ≠ some portOnlyConfig := by
  have hm : portOnlyConfig.Marshal = noAddressConfig.Marshal := rfl
  have hu : Wireguard.Unmarshal portOnlyConfig.Marshal = some noAddressConfig := by
    rw [hm]
    exact wireguard_roundtrip noAddressConfig noAddressConfig_wf
  refine ⟨by decide, by decide, by decide, by decide, by decide, hu, rfl, rfl, ?_⟩
  rw [hu]
  intro h
  have hp : noAddressConfig.LocalAddress.port = portOnlyConfig.LocalAddress.port := by
    rw [Option.some.inj h]
  exact absurd hp (by decide)

end proxy

end Kubewire
